import Mathlib

set_option linter.unusedVariables false

/-!
# Cluster copier

A shallow embedding of `src/cluster_copier.cc` (namespace `grpc_labview`): the pair of
procedures `CopyToCluster` / `CopyFromCluster`, their typed writers and readers, and the
data they work on.

Memory is a flat, byte-addressed space of a 64-bit little-endian host: a cluster pointer
is an address, `cluster + clusterOffset` is address arithmetic, pointers and handles are
8-byte words and the null pointer is address `0`.  Code that the C++ standard leaves
undefined (a downcast to the wrong node class, a null table dereference, a negative
length passed to `memcpy`), a failed `assert` and a thrown exception all end the call
with a `Fault`.  What the enum writer and the enum reader have changed by the time they
throw is kept by `CopyEnumToCluster.run` and `CopyEnumFromCluster.run`.
-/

namespace grpc_labview

/-! ## Faults -/

/-- The ways a marshaling call can end without a result. -/
inductive Fault where
  /-- an `assert` of the source does not hold -/
  | assertion
  /-- `std::runtime_error("Invalid enum value!")` of the enum tables -/
  | invalidEnumValue
  /-- a node is downcast to a class it does not have -/
  | badCast
  /-- a null descriptor table, enum table or owner is dereferenced -/
  | nullMetadata
  /-- an array count that is negative reaches `memcpy` or a string constructor -/
  | badCount
  /-- a well-known type adapter failed -/
  | adapter
  /-- an integer division by zero -/
  | divisionByZero
  /-- the recursion budget of the model is used up -/
  | outOfFuel
deriving DecidableEq, Repr

/-! ## Bytes, words and the flat memory -/

/-- One byte of native memory. -/
abbrev Byte := Fin 256

/-- The `w` low bytes of `v`, least significant first. -/
def toLE : Nat → Nat → List Byte
  | 0, _ => []
  | w + 1, v => Fin.ofNat (v % 256) :: toLE w (v / 256)

/-- The number a little-endian byte sequence stands for. -/
def ofLE : List Byte → Nat
  | [] => 0
  | b :: bs => b.val + 256 * ofLE bs

/-- Two's complement bit pattern of `v` in `w` bytes. -/
def ofInt (w : Nat) (v : Int) : Nat := (v % ((256 : Int) ^ w)).toNat

/-- The signed reading of a `w`-byte bit pattern. -/
def toSigned (w : Nat) (n : Nat) : Int :=
  if 2 * (n % 256 ^ w) < 256 ^ w then ((n % 256 ^ w : Nat) : Int)
  else ((n % 256 ^ w : Nat) : Int) - ((256 ^ w : Nat) : Int)

/-- Native memory: its bytes, and `brk`, the first address the native memory manager has
not handed out yet. -/
structure Memory where
  bytes : Nat → Byte
  brk : Nat

/-- The bytes after `memcpy (addr, bs, bs.length)`. -/
def storeBytes (f : Nat → Byte) (addr : Nat) (bs : List Byte) : Nat → Byte :=
  fun a => if addr ≤ a then (bs[a - addr]?).getD (f a) else f a

/-- The `n` bytes starting at `addr`. -/
def loadBytes (f : Nat → Byte) : Nat → Nat → List Byte
  | _, 0 => []
  | addr, n + 1 => f addr :: loadBytes f (addr + 1) n

/-- Copy of `bs` to address `addr`. -/
def Memory.store (m : Memory) (addr : Nat) (bs : List Byte) : Memory :=
  { m with bytes := storeBytes m.bytes addr bs }

/-- The `n` bytes at `addr`. -/
def Memory.load (m : Memory) (addr n : Nat) : List Byte := loadBytes m.bytes addr n

/-- Store of a `w`-byte unsigned word. -/
def Memory.writeU (m : Memory) (addr w v : Nat) : Memory := m.store addr (toLE w v)

/-- Load of a `w`-byte unsigned word. -/
def Memory.readU (m : Memory) (addr w : Nat) : Nat := ofLE (m.load addr w)

/-- Store of a `w`-byte signed word: `*(T*)addr = v`. -/
def Memory.writeInt (m : Memory) (addr w : Nat) (v : Int) : Memory := m.writeU addr w (ofInt w v)

/-- Load of an `int` / `int32_t`: `*(int*)addr`. -/
def Memory.readInt32 (m : Memory) (addr : Nat) : Int := toSigned 4 (m.readU addr 4)

/-- Load of a pointer. -/
def Memory.readPtr (m : Memory) (addr : Nat) : Nat := m.readU addr 8

/-- Store of a pointer. -/
def Memory.writePtr (m : Memory) (addr p : Nat) : Memory := m.writeU addr 8 p

/-- Memory of zero bytes whose manager starts handing out addresses at `brk`. -/
def Memory.zero (brk : Nat) : Memory := { bytes := fun _ => 0, brk := brk }

/-! ## Metadata -/

/-- The seventeen field kinds the two `switch` statements dispatch on. -/
inductive LVMessageMetadataType where
  | Int32Value | FloatValue | DoubleValue | BoolValue | StringValue | MessageValue
  | Int64Value | UInt32Value | UInt64Value | EnumValue | BytesValue
  | Fixed64Value | Fixed32Value | SFixed64Value | SFixed32Value | SInt64Value | SInt32Value
deriving DecidableEq, Repr

namespace wellknown

/-- The well-known type classification of an embedded message. -/
inductive Types where
  | None | Double2DArray | String2DArray
deriving DecidableEq, Repr

end wellknown

/-- Modelled from the spec: the field descriptor (`MessageElementMetadata`, declared in a
header that is not part of the sources).  `_owner` says whether the descriptor has an
owning registry; the registry itself is the `owner` of the `Env` the copier runs in. -/
structure MessageElementMetadata where
  type : LVMessageMetadataType
  isRepeated : Bool
  protobufIndex : Int
  clusterOffset : Nat
  embeddedMessageName : String := ""
  wellKnownType : wellknown.Types := wellknown.Types.None
  isInOneof : Bool := false
  oneofContainerName : String := ""
  _owner : Bool := true
deriving DecidableEq, Repr

/-- Modelled from the spec: the descriptor table of one message type
(`MessageMetadata`): the descriptors in declaration order (`_elements`), the same
descriptors keyed by wire tag (`_mappedElements`, a `std::map`, listed in key order),
and the size and alignment of the cluster. -/
structure MessageMetadata where
  _elements : List MessageElementMetadata
  _mappedElements : List (Int × MessageElementMetadata)
  clusterSize : Nat
  alignmentRequirement : Nat
deriving DecidableEq, Repr

/-- Modelled from the spec: the enum mapping table (`EnumMetadata`), a list of
(wire value, native value) pairs. -/
structure EnumMetadata where
  pairs : List (Int × Int)
deriving DecidableEq, Repr

/-- Modelled from the spec: wire to native translation; a wire value that is absent
from the table is a failure, never a default. -/
def EnumMetadata.GetLVEnumValueFromProtoValue (e : EnumMetadata) (protoValue : Int) :
    Except Fault Int :=
  match e.pairs.find? (fun p => p.1 == protoValue) with
  | some p => .ok p.2
  | none => .error .invalidEnumValue

/-- Modelled from the spec: native to wire translation; a native value that is absent
from the table is a failure, never a default. -/
def EnumMetadata.GetProtoValueFromLVEnumValue (e : EnumMetadata) (enumValue : Int) :
    Except Fault Int :=
  match e.pairs.find? (fun p => p.2 == enumValue) with
  | some p => .ok p.1
  | none => .error .invalidEnumValue

/-- Modelled from the spec: the registry that resolves embedded type names
(`IMessageElementMetadataOwner`); a name it does not know gives a null table. -/
structure IMessageElementMetadataOwner where
  FindMetadata : String → Option MessageMetadata
  FindEnumMetadata : String → Option EnumMetadata

/-! ## The value tree -/

/-- The classes of the nodes that hold fixed-width payloads.  `int32` is
`LVVariableMessageValue<int>` (repeated: `LVRepeatedMessageValue<int>`), likewise
`uint32`, `int64`, `uint64`, `bool`, `double`, `float`; `enum` is `LVEnumMessageValue`
(repeated: `LVRepeatedEnumMessageValue`), likewise `sint32` ... `sfixed64`. -/
inductive ValueClass where
  | int32 | uint32 | int64 | uint64 | bool | double | float | enum
  | sint32 | sint64 | fixed32 | fixed64 | sfixed32 | sfixed64
deriving DecidableEq, Repr

/-- The `sizeof` of the payload type of a class. -/
def ValueClass.width : ValueClass → Nat
  | .bool => 1
  | .int32 | .uint32 | .float | .enum | .sint32 | .fixed32 | .sfixed32 => 4
  | .int64 | .uint64 | .double | .sint64 | .fixed64 | .sfixed64 => 8

/-- Whether the payload type of a class is a signed integer.  `float` and `double`
payloads are carried as their bit patterns, `bool` as its byte. -/
def ValueClass.isSigned : ValueClass → Bool
  | .int32 | .int64 | .enum | .sint32 | .sint64 | .sfixed32 | .sfixed64 => true
  | .uint32 | .uint64 | .bool | .double | .float | .fixed32 | .fixed64 => false

/-- The payload a class reads out of a bit pattern of its width. -/
def ValueClass.decode (c : ValueClass) (bits : Nat) : Int :=
  if c.isSigned then toSigned c.width bits else ((bits % 256 ^ c.width : Nat) : Int)

mutual
/-- Modelled from the spec: the dynamic value node (`LVMessageValue` and its subclasses,
declared in a header that is not part of the sources), one constructor per node shape. -/
inductive LVMessageValue where
  /-- `LVStringMessageValue` -/
  | string (_protobufId : Int) (_value : List Byte)
  /-- `LVRepeatedMessageValue<std::string>` -/
  | repeatedString (_protobufId : Int) (_value : List (List Byte))
  /-- a scalar node of class `c` -/
  | scalar (c : ValueClass) (_protobufId : Int) (_value : Int)
  /-- a repeated node of class `c` -/
  | repeated (c : ValueClass) (_protobufId : Int) (_value : List Int)
  /-- `LVNestedMessageMessageValue` -/
  | nested (_protobufId : Int) (_value : LVMessage)
  /-- `LVRepeatedNestedMessageMessageValue` -/
  | repeatedNested (_protobufId : Int) (_value : List LVMessage)
/-- Modelled from the spec: the value tree (`LVMessage`): the nodes keyed by wire tag
(a `std::map`, listed in key order), the descriptor table, and the selected tag of
every oneof group. -/
inductive LVMessage where
  | mk (_values : List (Int × LVMessageValue)) (_metadata : MessageMetadata)
      (_oneofContainerToSelectedIndexMap : List (String × Int))
end

/-- The tag a node was built with. -/
def LVMessageValue._protobufId : LVMessageValue → Int
  | .string i _ | .repeatedString i _ | .scalar _ i _ | .repeated _ i _
  | .nested i _ | .repeatedNested i _ => i

/-- The nodes of a tree. -/
def LVMessage._values : LVMessage → List (Int × LVMessageValue)
  | .mk v _ _ => v

/-- The descriptor table of a tree. -/
def LVMessage._metadata : LVMessage → MessageMetadata
  | .mk _ md _ => md

/-- The oneof selections of a tree. -/
def LVMessage._oneofContainerToSelectedIndexMap : LVMessage → List (String × Int)
  | .mk _ _ s => s

/-- The lookup `std::map::find`: the first entry with the key. -/
def mapFind {κ α : Type} [DecidableEq κ] (k : κ) : List (κ × α) → Option α
  | [] => none
  | (k', v) :: rest => if k' = k then some v else mapFind k rest

/-- The insertion `std::map<int, _>::emplace`, in key order; an entry that already has the
key is kept and the new one is dropped. -/
def emplace {α : Type} (k : Int) (v : α) : List (Int × α) → List (Int × α)
  | [] => [(k, v)]
  | (k', v') :: rest =>
      if k < k' then (k, v) :: (k', v') :: rest
      else if k = k' then (k', v') :: rest
      else (k', v') :: emplace k v rest

/-- The insertion `std::unordered_map<std::string, int>::insert`: an entry that already has the key is
kept and the new one is dropped. -/
def oneofInsert (name : String) (idx : Int) (s : List (String × Int)) : List (String × Int) :=
  match mapFind name s with
  | some _ => s
  | none => s ++ [(name, idx)]

/-- The statement `message._values.emplace(tag, node)`. -/
def LVMessage.emplaceValue (msg : LVMessage) (tag : Int) (node : LVMessageValue) : LVMessage :=
  .mk (emplace tag node msg._values) msg._metadata msg._oneofContainerToSelectedIndexMap

/-- Modelled from the spec: `LVMessage::Clear`, after which the tree is fresh: no node
and no oneof selection; the descriptor table stays. -/
def LVMessage.Clear (msg : LVMessage) : LVMessage := .mk [] msg._metadata []

/-! ## The native memory collaborator -/

/-- Rounding of `n` up to a multiple of `a` (`n` itself when `a = 0`). -/
def alignUp (n a : Nat) : Nat := if a = 0 then n else (n + a - 1) / a * a

/-- Modelled from the spec: the width in bytes of the element type a LabVIEW numeric
type code stands for (`0x01` 1 byte, `0x03` 4 bytes, `0x04` and `0x08` 8 bytes,
`0x0A` 8 bytes). -/
def typeCodeWidth : Nat → Nat
  | 0x01 | 0x05 => 1
  | 0x02 | 0x06 => 2
  | 0x03 | 0x07 | 0x09 => 4
  | 0x04 | 0x08 | 0x0A => 8
  | _ => 1

/-- Modelled from the spec: a type code whose element width is `byteSize`
(`GetTypeCodeForSize`, not part of the sources); sizes other than 1, 2 and 4 get the
8-byte code. -/
def GetTypeCodeForSize (byteSize : Nat) : Nat :=
  if byteSize = 1 then 0x05 else if byteSize = 2 then 0x06 else if byteSize = 4 then 0x07
  else 0x08

/-- Modelled from the spec: `LV1DArray::bytes(byteOffset, byteAlignment)`, the address
of the element data of the array block at `block`: the block starts with the 4-byte
element count, the elements follow at the first offset that is a multiple of their
alignment. -/
def LV1DArray.bytes (block byteOffset byteAlignment : Nat) : Nat :=
  block + alignUp 4 byteAlignment + byteOffset

/-- Modelled from the spec: `NumericArrayResize(typeCode, numDims, handlePtr, size)`
(`AllocateNativeArray`).  A null handle at `handlePtr` gets a fresh handle (a master
pointer) and a fresh block; a handle that is there already keeps its master pointer,
which is pointed to a fresh block.  The block is sized for the count and `size` elements
of the width of `typeCode`, is handed out zero-filled, and its count is left for the
caller to set. -/
def NumericArrayResize (typeCode _numDims handlePtr size : Nat) (m : Memory) : Memory :=
  let w := typeCodeWidth typeCode
  let blockSize := alignUp 4 w + size * w
  let h := m.readPtr handlePtr
  if h = 0 then
    let handle := m.brk
    let block := m.brk + 8
    let m1 : Memory := { m with brk := block + blockSize }
    let m2 := m1.store block (List.replicate blockSize 0)
    let m3 := m2.writePtr handle block
    m3.writePtr handlePtr handle
  else
    let block := m.brk
    let m1 : Memory := { m with brk := block + blockSize }
    let m2 := m1.store block (List.replicate blockSize 0)
    m2.writePtr h block

/-- Modelled from the spec: `SetLVString(lvString, str)` (`WriteNativeString`): the
string handle in the slot is resized to the length of `str`, the bytes are copied behind
the 4-byte length and the length is set. -/
def SetLVString (lvString : Nat) (str : List Byte) (m : Memory) : Memory :=
  let m1 := NumericArrayResize 0x01 1 lvString str.length m
  let block := m1.readPtr (m1.readPtr lvString)
  let m2 := m1.store (block + 4) str
  m2.writeInt block 4 str.length

/-- Modelled from the spec: `GetLVString(handle)` (`ReadNativeString`): the empty
string for a null handle or a null block, else the `cnt` bytes behind the length. -/
def GetLVString (lvString : Nat) (m : Memory) : Except Fault (List Byte) :=
  if lvString = 0 then .ok []
  else
    let block := m.readPtr lvString
    if block = 0 then .ok []
    else
      let cnt := m.readInt32 block
      if cnt < 0 then .error .badCount else .ok (m.load (block + 4) cnt.toNat)

/-! ## Well-known type adapters and the environment of a call -/

/-- The interface of a well-known type adapter (`wellknown::Double2DArray`,
`wellknown::String2DArray`); the adapters are not part of the sources and stay
parameters. -/
structure WellKnownAdapter where
  CopyFromMessageToCluster :
    MessageElementMetadata → LVMessageValue → Nat → Memory → Except Fault Memory
  CopyFromClusterToMessage :
    MessageElementMetadata → Nat → Memory → LVMessage → Except Fault LVMessage

/-- What a marshaling call finds around it: the registry the descriptors belong to and
the two adapter singletons. -/
structure Env where
  owner : IMessageElementMetadataOwner
  Double2DArray : WellKnownAdapter
  String2DArray : WellKnownAdapter

/-- The registry behind `metadata->_owner`; a null owner cannot be called. -/
def MessageElementMetadata.owner (env : Env) (metadata : MessageElementMetadata) :
    Except Fault IMessageElementMetadataOwner :=
  if metadata._owner then .ok env.owner else .error .nullMetadata

/-- Dereference of a table pointer that may be null. -/
def deref {α : Type} : Option α → Except Fault α
  | some a => .ok a
  | none => .error .nullMetadata

/-! ## Tree to cluster: the typed writers -/

/-- The bytes of an array of `w`-byte elements, as `memcpy` reads them out of the
node. -/
def encodeArray (w : Nat) : List Int → List Byte
  | [] => []
  | v :: vs => toLE w (ofInt w v) ++ encodeArray w vs

/-- The body the writers of the fixed-width kinds share: a repeated node that is not
empty gets an array of `typeCode` elements, its count and a `memcpy` of its elements;
a scalar node is stored at `start`. -/
def CopyFixedWidthToCluster (c : ValueClass) (typeCode : Nat)
    (metadata : MessageElementMetadata) (start : Nat) (value : LVMessageValue)
    (m : Memory) : Except Fault Memory :=
  if metadata.isRepeated then
    match value with
    | .repeated c' _ vs =>
      if c' = c then
        if vs.length ≠ 0 then
          let m1 := NumericArrayResize typeCode 1 start vs.length m
          let array := m1.readPtr start
          let block := m1.readPtr array
          let m2 := m1.writeInt block 4 vs.length
          .ok (m2.store (LV1DArray.bytes block 0 c.width) (encodeArray c.width vs))
        else .ok m
      else .error .badCast
    | _ => .error .badCast
  else
    match value with
    | .scalar c' _ v => if c' = c then .ok (m.writeInt start c.width v) else .error .badCast
    | _ => .error .badCast

/-- The loop of `CopyStringToCluster` over the strings of a repeated node. -/
def CopyStringToCluster.loop (lvString : Nat) : List (List Byte) → Memory → Memory
  | [], m => m
  | str :: rest, m =>
    CopyStringToCluster.loop (lvString + 8) rest (SetLVString lvString str (m.writePtr lvString 0))

/-- The writer `ClusterDataCopier::CopyStringToCluster`. -/
def CopyStringToCluster (metadata : MessageElementMetadata) (start : Nat)
    (value : LVMessageValue) (m : Memory) : Except Fault Memory :=
  if metadata.isRepeated then
    match value with
    | .repeatedString _ repeatedString =>
      if repeatedString.length ≠ 0 then
        let m1 := NumericArrayResize (GetTypeCodeForSize 8) 1 start repeatedString.length m
        let array := m1.readPtr start
        let block := m1.readPtr array
        let m2 := m1.writeInt block 4 repeatedString.length
        let lvString := LV1DArray.bytes block 0 8
        .ok (CopyStringToCluster.loop lvString repeatedString m2)
      else .ok m
    | _ => .error .badCast
  else
    match value with
    | .string _ str => .ok (SetLVString start str m)
    | _ => .error .badCast

/-- The writer `ClusterDataCopier::CopyBytesToCluster`. -/
def CopyBytesToCluster (metadata : MessageElementMetadata) (start : Nat)
    (value : LVMessageValue) (m : Memory) : Except Fault Memory :=
  CopyStringToCluster metadata start value m

/-- The writer `ClusterDataCopier::CopyInt32ToCluster`. -/
def CopyInt32ToCluster := CopyFixedWidthToCluster .int32 0x03

/-- The writer `ClusterDataCopier::CopyUInt32ToCluster`. -/
def CopyUInt32ToCluster := CopyFixedWidthToCluster .uint32 0x03

/-- The translation loop of `CopyEnumToCluster`: every element goes through the enum
table, in order; a null table is dereferenced at the first element. -/
def CopyEnumToCluster.mapArray (enumMetadata : Option EnumMetadata) :
    List Int → Except Fault (List Int)
  | [] => .ok []
  | protoValue :: rest => do
    let e ← deref enumMetadata
    let mapped ← e.GetLVEnumValueFromProtoValue protoValue
    let mappedRest ← CopyEnumToCluster.mapArray enumMetadata rest
    pure (mapped :: mappedRest)

/-- The body of `ClusterDataCopier::CopyEnumToCluster`, with the memory it leaves behind.
The first component is the exception that ends the call, if any; the second is the
memory at that point.  Both branches translate before their first store: the repeated
branch fills `mappedArray` before it calls `NumericArrayResize`, the scalar branch stores
the value the lookup returns. -/
def CopyEnumToCluster.run (env : Env) (metadata : MessageElementMetadata) (start : Nat)
    (value : LVMessageValue) (m : Memory) : Option Fault × Memory :=
  match metadata.owner env with
  | .error f => (some f, m)
  | .ok owner =>
    let enumMetadata := owner.FindEnumMetadata metadata.embeddedMessageName
    if metadata.isRepeated then
      match value with
      | .repeated .enum _ repeatedEnum =>
        let count := repeatedEnum.length
        match CopyEnumToCluster.mapArray enumMetadata repeatedEnum with
        | .error f => (some f, m)
        | .ok mappedArray =>
          if count ≠ 0 then
            let m1 := NumericArrayResize 0x03 1 start count m
            let array := m1.readPtr start
            let block := m1.readPtr array
            let m2 := m1.writeInt block 4 count
            (none, m2.store (LV1DArray.bytes block 0 4) (encodeArray 4 mappedArray))
          else (none, m)
      | _ => (some .badCast, m)
    else
      match value with
      | .scalar .enum _ enumValueFromProtobuf =>
        match deref enumMetadata with
        | .error f => (some f, m)
        | .ok e =>
          match e.GetLVEnumValueFromProtoValue enumValueFromProtobuf with
          | .error f => (some f, m)
          | .ok lvValue => (none, m.writeInt start 4 lvValue)
      | _ => (some .badCast, m)

/-- The writer `ClusterDataCopier::CopyEnumToCluster`, as its callers see it: the memory of
`CopyEnumToCluster.run` when the body returns, the exception when it throws. -/
def CopyEnumToCluster (env : Env) (metadata : MessageElementMetadata) (start : Nat)
    (value : LVMessageValue) (m : Memory) : Except Fault Memory :=
  match CopyEnumToCluster.run env metadata start value m with
  | (none, m1) => .ok m1
  | (some f, _) => .error f

/-- The writer `ClusterDataCopier::CopyInt64ToCluster`. -/
def CopyInt64ToCluster := CopyFixedWidthToCluster .int64 0x04

/-- The writer `ClusterDataCopier::CopyUInt64ToCluster`. -/
def CopyUInt64ToCluster := CopyFixedWidthToCluster .uint64 0x08

/-- The writer `ClusterDataCopier::CopyBoolToCluster`. -/
def CopyBoolToCluster := CopyFixedWidthToCluster .bool 0x01

/-- The writer `ClusterDataCopier::CopyDoubleToCluster`. -/
def CopyDoubleToCluster := CopyFixedWidthToCluster .double 0x0A

/-- The writer `ClusterDataCopier::CopyFloatToCluster`. -/
def CopyFloatToCluster := CopyFixedWidthToCluster .float 0x03

/-- The writer `ClusterDataCopier::CopySInt32ToCluster`. -/
def CopySInt32ToCluster := CopyFixedWidthToCluster .sint32 0x03

/-- The writer `ClusterDataCopier::CopySInt64ToCluster`. -/
def CopySInt64ToCluster := CopyFixedWidthToCluster .sint64 0x04

/-- The writer `ClusterDataCopier::CopyFixed32ToCluster`. -/
def CopyFixed32ToCluster := CopyFixedWidthToCluster .fixed32 0x03

/-- The writer `ClusterDataCopier::CopySFixed32ToCluster`. -/
def CopySFixed32ToCluster := CopyFixedWidthToCluster .sfixed32 0x03

/-- The writer `ClusterDataCopier::CopyFixed64ToCluster`. -/
def CopyFixed64ToCluster := CopyFixedWidthToCluster .fixed64 0x04

/-- The writer `ClusterDataCopier::CopySFixed64ToCluster`. -/
def CopySFixed64ToCluster := CopyFixedWidthToCluster .sfixed64 0x04

/-- The `switch` of `CopyToCluster` on the kind of the descriptor; `copyMessage` is the
call of `CopyMessageToCluster` of the `MessageValue` case. -/
def CopyToCluster.dispatch (env : Env) (copyMessage : Unit → Except Fault Memory)
    (fieldMetadata : MessageElementMetadata) (start : Nat)
    (value : LVMessageValue) (m : Memory) : Except Fault Memory :=
  match fieldMetadata.type with
  | .StringValue => CopyStringToCluster fieldMetadata start value m
  | .BytesValue => CopyBytesToCluster fieldMetadata start value m
  | .BoolValue => CopyBoolToCluster fieldMetadata start value m
  | .DoubleValue => CopyDoubleToCluster fieldMetadata start value m
  | .FloatValue => CopyFloatToCluster fieldMetadata start value m
  | .Int32Value => CopyInt32ToCluster fieldMetadata start value m
  | .MessageValue => copyMessage ()
  | .Int64Value => CopyInt64ToCluster fieldMetadata start value m
  | .UInt32Value => CopyUInt32ToCluster fieldMetadata start value m
  | .UInt64Value => CopyUInt64ToCluster fieldMetadata start value m
  | .EnumValue => CopyEnumToCluster env fieldMetadata start value m
  | .SInt32Value => CopySInt32ToCluster fieldMetadata start value m
  | .SInt64Value => CopySInt64ToCluster fieldMetadata start value m
  | .Fixed32Value => CopyFixed32ToCluster fieldMetadata start value m
  | .Fixed64Value => CopyFixed64ToCluster fieldMetadata start value m
  | .SFixed32Value => CopySFixed32ToCluster fieldMetadata start value m
  | .SFixed64Value => CopySFixed64ToCluster fieldMetadata start value m

/-- The discriminator descriptor of a oneof group: the descriptor of the group whose
tag is negative. -/
def findDiscriminator (name : String) : List MessageElementMetadata → Option MessageElementMetadata
  | [] => none
  | fm :: rest =>
    if fm.isInOneof ∧ fm.protobufIndex < 0 ∧ fm.oneofContainerName = name then some fm
    else findDiscriminator name rest

/-- Modelled from the spec: `LVMessage::CopyOneofIndicesToCluster`, the second pass of
the write: for every oneof group of the selection map the selected tag is stored, as a
4-byte integer, in the slot of the group's discriminator descriptor. -/
def CopyOneofIndicesToCluster (metadata : MessageMetadata) (cluster : Nat) :
    List (String × Int) → Memory → Memory
  | [], m => m
  | (name, selected) :: rest, m =>
    match findDiscriminator name metadata._elements with
    | some fm =>
      CopyOneofIndicesToCluster metadata cluster rest (m.writeInt (cluster + fm.clusterOffset) 4 selected)
    | none => CopyOneofIndicesToCluster metadata cluster rest m

mutual
/-- The procedure `ClusterDataCopier::CopyToCluster`. -/
def CopyToCluster (env : Env) : LVMessage → Nat → Memory → Except Fault Memory
  | .mk values metadata oneofs, cluster, m => do
    let m1 ← CopyToCluster.fields env metadata cluster values m
    pure (CopyOneofIndicesToCluster metadata cluster oneofs m1)
/-- The first pass of `CopyToCluster`: the loop over `message._values`. -/
def CopyToCluster.fields (env : Env) (metadata : MessageMetadata) (cluster : Nat) :
    List (Int × LVMessageValue) → Memory → Except Fault Memory
  | [], m => .ok m
  | (_, value) :: rest, m =>
    match mapFind value._protobufId metadata._mappedElements with
    | some fieldMetadata => do
      let start := cluster + fieldMetadata.clusterOffset
      let m1 ← CopyToCluster.dispatch env
        (fun _ => CopyMessageToCluster env fieldMetadata start value m) fieldMetadata start value m
      CopyToCluster.fields env metadata cluster rest m1
    | none => CopyToCluster.fields env metadata cluster rest m
/-- The writer `ClusterDataCopier::CopyMessageToCluster`.  The byte size of a repeated
node is computed in the 64-bit unsigned type of the collection's size. -/
def CopyMessageToCluster (env : Env) (metadata : MessageElementMetadata) (start : Nat) :
    LVMessageValue → Memory → Except Fault Memory
  | value, m =>
    match metadata.wellKnownType with
    | .Double2DArray => env.Double2DArray.CopyFromMessageToCluster metadata value start m
    | .String2DArray => env.String2DArray.CopyFromMessageToCluster metadata value start m
    | .None =>
      if metadata.isRepeated then
        match value with
        | .repeatedNested _ repeatedNested =>
          match repeatedNested with
          | [] => .ok m
          | front :: _ =>
            let nestedMetadata := front._metadata
            let clusterSize := nestedMetadata.clusterSize
            let byteSize := repeatedNested.length * clusterSize % 2 ^ 64
            let alignment := nestedMetadata.alignmentRequirement
            if alignment = 0 then .error .divisionByZero
            else
              let alignedElementSize :=
                if byteSize % alignment ≠ 0 then byteSize / alignment + 1 else byteSize / alignment
              let m1 := NumericArrayResize (GetTypeCodeForSize alignment) 1 start alignedElementSize m
              let array := m1.readPtr start
              let block := m1.readPtr array
              let m2 := m1.writeInt block 4 repeatedNested.length
              CopyMessageToCluster.loop env block clusterSize alignment 0 repeatedNested m2
        | _ => .error .badCast
      else
        match value with
        | .nested _ nested => CopyToCluster env nested start m
        | _ => .error .badCast
/-- The loop of `CopyMessageToCluster` over the elements of a repeated node; `x` is the
index of the next element. -/
def CopyMessageToCluster.loop (env : Env) (block clusterSize alignment : Nat) :
    Nat → List LVMessage → Memory → Except Fault Memory
  | _, [], m => .ok m
  | x, str :: rest, m => do
    let lvCluster := LV1DArray.bytes block (x * clusterSize) alignment
    let m1 ← CopyToCluster env str lvCluster (m.writePtr lvCluster 0)
    CopyMessageToCluster.loop env block clusterSize alignment (x + 1) rest m1
end

/-! ## Cluster to tree: the typed readers -/

/-- The `n` elements of class `c` that `memcpy` copies out of the array data at
`data`. -/
def decodeArray (c : ValueClass) (m : Memory) : Nat → Nat → List Int
  | _, 0 => []
  | data, n + 1 => c.decode (m.readU data c.width) :: decodeArray c m (data + c.width) n

/-- The body the readers of the fixed-width kinds share: a repeated field whose handle
is not null and whose count is not zero gives a repeated node with a `memcpy` of the
elements; a scalar field gives a scalar node with the value at `start`. -/
def CopyFixedWidthFromCluster (c : ValueClass) (metadata : MessageElementMetadata)
    (start : Nat) (m : Memory) (message : LVMessage) : Except Fault LVMessage :=
  if metadata.isRepeated then
    let array := m.readPtr start
    if array = 0 then .ok message
    else
      let block := m.readPtr array
      if block = 0 then .ok message
      else
        let count := m.readInt32 block
        if count = 0 then .ok message
        else if count < 0 then .error .badCount
        else
          let data := LV1DArray.bytes block 0 c.width
          .ok (message.emplaceValue metadata.protobufIndex
            (.repeated c metadata.protobufIndex (decodeArray c m data count.toNat)))
  else
    .ok (message.emplaceValue metadata.protobufIndex
      (.scalar c metadata.protobufIndex (c.decode (m.readU start c.width))))

/-- The loop of `CopyStringFromCluster` over the string handles of an array. -/
def CopyStringFromCluster.loop (m : Memory) : Nat → Nat → Except Fault (List (List Byte))
  | _, 0 => .ok []
  | lvStr, n + 1 => do
    let str ← GetLVString (m.readPtr lvStr) m
    let rest ← CopyStringFromCluster.loop m (lvStr + 8) n
    pure (str :: rest)

/-- The reader `ClusterDataCopier::CopyStringFromCluster`. -/
def CopyStringFromCluster (metadata : MessageElementMetadata) (start : Nat) (m : Memory)
    (message : LVMessage) : Except Fault LVMessage :=
  if metadata.isRepeated then
    let array := m.readPtr start
    let arraySize : Int :=
      if array ≠ 0 ∧ m.readPtr array ≠ 0 then m.readInt32 (m.readPtr array) else 0
    if arraySize ≠ 0 then do
      let lvStr := LV1DArray.bytes (m.readPtr array) 0 8
      let strs ← CopyStringFromCluster.loop m lvStr arraySize.toNat
      pure (message.emplaceValue metadata.protobufIndex
        (.repeatedString metadata.protobufIndex strs))
    else .ok message
  else do
    let str ← GetLVString (m.readPtr start) m
    pure (message.emplaceValue metadata.protobufIndex (.string metadata.protobufIndex str))

/-- The reader `ClusterDataCopier::CopyBytesFromCluster`. -/
def CopyBytesFromCluster (metadata : MessageElementMetadata) (start : Nat) (m : Memory)
    (message : LVMessage) : Except Fault LVMessage :=
  CopyStringFromCluster metadata start m message

/-- The reader `ClusterDataCopier::CopyBoolFromCluster`. -/
def CopyBoolFromCluster := CopyFixedWidthFromCluster .bool

/-- The reader `ClusterDataCopier::CopyInt32FromCluster`. -/
def CopyInt32FromCluster := CopyFixedWidthFromCluster .int32

/-- The reader `ClusterDataCopier::CopyUInt32FromCluster`. -/
def CopyUInt32FromCluster := CopyFixedWidthFromCluster .uint32

/-- The translation loop of `CopyEnumFromCluster`: the `n` elements at `data` go through
the enum table, in order; a null table is dereferenced at the first element. -/
def CopyEnumFromCluster.mapArray (enumMetadata : Option EnumMetadata) (m : Memory) :
    Nat → Nat → Except Fault (List Int)
  | _, 0 => .ok []
  | data, n + 1 => do
    let e ← deref enumMetadata
    let mapped ← e.GetProtoValueFromLVEnumValue (m.readInt32 data)
    let mappedRest ← CopyEnumFromCluster.mapArray enumMetadata m (data + 4) n
    pure (mapped :: mappedRest)

/-- The body of `ClusterDataCopier::CopyEnumFromCluster`, with the message it leaves behind.
The first component is the exception that ends the call, if any; the second is the
caller's message at that point.  The message is passed by reference, so what the body
has inserted before it throws stays in the caller's tree: the repeated branch emplaces the
(still empty) repeated node before it allocates and translates the array, the scalar
branch translates before it emplaces. -/
def CopyEnumFromCluster.run (env : Env) (metadata : MessageElementMetadata) (start : Nat)
    (m : Memory) (message : LVMessage) : Option Fault × LVMessage :=
  match metadata.owner env with
  | .error f => (some f, message)
  | .ok owner =>
    let enumMetadata := owner.FindEnumMetadata metadata.embeddedMessageName
    if metadata.isRepeated then
      let array := m.readPtr start
      if array = 0 then (none, message)
      else
        let block := m.readPtr array
        if block = 0 then (none, message)
        else
          let count := m.readInt32 block
          if count = 0 then (none, message)
          else
            let message1 := message.emplaceValue metadata.protobufIndex
              (.repeated .enum metadata.protobufIndex [])
            if count < 0 then (some .badCount, message1)
            else
              let data := LV1DArray.bytes block 0 4
              match CopyEnumFromCluster.mapArray enumMetadata m data count.toNat with
              | .error f => (some f, message1)
              | .ok mappedArray =>
                (none, message.emplaceValue metadata.protobufIndex
                  (.repeated .enum metadata.protobufIndex mappedArray))
    else
      let enumValueFromLV := m.readInt32 start
      match deref enumMetadata with
      | .error f => (some f, message)
      | .ok e =>
        match e.GetProtoValueFromLVEnumValue enumValueFromLV with
        | .error f => (some f, message)
        | .ok protoValue =>
          (none, message.emplaceValue metadata.protobufIndex
            (.scalar .enum metadata.protobufIndex protoValue))

/-- The reader `ClusterDataCopier::CopyEnumFromCluster`, as its callers see it: the message
of `CopyEnumFromCluster.run` when the body returns, the exception when it throws (the
callers propagate the exception and never look at the message again). -/
def CopyEnumFromCluster (env : Env) (metadata : MessageElementMetadata) (start : Nat)
    (m : Memory) (message : LVMessage) : Except Fault LVMessage :=
  match CopyEnumFromCluster.run env metadata start m message with
  | (none, message1) => .ok message1
  | (some f, _) => .error f

/-- The reader `ClusterDataCopier::CopyInt64FromCluster`. -/
def CopyInt64FromCluster := CopyFixedWidthFromCluster .int64

/-- The reader `ClusterDataCopier::CopyUInt64FromCluster`. -/
def CopyUInt64FromCluster := CopyFixedWidthFromCluster .uint64

/-- The reader `ClusterDataCopier::CopyDoubleFromCluster`. -/
def CopyDoubleFromCluster := CopyFixedWidthFromCluster .double

/-- The reader `ClusterDataCopier::CopyFloatFromCluster`. -/
def CopyFloatFromCluster := CopyFixedWidthFromCluster .float

/-- The loop of `CopyMessageFromCluster` over the `n` elements of an array that follow
element `x`; `copyFromCluster` is `CopyFromCluster`. -/
def CopyMessageFromCluster.loop (copyFromCluster : LVMessage → Nat → Except Fault LVMessage)
    (nestedMetadata : Option MessageMetadata) (block : Nat) :
    Nat → Nat → Except Fault (List LVMessage)
  | _, 0 => .ok []
  | x, n + 1 => do
    let md ← deref nestedMetadata
    let data := LV1DArray.bytes block (md.clusterSize * x) md.alignmentRequirement
    let nested ← copyFromCluster (.mk [] md []) data
    let rest ← CopyMessageFromCluster.loop copyFromCluster nestedMetadata block (x + 1) n
    pure (nested :: rest)

/-- The reader `ClusterDataCopier::CopyMessageFromCluster`; `copyFromCluster` is
`CopyFromCluster`, which it calls for every nested cluster. -/
def CopyMessageFromCluster (env : Env)
    (copyFromCluster : LVMessage → Nat → Except Fault LVMessage)
    (metadata : MessageElementMetadata) (start : Nat) (m : Memory) (message : LVMessage) :
    Except Fault LVMessage :=
  match metadata.wellKnownType with
  | .Double2DArray => env.Double2DArray.CopyFromClusterToMessage metadata start m message
  | .String2DArray => env.String2DArray.CopyFromClusterToMessage metadata start m message
  | .None => do
    let owner ← metadata.owner env
    let nestedMetadata := owner.FindMetadata metadata.embeddedMessageName
    if metadata.isRepeated then
      let array := m.readPtr start
      if array = 0 then pure message
      else
        let block := m.readPtr array
        if block = 0 then pure message
        else
          let count := m.readInt32 block
          if count = 0 then pure message
          else
            let nesteds ← CopyMessageFromCluster.loop copyFromCluster nestedMetadata block 0
              count.toNat
            pure (message.emplaceValue metadata.protobufIndex
              (.repeatedNested metadata.protobufIndex nesteds))
    else
      let md ← deref nestedMetadata
      let nested ← copyFromCluster (.mk [] md []) start
      pure (message.emplaceValue metadata.protobufIndex
        (.nested metadata.protobufIndex nested))

/-- The reader `ClusterDataCopier::CopySInt32FromCluster`. -/
def CopySInt32FromCluster := CopyFixedWidthFromCluster .sint32

/-- The reader `ClusterDataCopier::CopySInt64FromCluster`. -/
def CopySInt64FromCluster := CopyFixedWidthFromCluster .sint64

/-- The reader `ClusterDataCopier::CopyFixed32FromCluster`. -/
def CopyFixed32FromCluster := CopyFixedWidthFromCluster .fixed32

/-- The reader `ClusterDataCopier::CopyFixed64FromCluster`. -/
def CopyFixed64FromCluster := CopyFixedWidthFromCluster .fixed64

/-- The reader `ClusterDataCopier::CopySFixed32FromCluster`. -/
def CopySFixed32FromCluster := CopyFixedWidthFromCluster .sfixed32

/-- The reader `ClusterDataCopier::CopySFixed64FromCluster`. -/
def CopySFixed64FromCluster := CopyFixedWidthFromCluster .sfixed64

/-- The `switch` of `CopyFromCluster` on the kind of the descriptor.  The
`Fixed32Value` case has no `break`: control falls through to the `Fixed64Value`
case. -/
def CopyFromCluster.dispatch (env : Env)
    (copyFromCluster : LVMessage → Nat → Except Fault LVMessage)
    (fieldMetadata : MessageElementMetadata) (start : Nat) (m : Memory)
    (message : LVMessage) : Except Fault LVMessage :=
  match fieldMetadata.type with
  | .StringValue => CopyStringFromCluster fieldMetadata start m message
  | .BytesValue => CopyBytesFromCluster fieldMetadata start m message
  | .BoolValue => CopyBoolFromCluster fieldMetadata start m message
  | .DoubleValue => CopyDoubleFromCluster fieldMetadata start m message
  | .FloatValue => CopyFloatFromCluster fieldMetadata start m message
  | .Int32Value => CopyInt32FromCluster fieldMetadata start m message
  | .MessageValue => CopyMessageFromCluster env copyFromCluster fieldMetadata start m message
  | .Int64Value => CopyInt64FromCluster fieldMetadata start m message
  | .UInt32Value => CopyUInt32FromCluster fieldMetadata start m message
  | .UInt64Value => CopyUInt64FromCluster fieldMetadata start m message
  | .EnumValue => CopyEnumFromCluster env fieldMetadata start m message
  | .SInt32Value => CopySInt32FromCluster fieldMetadata start m message
  | .SInt64Value => CopySInt64FromCluster fieldMetadata start m message
  | .Fixed32Value => do
    let message1 ← CopyFixed32FromCluster fieldMetadata start m message
    CopyFixed64FromCluster fieldMetadata start m message1
  | .Fixed64Value => CopyFixed64FromCluster fieldMetadata start m message
  | .SFixed32Value => CopySFixed32FromCluster fieldMetadata start m message
  | .SFixed64Value => CopySFixed64FromCluster fieldMetadata start m message

/-- The first loop of `CopyFromCluster`, over `_metadata->_elements`: the selector of
every discriminator descriptor is recorded under the name of its group, which the
`assert` wants unregistered. -/
def CopyFromCluster.selectors (cluster : Nat) (m : Memory) :
    List MessageElementMetadata → LVMessage → Except Fault LVMessage
  | [], message => .ok message
  | fieldMetadata :: rest, message =>
    if fieldMetadata.isInOneof ∧ fieldMetadata.protobufIndex < 0 then
      match mapFind fieldMetadata.oneofContainerName message._oneofContainerToSelectedIndexMap with
      | some _ => .error .assertion
      | none =>
        let selected_index := m.readInt32 (cluster + fieldMetadata.clusterOffset)
        CopyFromCluster.selectors cluster m rest
          (.mk message._values message._metadata
            (oneofInsert fieldMetadata.oneofContainerName selected_index
              message._oneofContainerToSelectedIndexMap))
    else CopyFromCluster.selectors cluster m rest message

/-- The second loop of `CopyFromCluster`, over `_metadata->_mappedElements`. -/
def CopyFromCluster.fields (env : Env)
    (copyFromCluster : LVMessage → Nat → Except Fault LVMessage) (cluster : Nat) (m : Memory) :
    List (Int × MessageElementMetadata) → LVMessage → Except Fault LVMessage
  | [], message => .ok message
  | (_, fieldMetadata) :: rest, message =>
    if fieldMetadata.isInOneof then
      if fieldMetadata.protobufIndex < 0 then
        CopyFromCluster.fields env copyFromCluster cluster m rest message
      else
        match mapFind fieldMetadata.oneofContainerName message._oneofContainerToSelectedIndexMap with
        | none => .error .assertion
        | some selected_index =>
          if selected_index ≠ fieldMetadata.protobufIndex then
            CopyFromCluster.fields env copyFromCluster cluster m rest message
          else do
            let message1 ← CopyFromCluster.dispatch env copyFromCluster fieldMetadata
              (cluster + fieldMetadata.clusterOffset) m message
            CopyFromCluster.fields env copyFromCluster cluster m rest message1
    else do
      let message1 ← CopyFromCluster.dispatch env copyFromCluster fieldMetadata
        (cluster + fieldMetadata.clusterOffset) m message
      CopyFromCluster.fields env copyFromCluster cluster m rest message1

/-- The procedure `ClusterDataCopier::CopyFromCluster`.  The first argument bounds the
depth of the recursion through nested messages. -/
def CopyFromCluster (env : Env) (m : Memory) : Nat → LVMessage → Nat → Except Fault LVMessage
  | 0, _, _ => .error .outOfFuel
  | fuel + 1, message, cluster => do
    let message0 := message.Clear
    let message1 ← CopyFromCluster.selectors cluster m message0._metadata._elements message0
    CopyFromCluster.fields env (CopyFromCluster env m fuel) cluster m
      message1._metadata._mappedElements message1

/-! ## Bytes and words: basic facts -/

theorem toLE_length (w v : Nat) : (toLE w v).length = w := by
  induction w generalizing v with
  | zero => rfl
  | succ w ih => simp [toLE, ih]

theorem ofLE_toLE (w v : Nat) : ofLE (toLE w v) = v % 256 ^ w := by
  induction w generalizing v with
  | zero => simp [toLE, ofLE, Nat.mod_one]
  | succ w ih =>
    simp only [toLE, ofLE, ih]
    have h : (Fin.ofNat (v % 256) : Byte).val = v % 256 := by
      simp [Fin.ofNat]
    rw [h, pow_succ, mul_comm (256 ^ w) 256, Nat.mod_mul]

theorem loadBytes_length (f : Nat → Byte) (addr n : Nat) : (loadBytes f addr n).length = n := by
  induction n generalizing addr with
  | zero => rfl
  | succ n ih => simp [loadBytes, ih]

theorem loadBytes_congr (f g : Nat → Byte) (addr n : Nat)
    (h : ∀ a, addr ≤ a → a < addr + n → f a = g a) :
    loadBytes f addr n = loadBytes g addr n := by
  induction n generalizing addr with
  | zero => rfl
  | succ n ih =>
    simp only [loadBytes]
    rw [h addr (le_refl _) (by omega), ih (addr + 1) (fun a h1 h2 => h a (by omega) (by omega))]

theorem storeBytes_outside (f : Nat → Byte) (addr : Nat) (bs : List Byte) (a : Nat)
    (h : a < addr ∨ addr + bs.length ≤ a) : storeBytes f addr bs a = f a := by
  unfold storeBytes
  split
  · rename_i hle
    have : bs.length ≤ a - addr := by omega
    simp [List.getElem?_eq_none this]
  · rfl

theorem storeBytes_inside (f : Nat → Byte) (addr : Nat) (bs : List Byte) (i : Nat)
    (h : i < bs.length) : storeBytes f addr bs (addr + i) = bs[i] := by
  unfold storeBytes
  simp [List.getElem?_eq_getElem h]

theorem storeBytes_cons_tail (f : Nat → Byte) (addr : Nat) (b : Byte) (bs : List Byte)
    (a : Nat) (h : addr < a) :
    storeBytes f addr (b :: bs) a = storeBytes f (addr + 1) bs a := by
  unfold storeBytes
  have e : a - addr = (a - (addr + 1)) + 1 := by omega
  rw [if_pos (by omega), if_pos (by omega), e, List.getElem?_cons_succ]

theorem storeBytes_cons_head (f : Nat → Byte) (addr : Nat) (b : Byte) (bs : List Byte) :
    storeBytes f addr (b :: bs) addr = b := by
  simp [storeBytes]

theorem loadBytes_storeBytes_same (f : Nat → Byte) (addr : Nat) (bs : List Byte) :
    loadBytes (storeBytes f addr bs) addr bs.length = bs := by
  induction bs generalizing f addr with
  | nil => rfl
  | cons b bs ih =>
    simp only [List.length_cons, loadBytes]
    rw [storeBytes_cons_head]
    congr 1
    refine Eq.trans (loadBytes_congr _ (storeBytes f (addr + 1) bs) _ _ ?_) (ih f (addr + 1))
    intro a h1 _
    exact storeBytes_cons_tail f addr b bs a (by omega)

theorem loadBytes_storeBytes_disjoint (f : Nat → Byte) (addr : Nat) (bs : List Byte)
    (b n : Nat) (h : b + n ≤ addr ∨ addr + bs.length ≤ b) :
    loadBytes (storeBytes f addr bs) b n = loadBytes f b n := by
  apply loadBytes_congr
  intro a h1 h2
  apply storeBytes_outside
  omega

@[simp] theorem Memory.store_brk (m : Memory) (addr : Nat) (bs : List Byte) :
    (m.store addr bs).brk = m.brk := rfl

@[simp] theorem Memory.writeU_brk (m : Memory) (addr w v : Nat) :
    (m.writeU addr w v).brk = m.brk := rfl

@[simp] theorem Memory.writeInt_brk (m : Memory) (addr w : Nat) (v : Int) :
    (m.writeInt addr w v).brk = m.brk := rfl

@[simp] theorem Memory.writePtr_brk (m : Memory) (addr p : Nat) :
    (m.writePtr addr p).brk = m.brk := rfl

theorem Memory.store_bytes_outside (m : Memory) (addr : Nat) (bs : List Byte) (a : Nat)
    (h : a < addr ∨ addr + bs.length ≤ a) : (m.store addr bs).bytes a = m.bytes a :=
  storeBytes_outside m.bytes addr bs a h

theorem Memory.writeU_bytes_outside (m : Memory) (addr w v a : Nat)
    (h : a < addr ∨ addr + w ≤ a) : (m.writeU addr w v).bytes a = m.bytes a := by
  apply Memory.store_bytes_outside
  rwa [toLE_length]

theorem Memory.load_store_same (m : Memory) (addr : Nat) (bs : List Byte) :
    (m.store addr bs).load addr bs.length = bs :=
  loadBytes_storeBytes_same m.bytes addr bs

theorem Memory.load_congr (m m' : Memory) (addr n : Nat)
    (h : ∀ a, addr ≤ a → a < addr + n → m.bytes a = m'.bytes a) :
    m.load addr n = m'.load addr n :=
  loadBytes_congr m.bytes m'.bytes addr n h

theorem Memory.readU_congr (m m' : Memory) (addr w : Nat)
    (h : ∀ a, addr ≤ a → a < addr + w → m.bytes a = m'.bytes a) :
    m.readU addr w = m'.readU addr w := by
  unfold Memory.readU
  rw [Memory.load_congr m m' addr w h]

theorem Memory.readU_writeU_same (m : Memory) (addr w v : Nat) :
    (m.writeU addr w v).readU addr w = v % 256 ^ w := by
  unfold Memory.readU Memory.writeU
  have := Memory.load_store_same m addr (toLE w v)
  rw [toLE_length] at this
  rw [this, ofLE_toLE]

theorem Memory.readU_store_disjoint (m : Memory) (addr : Nat) (bs : List Byte) (b w : Nat)
    (h : b + w ≤ addr ∨ addr + bs.length ≤ b) :
    (m.store addr bs).readU b w = m.readU b w := by
  apply Memory.readU_congr
  intro a h1 h2
  apply Memory.store_bytes_outside
  omega

theorem Memory.readU_writeU_disjoint (m : Memory) (addr w v b w' : Nat)
    (h : b + w' ≤ addr ∨ addr + w ≤ b) :
    (m.writeU addr w v).readU b w' = m.readU b w' := by
  apply Memory.readU_store_disjoint
  rwa [toLE_length]

theorem readU_lt (m : Memory) (addr w : Nat) : m.readU addr w < 256 ^ w := by
  unfold Memory.readU Memory.load
  induction w generalizing addr with
  | zero => simp [loadBytes, ofLE]
  | succ w ih =>
    simp only [loadBytes, ofLE]
    have h1 := ih (addr + 1)
    have h2 := (m.bytes addr).isLt
    rw [pow_succ]
    omega

theorem toSigned_ofInt (w : Nat) (v : Int)
    (h1 : -((256 ^ w : Nat) : Int) ≤ 2 * v) (h2 : 2 * v < ((256 ^ w : Nat) : Int)) :
    toSigned w (ofInt w v % 256 ^ w) = v := by
  have hpos : (0 : Int) < ((256 ^ w : Nat) : Int) := by positivity
  have hcast : ((256 : Int) ^ w) = ((256 ^ w : Nat) : Int) := by push_cast; rfl
  unfold toSigned ofInt
  rw [hcast]
  set M : Nat := 256 ^ w with hM
  have hnn : 0 ≤ v % (M : Int) := Int.emod_nonneg _ (by omega)
  have hlt : v % (M : Int) < M := Int.emod_lt_of_pos _ hpos
  have hval : (((v % (M : Int)).toNat : Nat) : Int) = v % (M : Int) := Int.toNat_of_nonneg hnn
  have hltn : (v % (M : Int)).toNat < M := by omega
  rw [Nat.mod_eq_of_lt hltn, Nat.mod_eq_of_lt hltn]
  by_cases hv : 0 ≤ v
  · have : v % (M : Int) = v := Int.emod_eq_of_lt hv (by omega)
    rw [if_pos (by omega)]
    omega
  · have : v % (M : Int) = v + M := by
      rw [← Int.add_mul_emod_self (b := 1), one_mul]
      exact Int.emod_eq_of_lt (by omega) (by omega)
    rw [if_neg (by omega)]
    omega

theorem Memory.readInt32_writeInt_same (m : Memory) (addr : Nat) (v : Int)
    (h1 : -2147483648 ≤ v) (h2 : v < 2147483648) :
    (m.writeInt addr 4 v).readInt32 addr = v := by
  unfold Memory.readInt32 Memory.writeInt
  rw [Memory.readU_writeU_same]
  apply toSigned_ofInt
  · norm_num; omega
  · norm_num; omega

theorem Memory.store_zeros_inside (m : Memory) (addr n a : Nat) (h1 : addr ≤ a)
    (h2 : a < addr + n) : (m.store addr (List.replicate n 0)).bytes a = 0 := by
  obtain ⟨i, rfl⟩ : ∃ i, a = addr + i := ⟨a - addr, by omega⟩
  have hi : i < (List.replicate n (0 : Byte)).length := by simp; omega
  show storeBytes m.bytes addr (List.replicate n 0) (addr + i) = 0
  rw [storeBytes_inside _ _ _ i hi]
  simp

theorem Memory.readPtr_writePtr_same (m : Memory) (addr p : Nat) (hp : p < 256 ^ 8) :
    (m.writePtr addr p).readPtr addr = p := by
  unfold Memory.readPtr Memory.writePtr
  rw [Memory.readU_writeU_same, Nat.mod_eq_of_lt hp]

/-- The facts about `NumericArrayResize` the writers rest on.  The slot lies in memory
that is handed out already, the handle in it is null or a master pointer that lies there
too and apart from the slot, and the new block fits in the address space.  Then the slot
holds a handle, the handle holds the address of a block of fresh memory that is
zero-filled, and no byte outside the slot, the master pointer and the block changes. -/
theorem NumericArrayResize_spec (typeCode numDims start size : Nat) (m : Memory)
    (hbrk : 0 < m.brk) (hslot : start + 8 ≤ m.brk)
    (hfit : m.brk + 8 + (alignUp 4 (typeCodeWidth typeCode) + size * typeCodeWidth typeCode)
      < 256 ^ 8)
    (hh : m.readPtr start = 0 ∨ (m.readPtr start + 8 ≤ m.brk
      ∧ (m.readPtr start + 8 ≤ start ∨ start + 8 ≤ m.readPtr start))) :
    ∃ handle block,
      (NumericArrayResize typeCode numDims start size m).readPtr start = handle
      ∧ (NumericArrayResize typeCode numDims start size m).readPtr handle = block
      ∧ handle ≠ 0 ∧ block ≠ 0
      ∧ handle + 8 ≤ block ∧ m.brk ≤ block
      ∧ (handle + 8 ≤ start ∨ start + 8 ≤ handle)
      ∧ (NumericArrayResize typeCode numDims start size m).brk
          = block + (alignUp 4 (typeCodeWidth typeCode) + size * typeCodeWidth typeCode)
      ∧ (∀ a, block ≤ a →
          a < block + (alignUp 4 (typeCodeWidth typeCode) + size * typeCodeWidth typeCode) →
          (NumericArrayResize typeCode numDims start size m).bytes a = 0)
      ∧ (∀ a, (a < start ∨ start + 8 ≤ a) → (a < handle ∨ handle + 8 ≤ a) → a < block →
          (NumericArrayResize typeCode numDims start size m).bytes a = m.bytes a) := by
  unfold NumericArrayResize
  dsimp only
  set bs := alignUp 4 (typeCodeWidth typeCode) + size * typeCodeWidth typeCode with hbs
  by_cases h0 : m.readPtr start = 0
  · rw [if_pos h0]
    refine ⟨m.brk, m.brk + 8, ?_, ?_, by omega, by omega, by omega, by omega, by omega, rfl,
      ?_, ?_⟩
    · exact Memory.readPtr_writePtr_same _ _ _ (by omega)
    · unfold Memory.readPtr Memory.writePtr
      rw [Memory.readU_writeU_disjoint _ _ _ _ _ _ (by omega)]
      exact Memory.readPtr_writePtr_same _ _ _ (by omega)
    · intro a h1 h2
      unfold Memory.writePtr
      rw [Memory.writeU_bytes_outside _ _ _ _ _ (by omega),
        Memory.writeU_bytes_outside _ _ _ _ _ (by omega)]
      exact Memory.store_zeros_inside _ _ _ _ h1 h2
    · intro a h1 h2 h3
      unfold Memory.writePtr
      rw [Memory.writeU_bytes_outside _ _ _ _ _ (by omega),
        Memory.writeU_bytes_outside _ _ _ _ _ (by omega)]
      exact Memory.store_bytes_outside _ _ _ _ (by omega)
  · rw [if_neg h0]
    have hh' := hh.resolve_left h0
    refine ⟨m.readPtr start, m.brk, ?_, ?_, h0, by omega, by omega, by omega, hh'.2, rfl,
      ?_, ?_⟩
    · unfold Memory.writePtr Memory.readPtr
      rw [Memory.readU_writeU_disjoint _ _ _ _ _ _ (by have := hh'.2; unfold Memory.readPtr at this; omega)]
      exact Memory.readU_store_disjoint _ _ _ _ _ (by omega)
    · exact Memory.readPtr_writePtr_same _ _ _ (by omega)
    · intro a h1 h2
      unfold Memory.writePtr
      rw [Memory.writeU_bytes_outside _ _ _ _ _ (by omega)]
      exact Memory.store_zeros_inside _ _ _ _ h1 h2
    · intro a h1 h2 h3
      unfold Memory.writePtr
      rw [Memory.writeU_bytes_outside _ _ _ _ _ (by omega)]
      exact Memory.store_bytes_outside _ _ _ _ (by omega)

theorem loadBytes_add (f : Nat → Byte) (addr n k : Nat) :
    loadBytes f addr (n + k) = loadBytes f addr n ++ loadBytes f (addr + n) k := by
  induction n generalizing addr with
  | zero => simp [loadBytes]
  | succ n ih =>
    rw [show n + 1 + k = (n + k) + 1 by omega]
    simp only [loadBytes, List.cons_append]
    rw [ih (addr + 1), show addr + 1 + n = addr + (n + 1) by omega]

theorem encodeArray_length (w : Nat) (vs : List Int) :
    (encodeArray w vs).length = w * vs.length := by
  induction vs with
  | nil => simp [encodeArray]
  | cons v vs ih => simp [encodeArray, toLE_length, ih, Nat.mul_succ, Nat.add_comm]

/-- An array that `memcpy` has laid out holds the bit pattern of its `i`-th element at
offset `w * i`. -/
theorem readU_of_load_encodeArray (m : Memory) (w : Nat) (vs : List Int) (data : Nat)
    (h : m.load data (w * vs.length) = encodeArray w vs) (i : Nat) (hi : i < vs.length) :
    m.readU (data + w * i) w = ofInt w vs[i] % 256 ^ w := by
  induction vs generalizing data i with
  | nil => simp at hi
  | cons v vs ih =>
    have hsplit : m.load data (w * (v :: vs).length)
        = m.load data w ++ m.load (data + w) (w * vs.length) := by
      unfold Memory.load
      rw [List.length_cons, Nat.mul_succ, Nat.add_comm, loadBytes_add]
    rw [hsplit] at h
    simp only [encodeArray] at h
    have hlen : (m.load data w).length = (toLE w (ofInt w v)).length := by
      rw [toLE_length]
      exact loadBytes_length _ _ _
    obtain ⟨h1, h2⟩ := List.append_inj h hlen
    cases i with
    | zero =>
      simp only [Nat.mul_zero, Nat.add_zero, List.getElem_cons_zero]
      unfold Memory.readU
      rw [h1, ofLE_toLE]
    | succ i =>
      have := ih (data + w) h2 i (by simpa using hi)
      rw [show data + w * (i + 1) = data + w + w * i by rw [Nat.mul_succ]; omega]
      simpa using this

/-! ## Maps and results: basic facts -/

theorem bind_eq_ok {ε α β : Type} (x : Except ε α) (f : α → Except ε β) (b : β) :
    (x >>= f) = .ok b ↔ ∃ a, x = .ok a ∧ f a = .ok b := by
  cases x with
  | error e => simp [bind, Except.bind]
  | ok a => simp [bind, Except.bind]

theorem ok_bind {ε α β : Type} (a : α) (f : α → Except ε β) :
    ((Except.ok a : Except ε α) >>= f) = f a := rfl

theorem error_bind {ε α β : Type} (e : ε) (f : α → Except ε β) :
    ((Except.error e : Except ε α) >>= f) = .error e := rfl

theorem pure_eq_ok {ε α : Type} (a : α) : (pure a : Except ε α) = .ok a := rfl

/-- The keys of a map. -/
def keys {κ α : Type} (l : List (κ × α)) : List κ := l.map Prod.fst

theorem mapFind_eq_none_iff {κ α : Type} [DecidableEq κ] (k : κ) (l : List (κ × α)) :
    mapFind k l = none ↔ k ∉ keys l := by
  induction l with
  | nil => simp [mapFind, keys]
  | cons p l ih =>
    obtain ⟨k', v⟩ := p
    simp only [mapFind, keys, List.map_cons, List.mem_cons, not_or]
    by_cases h : k' = k
    · simp [h]
    · simp only [h, if_false]
      rw [ih]
      simp only [keys]
      constructor
      · intro h2
        exact ⟨fun e => h e.symm, h2⟩
      · intro h2
        exact h2.2

theorem mapFind_mem {κ α : Type} [DecidableEq κ] (k : κ) (l : List (κ × α)) (v : α)
    (h : mapFind k l = some v) : (k, v) ∈ l := by
  induction l with
  | nil => simp [mapFind] at h
  | cons p l ih =>
    obtain ⟨k', v'⟩ := p
    simp only [mapFind] at h
    by_cases e : k' = k
    · simp only [e, if_true, Option.some.injEq] at h
      simp [e, h]
    · simp only [e, if_false] at h
      exact List.mem_cons_of_mem _ (ih h)

theorem mem_keys_emplace {α : Type} (k : Int) (v : α) (l : List (Int × α)) (k' : Int) :
    k' ∈ keys (emplace k v l) ↔ k' = k ∨ k' ∈ keys l := by
  induction l with
  | nil => simp [emplace, keys]
  | cons p l ih =>
    obtain ⟨k1, v1⟩ := p
    simp only [emplace]
    split
    · simp [keys]
    · split
      · rename_i h1 h2
        subst h2
        simp [keys]
      · simp only [keys, List.map_cons, List.mem_cons] at ih ⊢
        rw [ih]
        tauto

@[simp] theorem LVMessage.mk_values (v : List (Int × LVMessageValue)) (md : MessageMetadata)
    (sel : List (String × Int)) : (LVMessage.mk v md sel)._values = v := rfl

@[simp] theorem LVMessage.mk_metadata (v : List (Int × LVMessageValue)) (md : MessageMetadata)
    (sel : List (String × Int)) : (LVMessage.mk v md sel)._metadata = md := rfl

@[simp] theorem LVMessage.mk_oneof (v : List (Int × LVMessageValue)) (md : MessageMetadata)
    (sel : List (String × Int)) :
    (LVMessage.mk v md sel)._oneofContainerToSelectedIndexMap = sel := rfl

@[simp] theorem LVMessage.emplaceValue_metadata (msg : LVMessage) (tag : Int)
    (node : LVMessageValue) : (msg.emplaceValue tag node)._metadata = msg._metadata := rfl

@[simp] theorem LVMessage.emplaceValue_oneof (msg : LVMessage) (tag : Int)
    (node : LVMessageValue) :
    (msg.emplaceValue tag node)._oneofContainerToSelectedIndexMap
      = msg._oneofContainerToSelectedIndexMap := rfl

@[simp] theorem LVMessage.emplaceValue_values (msg : LVMessage) (tag : Int)
    (node : LVMessageValue) :
    (msg.emplaceValue tag node)._values = emplace tag node msg._values := rfl

/-- The tree `r` is the tree `msg` after some `emplace` calls, all with the key `tag`. -/
inductive Emplaced (tag : Int) (msg : LVMessage) : LVMessage → Prop where
  | same : Emplaced tag msg msg
  | step (r : LVMessage) (node : LVMessageValue) :
      Emplaced tag msg r → Emplaced tag msg (r.emplaceValue tag node)

theorem Emplaced.one (tag : Int) (msg : LVMessage) (node : LVMessageValue) :
    Emplaced tag msg (msg.emplaceValue tag node) :=
  Emplaced.step msg node Emplaced.same

theorem Emplaced.trans {tag : Int} {a b c : LVMessage} (h1 : Emplaced tag a b)
    (h2 : Emplaced tag b c) : Emplaced tag a c := by
  induction h2 with
  | same => exact h1
  | step r node _ ih => exact Emplaced.step r node ih

theorem Emplaced.metadata {tag : Int} {msg r : LVMessage} (h : Emplaced tag msg r) :
    r._metadata = msg._metadata := by
  induction h with
  | same => rfl
  | step r node _ ih => simpa using ih

theorem Emplaced.oneof {tag : Int} {msg r : LVMessage} (h : Emplaced tag msg r) :
    r._oneofContainerToSelectedIndexMap = msg._oneofContainerToSelectedIndexMap := by
  induction h with
  | same => rfl
  | step r node _ ih => simpa using ih

theorem Emplaced.keys {tag : Int} {msg r : LVMessage} (h : Emplaced tag msg r) (k : Int)
    (hk : k ∈ keys r._values) : k = tag ∨ k ∈ keys msg._values := by
  induction h with
  | same => exact Or.inr hk
  | step r node _ ih =>
    rw [LVMessage.emplaceValue_values, mem_keys_emplace] at hk
    rcases hk with hk | hk
    · exact Or.inl hk
    · exact ih hk

/-! ## What the typed readers do to the tree -/

/-- The array handle in the slot at `start` is null, points to a null block, or has the
element count 0. -/
abbrev EmptyHandle (m : Memory) (start : Nat) : Prop :=
  m.readPtr start = 0 ∨ m.readPtr (m.readPtr start) = 0
    ∨ m.readInt32 (m.readPtr (m.readPtr start)) = 0

/-- An adapter that, when it reads, leaves the tree as it is or emplaces nodes at the tag
of its descriptor. -/
def WellKnownAdapter.EmplacesOnly (a : WellKnownAdapter) : Prop :=
  ∀ md start m msg r, a.CopyFromClusterToMessage md start m msg = .ok r →
    Emplaced md.protobufIndex msg r

/-- The outcome of `CopyEnumToCluster`, in monadic form: the steps of the body in source
order, each exception ending the call. -/
theorem CopyEnumToCluster_eq (env : Env) (metadata : MessageElementMetadata) (start : Nat)
    (value : LVMessageValue) (m : Memory) :
    CopyEnumToCluster env metadata start value m = (do
      let owner ← metadata.owner env
      let enumMetadata := owner.FindEnumMetadata metadata.embeddedMessageName
      if metadata.isRepeated then
        match value with
        | .repeated .enum _ repeatedEnum =>
          let count := repeatedEnum.length
          let mappedArray ← CopyEnumToCluster.mapArray enumMetadata repeatedEnum
          if count ≠ 0 then
            let m1 := NumericArrayResize 0x03 1 start count m
            let array := m1.readPtr start
            let block := m1.readPtr array
            let m2 := m1.writeInt block 4 count
            pure (m2.store (LV1DArray.bytes block 0 4) (encodeArray 4 mappedArray))
          else pure m
        | _ => .error .badCast
      else
        match value with
        | .scalar .enum _ enumValueFromProtobuf =>
          let e ← deref enumMetadata
          let lvValue ← e.GetLVEnumValueFromProtoValue enumValueFromProtobuf
          pure (m.writeInt start 4 lvValue)
        | _ => .error .badCast) := by
  unfold CopyEnumToCluster CopyEnumToCluster.run
  cases metadata.owner env with
  | error f => rfl
  | ok owner =>
    simp only [ok_bind]
    by_cases hrep : metadata.isRepeated = true
    · simp only [hrep, if_true]
      cases value with
      | repeated c tag repeatedEnum =>
        cases c with
        | enum =>
          dsimp only
          cases CopyEnumToCluster.mapArray
              (owner.FindEnumMetadata metadata.embeddedMessageName) repeatedEnum with
          | error f => rfl
          | ok mappedArray =>
            simp only [ok_bind]
            split_ifs <;> rfl
        | _ => rfl
      | _ => rfl
    · simp only [hrep, Bool.false_eq_true, if_false]
      cases value with
      | scalar c tag v =>
        cases c with
        | enum =>
          dsimp only
          cases deref (owner.FindEnumMetadata metadata.embeddedMessageName) with
          | error f => rfl
          | ok e =>
            simp only [ok_bind]
            cases e.GetLVEnumValueFromProtoValue v <;> rfl
        | _ => rfl
      | _ => rfl

/-- The outcome of `CopyEnumFromCluster`, in monadic form: the steps of the body in source
order, each exception ending the call. -/
theorem CopyEnumFromCluster_eq (env : Env) (metadata : MessageElementMetadata) (start : Nat)
    (m : Memory) (message : LVMessage) :
    CopyEnumFromCluster env metadata start m message = (do
      let owner ← metadata.owner env
      let enumMetadata := owner.FindEnumMetadata metadata.embeddedMessageName
      if metadata.isRepeated then
        let array := m.readPtr start
        if array = 0 then pure message
        else
          let block := m.readPtr array
          if block = 0 then pure message
          else
            let count := m.readInt32 block
            if count = 0 then pure message
            else if count < 0 then .error .badCount
            else
              let data := LV1DArray.bytes block 0 4
              let mappedArray ← CopyEnumFromCluster.mapArray enumMetadata m data count.toNat
              pure (message.emplaceValue metadata.protobufIndex
                (.repeated .enum metadata.protobufIndex mappedArray))
      else
        let enumValueFromLV := m.readInt32 start
        let e ← deref enumMetadata
        let protoValue ← e.GetProtoValueFromLVEnumValue enumValueFromLV
        pure (message.emplaceValue metadata.protobufIndex
          (.scalar .enum metadata.protobufIndex protoValue))) := by
  unfold CopyEnumFromCluster CopyEnumFromCluster.run
  cases metadata.owner env with
  | error f => rfl
  | ok owner =>
    simp only [ok_bind]
    by_cases hrep : metadata.isRepeated = true
    · simp only [hrep, if_true]
      split_ifs
      · rfl
      · rfl
      · rfl
      · rfl
      · cases CopyEnumFromCluster.mapArray
          (owner.FindEnumMetadata metadata.embeddedMessageName) m
          (LV1DArray.bytes (m.readPtr (m.readPtr start)) 0 4)
          (m.readInt32 (m.readPtr (m.readPtr start))).toNat <;> rfl
    · simp only [hrep, Bool.false_eq_true, if_false]
      cases deref (owner.FindEnumMetadata metadata.embeddedMessageName) with
      | error f => rfl
      | ok e =>
        simp only [ok_bind]
        cases e.GetProtoValueFromLVEnumValue (m.readInt32 start) <;> rfl

/-- Both adapters of the environment emplace only. -/
def Env.AdaptersEmplaceOnly (env : Env) : Prop :=
  env.Double2DArray.EmplacesOnly ∧ env.String2DArray.EmplacesOnly

theorem CopyFixedWidthFromCluster_emplaced (c : ValueClass) (md : MessageElementMetadata)
    (start : Nat) (m : Memory) (msg r : LVMessage)
    (h : CopyFixedWidthFromCluster c md start m msg = .ok r) :
    Emplaced md.protobufIndex msg r := by
  unfold CopyFixedWidthFromCluster at h
  split at h
  · dsimp only at h
    repeat' split at h
    all_goals first
      | (cases h; exact Emplaced.same)
      | (cases h; exact Emplaced.one _ _ _)
      | cases h
  · cases h
    exact Emplaced.one _ _ _

theorem CopyFixedWidthFromCluster_empty (c : ValueClass) (md : MessageElementMetadata)
    (start : Nat) (m : Memory) (msg : LVMessage) (hr : md.isRepeated = true)
    (he : EmptyHandle m start) :
    CopyFixedWidthFromCluster c md start m msg = .ok msg := by
  unfold CopyFixedWidthFromCluster
  rw [if_pos hr]
  dsimp only
  by_cases h1 : m.readPtr start = 0
  · rw [if_pos h1]
  · rw [if_neg h1]
    by_cases h2 : m.readPtr (m.readPtr start) = 0
    · rw [if_pos h2]
    · rw [if_neg h2]
      have h3 : m.readInt32 (m.readPtr (m.readPtr start)) = 0 := by
        rcases he with he | he | he
        · exact absurd he h1
        · exact absurd he h2
        · exact he
      rw [if_pos h3]

theorem CopyStringFromCluster_emplaced (md : MessageElementMetadata)
    (start : Nat) (m : Memory) (msg r : LVMessage)
    (h : CopyStringFromCluster md start m msg = .ok r) :
    Emplaced md.protobufIndex msg r := by
  unfold CopyStringFromCluster at h
  split at h
  · dsimp only at h
    repeat' split at h
    all_goals first
      | (rw [bind_eq_ok] at h
         obtain ⟨strs, _, h⟩ := h
         cases h
         exact Emplaced.one _ _ _)
      | (cases h; exact Emplaced.same)
  · rw [bind_eq_ok] at h
    obtain ⟨str, _, h⟩ := h
    cases h
    exact Emplaced.one _ _ _

theorem CopyStringFromCluster_empty (md : MessageElementMetadata)
    (start : Nat) (m : Memory) (msg : LVMessage) (hr : md.isRepeated = true)
    (he : EmptyHandle m start) :
    CopyStringFromCluster md start m msg = .ok msg := by
  unfold CopyStringFromCluster
  rw [if_pos hr]
  dsimp only
  have h0 : (if m.readPtr start ≠ 0 ∧ m.readPtr (m.readPtr start) ≠ 0
      then m.readInt32 (m.readPtr (m.readPtr start)) else (0 : Int)) = 0 := by
    split
    · rename_i hc
      rcases he with he | he | he
      · exact absurd he hc.1
      · exact absurd he hc.2
      · exact he
    · rfl
  rw [if_neg (by rw [h0]; simp)]

theorem CopyEnumFromCluster_emplaced (env : Env) (md : MessageElementMetadata)
    (start : Nat) (m : Memory) (msg r : LVMessage)
    (h : CopyEnumFromCluster env md start m msg = .ok r) :
    Emplaced md.protobufIndex msg r := by
  rw [CopyEnumFromCluster_eq] at h
  rw [bind_eq_ok] at h
  obtain ⟨owner, _, h⟩ := h
  dsimp only at h
  split at h
  · repeat' split at h
    all_goals first
      | (cases h; exact Emplaced.same)
      | cases h
      | skip
    rw [bind_eq_ok] at h
    obtain ⟨arr, _, h⟩ := h
    cases h
    exact Emplaced.one _ _ _
  · rw [bind_eq_ok] at h
    obtain ⟨e, _, h⟩ := h
    rw [bind_eq_ok] at h
    obtain ⟨v, _, h⟩ := h
    cases h
    exact Emplaced.one _ _ _

theorem CopyEnumFromCluster_empty (env : Env) (md : MessageElementMetadata)
    (start : Nat) (m : Memory) (msg r : LVMessage) (hr : md.isRepeated = true)
    (he : EmptyHandle m start) (h : CopyEnumFromCluster env md start m msg = .ok r) :
    r = msg := by
  rw [CopyEnumFromCluster_eq] at h
  rw [bind_eq_ok] at h
  obtain ⟨owner, _, h⟩ := h
  dsimp only at h
  rw [if_pos hr] at h
  by_cases h1 : m.readPtr start = 0
  · rw [if_pos h1] at h
    cases h; rfl
  · rw [if_neg h1] at h
    by_cases h2 : m.readPtr (m.readPtr start) = 0
    · rw [if_pos h2] at h
      cases h; rfl
    · rw [if_neg h2] at h
      have h3 : m.readInt32 (m.readPtr (m.readPtr start)) = 0 := by
        rcases he with he | he | he
        · exact absurd he h1
        · exact absurd he h2
        · exact he
      rw [if_pos h3] at h
      cases h; rfl

theorem CopyMessageFromCluster_emplaced (env : Env) (henv : env.AdaptersEmplaceOnly)
    (rec : LVMessage → Nat → Except Fault LVMessage) (md : MessageElementMetadata)
    (start : Nat) (m : Memory) (msg r : LVMessage)
    (h : CopyMessageFromCluster env rec md start m msg = .ok r) :
    Emplaced md.protobufIndex msg r := by
  unfold CopyMessageFromCluster at h
  split at h
  · exact henv.1 _ _ _ _ _ h
  · exact henv.2 _ _ _ _ _ h
  · rw [bind_eq_ok] at h
    obtain ⟨owner, _, h⟩ := h
    dsimp only at h
    split at h
    · repeat' split at h
      all_goals first
        | (cases h; exact Emplaced.same)
        | cases h
        | skip
      rw [bind_eq_ok] at h
      obtain ⟨arr, _, h⟩ := h
      cases h
      exact Emplaced.one _ _ _
    · rw [bind_eq_ok] at h
      obtain ⟨e, _, h⟩ := h
      rw [bind_eq_ok] at h
      obtain ⟨v, _, h⟩ := h
      cases h
      exact Emplaced.one _ _ _

theorem CopyMessageFromCluster_empty (env : Env)
    (rec : LVMessage → Nat → Except Fault LVMessage) (md : MessageElementMetadata)
    (start : Nat) (m : Memory) (msg r : LVMessage) (hr : md.isRepeated = true)
    (hwk : md.wellKnownType = .None)
    (he : EmptyHandle m start) (h : CopyMessageFromCluster env rec md start m msg = .ok r) :
    r = msg := by
  unfold CopyMessageFromCluster at h
  rw [hwk] at h
  dsimp only at h
  rw [bind_eq_ok] at h
  obtain ⟨owner, _, h⟩ := h
  rw [if_pos hr] at h
  by_cases h1 : m.readPtr start = 0
  · rw [if_pos h1] at h
    cases h; rfl
  · rw [if_neg h1] at h
    by_cases h2 : m.readPtr (m.readPtr start) = 0
    · rw [if_pos h2] at h
      cases h; rfl
    · rw [if_neg h2] at h
      have h3 : m.readInt32 (m.readPtr (m.readPtr start)) = 0 := by
        rcases he with he | he | he
        · exact absurd he h1
        · exact absurd he h2
        · exact he
      rw [if_pos h3] at h
      cases h; rfl

theorem CopyFromCluster.dispatch_emplaced (env : Env) (henv : env.AdaptersEmplaceOnly)
    (rec : LVMessage → Nat → Except Fault LVMessage) (md : MessageElementMetadata)
    (start : Nat) (m : Memory) (msg r : LVMessage)
    (h : CopyFromCluster.dispatch env rec md start m msg = .ok r) :
    Emplaced md.protobufIndex msg r := by
  simp only [CopyFromCluster.dispatch, CopyBoolFromCluster, CopyDoubleFromCluster,
    CopyFloatFromCluster, CopyInt32FromCluster, CopyInt64FromCluster, CopyUInt32FromCluster,
    CopyUInt64FromCluster, CopySInt32FromCluster, CopySInt64FromCluster,
    CopyFixed32FromCluster, CopyFixed64FromCluster, CopySFixed32FromCluster,
    CopySFixed64FromCluster, CopyBytesFromCluster] at h
  split at h
  case h_14 =>
    rw [bind_eq_ok] at h
    obtain ⟨r1, h1, h2⟩ := h
    exact Emplaced.trans (CopyFixedWidthFromCluster_emplaced _ _ _ _ _ _ h1)
      (CopyFixedWidthFromCluster_emplaced _ _ _ _ _ _ h2)
  case h_1 => exact CopyStringFromCluster_emplaced _ _ _ _ _ h
  case h_2 => exact CopyStringFromCluster_emplaced _ _ _ _ _ h
  case h_7 => exact CopyMessageFromCluster_emplaced _ henv _ _ _ _ _ _ h
  case h_11 => exact CopyEnumFromCluster_emplaced _ _ _ _ _ _ h
  all_goals exact CopyFixedWidthFromCluster_emplaced _ _ _ _ _ _ h

theorem CopyFromCluster.dispatch_empty (env : Env)
    (rec : LVMessage → Nat → Except Fault LVMessage) (md : MessageElementMetadata)
    (start : Nat) (m : Memory) (msg r : LVMessage) (hr : md.isRepeated = true)
    (hwk : md.type = .MessageValue → md.wellKnownType = .None)
    (he : EmptyHandle m start)
    (h : CopyFromCluster.dispatch env rec md start m msg = .ok r) :
    r = msg := by
  have hf := fun c => CopyFixedWidthFromCluster_empty c md start m msg hr he
  have hs := CopyStringFromCluster_empty md start m msg hr he
  simp only [CopyFromCluster.dispatch, CopyBoolFromCluster, CopyDoubleFromCluster,
    CopyFloatFromCluster, CopyInt32FromCluster, CopyInt64FromCluster, CopyUInt32FromCluster,
    CopyUInt64FromCluster, CopySInt32FromCluster, CopySInt64FromCluster,
    CopyFixed32FromCluster, CopyFixed64FromCluster, CopySFixed32FromCluster,
    CopySFixed64FromCluster, CopyBytesFromCluster, hf, hs, ok_bind] at h
  split at h
  case h_7 ht =>
    exact CopyMessageFromCluster_empty env rec md start m msg r hr (hwk ht) he h
  case h_11 =>
    exact CopyEnumFromCluster_empty env md start m msg r hr he h
  all_goals
    cases h
    rfl

/-- What the second loop of `CopyFromCluster` can add: the table and the selections stay,
and every new key is the tag of a descriptor of the list that passed the oneof rules and
that `Q` holds for, where `Q` holds for every descriptor whose reader can add a node. -/
theorem CopyFromCluster.fields_spec (env : Env) (henv : env.AdaptersEmplaceOnly)
    (rec : LVMessage → Nat → Except Fault LVMessage) (cluster : Nat) (m : Memory)
    (Q : MessageElementMetadata → Prop)
    (list : List (Int × MessageElementMetadata))
    (hQ : ∀ p ∈ list, ¬ Q p.2 → ∀ msg r,
      CopyFromCluster.dispatch env rec p.2 (cluster + p.2.clusterOffset) m msg = .ok r → r = msg)
    (msg r : LVMessage)
    (h : CopyFromCluster.fields env rec cluster m list msg = .ok r) :
    r._metadata = msg._metadata
    ∧ r._oneofContainerToSelectedIndexMap = msg._oneofContainerToSelectedIndexMap
    ∧ ∀ k ∈ keys r._values, k ∈ keys msg._values ∨
        ∃ p ∈ list, p.2.protobufIndex = k ∧ Q p.2 ∧
          (p.2.isInOneof = true → 0 ≤ p.2.protobufIndex ∧
            mapFind p.2.oneofContainerName msg._oneofContainerToSelectedIndexMap
              = some p.2.protobufIndex) := by
  induction list generalizing msg with
  | nil =>
    simp only [CopyFromCluster.fields] at h
    cases h
    exact ⟨rfl, rfl, fun k hk => Or.inl hk⟩
  | cons p list ih =>
    obtain ⟨key, fm⟩ := p
    have ih' := fun msg h => ih (fun p hp => hQ p (List.mem_cons_of_mem _ hp)) msg h
    have lift : ∀ msg', (r._metadata = msg'._metadata
        ∧ r._oneofContainerToSelectedIndexMap = msg'._oneofContainerToSelectedIndexMap
        ∧ ∀ k ∈ keys r._values, k ∈ keys msg'._values ∨
          ∃ p ∈ list, p.2.protobufIndex = k ∧ Q p.2 ∧
            (p.2.isInOneof = true → 0 ≤ p.2.protobufIndex ∧
              mapFind p.2.oneofContainerName msg'._oneofContainerToSelectedIndexMap
                = some p.2.protobufIndex)) →
        Emplaced fm.protobufIndex msg msg' →
        (msg' ≠ msg → Q fm ∧ (fm.isInOneof = true → 0 ≤ fm.protobufIndex ∧
            mapFind fm.oneofContainerName msg._oneofContainerToSelectedIndexMap
              = some fm.protobufIndex)) →
        (r._metadata = msg._metadata
        ∧ r._oneofContainerToSelectedIndexMap = msg._oneofContainerToSelectedIndexMap
        ∧ ∀ k ∈ keys r._values, k ∈ keys msg._values ∨
          ∃ p ∈ (key, fm) :: list, p.2.protobufIndex = k ∧ Q p.2 ∧
            (p.2.isInOneof = true → 0 ≤ p.2.protobufIndex ∧
              mapFind p.2.oneofContainerName msg._oneofContainerToSelectedIndexMap
                = some p.2.protobufIndex)) := by
      intro msg' ⟨e1, e2, e3⟩ hem hne
      refine ⟨e1.trans hem.metadata, e2.trans hem.oneof, ?_⟩
      intro k hk
      rcases e3 k hk with hk' | ⟨p, hp, hp1, hp2, hp3⟩
      · by_cases hsame : msg' = msg
        · subst hsame
          exact Or.inl hk'
        · rcases hem.keys k hk' with hk2 | hk2
          · exact Or.inr ⟨(key, fm), List.mem_cons_self _ _, hk2.symm, (hne hsame).1,
              (hne hsame).2⟩
          · exact Or.inl hk2
      · refine Or.inr ⟨p, List.mem_cons_of_mem _ hp, hp1, hp2, ?_⟩
        rw [← hem.oneof]
        exact hp3
    simp only [CopyFromCluster.fields] at h
    split at h
    · rename_i hin
      split at h
      · exact lift msg (ih' msg h) Emplaced.same (fun hne => absurd rfl hne)
      · rename_i hneg
        split at h
        · cases h
        · rename_i sel hsel
          split at h
          · exact lift msg (ih' msg h) Emplaced.same (fun hne => absurd rfl hne)
          · rename_i hselEq
            rw [bind_eq_ok] at h
            obtain ⟨msg1, hd, h⟩ := h
            refine lift msg1 (ih' msg1 h) (CopyFromCluster.dispatch_emplaced env henv rec _ _ _ _ _ hd) ?_
            intro hne
            refine ⟨?_, fun _ => ⟨by omega, ?_⟩⟩
            · by_contra hq
              exact hne (hQ (key, fm) (List.mem_cons_self _ _) hq msg msg1 hd)
            · rw [hsel]
              simp only [ne_eq, not_not] at hselEq
              rw [hselEq]
    · rename_i hin
      rw [bind_eq_ok] at h
      obtain ⟨msg1, hd, h⟩ := h
      refine lift msg1 (ih' msg1 h) (CopyFromCluster.dispatch_emplaced env henv rec _ _ _ _ _ hd) ?_
      intro hne
      refine ⟨?_, fun hc => absurd hc hin⟩
      by_contra hq
      exact hne (hQ (key, fm) (List.mem_cons_self _ _) hq msg msg1 hd)

/-- The descriptors the first loop of `CopyFromCluster` records a selector for. -/
def isDiscriminator (fm : MessageElementMetadata) : Bool :=
  fm.isInOneof && decide (fm.protobufIndex < 0)

/-- The selection map the first loop of `CopyFromCluster` builds when no `assert`
fails: one entry for every discriminator descriptor, in the order of the table. -/
def selectorEntries (cluster : Nat) (m : Memory) (elements : List MessageElementMetadata) :
    List (String × Int) :=
  (elements.filter isDiscriminator).map
    (fun fm => (fm.oneofContainerName, m.readInt32 (cluster + fm.clusterOffset)))

theorem CopyFromCluster.selectors_spec (cluster : Nat) (m : Memory)
    (elements : List MessageElementMetadata) (msg r : LVMessage)
    (h : CopyFromCluster.selectors cluster m elements msg = .ok r) :
    r._values = msg._values ∧ r._metadata = msg._metadata
    ∧ r._oneofContainerToSelectedIndexMap
        = msg._oneofContainerToSelectedIndexMap ++ selectorEntries cluster m elements := by
  induction elements generalizing msg with
  | nil =>
    simp only [CopyFromCluster.selectors] at h
    cases h
    simp [selectorEntries]
  | cons fm rest ih =>
    simp only [CopyFromCluster.selectors] at h
    split at h
    · rename_i hd
      have hdisc : isDiscriminator fm = true := by
        simp [isDiscriminator, hd.1, hd.2]
      split at h
      · cases h
      · rename_i hnone
        obtain ⟨e1, e2, e3⟩ := ih _ h
        refine ⟨e1, e2, ?_⟩
        rw [e3]
        simp only [LVMessage.mk_oneof, oneofInsert, hnone,
          selectorEntries, List.filter_cons, hdisc, if_true, List.map_cons, List.append_assoc,
          List.singleton_append]
    · rename_i hd
      have hdisc : isDiscriminator fm = false := by
        simp only [isDiscriminator, Bool.and_eq_false_imp, decide_eq_false_iff_not]
        intro h1 h2
        exact hd ⟨h1, h2⟩
      obtain ⟨e1, e2, e3⟩ := ih _ h
      refine ⟨e1, e2, ?_⟩
      rw [e3]
      simp [selectorEntries, List.filter_cons, hdisc]

theorem keys_append {κ α : Type} (l1 l2 : List (κ × α)) :
    keys (l1 ++ l2) = keys l1 ++ keys l2 := by
  simp [keys]

theorem mapFind_of_mem_nodup {κ α : Type} [DecidableEq κ] (k : κ) (v : α) (l : List (κ × α))
    (hnd : (keys l).Nodup) (hm : (k, v) ∈ l) : mapFind k l = some v := by
  induction l with
  | nil => simp at hm
  | cons p l ih =>
    obtain ⟨k', v'⟩ := p
    simp only [keys, List.map_cons, List.nodup_cons] at hnd
    simp only [mapFind]
    rcases List.mem_cons.1 hm with e | hm'
    · cases e
      simp
    · have hne : k' ≠ k := by
        intro e
        subst e
        exact hnd.1 (List.mem_map.2 ⟨(k', v), hm', rfl⟩)
      simp only [hne, if_false]
      exact ih hnd.2 hm'

theorem CopyFromCluster.selectors_nodup (cluster : Nat) (m : Memory)
    (elements : List MessageElementMetadata) (msg r : LVMessage)
    (h : CopyFromCluster.selectors cluster m elements msg = .ok r)
    (hnd : (keys msg._oneofContainerToSelectedIndexMap).Nodup) :
    (keys r._oneofContainerToSelectedIndexMap).Nodup := by
  induction elements generalizing msg with
  | nil =>
    simp only [CopyFromCluster.selectors] at h
    cases h
    exact hnd
  | cons fm rest ih =>
    simp only [CopyFromCluster.selectors] at h
    split at h
    · split at h
      · cases h
      · rename_i hnone
        apply ih _ h
        rw [mapFind_eq_none_iff] at hnone
        simp only [LVMessage.mk_oneof, oneofInsert]
        rw [(mapFind_eq_none_iff _ _).2 hnone]
        simp only [keys_append]
        rw [List.nodup_append]
        refine ⟨hnd, by simp [keys], ?_⟩
        intro a ha hb
        simp only [keys, List.map_cons, List.map_nil, List.mem_singleton] at hb
        subst hb
        exact hnone ha
    · exact ih _ h hnd

/-- The two loops of `CopyFromCluster`, when it returns a tree. -/
theorem CopyFromCluster.ok_iff (env : Env) (m : Memory) (fuel : Nat) (message : LVMessage)
    (cluster : Nat) (r : LVMessage) (h : CopyFromCluster env m fuel message cluster = .ok r) :
    ∃ fuel' msg1, fuel = fuel' + 1
      ∧ CopyFromCluster.selectors cluster m message._metadata._elements message.Clear = .ok msg1
      ∧ CopyFromCluster.fields env (CopyFromCluster env m fuel') cluster m
          message._metadata._mappedElements msg1 = .ok r := by
  cases fuel with
  | zero => simp [CopyFromCluster] at h
  | succ fuel' =>
    simp only [CopyFromCluster] at h
    rw [bind_eq_ok] at h
    obtain ⟨msg1, h1, h2⟩ := h
    have e := (CopyFromCluster.selectors_spec _ _ _ _ _ h1).2.1
    rw [e] at h2
    exact ⟨fuel', msg1, rfl, h1, h2⟩

/-- The facts about a tree that `CopyFromCluster` returns which the claims on the oneof
protocol rest on: the selection map is the one of the discriminator descriptors, its
group names are distinct, and every key of the tree is the tag of a descriptor that
passed the oneof rules and for which `Q` holds. -/
theorem CopyFromCluster.result_spec (env : Env) (henv : env.AdaptersEmplaceOnly) (m : Memory)
    (fuel : Nat) (message : LVMessage) (cluster : Nat) (r : LVMessage)
    (h : CopyFromCluster env m fuel message cluster = .ok r)
    (Q : MessageElementMetadata → Prop)
    (hQ : ∀ p ∈ message._metadata._mappedElements, ¬ Q p.2 →
      ∀ (rec : LVMessage → Nat → Except Fault LVMessage) msg r,
      CopyFromCluster.dispatch env rec p.2 (cluster + p.2.clusterOffset) m msg = .ok r → r = msg) :
    r._oneofContainerToSelectedIndexMap
        = selectorEntries cluster m message._metadata._elements
    ∧ (keys r._oneofContainerToSelectedIndexMap).Nodup
    ∧ ∀ k ∈ keys r._values,
        ∃ p ∈ message._metadata._mappedElements, p.2.protobufIndex = k ∧ Q p.2 ∧
          (p.2.isInOneof = true → 0 ≤ p.2.protobufIndex ∧
            mapFind p.2.oneofContainerName (selectorEntries cluster m message._metadata._elements)
              = some p.2.protobufIndex) := by
  obtain ⟨fuel', msg1, _, h1, h2⟩ := CopyFromCluster.ok_iff env m fuel message cluster r h
  obtain ⟨e1, e2, e3⟩ := CopyFromCluster.selectors_spec _ _ _ _ _ h1
  have hnd := CopyFromCluster.selectors_nodup _ _ _ _ _ h1 (by simp [LVMessage.Clear, keys])
  obtain ⟨f1, f2, f3⟩ := CopyFromCluster.fields_spec env henv _ cluster m Q _
    (fun p hp hq msg r hd => hQ p hp hq _ msg r hd) msg1 r h2
  have e3' : msg1._oneofContainerToSelectedIndexMap
      = selectorEntries cluster m message._metadata._elements := by
    rw [e3]
    simp [LVMessage.Clear]
  refine ⟨f2.trans e3', by rw [f2]; exact hnd, ?_⟩
  intro k hk
  rcases f3 k hk with hk' | ⟨p, hp, hp1, hp2, hp3⟩
  · rw [e1] at hk'
    simp [LVMessage.Clear, keys] at hk'
  · exact ⟨p, hp, hp1, hp2, by rw [← e3']; exact hp3⟩

/-! ## Concrete tables, trees and clusters -/

/-- The enum table of scenario C: wire `0` is native `100`, wire `1` is native `101`. -/
def exampleEnum : EnumMetadata := { pairs := [(0, 100), (1, 101)] }

/-- Scenario D: the table of the message type `Leaf`, which has no field. -/
def scenarioD.leaf : MessageMetadata :=
  { _elements := [], _mappedElements := [], clusterSize := 8, alignmentRequirement := 8 }

/-- Scenario D: the repeated nested-message field of `Inner`, tag 1. -/
def scenarioD.leaves : MessageElementMetadata :=
  { type := .MessageValue, isRepeated := true, protobufIndex := 1, clusterOffset := 0,
    embeddedMessageName := "Leaf" }

/-- Scenario D: the table of the message type `Inner`. -/
def scenarioD.inner : MessageMetadata :=
  { _elements := [scenarioD.leaves], _mappedElements := [(1, scenarioD.leaves)],
    clusterSize := 8, alignmentRequirement := 8 }

/-- Scenario D: the nested-message field of the outer message, tag 1. -/
def scenarioD.field : MessageElementMetadata :=
  { type := .MessageValue, isRepeated := false, protobufIndex := 1, clusterOffset := 0,
    embeddedMessageName := "Inner" }

/-- Scenario D: the table of the outer message. -/
def scenarioD.table : MessageMetadata :=
  { _elements := [scenarioD.field], _mappedElements := [(1, scenarioD.field)],
    clusterSize := 8, alignmentRequirement := 8 }

/-- Scenario D: the tree whose nested message holds an empty repeated nested-message
collection. -/
def scenarioD.tree : LVMessage :=
  .mk [(1, .nested 1 (.mk [(1, .repeatedNested 1 [])] scenarioD.inner []))] scenarioD.table []

/-- A registry that knows the enum `Color` and the message types `Inner` and `Leaf`,
with adapters that always fail. -/
def exampleEnv : Env :=
  { owner :=
      { FindMetadata := fun name =>
          if name = "Inner" then some scenarioD.inner
          else if name = "Leaf" then some scenarioD.leaf else none,
        FindEnumMetadata := fun name => if name = "Color" then some exampleEnum else none },
    Double2DArray :=
      { CopyFromMessageToCluster := fun _ _ _ _ => .error .adapter,
        CopyFromClusterToMessage := fun _ _ _ _ => .error .adapter },
    String2DArray :=
      { CopyFromMessageToCluster := fun _ _ _ _ => .error .adapter,
        CopyFromClusterToMessage := fun _ _ _ _ => .error .adapter } }

theorem exampleEnv_adapters : exampleEnv.AdaptersEmplaceOnly := by
  constructor <;> intro md start m msg r h <;> cases h

/-- Scenario B: the string member of the oneof group `choice`, tag 5. -/
def scenarioB.member5 : MessageElementMetadata :=
  { type := .StringValue, isRepeated := false, protobufIndex := 5, clusterOffset := 0,
    isInOneof := true, oneofContainerName := "choice" }

/-- Scenario B: the int64 member of the oneof group `choice`, tag 6. -/
def scenarioB.member6 : MessageElementMetadata :=
  { type := .Int64Value, isRepeated := false, protobufIndex := 6, clusterOffset := 8,
    isInOneof := true, oneofContainerName := "choice" }

/-- Scenario B: the discriminator of the oneof group `choice`, after its members. -/
def scenarioB.selector : MessageElementMetadata :=
  { type := .Int32Value, isRepeated := false, protobufIndex := -1, clusterOffset := 16,
    isInOneof := true, oneofContainerName := "choice" }

/-- Scenario B: the descriptor table. -/
def scenarioB.table : MessageMetadata :=
  { _elements := [scenarioB.member5, scenarioB.member6, scenarioB.selector],
    _mappedElements :=
      [(-1, scenarioB.selector), (5, scenarioB.member5), (6, scenarioB.member6)],
    clusterSize := 24, alignmentRequirement := 8 }

/-- Scenario B: the tree with tag 6 selected and holding 7. -/
def scenarioB.tree : LVMessage :=
  .mk [(6, .scalar .int64 6 7)] scenarioB.table [("choice", 6)]

/-- Scenario B: a cluster at address 16 of a zero-filled memory, holding 7 in the slot
of tag 6 and 6 in the discriminator slot. -/
def scenarioB.memory : Memory :=
  ((Memory.zero 64).writeInt (16 + 8) 8 7).writeInt (16 + 16) 4 6

/-- A descriptor with a negative tag that is in no oneof group. -/
def negativeTag.field : MessageElementMetadata :=
  { type := .Int32Value, isRepeated := false, protobufIndex := -1, clusterOffset := 0 }

/-- A table whose only descriptor has a negative tag and is in no oneof group. -/
def negativeTag.table : MessageMetadata :=
  { _elements := [negativeTag.field], _mappedElements := [(-1, negativeTag.field)],
    clusterSize := 4, alignmentRequirement := 4 }

/-! ## C5: the selection map after `CopyFromCluster` -/

/-- C5, as stated, fails: a descriptor whose protobufIndex is negative but which is in
no oneof group gets no entry in the selection map (the first loop asks for `isInOneof`
too); the map that `CopyFromCluster` returns for such a table is empty. -/
theorem C5_counterexample :
    negativeTag.field ∈ negativeTag.table._elements ∧ negativeTag.field.protobufIndex < 0
    ∧ (CopyFromCluster exampleEnv ((Memory.zero 64).writeInt 16 4 7) 1
          (.mk [] negativeTag.table []) 16).map
        (fun r => r._oneofContainerToSelectedIndexMap) = .ok [] :=
  ⟨by decide, by decide, by rfl⟩

/-- C5, amended: when `CopyFromCluster` returns a tree, its selection map has exactly
one entry per descriptor of `_elements` that is in a oneof and has a negative
protobufIndex, in table order, keyed by the group name and holding the 4-byte integer
at the descriptor's clusterOffset; the group names are distinct, so the lookup of every
such descriptor's group gives that integer. -/
theorem C5_selection_map (env : Env) (henv : env.AdaptersEmplaceOnly) (m : Memory)
    (fuel : Nat) (message : LVMessage) (cluster : Nat) (r : LVMessage)
    (h : CopyFromCluster env m fuel message cluster = .ok r) :
    r._oneofContainerToSelectedIndexMap
        = (message._metadata._elements.filter
            (fun fm => fm.isInOneof && decide (fm.protobufIndex < 0))).map
          (fun fm => (fm.oneofContainerName, m.readInt32 (cluster + fm.clusterOffset)))
    ∧ (keys r._oneofContainerToSelectedIndexMap).Nodup
    ∧ ∀ fm ∈ message._metadata._elements, fm.isInOneof = true → fm.protobufIndex < 0 →
        mapFind fm.oneofContainerName r._oneofContainerToSelectedIndexMap
          = some (m.readInt32 (cluster + fm.clusterOffset)) := by
  obtain ⟨e1, e2, _⟩ := CopyFromCluster.result_spec env henv m fuel message cluster r h
    (fun _ => True) (fun _ _ hq => absurd trivial hq)
  refine ⟨e1, e2, ?_⟩
  intro fm hfm h1 h2
  apply mapFind_of_mem_nodup _ _ _ e2
  rw [e1]
  simp only [selectorEntries, List.mem_map, List.mem_filter]
  exact ⟨fm, ⟨hfm, by simp [isDiscriminator, h1, h2]⟩, rfl⟩

/-- C5 at scenario B: the cluster holds 6 in the discriminator slot of `choice`, and the
tree read from it selects 6 for `choice`. -/
theorem C5_selection_map_witness :
    CopyFromCluster exampleEnv scenarioB.memory 1 (.mk [] scenarioB.table []) 16
        = .ok scenarioB.tree
    ∧ mapFind "choice" scenarioB.tree._oneofContainerToSelectedIndexMap
        = some (scenarioB.memory.readInt32 (16 + 16)) :=
  ⟨by rfl,
   (C5_selection_map exampleEnv exampleEnv_adapters scenarioB.memory 1
      (.mk [] scenarioB.table []) 16 scenarioB.tree (by rfl)).2.2
      scenarioB.selector (by decide) (by decide) (by decide)⟩

/-! ## C4, C6: oneof members and discriminators in the tree read -/

/-- The tags of the descriptors of a table, in the order of `_mappedElements`. -/
def MessageMetadata.tags (md : MessageMetadata) : List Int :=
  md._mappedElements.map (fun p => p.2.protobufIndex)

theorem MessageMetadata.eq_of_tag_eq (md : MessageMetadata) (hnd : md.tags.Nodup)
    (p q : Int × MessageElementMetadata) (hp : p ∈ md._mappedElements)
    (hq : q ∈ md._mappedElements) (e : p.2.protobufIndex = q.2.protobufIndex) : p = q :=
  List.inj_on_of_nodup_map hnd hp hq e

/-- C4: when `CopyFromCluster` returns a tree and the tags of the table are distinct, a
oneof member descriptor with tag t has an entry in the tree only if the integer read
from the discriminator slot of its group is t; two members of one group that are both
present have the same tag, so at most one member of a group is present; and no member
of a group is present when the discriminator equals no member's tag. -/
theorem C4_member_only_if_selected (env : Env) (henv : env.AdaptersEmplaceOnly) (m : Memory)
    (fuel : Nat) (message : LVMessage) (cluster : Nat) (r : LVMessage)
    (h : CopyFromCluster env m fuel message cluster = .ok r)
    (hnd : message._metadata.tags.Nodup) :
    (∀ p ∈ message._metadata._mappedElements, p.2.isInOneof = true → 0 ≤ p.2.protobufIndex →
        p.2.protobufIndex ∈ keys r._values →
        mapFind p.2.oneofContainerName
            ((message._metadata._elements.filter
                (fun fm => fm.isInOneof && decide (fm.protobufIndex < 0))).map
              (fun fm => (fm.oneofContainerName, m.readInt32 (cluster + fm.clusterOffset))))
          = some p.2.protobufIndex)
    ∧ (∀ p ∈ message._metadata._mappedElements, ∀ q ∈ message._metadata._mappedElements,
        p.2.isInOneof = true → q.2.isInOneof = true →
        0 ≤ p.2.protobufIndex → 0 ≤ q.2.protobufIndex →
        p.2.oneofContainerName = q.2.oneofContainerName →
        p.2.protobufIndex ∈ keys r._values → q.2.protobufIndex ∈ keys r._values →
        p.2.protobufIndex = q.2.protobufIndex)
    ∧ (∀ (group : String) (selected : Int),
        mapFind group r._oneofContainerToSelectedIndexMap = some selected →
        (∀ q ∈ message._metadata._mappedElements, q.2.isInOneof = true →
          q.2.oneofContainerName = group → q.2.protobufIndex ≠ selected) →
        ∀ p ∈ message._metadata._mappedElements, p.2.isInOneof = true →
          p.2.oneofContainerName = group → p.2.protobufIndex ∉ keys r._values) := by
  obtain ⟨e1, _, e3⟩ := CopyFromCluster.result_spec env henv m fuel message cluster r h
    (fun _ => True) (fun _ _ hq => absurd trivial hq)
  have key : ∀ p ∈ message._metadata._mappedElements, p.2.isInOneof = true →
      p.2.protobufIndex ∈ keys r._values →
      0 ≤ p.2.protobufIndex ∧
      mapFind p.2.oneofContainerName (selectorEntries cluster m message._metadata._elements)
        = some p.2.protobufIndex := by
    intro p hp hin hk
    obtain ⟨q, hq, hq1, _, hq3⟩ := e3 _ hk
    have e := MessageMetadata.eq_of_tag_eq _ hnd q p hq hp hq1
    subst e
    exact hq3 hin
  refine ⟨fun p hp hin _ hk => (key p hp hin hk).2, ?_, ?_⟩
  · intro p hp q hq hpin hqin _ _ hname hpk hqk
    have h1 := (key p hp hpin hpk).2
    have h2 := (key q hq hqin hqk).2
    rw [hname, h2] at h1
    exact (Option.some.inj h1).symm
  · intro group selected hsel hall p hp hpin hname hpk
    have h1 := (key p hp hpin hpk).2
    rw [hname, ← e1, hsel] at h1
    exact hall p hp hpin hname (Option.some.inj h1).symm

/-- C4 at scenario B: the tree read holds tag 6, and the discriminator slot of the group
of tag 6 holds 6; tag 5, which the discriminator does not select, is absent. -/
theorem C4_member_only_if_selected_witness :
    (6 : Int) ∈ keys scenarioB.tree._values
    ∧ scenarioB.memory.readInt32 (16 + 16) = 6
    ∧ (5 : Int) ∉ keys scenarioB.tree._values :=
  have hC := C4_member_only_if_selected exampleEnv exampleEnv_adapters scenarioB.memory 1
    (.mk [] scenarioB.table []) 16 scenarioB.tree (by rfl) (by decide)
  ⟨by decide,
   by
     have h6 := hC.1 (6, scenarioB.member6) (by decide) (by decide) (by decide) (by decide)
     exact Option.some.inj h6,
   fun h5 =>
     absurd (hC.1 (5, scenarioB.member5) (by decide) (by decide) (by decide) h5) (by decide)⟩

/-- C6: when `CopyFromCluster` returns a tree, every entry of the tree has the tag of a
descriptor of the table that is not a oneof discriminator; so, the tags of the table
being distinct, the tree has no entry at the tag of any oneof discriminator descriptor
(a descriptor in a oneof group with protobufIndex < 0). -/
theorem C6_no_discriminator_entry (env : Env) (henv : env.AdaptersEmplaceOnly) (m : Memory)
    (fuel : Nat) (message : LVMessage) (cluster : Nat) (r : LVMessage)
    (h : CopyFromCluster env m fuel message cluster = .ok r) :
    (∀ k ∈ keys r._values, ∃ p ∈ message._metadata._mappedElements,
        p.2.protobufIndex = k ∧ ¬ (p.2.isInOneof = true ∧ p.2.protobufIndex < 0))
    ∧ (message._metadata.tags.Nodup →
        ∀ p ∈ message._metadata._mappedElements, p.2.isInOneof = true →
          p.2.protobufIndex < 0 → p.2.protobufIndex ∉ keys r._values) := by
  obtain ⟨_, _, e3⟩ := CopyFromCluster.result_spec env henv m fuel message cluster r h
    (fun _ => True) (fun _ _ hq => absurd trivial hq)
  have key : ∀ k ∈ keys r._values, ∃ p ∈ message._metadata._mappedElements,
      p.2.protobufIndex = k ∧ ¬ (p.2.isInOneof = true ∧ p.2.protobufIndex < 0) := by
    intro k hk
    obtain ⟨q, hq, hq1, _, hq3⟩ := e3 k hk
    refine ⟨q, hq, hq1, ?_⟩
    rintro ⟨hin, hneg⟩
    have := (hq3 hin).1
    omega
  refine ⟨key, ?_⟩
  intro hnd p hp hin hneg hk
  obtain ⟨q, hq, hq1, hq2⟩ := key _ hk
  have e := MessageMetadata.eq_of_tag_eq _ hnd q p hq hp hq1
  subst e
  exact hq2 ⟨hin, hneg⟩

/-- C6 at scenario B: the tree read from the cluster has no entry at the tag `-1` of the
discriminator of `choice`. -/
theorem C6_no_discriminator_entry_witness :
    CopyFromCluster exampleEnv scenarioB.memory 1 (.mk [] scenarioB.table []) 16
        = .ok scenarioB.tree
    ∧ scenarioB.selector.protobufIndex ∉ keys scenarioB.tree._values :=
  ⟨by rfl,
   (C6_no_discriminator_entry exampleEnv exampleEnv_adapters scenarioB.memory 1
      (.mk [] scenarioB.table []) 16 scenarioB.tree (by rfl)).2 (by decide)
      (-1, scenarioB.selector) (by decide) (by decide) (by decide)⟩

/-! ## C8: an empty repeated field is absent from the tree read -/

/-- C8: when `CopyFromCluster` returns a tree and the tags of the table are distinct, a
repeated descriptor of any of the seventeen kinds (for the nested-message kind: one that
is not a well-known composite type, which the adapters read) whose array handle is null,
points to a null block or has the element count 0 has no entry in the tree. -/
theorem C8_empty_repeated_absent (env : Env) (henv : env.AdaptersEmplaceOnly) (m : Memory)
    (fuel : Nat) (message : LVMessage) (cluster : Nat) (r : LVMessage)
    (h : CopyFromCluster env m fuel message cluster = .ok r)
    (hnd : message._metadata.tags.Nodup)
    (p : Int × MessageElementMetadata) (hp : p ∈ message._metadata._mappedElements)
    (hrep : p.2.isRepeated = true)
    (hwk : p.2.type = .MessageValue → p.2.wellKnownType = .None)
    (hempty : m.readPtr (cluster + p.2.clusterOffset) = 0
      ∨ m.readPtr (m.readPtr (cluster + p.2.clusterOffset)) = 0
      ∨ m.readInt32 (m.readPtr (m.readPtr (cluster + p.2.clusterOffset))) = 0) :
    p.2.protobufIndex ∉ keys r._values ∧ mapFind p.2.protobufIndex r._values = none := by
  have hQ : ∀ q ∈ message._metadata._mappedElements,
      ¬ ¬ (q.2.isRepeated = true ∧ (q.2.type = .MessageValue → q.2.wellKnownType = .None)
        ∧ EmptyHandle m (cluster + q.2.clusterOffset)) →
      ∀ (rec : LVMessage → Nat → Except Fault LVMessage) msg r,
      CopyFromCluster.dispatch env rec q.2 (cluster + q.2.clusterOffset) m msg = .ok r →
        r = msg := by
    intro q _ hq rec msg r hd
    obtain ⟨h1, h2, h3⟩ := not_not.1 hq
    exact CopyFromCluster.dispatch_empty env rec q.2 _ m msg r h1 h2 h3 hd
  obtain ⟨_, _, e3⟩ := CopyFromCluster.result_spec env henv m fuel message cluster r h
    (fun q => ¬ (q.isRepeated = true ∧ (q.type = .MessageValue → q.wellKnownType = .None)
        ∧ EmptyHandle m (cluster + q.clusterOffset))) hQ
  have habs : p.2.protobufIndex ∉ keys r._values := by
    intro hk
    obtain ⟨q, hq, hq1, hq2, _⟩ := e3 _ hk
    have e := MessageMetadata.eq_of_tag_eq _ hnd q p hq hp hq1
    subst e
    exact hq2 ⟨hrep, hwk, hempty⟩
  exact ⟨habs, (mapFind_eq_none_iff _ _).2 habs⟩

/-- C8 at scenario D: in a zero-filled cluster the repeated nested-message field of
`Inner` has a null handle, and the tree read has no entry for its tag. -/
theorem C8_empty_repeated_absent_witness :
    CopyFromCluster exampleEnv (Memory.zero 64) 1 (.mk [] scenarioD.inner []) 16
        = .ok (.mk [] scenarioD.inner [])
    ∧ (Memory.zero 64).readPtr (16 + scenarioD.leaves.clusterOffset) = 0
    ∧ mapFind scenarioD.leaves.protobufIndex (LVMessage.mk [] scenarioD.inner [])._values
        = none :=
  ⟨by rfl, by rfl,
   (C8_empty_repeated_absent exampleEnv exampleEnv_adapters (Memory.zero 64) 1
      (.mk [] scenarioD.inner []) 16 (.mk [] scenarioD.inner []) (by rfl) (by decide)
      (1, scenarioD.leaves) (by decide) (by decide) (fun _ => by decide) (Or.inl (by rfl))).2⟩

/-! ## C10: the enum writer stores the translated values -/

/-- Scenario C: the enum field, tag 1. -/
def scenarioC.field : MessageElementMetadata :=
  { type := .EnumValue, isRepeated := false, protobufIndex := 1, clusterOffset := 0,
    embeddedMessageName := "Color" }

/-- Scenario C: a repeated enum field, tag 2. -/
def scenarioC.repeatedField : MessageElementMetadata :=
  { type := .EnumValue, isRepeated := true, protobufIndex := 2, clusterOffset := 8,
    embeddedMessageName := "Color" }

theorem CopyEnumToCluster.mapArray_ok (e : EnumMetadata) (f : Int → Int) (wires : List Int)
    (h : ∀ w ∈ wires, e.GetLVEnumValueFromProtoValue w = .ok (f w)) :
    CopyEnumToCluster.mapArray (some e) wires = .ok (wires.map f) := by
  induction wires with
  | nil => rfl
  | cons w ws ih =>
    simp only [CopyEnumToCluster.mapArray, deref, ok_bind, h w (List.mem_cons_self _ _),
      ih (fun w' hw' => h w' (List.mem_cons_of_mem _ hw')), pure_eq_ok, List.map_cons]

/-- C10: with the enum table `e` of the field and `f` the translation it makes
(`f wire` is the native value of `wire`, a 32-bit integer), `CopyEnumToCluster` stores
translated values.  Non-repeated: the 4-byte slot holds `f wire`.  Repeated with
n > 0 elements, the slot being in allocated memory with a null or well-formed handle:
the array the slot's handle leads to has count n, and its i-th element is `f wire_i`
for every i < n, in the original order. -/
theorem C10_enum_write (env : Env) (md : MessageElementMetadata) (start : Nat) (m : Memory)
    (tag : Int) (e : EnumMetadata) (f : Int → Int)
    (hown : md._owner = true)
    (hfind : env.owner.FindEnumMetadata md.embeddedMessageName = some e) :
    (md.isRepeated = false → ∀ wire : Int,
      e.GetLVEnumValueFromProtoValue wire = .ok (f wire) →
      -2147483648 ≤ f wire → f wire < 2147483648 →
      ∃ m', CopyEnumToCluster env md start (.scalar .enum tag wire) m = .ok m'
        ∧ m'.readInt32 start = f wire)
    ∧ (md.isRepeated = true → ∀ wires : List Int, wires ≠ [] →
      wires.length < 2147483648 →
      (∀ w ∈ wires, e.GetLVEnumValueFromProtoValue w = .ok (f w)
        ∧ -2147483648 ≤ f w ∧ f w < 2147483648) →
      0 < m.brk → start + 8 ≤ m.brk → m.brk + 8 + (4 + wires.length * 4) < 256 ^ 8 →
      (m.readPtr start = 0 ∨ (m.readPtr start + 8 ≤ m.brk
        ∧ (m.readPtr start + 8 ≤ start ∨ start + 8 ≤ m.readPtr start))) →
      ∃ m', CopyEnumToCluster env md start (.repeated .enum tag wires) m = .ok m'
        ∧ m'.readPtr start ≠ 0 ∧ m'.readPtr (m'.readPtr start) ≠ 0
        ∧ m'.readInt32 (m'.readPtr (m'.readPtr start)) = wires.length
        ∧ ∀ i (hi : i < wires.length),
            m'.readInt32 (LV1DArray.bytes (m'.readPtr (m'.readPtr start)) (4 * i) 4)
              = f wires[i]) := by
  constructor
  · intro hrep wire hw h1 h2
    refine ⟨m.writeInt start 4 (f wire), ?_, Memory.readInt32_writeInt_same _ _ _ h1 h2⟩
    simp [CopyEnumToCluster_eq, MessageElementMetadata.owner, hown, hfind, hrep, deref, hw,
      ok_bind, pure_eq_ok]
  · intro hrep wires hne hlen hw hbrk hslot hfit hh
    have hmap := CopyEnumToCluster.mapArray_ok e f wires (fun w hw' => (hw w hw').1)
    have hlen0 : wires.length ≠ 0 := by
      intro h0
      exact hne (List.length_eq_zero.1 h0)
    obtain ⟨handle, block, r1, r2, r3, r4, r5, r6, r7, r8, r9, r10⟩ :=
      NumericArrayResize_spec 0x03 1 start wires.length m hbrk hslot
        (by simpa [typeCodeWidth, alignUp] using hfit) hh
    simp only [typeCodeWidth, alignUp] at r8 r9
    norm_num at r8 r9
    set m1 := NumericArrayResize 0x03 1 start wires.length m with hm1
    set m3 := ((m1.writeInt block 4 (wires.length : Int)).store (LV1DArray.bytes block 0 4)
      (encodeArray 4 (wires.map f))) with hm3
    have hdata : LV1DArray.bytes block 0 4 = block + 4 := by
      simp [LV1DArray.bytes, alignUp]
    have hres : CopyEnumToCluster env md start (.repeated .enum tag wires) m = .ok m3 := by
      simp only [CopyEnumToCluster_eq, MessageElementMetadata.owner, hown, if_true, ok_bind,
        hfind, hrep, hmap, pure_eq_ok, ne_eq, hlen0, not_false_eq_true, ← hm1, r1, r2]
    have hp1 : m3.readPtr start = handle := by
      rw [hm3, hdata]
      unfold Memory.readPtr Memory.writeInt
      rw [Memory.readU_store_disjoint _ _ _ _ _ (by omega),
        Memory.readU_writeU_disjoint _ _ _ _ _ _ (by omega)]
      exact r1
    have hp2 : m3.readPtr handle = block := by
      rw [hm3, hdata]
      unfold Memory.readPtr Memory.writeInt
      rw [Memory.readU_store_disjoint _ _ _ _ _ (by omega),
        Memory.readU_writeU_disjoint _ _ _ _ _ _ (by omega)]
      exact r2
    refine ⟨m3, hres, by rw [hp1]; exact r3, by rw [hp1, hp2]; exact r4, ?_, ?_⟩
    · rw [hp1, hp2, hm3, hdata]
      unfold Memory.readInt32
      rw [Memory.readU_store_disjoint _ _ _ _ _ (by omega)]
      exact Memory.readInt32_writeInt_same _ _ _ (by omega) (by omega)
    · intro i hi
      rw [hp1, hp2]
      have hload : m3.load (block + 4) (4 * (wires.map f).length)
          = encodeArray 4 (wires.map f) := by
        rw [hm3, hdata, ← encodeArray_length]
        exact Memory.load_store_same _ _ _
      have hread := readU_of_load_encodeArray m3 4 (wires.map f) (block + 4) hload i
        (by simpa using hi)
      have hbytes : LV1DArray.bytes block (4 * i) 4 = block + 4 + 4 * i := by
        simp [LV1DArray.bytes, alignUp]
      rw [hbytes]
      unfold Memory.readInt32
      rw [hread]
      have hwi := hw wires[i] (List.getElem_mem hi)
      simp only [List.getElem_map]
      apply toSigned_ofInt
      · norm_num; omega
      · norm_num; omega

/-- C10 at scenario C: with the mapping 0 to 100 and 1 to 101, writing wire 1 stores
101 in the slot, and writing the wires 1, 0 stores an array of count 2 holding 101,
100. -/
theorem C10_enum_write_witness :
    (∃ m', CopyEnumToCluster exampleEnv scenarioC.field 16 (.scalar .enum 1 1)
        (Memory.zero 64) = .ok m' ∧ m'.readInt32 16 = 101)
    ∧ (∃ m', CopyEnumToCluster exampleEnv scenarioC.repeatedField 24 (.repeated .enum 2 [1, 0])
        (Memory.zero 64) = .ok m'
        ∧ m'.readPtr 24 ≠ 0 ∧ m'.readPtr (m'.readPtr 24) ≠ 0
        ∧ m'.readInt32 (m'.readPtr (m'.readPtr 24)) = 2
        ∧ m'.readInt32 (LV1DArray.bytes (m'.readPtr (m'.readPtr 24)) (4 * 0) 4) = 101
        ∧ m'.readInt32 (LV1DArray.bytes (m'.readPtr (m'.readPtr 24)) (4 * 1) 4) = 100) := by
  have hscalar := (C10_enum_write exampleEnv scenarioC.field 16 (Memory.zero 64) 1 exampleEnum
    (fun w => w + 100) (by rfl) (by rfl)).1 (by rfl) 1 (by rfl) (by decide) (by decide)
  have hvalues : ∀ w ∈ [(1 : Int), 0],
      exampleEnum.GetLVEnumValueFromProtoValue w = .ok ((fun w => w + 100) w)
        ∧ -2147483648 ≤ (fun w : Int => w + 100) w ∧ (fun w : Int => w + 100) w < 2147483648 := by
    intro w hw
    simp only [List.mem_cons, List.mem_singleton, List.not_mem_nil, or_false] at hw
    rcases hw with rfl | rfl
    · exact ⟨by rfl, by decide, by decide⟩
    · exact ⟨by rfl, by decide, by decide⟩
  obtain ⟨m', h1, h2, h3, h4, h5⟩ :=
    (C10_enum_write exampleEnv scenarioC.repeatedField 24 (Memory.zero 64) 2 exampleEnum
      (fun w => w + 100) (by rfl) (by rfl)).2 (by rfl) [1, 0] (by decide) (by decide)
      hvalues (by decide) (by decide) (by decide) (Or.inl (by rfl))
  exact ⟨hscalar, m', h1, h2, h3, h4, h5 0 (by decide), h5 1 (by decide)⟩

/-! ## C7: a field without descriptor is skipped on write -/

/-- Scenario A: the int32 field, tag 1. -/
def scenarioA.field1 : MessageElementMetadata :=
  { type := .Int32Value, isRepeated := false, protobufIndex := 1, clusterOffset := 0 }

/-- Scenario A: the repeated string field, tag 2. -/
def scenarioA.field2 : MessageElementMetadata :=
  { type := .StringValue, isRepeated := true, protobufIndex := 2, clusterOffset := 8 }

/-- Scenario A: the descriptor table. -/
def scenarioA.table : MessageMetadata :=
  { _elements := [scenarioA.field1, scenarioA.field2],
    _mappedElements := [(1, scenarioA.field1), (2, scenarioA.field2)],
    clusterSize := 16, alignmentRequirement := 8 }

/-- Scenario A: the nodes of the tree, tag 1 holding 42 and tag 2 holding "a", "bb". -/
def scenarioA.values : List (Int × LVMessageValue) :=
  [(1, .scalar .int32 1 42), (2, .repeatedString 2 [[97], [98, 98]])]

/-- Scenario A: the tree. -/
def scenarioA.tree : LVMessage := .mk scenarioA.values scenarioA.table []

theorem CopyToCluster.fields_unknown (env : Env) (md : MessageMetadata) (cluster : Nat)
    (k : Int) (node : LVMessageValue)
    (h : mapFind node._protobufId md._mappedElements = none)
    (values : List (Int × LVMessageValue)) (m : Memory) :
    CopyToCluster.fields env md cluster (emplace k node values) m
      = CopyToCluster.fields env md cluster values m := by
  induction values generalizing m with
  | nil => simp only [emplace, CopyToCluster.fields, h]
  | cons p values ih =>
    obtain ⟨k', v'⟩ := p
    simp only [emplace]
    split
    · rw [CopyToCluster.fields]
      simp only [h]
    · split
      · rfl
      · rw [CopyToCluster.fields, CopyToCluster.fields]
        split
        · simp only [bind, Except.bind]
          split
          · rfl
          · exact ih _
        · exact ih _

/-- C7: a node whose tag has no descriptor in the table of the tree changes nothing on
write.  The tree with the node added (by `emplace`, under any key) is written exactly as
the tree without it: the same failure or the same final memory, byte for byte; and a
tree that holds only such a node is written without failure and leaves the memory as it
was. -/
theorem C7_unknown_field_skipped (env : Env) (values : List (Int × LVMessageValue))
    (md : MessageMetadata) (oneofs : List (String × Int)) (k : Int) (node : LVMessageValue)
    (cluster : Nat) (m : Memory)
    (h : mapFind node._protobufId md._mappedElements = none) :
    CopyToCluster env (.mk (emplace k node values) md oneofs) cluster m
      = CopyToCluster env (.mk values md oneofs) cluster m
    ∧ CopyToCluster env (.mk [(k, node)] md []) cluster m = .ok m := by
  constructor
  · rw [CopyToCluster, CopyToCluster, CopyToCluster.fields_unknown env md cluster k node h]
  · rw [CopyToCluster, CopyToCluster.fields]
    simp only [h, CopyToCluster.fields, ok_bind, CopyOneofIndicesToCluster, pure_eq_ok]

/-- C7 at scenario A: the tree with a node of tag 9, which the table does not know,
is written as the tree of scenario A is. -/
theorem C7_unknown_field_skipped_witness :
    CopyToCluster exampleEnv
        (.mk [(1, .scalar .int32 1 42), (2, .repeatedString 2 [[97], [98, 98]]),
              (9, .scalar .int64 9 5)] scenarioA.table []) 16 (Memory.zero 64)
      = CopyToCluster exampleEnv scenarioA.tree 16 (Memory.zero 64) :=
  (C7_unknown_field_skipped exampleEnv scenarioA.values scenarioA.table [] 9
    (.scalar .int64 9 5) 16 (Memory.zero 64) (by rfl)).1

/-! ## C9: an empty repeated node writes nothing -/

/-- The repeated node with no element of the class that the writer of a kind casts its
node to. -/
def emptyRepeatedNode (kind : LVMessageMetadataType) (tag : Int) : LVMessageValue :=
  match kind with
  | .StringValue | .BytesValue => .repeatedString tag []
  | .MessageValue => .repeatedNested tag []
  | .Int32Value => .repeated .int32 tag []
  | .UInt32Value => .repeated .uint32 tag []
  | .Int64Value => .repeated .int64 tag []
  | .UInt64Value => .repeated .uint64 tag []
  | .BoolValue => .repeated .bool tag []
  | .DoubleValue => .repeated .double tag []
  | .FloatValue => .repeated .float tag []
  | .EnumValue => .repeated .enum tag []
  | .SInt32Value => .repeated .sint32 tag []
  | .SInt64Value => .repeated .sint64 tag []
  | .Fixed32Value => .repeated .fixed32 tag []
  | .Fixed64Value => .repeated .fixed64 tag []
  | .SFixed32Value => .repeated .sfixed32 tag []
  | .SFixed64Value => .repeated .sfixed64 tag []

/-- C9: for every field kind, the typed writer that the `switch` of `CopyToCluster`
selects for a repeated descriptor (for the nested-message kind: one that is not a
well-known composite type; for the enum kind: one that has its owner), run on a repeated
node with zero elements, returns the memory it was given: no allocation (`brk` stays),
and every byte, the handle slot included, is unchanged; so a slot that held a null
handle still holds it. -/
theorem C9_empty_repeated_write (env : Env) (md : MessageElementMetadata) (start : Nat)
    (m : Memory) (tag : Int) (hrep : md.isRepeated = true)
    (hwk : md.type = .MessageValue → md.wellKnownType = .None)
    (hown : md.type = .EnumValue → md._owner = true) :
    ∃ m', CopyToCluster.dispatch env
        (fun _ => CopyMessageToCluster env md start (emptyRepeatedNode md.type tag) m)
        md start (emptyRepeatedNode md.type tag) m = .ok m'
      ∧ m'.brk = m.brk ∧ (∀ a, m'.bytes a = m.bytes a)
      ∧ (m.readPtr start = 0 → m'.readPtr start = 0) := by
  refine ⟨m, ?_, rfl, fun _ => rfl, fun h => h⟩
  unfold CopyToCluster.dispatch
  cases ht : md.type
  case MessageValue =>
    simp only [emptyRepeatedNode]
    rw [CopyMessageToCluster, hwk ht]
    simp only [hrep, if_true]
  case EnumValue =>
    simp only [emptyRepeatedNode, CopyEnumToCluster_eq, MessageElementMetadata.owner, hown ht,
      if_true, ok_bind, hrep, CopyEnumToCluster.mapArray, List.length_nil, ne_eq,
      not_true_eq_false, if_false, pure_eq_ok]
  case StringValue =>
    simp only [emptyRepeatedNode, CopyStringToCluster, hrep, if_true, List.length_nil, ne_eq,
      not_true_eq_false, if_false]
  case BytesValue =>
    simp only [emptyRepeatedNode, CopyBytesToCluster, CopyStringToCluster, hrep, if_true,
      List.length_nil, ne_eq, not_true_eq_false, if_false]
  all_goals
    simp only [emptyRepeatedNode, CopyInt32ToCluster, CopyUInt32ToCluster, CopyInt64ToCluster,
      CopyUInt64ToCluster, CopyBoolToCluster, CopyDoubleToCluster, CopyFloatToCluster,
      CopySInt32ToCluster, CopySInt64ToCluster, CopyFixed32ToCluster, CopyFixed64ToCluster,
      CopySFixed32ToCluster, CopySFixed64ToCluster, CopyFixedWidthToCluster, hrep, if_true,
      List.length_nil, ne_eq, not_true_eq_false, if_false]

/-- C9 at scenario D: the writer of the repeated nested-message field of `Inner`, run on
the empty collection with a zeroed slot, leaves the null handle; and writing the whole
tree of scenario D into a zero-filled cluster leaves the memory as it was. -/
theorem C9_empty_repeated_write_witness :
    (∃ m', CopyToCluster.dispatch exampleEnv
        (fun _ => CopyMessageToCluster exampleEnv scenarioD.leaves 16
          (.repeatedNested 1 []) (Memory.zero 64))
        scenarioD.leaves 16 (.repeatedNested 1 []) (Memory.zero 64) = .ok m'
      ∧ m'.brk = 64 ∧ (∀ a, m'.bytes a = 0) ∧ m'.readPtr 16 = 0)
    ∧ (CopyToCluster exampleEnv scenarioD.tree 16 (Memory.zero 64)).map
        (fun m' => (m'.brk, m'.readPtr 16)) = .ok (64, 0) := by
  obtain ⟨m', h1, h2, h3, h4⟩ := C9_empty_repeated_write exampleEnv scenarioD.leaves 16
    (Memory.zero 64) 1 (by rfl) (fun _ => by rfl) (fun _ => by rfl)
  exact ⟨⟨m', h1, h2, h3, h4 (by rfl)⟩, by rfl⟩

/-! ## C3: the oneof protocol, write then read -/

theorem Emplaced.keys_mono {tag : Int} {msg r : LVMessage} (h : Emplaced tag msg r) (k : Int)
    (hk : k ∈ grpc_labview.keys msg._values) : k ∈ grpc_labview.keys r._values := by
  induction h with
  | same => exact hk
  | step r node _ ih =>
    rw [LVMessage.emplaceValue_values, mem_keys_emplace]
    exact Or.inr ih

theorem CopyFixedWidthFromCluster_scalar (c : ValueClass) (md : MessageElementMetadata)
    (start : Nat) (m : Memory) (msg : LVMessage) (h : md.isRepeated = false) :
    CopyFixedWidthFromCluster c md start m msg
      = .ok (msg.emplaceValue md.protobufIndex
          (.scalar c md.protobufIndex (c.decode (m.readU start c.width)))) := by
  simp [CopyFixedWidthFromCluster, h]

/-- A reader that returns for a non-repeated descriptor (for the nested-message kind: one
that is not a well-known composite type) has put the tag of the descriptor in the tree. -/
theorem CopyFromCluster.dispatch_scalar_adds (env : Env)
    (rec : LVMessage → Nat → Except Fault LVMessage) (md : MessageElementMetadata)
    (start : Nat) (m : Memory) (msg r : LVMessage) (hr : md.isRepeated = false)
    (hwk : md.type = .MessageValue → md.wellKnownType = .None)
    (h : CopyFromCluster.dispatch env rec md start m msg = .ok r) :
    md.protobufIndex ∈ keys r._values := by
  have hf := fun c => CopyFixedWidthFromCluster_scalar c md start m msg hr
  have here : ∀ node, md.protobufIndex ∈ keys (msg.emplaceValue md.protobufIndex node)._values := by
    intro node
    rw [LVMessage.emplaceValue_values, mem_keys_emplace]
    exact Or.inl rfl
  simp only [CopyFromCluster.dispatch, CopyBoolFromCluster, CopyDoubleFromCluster,
    CopyFloatFromCluster, CopyInt32FromCluster, CopyInt64FromCluster, CopyUInt32FromCluster,
    CopyUInt64FromCluster, CopySInt32FromCluster, CopySInt64FromCluster,
    CopyFixed32FromCluster, CopyFixed64FromCluster, CopySFixed32FromCluster,
    CopySFixed64FromCluster, CopyBytesFromCluster, hf, ok_bind] at h
  split at h
  case h_7 ht =>
    simp only [CopyMessageFromCluster, hwk ht, hr] at h
    rw [bind_eq_ok] at h
    obtain ⟨owner, _, h⟩ := h
    simp only [Bool.false_eq_true, if_false] at h
    rw [bind_eq_ok] at h
    obtain ⟨md', _, h⟩ := h
    rw [bind_eq_ok] at h
    obtain ⟨nested, _, h⟩ := h
    cases h
    exact here _
  case h_11 =>
    simp only [CopyEnumFromCluster_eq, hr] at h
    rw [bind_eq_ok] at h
    obtain ⟨owner, _, h⟩ := h
    simp only [Bool.false_eq_true, if_false] at h
    rw [bind_eq_ok] at h
    obtain ⟨e, _, h⟩ := h
    rw [bind_eq_ok] at h
    obtain ⟨v, _, h⟩ := h
    cases h
    exact here _
  case h_14 =>
    have h2 := CopyFixedWidthFromCluster_emplaced _ _ _ _ _ _ h
    exact h2.keys_mono _ (here _)
  case h_1 =>
    simp only [CopyStringFromCluster, hr, Bool.false_eq_true, if_false] at h
    rw [bind_eq_ok] at h
    obtain ⟨str, _, h⟩ := h
    cases h
    exact here _
  case h_2 =>
    simp only [CopyStringFromCluster, hr, Bool.false_eq_true, if_false] at h
    rw [bind_eq_ok] at h
    obtain ⟨str, _, h⟩ := h
    cases h
    exact here _
  all_goals
    cases h
    exact here _

/-- The second loop of `CopyFromCluster` keeps the keys the tree has and adds the tag of
every non-repeated descriptor that passes the oneof rules. -/
theorem CopyFromCluster.fields_present (env : Env) (henv : env.AdaptersEmplaceOnly)
    (rec : LVMessage → Nat → Except Fault LVMessage) (cluster : Nat) (m : Memory)
    (list : List (Int × MessageElementMetadata)) (msg r : LVMessage)
    (h : CopyFromCluster.fields env rec cluster m list msg = .ok r) :
    (∀ k ∈ keys msg._values, k ∈ keys r._values)
    ∧ ∀ p ∈ list, p.2.isRepeated = false →
        (p.2.type = .MessageValue → p.2.wellKnownType = .None) →
        (p.2.isInOneof = true → 0 ≤ p.2.protobufIndex ∧
          mapFind p.2.oneofContainerName msg._oneofContainerToSelectedIndexMap
            = some p.2.protobufIndex) →
        p.2.protobufIndex ∈ keys r._values := by
  induction list generalizing msg with
  | nil =>
    simp only [CopyFromCluster.fields] at h
    cases h
    exact ⟨fun k hk => hk, fun p hp => absurd hp (List.not_mem_nil _)⟩
  | cons q list ih =>
    obtain ⟨key, fm⟩ := q
    have step : ∀ msg1, CopyFromCluster.fields env rec cluster m list msg1 = .ok r →
        CopyFromCluster.dispatch env rec fm (cluster + fm.clusterOffset) m msg = .ok msg1 →
        (∀ k ∈ keys msg._values, k ∈ keys r._values)
        ∧ ∀ p ∈ (key, fm) :: list, p.2.isRepeated = false →
            (p.2.type = .MessageValue → p.2.wellKnownType = .None) →
            (p.2.isInOneof = true → 0 ≤ p.2.protobufIndex ∧
              mapFind p.2.oneofContainerName msg._oneofContainerToSelectedIndexMap
                = some p.2.protobufIndex) →
            p.2.protobufIndex ∈ keys r._values := by
      intro msg1 h hd
      have hem := CopyFromCluster.dispatch_emplaced env henv rec _ _ _ _ _ hd
      obtain ⟨i1, i2⟩ := ih msg1 h
      refine ⟨fun k hk => i1 k (hem.keys_mono k hk), ?_⟩
      intro p hp h1 h2 h3
      rcases List.mem_cons.1 hp with e | hp'
      · subst e
        exact i1 _ (CopyFromCluster.dispatch_scalar_adds env rec _ _ m msg msg1 h1 h2 hd)
      · exact i2 p hp' h1 h2 (by rw [hem.oneof]; exact h3)
    have skip : CopyFromCluster.fields env rec cluster m list msg = .ok r →
        (fm.isInOneof = true ∧ (fm.protobufIndex < 0 ∨
          mapFind fm.oneofContainerName msg._oneofContainerToSelectedIndexMap
            ≠ some fm.protobufIndex)) →
        (∀ k ∈ keys msg._values, k ∈ keys r._values)
        ∧ ∀ p ∈ (key, fm) :: list, p.2.isRepeated = false →
            (p.2.type = .MessageValue → p.2.wellKnownType = .None) →
            (p.2.isInOneof = true → 0 ≤ p.2.protobufIndex ∧
              mapFind p.2.oneofContainerName msg._oneofContainerToSelectedIndexMap
                = some p.2.protobufIndex) →
            p.2.protobufIndex ∈ keys r._values := by
      intro h hs
      obtain ⟨i1, i2⟩ := ih msg h
      refine ⟨i1, ?_⟩
      intro p hp h1 h2 h3
      rcases List.mem_cons.1 hp with e | hp'
      · subst e
        have := h3 hs.1
        dsimp only at this
        rcases hs.2 with hneg | hne
        · omega
        · exact absurd this.2 hne
      · exact i2 p hp' h1 h2 h3
    simp only [CopyFromCluster.fields] at h
    split at h
    · rename_i hin
      split at h
      · rename_i hneg
        exact skip h ⟨hin, Or.inl hneg⟩
      · split at h
        · cases h
        · rename_i sel hsel
          split at h
          · rename_i hne
            refine skip h ⟨hin, Or.inr ?_⟩
            rw [hsel]
            intro e
            exact hne (Option.some.inj e)
          · rw [bind_eq_ok] at h
            obtain ⟨msg1, hd, h⟩ := h
            exact step msg1 h hd
    · rw [bind_eq_ok] at h
      obtain ⟨msg1, hd, h⟩ := h
      exact step msg1 h hd

theorem CopyOneofIndicesToCluster_frame (md : MessageMetadata) (c : Nat)
    (sel : List (String × Int)) (m : Memory) (a w : Nat)
    (h : ∀ g S disc, (g, S) ∈ sel → findDiscriminator g md._elements = some disc →
      a + w ≤ c + disc.clusterOffset ∨ c + disc.clusterOffset + 4 ≤ a) :
    (CopyOneofIndicesToCluster md c sel m).readU a w = m.readU a w := by
  induction sel generalizing m with
  | nil => rfl
  | cons p sel ih =>
    obtain ⟨g, S⟩ := p
    have ih' := fun m => ih m (fun g' S' disc' hm => h g' S' disc' (List.mem_cons_of_mem _ hm))
    simp only [CopyOneofIndicesToCluster]
    split
    · rename_i fm hfm
      rw [ih']
      unfold Memory.writeInt
      exact Memory.readU_writeU_disjoint _ _ _ _ _ _ (h g S fm (List.mem_cons_self _ _) hfm)
    · exact ih' m

/-- After the second pass of the write, the discriminator slot of a selected group holds
the selected tag, when the slots of the discriminators of the other selected groups lie
apart from it. -/
theorem CopyOneofIndicesToCluster_selected (md : MessageMetadata) (c : Nat)
    (sel : List (String × Int)) (m : Memory) (g : String) (S : Int)
    (disc : MessageElementMetadata)
    (hnd : (keys sel).Nodup) (hmem : (g, S) ∈ sel)
    (hd : findDiscriminator g md._elements = some disc)
    (h1 : -2147483648 ≤ S) (h2 : S < 2147483648)
    (hdisj : ∀ g' S' disc', (g', S') ∈ sel → g' ≠ g →
      findDiscriminator g' md._elements = some disc' →
      disc.clusterOffset + 4 ≤ disc'.clusterOffset ∨ disc'.clusterOffset + 4 ≤ disc.clusterOffset) :
    (CopyOneofIndicesToCluster md c sel m).readInt32 (c + disc.clusterOffset) = S := by
  induction sel generalizing m with
  | nil => simp at hmem
  | cons p sel ih =>
    obtain ⟨g0, S0⟩ := p
    simp only [keys, List.map_cons, List.nodup_cons] at hnd
    simp only [CopyOneofIndicesToCluster]
    rcases List.mem_cons.1 hmem with e | hmem'
    · cases e
      rw [hd]
      dsimp only
      unfold Memory.readInt32
      rw [CopyOneofIndicesToCluster_frame]
      · exact Memory.readInt32_writeInt_same _ _ _ h1 h2
      · intro g' S' disc' hm' hd'
        have hne : g' ≠ g := by
          intro e
          subst e
          exact hnd.1 (List.mem_map.2 ⟨(g', S'), hm', rfl⟩)
        have := hdisj g' S' disc' (List.mem_cons_of_mem _ hm') hne hd'
        omega
    · have ih' := fun m => ih m hnd.2 hmem'
        (fun g' S' disc' hm => hdisj g' S' disc' (List.mem_cons_of_mem _ hm))
      split
      · exact ih' _
      · exact ih' _

theorem mapFind_selectorEntries (c : Nat) (m : Memory) (g : String)
    (elements : List MessageElementMetadata) (disc : MessageElementMetadata)
    (h : findDiscriminator g elements = some disc) :
    mapFind g (selectorEntries c m elements) = some (m.readInt32 (c + disc.clusterOffset)) := by
  induction elements with
  | nil => simp [findDiscriminator] at h
  | cons fm rest ih =>
    simp only [findDiscriminator] at h
    by_cases hd : isDiscriminator fm = true
    · have hd' : fm.isInOneof = true ∧ fm.protobufIndex < 0 := by
        simpa [isDiscriminator] using hd
      simp only [selectorEntries, List.filter_cons, hd, if_true, List.map_cons, mapFind]
      by_cases hn : fm.oneofContainerName = g
      · rw [if_pos ⟨hd'.1, hd'.2, hn⟩] at h
        cases h
        simp [hn]
      · rw [if_neg (fun hc => hn hc.2.2)] at h
        simp only [hn, if_false]
        exact ih h
    · have hd' : ¬ (fm.isInOneof = true ∧ fm.protobufIndex < 0) := by
        simpa [isDiscriminator] using hd
      rw [if_neg (fun hc => hd' ⟨hc.1, hc.2.1⟩)] at h
      simp only [selectorEntries, List.filter_cons, hd, Bool.false_eq_true, if_false]
      exact ih h

/-- C3: let a tree with the selection S for the oneof group g be written by
`CopyToCluster`, and let `CopyFromCluster` return a tree for the cluster written.  Then
the 4-byte discriminator slot of g holds S after the write; the selection map of the
tree read reports S for g; the tree read has no entry for any member of g whose tag is
not S; and it has an entry for the member of g with tag S.  The selection map of the
tree written has distinct group names, S is a 32-bit integer, the tags of the table are
distinct, and the discriminator slots of the other selected groups lie apart from the
slot of g. -/
theorem C3_oneof_write_read (env : Env) (henv : env.AdaptersEmplaceOnly)
    (values : List (Int × LVMessageValue)) (md : MessageMetadata)
    (sel : List (String × Int)) (c : Nat) (m m' : Memory) (fuel : Nat) (msg0 r : LVMessage)
    (g : String) (S : Int) (disc : MessageElementMetadata)
    (hw : CopyToCluster env (.mk values md sel) c m = .ok m')
    (hr : CopyFromCluster env m' fuel msg0 c = .ok r) (hmd : msg0._metadata = md)
    (hnd : md.tags.Nodup) (hsel : (keys sel).Nodup) (hmem : (g, S) ∈ sel)
    (h1 : -2147483648 ≤ S) (h2 : S < 2147483648)
    (hd : findDiscriminator g md._elements = some disc)
    (hdisj : ∀ g' S' disc', (g', S') ∈ sel → g' ≠ g →
      findDiscriminator g' md._elements = some disc' →
      disc.clusterOffset + 4 ≤ disc'.clusterOffset ∨ disc'.clusterOffset + 4 ≤ disc.clusterOffset) :
    m'.readInt32 (c + disc.clusterOffset) = S
    ∧ mapFind g r._oneofContainerToSelectedIndexMap = some S
    ∧ (∀ p ∈ md._mappedElements, p.2.isInOneof = true → p.2.oneofContainerName = g →
        p.2.protobufIndex ≠ S → p.2.protobufIndex ∉ keys r._values)
    ∧ (∀ p ∈ md._mappedElements, p.2.isInOneof = true → p.2.oneofContainerName = g →
        p.2.protobufIndex = S → 0 ≤ S → p.2.isRepeated = false →
        (p.2.type = .MessageValue → p.2.wellKnownType = .None) →
        p.2.protobufIndex ∈ keys r._values) := by
  have ha : m'.readInt32 (c + disc.clusterOffset) = S := by
    rw [CopyToCluster, bind_eq_ok] at hw
    obtain ⟨m1, _, hw⟩ := hw
    cases hw
    exact CopyOneofIndicesToCluster_selected md c sel m1 g S disc hsel hmem hd h1 h2 hdisj
  subst hmd
  obtain ⟨e1, _, e3⟩ := CopyFromCluster.result_spec env henv m' fuel msg0 c r hr
    (fun _ => True) (fun _ _ hq => absurd trivial hq)
  have hlook : mapFind g (selectorEntries c m' msg0._metadata._elements) = some S := by
    rw [mapFind_selectorEntries c m' g _ disc hd, ha]
  refine ⟨ha, by rw [e1]; exact hlook, ?_, ?_⟩
  · intro p hp hin hname hne hk
    obtain ⟨q, hq, hq1, _, hq3⟩ := e3 _ hk
    have e := MessageMetadata.eq_of_tag_eq _ hnd q p hq hp hq1
    subst e
    have := (hq3 hin).2
    rw [hname, hlook] at this
    exact hne (Option.some.inj this).symm
  · intro p hp hin hname htag hS hrep hwk
    obtain ⟨fuel', msg1, _, hs, hf⟩ := CopyFromCluster.ok_iff env m' fuel msg0 c r hr
    obtain ⟨_, _, s3⟩ := CopyFromCluster.selectors_spec _ _ _ _ _ hs
    have hsel1 : msg1._oneofContainerToSelectedIndexMap
        = selectorEntries c m' msg0._metadata._elements := by
      rw [s3]
      simp [LVMessage.Clear]
    refine (CopyFromCluster.fields_present env henv _ c m' _ msg1 r hf).2 p hp hrep hwk ?_
    intro _
    refine ⟨by omega, ?_⟩
    rw [hsel1, hname, hlook, htag]

/-- C3 at scenario B: with the members tag 5 (string) and tag 6 (int64), writing the tree
with tag 6 selected and holding 7 into a zero-filled cluster gives the discriminator 6,
and reading the cluster gives back the tree that holds only tag 6, with 7. -/
theorem C3_oneof_write_read_witness :
    CopyToCluster exampleEnv scenarioB.tree 16 (Memory.zero 64) = .ok scenarioB.memory
    ∧ CopyFromCluster exampleEnv scenarioB.memory 1 (.mk [] scenarioB.table []) 16
        = .ok scenarioB.tree
    ∧ scenarioB.memory.readInt32 (16 + 16) = 6
    ∧ mapFind "choice" scenarioB.tree._oneofContainerToSelectedIndexMap = some 6
    ∧ (5 : Int) ∉ keys scenarioB.tree._values
    ∧ (6 : Int) ∈ keys scenarioB.tree._values := by
  have hC := C3_oneof_write_read exampleEnv exampleEnv_adapters [(6, .scalar .int64 6 7)]
    scenarioB.table [("choice", 6)] 16 (Memory.zero 64) scenarioB.memory 1
    (.mk [] scenarioB.table []) scenarioB.tree "choice" 6 scenarioB.selector
    (by rfl) (by rfl) (by rfl) (by decide) (by decide) (by decide) (by decide) (by decide)
    (by rfl) (by
      intro g' S' disc' hm hne
      simp only [List.mem_singleton, Prod.mk.injEq] at hm
      exact absurd hm.1 hne)
  exact ⟨by rfl, by rfl, hC.1, hC.2.1,
    hC.2.2.1 (5, scenarioB.member5) (by decide) (by rfl) (by rfl) (by decide),
    hC.2.2.2 (6, scenarioB.member6) (by decide) (by rfl) (by rfl) (by rfl) (by decide)
      (by rfl) (fun h => by cases h)⟩

/-! ## Round trip: values and arrays -/

/-- The values a class can hold: the range of its integer type (two's complement for the
signed ones), the bit patterns of its width for `float`, `double` and `bool`. -/
def ValueClass.InRange (c : ValueClass) (v : Int) : Prop :=
  if c.isSigned then -((256 ^ c.width : Nat) : Int) ≤ 2 * v ∧ 2 * v < ((256 ^ c.width : Nat) : Int)
  else 0 ≤ v ∧ v < ((256 ^ c.width : Nat) : Int)

instance (c : ValueClass) (v : Int) : Decidable (c.InRange v) := by
  unfold ValueClass.InRange
  exact inferInstance

theorem ValueClass.decode_ofInt (c : ValueClass) (v : Int) (h : c.InRange v) :
    c.decode (ofInt c.width v % 256 ^ c.width) = v := by
  unfold ValueClass.InRange at h
  unfold ValueClass.decode
  by_cases hs : c.isSigned = true
  · rw [if_pos hs] at h ⊢
    exact toSigned_ofInt _ _ h.1 h.2
  · rw [if_neg hs] at h ⊢
    have hcast : ((256 : Int) ^ c.width) = ((256 ^ c.width : Nat) : Int) := by push_cast; rfl
    unfold ofInt
    rw [hcast, Int.emod_eq_of_lt h.1 h.2]
    have hlt : v.toNat < 256 ^ c.width := by omega
    rw [Nat.mod_eq_of_lt hlt, Nat.mod_eq_of_lt hlt]
    exact Int.toNat_of_nonneg h.1

theorem decodeArray_of_load (c : ValueClass) (m : Memory) (xs : List Int) (data : Nat)
    (hx : ∀ x ∈ xs, c.InRange x)
    (h : m.load data (c.width * xs.length) = encodeArray c.width xs) :
    decodeArray c m data xs.length = xs := by
  induction xs generalizing data with
  | nil => rfl
  | cons x xs ih =>
    have hsplit : m.load data (c.width * (x :: xs).length)
        = m.load data c.width ++ m.load (data + c.width) (c.width * xs.length) := by
      unfold Memory.load
      rw [List.length_cons, Nat.mul_succ, Nat.add_comm, loadBytes_add]
    rw [hsplit] at h
    simp only [encodeArray] at h
    have hlen : (m.load data c.width).length = (toLE c.width (ofInt c.width x)).length := by
      rw [toLE_length]
      exact loadBytes_length _ _ _
    obtain ⟨h1, h2⟩ := List.append_inj h hlen
    simp only [List.length_cons, decodeArray]
    rw [ih (data + c.width) (fun y hy => hx y (List.mem_cons_of_mem _ hy)) h2]
    congr 1
    unfold Memory.readU
    rw [h1, ofLE_toLE]
    exact c.decode_ofInt x (hx x (List.mem_cons_self _ _))

theorem readU_zero (m : Memory) (addr w : Nat)
    (h : ∀ a, addr ≤ a → a < addr + w → m.bytes a = 0) : m.readU addr w = 0 := by
  unfold Memory.readU Memory.load
  induction w generalizing addr with
  | zero => rfl
  | succ w ih =>
    simp only [loadBytes, ofLE]
    rw [h addr (le_refl _) (by omega), ih (addr + 1) (fun a h1 h2 => h a (by omega) (by omega))]
    rfl

/-- Two memories hold the same bytes at every address of the set. -/
def AgreeOn (P : Nat → Prop) (m m' : Memory) : Prop := ∀ a, P a → m'.bytes a = m.bytes a

theorem AgreeOn.readU {P : Nat → Prop} {m m' : Memory} (h : AgreeOn P m m') (addr w : Nat)
    (hp : ∀ a, addr ≤ a → a < addr + w → P a) : m'.readU addr w = m.readU addr w :=
  Memory.readU_congr m' m addr w (fun a h1 h2 => h a (hp a h1 h2))

theorem AgreeOn.load {P : Nat → Prop} {m m' : Memory} (h : AgreeOn P m m') (addr n : Nat)
    (hp : ∀ a, addr ≤ a → a < addr + n → P a) : m'.load addr n = m.load addr n :=
  Memory.load_congr m' m addr n (fun a h1 h2 => h a (hp a h1 h2))

/-- The facts about `NumericArrayResize` on a slot that holds a null handle: the new
handle is the first fresh address, its block follows it, the block is zero-filled, and
no other byte below the fresh memory changes than those of the slot. -/
theorem NumericArrayResize_null (typeCode numDims start size : Nat) (m : Memory)
    (hslot : start + 8 ≤ m.brk)
    (hfit : m.brk + 8 + (alignUp 4 (typeCodeWidth typeCode) + size * typeCodeWidth typeCode)
      < 256 ^ 8)
    (hnull : m.readPtr start = 0) :
    (NumericArrayResize typeCode numDims start size m).readPtr start = m.brk
    ∧ (NumericArrayResize typeCode numDims start size m).readPtr m.brk = m.brk + 8
    ∧ (NumericArrayResize typeCode numDims start size m).brk
        = m.brk + 8 + (alignUp 4 (typeCodeWidth typeCode) + size * typeCodeWidth typeCode)
    ∧ (∀ a, m.brk + 8 ≤ a →
        a < m.brk + 8 + (alignUp 4 (typeCodeWidth typeCode) + size * typeCodeWidth typeCode) →
        (NumericArrayResize typeCode numDims start size m).bytes a = 0)
    ∧ (∀ a, (a < start ∨ start + 8 ≤ a) → a < m.brk →
        (NumericArrayResize typeCode numDims start size m).bytes a = m.bytes a) := by
  unfold NumericArrayResize
  dsimp only
  rw [if_pos hnull]
  refine ⟨?_, ?_, rfl, ?_, ?_⟩
  · exact Memory.readPtr_writePtr_same _ _ _ (by omega)
  · unfold Memory.readPtr Memory.writePtr
    rw [Memory.readU_writeU_disjoint _ _ _ _ _ _ (by omega)]
    exact Memory.readPtr_writePtr_same _ _ _ (by omega)
  · intro a h1 h2
    unfold Memory.writePtr
    rw [Memory.writeU_bytes_outside _ _ _ _ _ (by omega),
      Memory.writeU_bytes_outside _ _ _ _ _ (by omega)]
    exact Memory.store_zeros_inside _ _ _ _ h1 h2
  · intro a h1 h3
    unfold Memory.writePtr
    rw [Memory.writeU_bytes_outside _ _ _ _ _ (by omega),
      Memory.writeU_bytes_outside _ _ _ _ _ (by omega)]
    exact Memory.store_bytes_outside _ _ _ _ (by omega)

/-- The addresses a field's data lives at after its write: the slot, and the fresh memory
the write has taken. -/
def Footprint (start width lo hi : Nat) : Nat → Prop :=
  fun a => (start ≤ a ∧ a < start + width) ∨ (lo ≤ a ∧ a < hi)

theorem fixedWidth_scalar_roundtrip (c : ValueClass) (typeCode : Nat)
    (md : MessageElementMetadata) (start : Nat) (m : Memory) (tag : Int) (v : Int)
    (hrep : md.isRepeated = false) (hv : c.InRange v) :
    ∃ m1, CopyFixedWidthToCluster c typeCode md start (.scalar c tag v) m = .ok m1
      ∧ m1.brk = m.brk
      ∧ (∀ a, (a < start ∨ start + c.width ≤ a) → m1.bytes a = m.bytes a)
      ∧ ∀ m', AgreeOn (Footprint start c.width m.brk (m.brk + 0)) m1 m' → ∀ msg,
          CopyFixedWidthFromCluster c md start m' msg
            = .ok (msg.emplaceValue md.protobufIndex (.scalar c md.protobufIndex v)) := by
  refine ⟨m.writeInt start c.width v, ?_, rfl, ?_, ?_⟩
  · simp [CopyFixedWidthToCluster, hrep]
  · intro a ha
    exact Memory.writeU_bytes_outside _ _ _ _ _ ha
  · intro m' hag msg
    rw [CopyFixedWidthFromCluster_scalar _ _ _ _ _ hrep]
    have : m'.readU start c.width = ofInt c.width v % 256 ^ c.width := by
      rw [hag.readU start c.width (fun a h1 h2 => Or.inl ⟨h1, h2⟩)]
      exact Memory.readU_writeU_same _ _ _ _
    rw [this, c.decode_ofInt v hv]

theorem fixedWidth_repeated_roundtrip (c : ValueClass) (typeCode : Nat)
    (md : MessageElementMetadata) (start : Nat) (m : Memory) (tag : Int) (xs : List Int)
    (hrep : md.isRepeated = true) (hcode : typeCodeWidth typeCode = c.width)
    (hne : xs ≠ []) (hlen : xs.length < 2147483648) (hx : ∀ x ∈ xs, c.InRange x)
    (hslot : start + 8 ≤ m.brk) (hbrk : 0 < m.brk)
    (hfit : m.brk + 8 + (alignUp 4 c.width + xs.length * c.width) < 256 ^ 8)
    (hnull : m.readPtr start = 0) :
    ∃ m1, CopyFixedWidthToCluster c typeCode md start (.repeated c tag xs) m = .ok m1
      ∧ m1.brk = m.brk + 8 + (alignUp 4 c.width + xs.length * c.width)
      ∧ (∀ a, (a < start ∨ start + 8 ≤ a) → a < m.brk → m1.bytes a = m.bytes a)
      ∧ ∀ m', AgreeOn (Footprint start 8 m.brk
            (m.brk + (8 + (alignUp 4 c.width + xs.length * c.width)))) m1 m' → ∀ msg,
          CopyFixedWidthFromCluster c md start m' msg
            = .ok (msg.emplaceValue md.protobufIndex (.repeated c md.protobufIndex xs)) := by
  have hlen0 : xs.length ≠ 0 := fun h0 => hne (List.length_eq_zero.1 h0)
  obtain ⟨r1, r2, r3, r4, r5⟩ := NumericArrayResize_null typeCode 1 start xs.length m hslot
    (by rw [hcode]; exact hfit) hnull
  rw [hcode] at r3 r4
  set m0 := NumericArrayResize typeCode 1 start xs.length m with hm0
  set block := m.brk + 8 with hblock
  have hdata : LV1DArray.bytes block 0 c.width = block + alignUp 4 c.width := by
    simp [LV1DArray.bytes]
  have h4 : 4 ≤ alignUp 4 c.width := by
    cases c <;> simp [alignUp, ValueClass.width]
  set m1 := (m0.writeInt block 4 (xs.length : Int)).store (block + alignUp 4 c.width)
    (encodeArray c.width xs) with hm1
  have hres : CopyFixedWidthToCluster c typeCode md start (.repeated c tag xs) m = .ok m1 := by
    simp only [CopyFixedWidthToCluster, hrep, if_true, ne_eq, hlen0, not_false_eq_true, ← hm0,
      r1, r2, hdata, ← hblock]
  have hbrk1 : m1.brk = m.brk + 8 + (alignUp 4 c.width + xs.length * c.width) := by
    rw [hm1]
    simp only [Memory.store_brk, Memory.writeInt_brk]
    exact r3
  have hlenE : (encodeArray c.width xs).length = c.width * xs.length := encodeArray_length _ _
  have hp1 : m1.readPtr start = m.brk := by
    rw [hm1]
    unfold Memory.readPtr Memory.writeInt
    rw [Memory.readU_store_disjoint _ _ _ _ _ (by omega),
      Memory.readU_writeU_disjoint _ _ _ _ _ _ (by omega)]
    exact r1
  have hp2 : m1.readPtr m.brk = block := by
    rw [hm1]
    unfold Memory.readPtr Memory.writeInt
    rw [Memory.readU_store_disjoint _ _ _ _ _ (by omega),
      Memory.readU_writeU_disjoint _ _ _ _ _ _ (by omega)]
    exact r2
  have hp3 : m1.readInt32 block = (xs.length : Int) := by
    rw [hm1]
    unfold Memory.readInt32
    rw [Memory.readU_store_disjoint _ _ _ _ _ (by omega)]
    exact Memory.readInt32_writeInt_same _ _ _ (by omega) (by omega)
  have hp4 : m1.load (block + alignUp 4 c.width) (c.width * xs.length)
      = encodeArray c.width xs := by
    rw [hm1, ← hlenE]
    exact Memory.load_store_same _ _ _
  refine ⟨m1, hres, hbrk1, ?_, ?_⟩
  · intro a ha1 ha2
    rw [hm1]
    rw [Memory.store_bytes_outside _ _ _ _ (by omega)]
    unfold Memory.writeInt
    rw [Memory.writeU_bytes_outside _ _ _ _ _ (by omega)]
    exact r5 a ha1 ha2
  · intro m' hag msg
    have q1 : m'.readPtr start = m.brk := by
      unfold Memory.readPtr
      rw [hag.readU start 8 (fun a h1 h2 => Or.inl ⟨h1, h2⟩)]
      exact hp1
    have q2 : m'.readPtr m.brk = block := by
      unfold Memory.readPtr
      rw [hag.readU m.brk 8 (fun a h1 h2 => Or.inr ⟨h1, by omega⟩)]
      exact hp2
    have q3 : m'.readInt32 block = (xs.length : Int) := by
      unfold Memory.readInt32
      rw [hag.readU block 4 (fun a h1 h2 => Or.inr ⟨by omega, by omega⟩)]
      exact hp3
    have q4 : m'.load (block + alignUp 4 c.width) (c.width * xs.length)
        = encodeArray c.width xs := by
      rw [hag.load _ _ (fun a h1 h2 => Or.inr ⟨by omega, by
        rw [Nat.mul_comm c.width] at h2; omega⟩)]
      exact hp4
    have hb0 : block ≠ 0 := by omega
    have hb1 : m.brk ≠ 0 := by omega
    have hcnt0 : (xs.length : Int) ≠ 0 := by omega
    have hcnt1 : ¬ ((xs.length : Int) < 0) := by omega
    simp only [CopyFixedWidthFromCluster, hrep, if_true, q1, hb1, if_false, q2, hb0, q3, hcnt0,
      hcnt1, hdata, Int.toNat_ofNat, decodeArray_of_load c m' xs _ hx q4]

theorem SetLVString_null (slot : Nat) (str : List Byte) (m : Memory)
    (hslot : slot + 8 ≤ m.brk) (hbrk : 0 < m.brk)
    (hfit : m.brk + 8 + (4 + str.length) < 256 ^ 8) (hlen : str.length < 2147483648)
    (hnull : m.readPtr slot = 0) :
    (SetLVString slot str m).readPtr slot = m.brk
    ∧ (SetLVString slot str m).brk = m.brk + 8 + (4 + str.length)
    ∧ (∀ a, (a < slot ∨ slot + 8 ≤ a) → a < m.brk → (SetLVString slot str m).bytes a = m.bytes a)
    ∧ ∀ m', AgreeOn (fun a => m.brk ≤ a ∧ a < m.brk + 8 + (4 + str.length))
          (SetLVString slot str m) m' → GetLVString m.brk m' = .ok str := by
  obtain ⟨r1, r2, r3, r4, r5⟩ := NumericArrayResize_null 0x01 1 slot str.length m hslot
    (by simpa [typeCodeWidth, alignUp] using hfit) hnull
  simp only [typeCodeWidth, alignUp] at r3 r4
  norm_num at r3 r4
  unfold SetLVString
  dsimp only
  set m0 := NumericArrayResize 0x01 1 slot str.length m with hm0
  rw [r1, r2]
  set m1 := (m0.store (m.brk + 8 + 4) str).writeInt (m.brk + 8) 4 (str.length : Int) with hm1
  have hp1 : m1.readPtr slot = m.brk := by
    rw [hm1]
    unfold Memory.readPtr Memory.writeInt
    rw [Memory.readU_writeU_disjoint _ _ _ _ _ _ (by omega),
      Memory.readU_store_disjoint _ _ _ _ _ (by omega)]
    exact r1
  have hp2 : m1.readPtr m.brk = m.brk + 8 := by
    rw [hm1]
    unfold Memory.readPtr Memory.writeInt
    rw [Memory.readU_writeU_disjoint _ _ _ _ _ _ (by omega),
      Memory.readU_store_disjoint _ _ _ _ _ (by omega)]
    exact r2
  have hp3 : m1.readInt32 (m.brk + 8) = (str.length : Int) := by
    rw [hm1]
    exact Memory.readInt32_writeInt_same _ _ _ (by omega) (by omega)
  have hp4 : m1.load (m.brk + 8 + 4) str.length = str := by
    rw [hm1]
    unfold Memory.writeInt Memory.writeU
    rw [Memory.load_congr _ (m0.store (m.brk + 8 + 4) str) _ _
      (fun a h1 h2 => Memory.store_bytes_outside _ _ _ _ (by rw [toLE_length]; omega))]
    exact Memory.load_store_same _ _ _
  refine ⟨hp1, ?_, ?_, ?_⟩
  · rw [hm1]
    simp only [Memory.writeInt_brk, Memory.store_brk]
    rw [r3]
  · intro a ha1 ha2
    rw [hm1]
    unfold Memory.writeInt
    rw [Memory.writeU_bytes_outside _ _ _ _ _ (by omega),
      Memory.store_bytes_outside _ _ _ _ (by omega)]
    exact r5 a ha1 ha2
  · intro m' hag
    have q2 : m'.readPtr m.brk = m.brk + 8 := by
      unfold Memory.readPtr
      rw [hag.readU m.brk 8 (fun a h1 h2 => ⟨h1, by omega⟩)]
      exact hp2
    have q3 : m'.readInt32 (m.brk + 8) = (str.length : Int) := by
      unfold Memory.readInt32
      rw [hag.readU (m.brk + 8) 4 (fun a h1 h2 => ⟨by omega, by omega⟩)]
      exact hp3
    have q4 : m'.load (m.brk + 8 + 4) str.length = str := by
      rw [hag.load _ _ (fun a h1 h2 => ⟨by omega, by omega⟩)]
      exact hp4
    have hb1 : m.brk ≠ 0 := by omega
    have hb0 : m.brk + 8 ≠ 0 := by omega
    have hcnt1 : ¬ ((str.length : Int) < 0) := by omega
    simp only [GetLVString, hb1, if_false, q2, hb0, q3, hcnt1, Int.toNat_ofNat, q4]

/-- The fresh memory the strings of a repeated node take: a handle, a length and the
bytes for each. -/
def stringsSize : List (List Byte) → Nat
  | [] => 0
  | str :: rest => 8 + (4 + str.length) + stringsSize rest

theorem CopyStringToCluster.loop_roundtrip (L : List (List Byte)) (lvString : Nat)
    (m : Memory) (hslots : lvString + 8 * L.length ≤ m.brk) (hbrk : 0 < m.brk)
    (hfit : m.brk + stringsSize L < 256 ^ 8) (hlen : ∀ s ∈ L, s.length < 2147483648) :
    (CopyStringToCluster.loop lvString L m).brk = m.brk + stringsSize L
    ∧ (∀ a, (a < lvString ∨ lvString + 8 * L.length ≤ a) → a < m.brk →
        (CopyStringToCluster.loop lvString L m).bytes a = m.bytes a)
    ∧ ∀ m', AgreeOn (fun a => (lvString ≤ a ∧ a < lvString + 8 * L.length)
            ∨ (m.brk ≤ a ∧ a < m.brk + stringsSize L))
          (CopyStringToCluster.loop lvString L m) m' →
        CopyStringFromCluster.loop m' lvString L.length = .ok L := by
  induction L generalizing lvString m with
  | nil =>
    simp only [CopyStringToCluster.loop, stringsSize, Nat.add_zero, List.length_nil,
      CopyStringFromCluster.loop]
    exact ⟨trivial, fun _ _ _ => trivial, fun _ _ => trivial⟩
  | cons str rest ih =>
    simp only [List.length_cons, stringsSize] at hslots hfit ⊢
    simp only [CopyStringToCluster.loop]
    set ma := m.writePtr lvString 0 with hma
    have hnull : ma.readPtr lvString = 0 :=
      Memory.readPtr_writePtr_same _ _ _ (by norm_num)
    obtain ⟨s1, s2, s3, s4⟩ := SetLVString_null lvString str ma (by simp [hma]; omega)
      (by simpa [hma] using hbrk) (by simp [hma]; omega)
      (hlen str (List.mem_cons_self _ _)) hnull
    simp only [hma, Memory.writePtr_brk] at s1 s2 s3 s4
    rw [← hma] at s1 s2 s3 s4
    set mb := SetLVString lvString str ma with hmb
    obtain ⟨i1, i2, i3⟩ := ih (lvString + 8) mb (by rw [s2]; omega) (by rw [s2]; omega)
      (by rw [s2]; omega) (fun s hs => hlen s (List.mem_cons_of_mem _ hs))
    set m1 := CopyStringToCluster.loop (lvString + 8) rest mb with hm1
    refine ⟨by rw [i1, s2]; omega, ?_, ?_⟩
    · intro a ha1 ha2
      rw [i2 a (by omega) (by rw [s2]; omega), s3 a (by omega) ha2, hma]
      unfold Memory.writePtr
      exact Memory.writeU_bytes_outside _ _ _ _ _ (by omega)
    · intro m' hag
      have q1 : m'.readPtr lvString = m.brk := by
        unfold Memory.readPtr
        rw [hag.readU lvString 8 (fun a h1 h2 => Or.inl ⟨h1, by omega⟩)]
        rw [Memory.readU_congr m1 mb lvString 8
          (fun a h1 h2 => i2 a (by omega) (by rw [s2]; omega))]
        exact s1
      have q2 : GetLVString m.brk m' = .ok str := by
        apply s4
        intro a ha
        rw [hag a (Or.inr ⟨ha.1, by omega⟩)]
        exact i2 a (by omega) (by rw [s2]; omega)
      have q3 : CopyStringFromCluster.loop m' (lvString + 8) rest.length = .ok rest := by
        apply i3
        intro a ha
        apply hag
        rcases ha with ha | ha
        · exact Or.inl ⟨by omega, by omega⟩
        · rw [s2] at ha
          exact Or.inr ⟨by omega, by omega⟩
      simp only [CopyStringFromCluster.loop, q1, q2, ok_bind, q3, pure_eq_ok]

theorem string_scalar_roundtrip (md : MessageElementMetadata) (start : Nat) (m : Memory)
    (tag : Int) (str : List Byte) (hrep : md.isRepeated = false)
    (hlen : str.length < 2147483648)
    (hslot : start + 8 ≤ m.brk) (hbrk : 0 < m.brk)
    (hfit : m.brk + (8 + (4 + str.length)) < 256 ^ 8) (hnull : m.readPtr start = 0) :
    ∃ m1, CopyStringToCluster md start (.string tag str) m = .ok m1
      ∧ m1.brk = m.brk + (8 + (4 + str.length))
      ∧ (∀ a, (a < start ∨ start + 8 ≤ a) → a < m.brk → m1.bytes a = m.bytes a)
      ∧ ∀ m', AgreeOn (Footprint start 8 m.brk (m.brk + (8 + (4 + str.length)))) m1 m' →
          ∀ msg, CopyStringFromCluster md start m' msg
            = .ok (msg.emplaceValue md.protobufIndex (.string md.protobufIndex str)) := by
  obtain ⟨s1, s2, s3, s4⟩ := SetLVString_null start str m hslot hbrk (by omega) hlen hnull
  refine ⟨SetLVString start str m, ?_, by rw [s2]; omega, s3, ?_⟩
  · simp [CopyStringToCluster, hrep]
  · intro m' hag msg
    have q1 : m'.readPtr start = m.brk := by
      unfold Memory.readPtr
      rw [hag.readU start 8 (fun a h1 h2 => Or.inl ⟨h1, h2⟩)]
      exact s1
    have q2 : GetLVString m.brk m' = .ok str := by
      apply s4
      intro a ha
      exact hag a (Or.inr ⟨ha.1, by omega⟩)
    simp only [CopyStringFromCluster, hrep, Bool.false_eq_true, if_false, q1, q2, ok_bind,
      pure_eq_ok]

/-- The state after a writer has resized the array of a null slot and set its count. -/
theorem arrayHeader_null (typeCode start n : Nat) (m : Memory)
    (hslot : start + 8 ≤ m.brk) (hn : n < 2147483648)
    (hfit : m.brk + 8 + (alignUp 4 (typeCodeWidth typeCode) + n * typeCodeWidth typeCode)
      < 256 ^ 8)
    (h4 : 4 ≤ alignUp 4 (typeCodeWidth typeCode))
    (hnull : m.readPtr start = 0) :
    (NumericArrayResize typeCode 1 start n m).readPtr start = m.brk
    ∧ (NumericArrayResize typeCode 1 start n m).readPtr m.brk = m.brk + 8
    ∧ ∀ m2, m2 = (NumericArrayResize typeCode 1 start n m).writeInt (m.brk + 8) 4 (n : Int) →
      m2.readPtr start = m.brk ∧ m2.readPtr m.brk = m.brk + 8
      ∧ m2.readInt32 (m.brk + 8) = (n : Int)
      ∧ m2.brk = m.brk + 8 + (alignUp 4 (typeCodeWidth typeCode) + n * typeCodeWidth typeCode)
      ∧ (∀ a, (a < start ∨ start + 8 ≤ a) → a < m.brk → m2.bytes a = m.bytes a)
      ∧ (∀ a, m.brk + 8 + 4 ≤ a → a < m2.brk → m2.bytes a = 0) := by
  obtain ⟨r1, r2, r3, r4, r5⟩ := NumericArrayResize_null typeCode 1 start n m hslot hfit hnull
  refine ⟨r1, r2, ?_⟩
  intro m2 hm2
  subst hm2
  refine ⟨?_, ?_, ?_, ?_, ?_, ?_⟩
  · unfold Memory.readPtr Memory.writeInt
    rw [Memory.readU_writeU_disjoint _ _ _ _ _ _ (by omega)]
    exact r1
  · unfold Memory.readPtr Memory.writeInt
    rw [Memory.readU_writeU_disjoint _ _ _ _ _ _ (by omega)]
    exact r2
  · exact Memory.readInt32_writeInt_same _ _ _ (by omega) (by omega)
  · rw [Memory.writeInt_brk, r3]
  · intro a ha1 ha2
    unfold Memory.writeInt
    rw [Memory.writeU_bytes_outside _ _ _ _ _ (by omega)]
    exact r5 a ha1 ha2
  · intro a ha1 ha2
    rw [Memory.writeInt_brk, r3] at ha2
    unfold Memory.writeInt
    rw [Memory.writeU_bytes_outside _ _ _ _ _ (by omega)]
    exact r4 a (by omega) ha2

theorem string_repeated_body (md : MessageElementMetadata) (start : Nat) (m m2 : Memory)
    (L : List (List Byte)) (hrep : md.isRepeated = true)
    (hne : L ≠ []) (hcount : L.length < 2147483648)
    (hlen : ∀ s ∈ L, s.length < 2147483648)
    (hslot : start + 8 ≤ m.brk) (hbrk : 0 < m.brk)
    (hfit : m.brk + (8 + (8 + L.length * 8) + stringsSize L) < 256 ^ 8)
    (a1 : m2.readPtr start = m.brk) (a2 : m2.readPtr m.brk = m.brk + 8)
    (a3 : m2.readInt32 (m.brk + 8) = (L.length : Int))
    (a4 : m2.brk = m.brk + 8 + (8 + L.length * 8))
    (a5 : ∀ a, (a < start ∨ start + 8 ≤ a) → a < m.brk → m2.bytes a = m.bytes a) :
    (CopyStringToCluster.loop (m.brk + 8 + 8) L m2).brk
        = m.brk + (8 + (8 + L.length * 8) + stringsSize L)
      ∧ (∀ a, (a < start ∨ start + 8 ≤ a) → a < m.brk →
          (CopyStringToCluster.loop (m.brk + 8 + 8) L m2).bytes a = m.bytes a)
      ∧ ∀ m', AgreeOn (Footprint start 8 m.brk
            (m.brk + (8 + (8 + L.length * 8) + stringsSize L)))
          (CopyStringToCluster.loop (m.brk + 8 + 8) L m2) m' → ∀ msg,
          CopyStringFromCluster md start m' msg
            = .ok (msg.emplaceValue md.protobufIndex (.repeatedString md.protobufIndex L)) := by
  have hlen0 : L.length ≠ 0 := fun h0 => hne (List.length_eq_zero.1 h0)
  have hal : alignUp 4 8 = 8 := by decide
  have hdata : ∀ block, LV1DArray.bytes block 0 8 = block + 8 := by
    intro block
    simp [LV1DArray.bytes, hal]
  obtain ⟨l1, l2, l3⟩ := CopyStringToCluster.loop_roundtrip L (m.brk + 8 + 8) m2
    (by rw [a4]; omega) (by rw [a4]; omega) (by rw [a4]; omega) hlen
  generalize CopyStringToCluster.loop (m.brk + 8 + 8) L m2 = m1 at l1 l2 l3 ⊢
  have hbrk1 : m1.brk = m.brk + (8 + (8 + L.length * 8) + stringsSize L) := by
    rw [l1, a4]
    omega
  have hp1 : m1.readPtr start = m.brk := by
    unfold Memory.readPtr
    rw [Memory.readU_congr m1 m2 start 8 (fun a h1 h2 => l2 a (by omega) (by omega))]
    exact a1
  have hp2 : m1.readPtr m.brk = m.brk + 8 := by
    unfold Memory.readPtr
    rw [Memory.readU_congr m1 m2 m.brk 8 (fun a h1 h2 => l2 a (by omega) (by omega))]
    exact a2
  have hp3 : m1.readInt32 (m.brk + 8) = (L.length : Int) := by
    unfold Memory.readInt32
    rw [Memory.readU_congr m1 m2 (m.brk + 8) 4 (fun a h1 h2 => l2 a (by omega) (by omega))]
    exact a3
  refine ⟨hbrk1, ?_, ?_⟩
  · intro a ha1 ha2
    rw [l2 a (by omega) (by omega)]
    exact a5 a ha1 ha2
  · intro m' hag msg
    have q1 : m'.readPtr start = m.brk := by
      unfold Memory.readPtr
      rw [hag.readU start 8 (fun a h1 h2 => Or.inl ⟨h1, h2⟩)]
      exact hp1
    have q2 : m'.readPtr m.brk = m.brk + 8 := by
      unfold Memory.readPtr
      rw [hag.readU m.brk 8 (fun a h1 h2 => Or.inr ⟨h1, by omega⟩)]
      exact hp2
    have q3 : m'.readInt32 (m.brk + 8) = (L.length : Int) := by
      unfold Memory.readInt32
      rw [hag.readU (m.brk + 8) 4 (fun a h1 h2 => Or.inr ⟨by omega, by omega⟩)]
      exact hp3
    have q4 : CopyStringFromCluster.loop m' (m.brk + 8 + 8) L.length = .ok L := by
      apply l3
      intro a ha
      apply hag
      rcases ha with ha | ha
      · exact Or.inr ⟨by omega, by omega⟩
      · exact Or.inr ⟨by omega, by omega⟩
    have hb0 : m.brk + 8 ≠ 0 := by omega
    have hb1 : m.brk ≠ 0 := by omega
    have hcnt0 : (L.length : Int) ≠ 0 := by omega
    simp only [CopyStringFromCluster, hrep, if_true, q1, ne_eq, hb1, not_false_eq_true, q2,
      hb0, and_self, q3, hcnt0, hdata, Int.toNat_ofNat, q4, ok_bind, pure_eq_ok]

theorem string_repeated_roundtrip (md : MessageElementMetadata) (start : Nat) (m : Memory)
    (tag : Int) (L : List (List Byte)) (hrep : md.isRepeated = true)
    (hne : L ≠ []) (hcount : L.length < 2147483648)
    (hlen : ∀ s ∈ L, s.length < 2147483648)
    (hslot : start + 8 ≤ m.brk) (hbrk : 0 < m.brk)
    (hfit : m.brk + (8 + (8 + L.length * 8) + stringsSize L) < 256 ^ 8)
    (hnull : m.readPtr start = 0) :
    ∃ m1, CopyStringToCluster md start (.repeatedString tag L) m = .ok m1
      ∧ m1.brk = m.brk + (8 + (8 + L.length * 8) + stringsSize L)
      ∧ (∀ a, (a < start ∨ start + 8 ≤ a) → a < m.brk → m1.bytes a = m.bytes a)
      ∧ ∀ m', AgreeOn (Footprint start 8 m.brk
            (m.brk + (8 + (8 + L.length * 8) + stringsSize L))) m1 m' → ∀ msg,
          CopyStringFromCluster md start m' msg
            = .ok (msg.emplaceValue md.protobufIndex (.repeatedString md.protobufIndex L)) := by
  have hlen0 : L.length ≠ 0 := fun h0 => hne (List.length_eq_zero.1 h0)
  have hcode : typeCodeWidth (GetTypeCodeForSize 8) = 8 := by decide
  have hal : alignUp 4 8 = 8 := by decide
  have hdata : ∀ block, LV1DArray.bytes block 0 8 = block + 8 := by
    intro block
    simp [LV1DArray.bytes, hal]
  obtain ⟨r1, r2, hdr⟩ := arrayHeader_null (GetTypeCodeForSize 8) start L.length m hslot hcount
    (by rw [hcode, hal]; omega) (by rw [hcode, hal]; omega) hnull
  have hres : CopyStringToCluster md start (.repeatedString tag L) m
      = .ok (CopyStringToCluster.loop (m.brk + 8 + 8) L
          ((NumericArrayResize (GetTypeCodeForSize 8) 1 start L.length m).writeInt (m.brk + 8) 4
            (L.length : Int))) := by
    simp only [CopyStringToCluster, hrep, if_true, ne_eq, hlen0, not_false_eq_true, r1, r2,
      hdata]
  obtain ⟨a1, a2, a3, a4, a5, _⟩ := hdr _ rfl
  rw [hcode, hal] at a4
  exact ⟨_, hres, string_repeated_body md start m _ L hrep hne hcount hlen hslot hbrk hfit
    a1 a2 a3 a4 a5⟩

/-- The native value the table gives for a wire value (0 when it gives none). -/
def EnumMetadata.native (e : EnumMetadata) (wire : Int) : Int :=
  match e.GetLVEnumValueFromProtoValue wire with
  | .ok n => n
  | .error _ => 0

/-- The table translates the wire value to a 32-bit native value, and that native value
back to the wire value. -/
def EnumMetadata.RoundTrips (e : EnumMetadata) (wire : Int) : Prop :=
  e.GetLVEnumValueFromProtoValue wire = .ok (e.native wire)
  ∧ -2147483648 ≤ e.native wire ∧ e.native wire < 2147483648
  ∧ e.GetProtoValueFromLVEnumValue (e.native wire) = .ok wire

theorem CopyEnumFromCluster.mapArray_of_load (e : EnumMetadata) (m : Memory) (ws : List Int)
    (data : Nat) (hw : ∀ w ∈ ws, e.RoundTrips w)
    (h : m.load data (4 * ws.length) = encodeArray 4 (ws.map e.native)) :
    CopyEnumFromCluster.mapArray (some e) m data ws.length = .ok ws := by
  induction ws generalizing data with
  | nil => rfl
  | cons w ws ih =>
    have hsplit : m.load data (4 * (w :: ws).length)
        = m.load data 4 ++ m.load (data + 4) (4 * ws.length) := by
      unfold Memory.load
      rw [List.length_cons, Nat.mul_succ, Nat.add_comm, loadBytes_add]
    rw [hsplit] at h
    simp only [List.map_cons, encodeArray] at h
    have hlen : (m.load data 4).length = (toLE 4 (ofInt 4 (e.native w))).length := by
      rw [toLE_length]
      exact loadBytes_length _ _ _
    obtain ⟨h1, h2⟩ := List.append_inj h hlen
    obtain ⟨_, w2, w3, w4⟩ := hw w (List.mem_cons_self _ _)
    have hread : m.readInt32 data = e.native w := by
      unfold Memory.readInt32 Memory.readU
      rw [h1, ofLE_toLE]
      apply toSigned_ofInt
      · norm_num; omega
      · norm_num; omega
    simp only [List.length_cons, CopyEnumFromCluster.mapArray, deref, ok_bind, hread, w4,
      ih (data + 4) (fun y hy => hw y (List.mem_cons_of_mem _ hy)) h2, pure_eq_ok]

/-- The state after a writer has resized the array of a null slot, set its count and
copied `bytes` into its data: what every memory that agrees with it on the slot and on
the fresh memory reads there. -/
theorem memcpyArray_null (typeCode start w n : Nat) (bytes : List Byte) (m : Memory)
    (hcode : typeCodeWidth typeCode = w) (h4 : 4 ≤ alignUp 4 w)
    (hlen : bytes.length = w * n) (hn : n < 2147483648)
    (hslot : start + 8 ≤ m.brk) (hbrk : 0 < m.brk)
    (hfit : m.brk + 8 + (alignUp 4 w + n * w) < 256 ^ 8)
    (hnull : m.readPtr start = 0) (m1 : Memory)
    (hm1 : m1 = ((NumericArrayResize typeCode 1 start n m).writeInt (m.brk + 8) 4 (n : Int)).store
      (m.brk + 8 + alignUp 4 w) bytes) :
    m1.brk = m.brk + (8 + (alignUp 4 w + n * w))
    ∧ (∀ a, (a < start ∨ start + 8 ≤ a) → a < m.brk → m1.bytes a = m.bytes a)
    ∧ ∀ m', AgreeOn (Footprint start 8 m.brk (m.brk + (8 + (alignUp 4 w + n * w)))) m1 m' →
        m'.readPtr start = m.brk ∧ m'.readPtr m.brk = m.brk + 8
        ∧ m'.readInt32 (m.brk + 8) = (n : Int)
        ∧ m'.load (m.brk + 8 + alignUp 4 w) (w * n) = bytes := by
  obtain ⟨_, _, hdr⟩ := arrayHeader_null typeCode start n m hslot hn
    (by rw [hcode]; exact hfit) (by rw [hcode]; exact h4) hnull
  obtain ⟨a1, a2, a3, a4, a5, _⟩ := hdr _ rfl
  rw [hcode] at a4
  generalize (NumericArrayResize typeCode 1 start n m).writeInt (m.brk + 8) 4 (n : Int) = m2
    at a1 a2 a3 a4 a5 hm1
  subst hm1
  have hp1 : (m2.store (m.brk + 8 + alignUp 4 w) bytes).readPtr start = m.brk := by
    unfold Memory.readPtr
    rw [Memory.readU_store_disjoint _ _ _ _ _ (by omega)]
    exact a1
  have hp2 : (m2.store (m.brk + 8 + alignUp 4 w) bytes).readPtr m.brk = m.brk + 8 := by
    unfold Memory.readPtr
    rw [Memory.readU_store_disjoint _ _ _ _ _ (by omega)]
    exact a2
  have hp3 : (m2.store (m.brk + 8 + alignUp 4 w) bytes).readInt32 (m.brk + 8) = (n : Int) := by
    unfold Memory.readInt32
    rw [Memory.readU_store_disjoint _ _ _ _ _ (by omega)]
    exact a3
  have hp4 : (m2.store (m.brk + 8 + alignUp 4 w) bytes).load (m.brk + 8 + alignUp 4 w) (w * n)
      = bytes := by
    rw [← hlen]
    exact Memory.load_store_same _ _ _
  refine ⟨by rw [Memory.store_brk, a4]; omega, ?_, ?_⟩
  · intro a ha1 ha2
    rw [Memory.store_bytes_outside _ _ _ _ (by omega)]
    exact a5 a ha1 ha2
  · intro m' hag
    refine ⟨?_, ?_, ?_, ?_⟩
    · unfold Memory.readPtr
      rw [hag.readU start 8 (fun a h1 h2 => Or.inl ⟨h1, h2⟩)]
      exact hp1
    · unfold Memory.readPtr
      rw [hag.readU m.brk 8 (fun a h1 h2 => Or.inr ⟨h1, by omega⟩)]
      exact hp2
    · unfold Memory.readInt32
      rw [hag.readU (m.brk + 8) 4 (fun a h1 h2 => Or.inr ⟨by omega, by omega⟩)]
      exact hp3
    · rw [hag.load _ _ (fun a h1 h2 => Or.inr ⟨by omega, by
        rw [Nat.mul_comm w] at h2; omega⟩)]
      exact hp4

theorem enum_scalar_roundtrip (env : Env) (md : MessageElementMetadata) (start : Nat)
    (m : Memory) (tag : Int) (e : EnumMetadata) (w : Int)
    (hrep : md.isRepeated = false) (hown : md._owner = true)
    (hfind : env.owner.FindEnumMetadata md.embeddedMessageName = some e)
    (hw : e.RoundTrips w) :
    ∃ m1, CopyEnumToCluster env md start (.scalar .enum tag w) m = .ok m1
      ∧ m1.brk = m.brk
      ∧ (∀ a, (a < start ∨ start + 4 ≤ a) → m1.bytes a = m.bytes a)
      ∧ ∀ m', AgreeOn (Footprint start 4 m.brk (m.brk + 0)) m1 m' → ∀ msg,
          CopyEnumFromCluster env md start m' msg
            = .ok (msg.emplaceValue md.protobufIndex (.scalar .enum md.protobufIndex w)) := by
  obtain ⟨w1, w2, w3, w4⟩ := hw
  refine ⟨m.writeInt start 4 (e.native w), ?_, rfl, ?_, ?_⟩
  · simp [CopyEnumToCluster_eq, MessageElementMetadata.owner, hown, hfind, hrep, deref, w1,
      ok_bind, pure_eq_ok]
  · intro a ha
    exact Memory.writeU_bytes_outside _ _ _ _ _ ha
  · intro m' hag msg
    have q : m'.readInt32 start = e.native w := by
      unfold Memory.readInt32
      rw [hag.readU start 4 (fun a h1 h2 => Or.inl ⟨h1, h2⟩)]
      exact Memory.readInt32_writeInt_same _ _ _ w2 w3
    simp [CopyEnumFromCluster_eq, MessageElementMetadata.owner, hown, hfind, hrep, deref, q, w4,
      ok_bind, pure_eq_ok]

theorem enum_repeated_roundtrip (env : Env) (md : MessageElementMetadata) (start : Nat)
    (m : Memory) (tag : Int) (e : EnumMetadata) (ws : List Int)
    (hrep : md.isRepeated = true) (hown : md._owner = true)
    (hfind : env.owner.FindEnumMetadata md.embeddedMessageName = some e)
    (hne : ws ≠ []) (hlen : ws.length < 2147483648) (hw : ∀ w ∈ ws, e.RoundTrips w)
    (hslot : start + 8 ≤ m.brk) (hbrk : 0 < m.brk)
    (hfit : m.brk + (8 + (4 + ws.length * 4)) < 256 ^ 8)
    (hnull : m.readPtr start = 0) :
    ∃ m1, CopyEnumToCluster env md start (.repeated .enum tag ws) m = .ok m1
      ∧ m1.brk = m.brk + (8 + (4 + ws.length * 4))
      ∧ (∀ a, (a < start ∨ start + 8 ≤ a) → a < m.brk → m1.bytes a = m.bytes a)
      ∧ ∀ m', AgreeOn (Footprint start 8 m.brk (m.brk + (8 + (4 + ws.length * 4)))) m1 m' →
          ∀ msg, CopyEnumFromCluster env md start m' msg
            = .ok (msg.emplaceValue md.protobufIndex (.repeated .enum md.protobufIndex ws)) := by
  have hlen0 : ws.length ≠ 0 := fun h0 => hne (List.length_eq_zero.1 h0)
  have hal : alignUp 4 4 = 4 := by decide
  have hdata : ∀ block, LV1DArray.bytes block 0 4 = block + 4 := by
    intro block
    simp [LV1DArray.bytes, hal]
  have hmap := CopyEnumToCluster.mapArray_ok e e.native ws (fun w hw' => (hw w hw').1)
  obtain ⟨r1, r2, _⟩ := arrayHeader_null 0x03 start ws.length m hslot hlen
    (by simp only [typeCodeWidth]; rw [hal]; omega) (by simp only [typeCodeWidth]; rw [hal])
    hnull
  have hres : CopyEnumToCluster env md start (.repeated .enum tag ws) m
      = .ok (((NumericArrayResize 0x03 1 start ws.length m).writeInt (m.brk + 8) 4
          (ws.length : Int)).store (m.brk + 8 + alignUp 4 4) (encodeArray 4 (ws.map e.native))) := by
    simp only [CopyEnumToCluster_eq, MessageElementMetadata.owner, hown, if_true, ok_bind,
      hfind, hrep, hmap, pure_eq_ok, ne_eq, hlen0, not_false_eq_true, r1, r2, hdata, hal]
  obtain ⟨b1, b2, b3⟩ := memcpyArray_null 0x03 start 4 ws.length
    (encodeArray 4 (ws.map e.native)) m (by rfl) (by rw [hal])
    (by rw [encodeArray_length, List.length_map]) hlen hslot hbrk (by rw [hal]; omega) hnull
    _ rfl
  rw [hal] at b1 b3
  refine ⟨_, hres, b1, b2, ?_⟩
  intro m' hag msg
  obtain ⟨q1, q2, q3, q4⟩ := b3 m' hag
  have q5 := CopyEnumFromCluster.mapArray_of_load e m' ws (m.brk + 8 + 4) hw q4
  have hb0 : m.brk + 8 ≠ 0 := by omega
  have hb1 : m.brk ≠ 0 := by omega
  have hcnt0 : (ws.length : Int) ≠ 0 := by omega
  have hcnt1 : ¬ ((ws.length : Int) < 0) := by omega
  simp only [CopyEnumFromCluster_eq, MessageElementMetadata.owner, hown, if_true, ok_bind, hfind,
    hrep, q1, hb1, if_false, q2, hb0, q3, hcnt0, hcnt1, hdata, Int.toNat_ofNat, q5, pure_eq_ok]

/-! ## Round trip: one field -/

/-- The node class the writer and the reader of a fixed-width kind work with. -/
def LVMessageMetadataType.valueClass : LVMessageMetadataType → Option ValueClass
  | .Int32Value => some .int32
  | .UInt32Value => some .uint32
  | .Int64Value => some .int64
  | .UInt64Value => some .uint64
  | .BoolValue => some .bool
  | .DoubleValue => some .double
  | .FloatValue => some .float
  | .EnumValue => some .enum
  | .SInt32Value => some .sint32
  | .SInt64Value => some .sint64
  | .Fixed32Value => some .fixed32
  | .Fixed64Value => some .fixed64
  | .SFixed32Value => some .sfixed32
  | .SFixed64Value => some .sfixed64
  | .StringValue | .BytesValue | .MessageValue => none

/-- The bytes of the cluster a field of a flat message takes: a handle for a repeated
field and for a string, the value for a scalar. -/
def MessageElementMetadata.slotWidth (d : MessageElementMetadata) : Nat :=
  if d.isRepeated then 8
  else match d.type.valueClass with
    | some c => c.width
    | none => 8

/-- The alignment-units `CopyMessageToCluster` asks for, for `n` clusters of `clusterSize`
bytes whose total fits the 64-bit size type. -/
def arrayUnits (n clusterSize alignment : Nat) : Nat :=
  if n * clusterSize % alignment ≠ 0 then n * clusterSize / alignment + 1
  else n * clusterSize / alignment

/-- The bytes of the block `CopyMessageToCluster` gets for `n` clusters of `clusterSize`
bytes. -/
def arrayBlockSize (n clusterSize alignment : Nat) : Nat :=
  alignUp 4 (typeCodeWidth (GetTypeCodeForSize alignment))
    + arrayUnits n clusterSize alignment * typeCodeWidth (GetTypeCodeForSize alignment)

mutual
/-- The fresh memory the write of a node takes. -/
def allocSize : LVMessageValue → Nat
  | .string _ s => 8 + (4 + s.length)
  | .repeatedString _ L => 8 + (8 + L.length * 8) + stringsSize L
  | .scalar _ _ _ => 0
  | .repeated c _ xs => 8 + (alignUp 4 c.width + xs.length * c.width)
  | .nested _ child => messageSize child
  | .repeatedNested _ children =>
    8 + arrayBlockSize children.length (frontClusterSize children) (frontAlignment children)
      + messagesSize children
/-- The fresh memory the write of a tree takes. -/
def messageSize : LVMessage → Nat
  | .mk values _ _ => valuesSize values
/-- The fresh memory the write of the nodes takes. -/
def valuesSize : List (Int × LVMessageValue) → Nat
  | [] => 0
  | (_, v) :: vt => allocSize v + valuesSize vt
/-- The fresh memory the write of the trees takes. -/
def messagesSize : List LVMessage → Nat
  | [] => 0
  | child :: rest => messageSize child + messagesSize rest
/-- The cluster size of the table of the first tree. -/
def frontClusterSize : List LVMessage → Nat
  | [] => 0
  | .mk _ md _ :: _ => md.clusterSize
/-- The alignment of the table of the first tree. -/
def frontAlignment : List LVMessage → Nat
  | [] => 0
  | .mk _ md _ :: _ => md.alignmentRequirement
end

/-- The nodes that a descriptor of a flat message round-trips: the node has the class the
kind of the descriptor asks for and the tag of the descriptor, its values are in the
range of the class, its strings and arrays are shorter than 2^31, a repeated node is not
empty, and an enum value is translated by the table of the field there and back.  The
kind `MessageValue` is left out. -/
inductive Fits (env : Env) (d : MessageElementMetadata) : LVMessageValue → Prop where
  | string (s : List Byte) (ht : d.type = .StringValue ∨ d.type = .BytesValue)
      (hrep : d.isRepeated = false) (hlen : s.length < 2147483648) :
      Fits env d (.string d.protobufIndex s)
  | repeatedString (L : List (List Byte)) (ht : d.type = .StringValue ∨ d.type = .BytesValue)
      (hrep : d.isRepeated = true) (hne : L ≠ []) (hcount : L.length < 2147483648)
      (hlen : ∀ s ∈ L, s.length < 2147483648) :
      Fits env d (.repeatedString d.protobufIndex L)
  | scalar (c : ValueClass) (x : Int) (ht : d.type.valueClass = some c) (hc : c ≠ .enum)
      (hrep : d.isRepeated = false) (hx : c.InRange x) :
      Fits env d (.scalar c d.protobufIndex x)
  | repeated (c : ValueClass) (xs : List Int) (ht : d.type.valueClass = some c)
      (hc : c ≠ .enum) (hrep : d.isRepeated = true) (hne : xs ≠ [])
      (hcount : xs.length < 2147483648) (hx : ∀ x ∈ xs, c.InRange x) :
      Fits env d (.repeated c d.protobufIndex xs)
  | enum (e : EnumMetadata) (w : Int) (ht : d.type = .EnumValue) (hrep : d.isRepeated = false)
      (hown : d._owner = true)
      (hfind : env.owner.FindEnumMetadata d.embeddedMessageName = some e)
      (hw : e.RoundTrips w) :
      Fits env d (.scalar .enum d.protobufIndex w)
  | repeatedEnum (e : EnumMetadata) (ws : List Int) (ht : d.type = .EnumValue)
      (hrep : d.isRepeated = true) (hown : d._owner = true)
      (hfind : env.owner.FindEnumMetadata d.embeddedMessageName = some e)
      (hne : ws ≠ []) (hcount : ws.length < 2147483648) (hw : ∀ w ∈ ws, e.RoundTrips w) :
      Fits env d (.repeated .enum d.protobufIndex ws)

theorem Fits.protobufId {env : Env} {d : MessageElementMetadata} {v : LVMessageValue}
    (h : Fits env d v) : v._protobufId = d.protobufIndex := by
  cases h <;> rfl

theorem CopyToCluster.dispatch_writes_fixed (env : Env) (d : MessageElementMetadata) (c : ValueClass)
    (ht : d.type.valueClass = some c) (hc : c ≠ .enum) :
    ∃ code, typeCodeWidth code = c.width ∧ ∀ thunk start v m,
      CopyToCluster.dispatch env thunk d start v m
        = CopyFixedWidthToCluster c code d start v m := by
  cases hty : d.type <;> rw [hty] at ht <;>
    simp only [LVMessageMetadataType.valueClass, Option.some.injEq, reduceCtorEq] at ht <;>
    subst ht
  case EnumValue => exact absurd rfl hc
  case Int32Value => exact ⟨0x03, rfl, fun _ _ _ _ => by simp only [CopyToCluster.dispatch, hty]; rfl⟩
  case UInt32Value => exact ⟨0x03, rfl, fun _ _ _ _ => by simp only [CopyToCluster.dispatch, hty]; rfl⟩
  case Int64Value => exact ⟨0x04, rfl, fun _ _ _ _ => by simp only [CopyToCluster.dispatch, hty]; rfl⟩
  case UInt64Value => exact ⟨0x08, rfl, fun _ _ _ _ => by simp only [CopyToCluster.dispatch, hty]; rfl⟩
  case BoolValue => exact ⟨0x01, rfl, fun _ _ _ _ => by simp only [CopyToCluster.dispatch, hty]; rfl⟩
  case DoubleValue => exact ⟨0x0A, rfl, fun _ _ _ _ => by simp only [CopyToCluster.dispatch, hty]; rfl⟩
  case FloatValue => exact ⟨0x03, rfl, fun _ _ _ _ => by simp only [CopyToCluster.dispatch, hty]; rfl⟩
  case SInt32Value => exact ⟨0x03, rfl, fun _ _ _ _ => by simp only [CopyToCluster.dispatch, hty]; rfl⟩
  case SInt64Value => exact ⟨0x04, rfl, fun _ _ _ _ => by simp only [CopyToCluster.dispatch, hty]; rfl⟩
  case Fixed32Value => exact ⟨0x03, rfl, fun _ _ _ _ => by simp only [CopyToCluster.dispatch, hty]; rfl⟩
  case Fixed64Value => exact ⟨0x04, rfl, fun _ _ _ _ => by simp only [CopyToCluster.dispatch, hty]; rfl⟩
  case SFixed32Value => exact ⟨0x03, rfl, fun _ _ _ _ => by simp only [CopyToCluster.dispatch, hty]; rfl⟩
  case SFixed64Value => exact ⟨0x04, rfl, fun _ _ _ _ => by simp only [CopyToCluster.dispatch, hty]; rfl⟩

theorem emplace_emplace_same {α : Type} (k : Int) (v w : α) (xs : List (Int × α)) :
    emplace k w (emplace k v xs) = emplace k v xs := by
  induction xs with
  | nil => simp [emplace]
  | cons p rest ih =>
    obtain ⟨k', v'⟩ := p
    simp only [emplace]
    by_cases h1 : k < k'
    · simp [h1, emplace]
    · by_cases h2 : k = k'
      · simp [h1, h2, emplace]
      · simp [h1, h2, emplace, ih]

/-- The reader of one fixed-width kind followed by the reader of another, on the same
field: the second finds the tag taken and leaves the tree as the first made it. -/
theorem CopyFixedWidthFromCluster_twice (c c' : ValueClass) (d : MessageElementMetadata)
    (start : Nat) (m : Memory) (msg : LVMessage) :
    (CopyFixedWidthFromCluster c d start m msg >>= CopyFixedWidthFromCluster c' d start m)
      = CopyFixedWidthFromCluster c d start m msg := by
  unfold CopyFixedWidthFromCluster
  by_cases hrep : d.isRepeated = true
  · simp only [hrep, if_true]
    by_cases h1 : m.readPtr start = 0
    · simp [h1, ok_bind, hrep]
    · by_cases h2 : m.readPtr (m.readPtr start) = 0
      · simp [h1, h2, ok_bind, hrep]
      · by_cases h3 : m.readInt32 (m.readPtr (m.readPtr start)) = 0
        · simp [h1, h2, h3, ok_bind, hrep]
        · by_cases h4 : m.readInt32 (m.readPtr (m.readPtr start)) < 0
          · simp [h1, h2, h3, h4, error_bind]
          · simp [h1, h2, h3, h4, ok_bind, hrep, LVMessage.emplaceValue, emplace_emplace_same]
  · simp [hrep, ok_bind, LVMessage.emplaceValue, emplace_emplace_same]

theorem CopyFromCluster.dispatch_fixed (env : Env) (d : MessageElementMetadata)
    (c : ValueClass) (ht : d.type.valueClass = some c) (hc : c ≠ .enum)
    (rec : LVMessage → Nat → Except Fault LVMessage) (start : Nat) (m : Memory)
    (msg : LVMessage) :
    CopyFromCluster.dispatch env rec d start m msg
      = CopyFixedWidthFromCluster c d start m msg := by
  cases hty : d.type <;> rw [hty] at ht <;>
    simp only [LVMessageMetadataType.valueClass, Option.some.injEq, reduceCtorEq] at ht <;>
    subst ht
  case EnumValue => exact absurd rfl hc
  case Fixed32Value =>
    simp only [CopyFromCluster.dispatch, hty]
    exact CopyFixedWidthFromCluster_twice .fixed32 .fixed64 d start m msg
  all_goals
    simp only [CopyFromCluster.dispatch, hty]
    rfl

theorem CopyToCluster.dispatch_writes_string (env : Env) (d : MessageElementMetadata)
    (ht : d.type = .StringValue ∨ d.type = .BytesValue) (thunk : Unit → Except Fault Memory)
    (start : Nat) (v : LVMessageValue) (m : Memory) :
    CopyToCluster.dispatch env thunk d start v m = CopyStringToCluster d start v m := by
  rcases ht with ht | ht <;> simp only [CopyToCluster.dispatch, ht, CopyBytesToCluster]

theorem CopyFromCluster.dispatch_string (env : Env) (d : MessageElementMetadata)
    (ht : d.type = .StringValue ∨ d.type = .BytesValue)
    (rec : LVMessage → Nat → Except Fault LVMessage) (start : Nat) (m : Memory)
    (msg : LVMessage) :
    CopyFromCluster.dispatch env rec d start m msg = CopyStringFromCluster d start m msg := by
  rcases ht with ht | ht <;> simp only [CopyFromCluster.dispatch, ht, CopyBytesFromCluster]

theorem MessageElementMetadata.slotWidth_string (d : MessageElementMetadata)
    (ht : d.type = .StringValue ∨ d.type = .BytesValue) : d.slotWidth = 8 := by
  unfold MessageElementMetadata.slotWidth
  rcases ht with ht | ht <;> simp [ht, LVMessageMetadataType.valueClass]

/-- One field of a flat message, written into a zeroed slot and read back.  The write
returns; it takes `allocSize v` bytes of fresh memory; below the fresh memory it changes
the slot only; and every memory that agrees with the result on the slot and on that
fresh memory reads the node `v` back. -/
theorem row_roundtrip (env : Env) (d : MessageElementMetadata) (v : LVMessageValue)
    (start : Nat) (m : Memory) (hfit : Fits env d v)
    (hslot : start + d.slotWidth ≤ m.brk) (hbrk : 0 < m.brk)
    (hzero : ∀ a, start ≤ a → a < start + d.slotWidth → m.bytes a = 0)
    (hmem : m.brk + allocSize v < 256 ^ 8) :
    ∃ m1, (∀ thunk, CopyToCluster.dispatch env thunk d start v m = .ok m1)
      ∧ m1.brk = m.brk + allocSize v
      ∧ (∀ a, (a < start ∨ start + d.slotWidth ≤ a) → a < m.brk → m1.bytes a = m.bytes a)
      ∧ ∀ m', AgreeOn (Footprint start d.slotWidth m.brk (m.brk + allocSize v)) m1 m' →
          ∀ rec msg, CopyFromCluster.dispatch env rec d start m' msg
            = .ok (msg.emplaceValue d.protobufIndex v) := by
  have hnull8 : d.slotWidth = 8 → m.readPtr start = 0 := by
    intro h8
    rw [h8] at hzero
    exact readU_zero m start 8 hzero
  cases hfit with
  | string str ht hrep hlen =>
    have hw := d.slotWidth_string ht
    rw [hw] at hslot ⊢
    obtain ⟨m1, h1, h2, h3, h4⟩ := string_scalar_roundtrip d start m d.protobufIndex str hrep
      hlen hslot hbrk hmem (hnull8 hw)
    refine ⟨m1, fun thunk => ?_, h2, h3, fun m' hag rec msg => ?_⟩
    · rw [CopyToCluster.dispatch_writes_string env d ht]
      exact h1
    · rw [CopyFromCluster.dispatch_string env d ht]
      exact h4 m' hag msg
  | repeatedString L ht hrep hne hcount hlen =>
    have hw : d.slotWidth = 8 := by simp [MessageElementMetadata.slotWidth, hrep]
    rw [hw] at hslot ⊢
    obtain ⟨m1, h1, h2, h3, h4⟩ := string_repeated_roundtrip d start m d.protobufIndex L hrep
      hne hcount hlen hslot hbrk hmem (hnull8 hw)
    refine ⟨m1, fun thunk => ?_, h2, h3, fun m' hag rec msg => ?_⟩
    · rw [CopyToCluster.dispatch_writes_string env d ht]
      exact h1
    · rw [CopyFromCluster.dispatch_string env d ht]
      exact h4 m' hag msg
  | scalar c x ht hc hrep hx =>
    have hw : d.slotWidth = c.width := by simp [MessageElementMetadata.slotWidth, hrep, ht]
    rw [hw] at hslot ⊢
    obtain ⟨code, _, hcode⟩ := CopyToCluster.dispatch_writes_fixed env d c ht hc
    obtain ⟨m1, h1, h2, h3, h4⟩ := fixedWidth_scalar_roundtrip c code d start m
      d.protobufIndex x hrep hx
    refine ⟨m1, fun thunk => ?_, h2, fun a ha _ => h3 a ha, fun m' hag rec msg => ?_⟩
    · rw [hcode]
      exact h1
    · rw [CopyFromCluster.dispatch_fixed env d c ht hc]
      exact h4 m' hag msg
  | repeated c xs ht hc hrep hne hcount hx =>
    have hw : d.slotWidth = 8 := by simp [MessageElementMetadata.slotWidth, hrep]
    rw [hw] at hslot ⊢
    obtain ⟨code, hcw, hcode⟩ := CopyToCluster.dispatch_writes_fixed env d c ht hc
    obtain ⟨m1, h1, h2, h3, h4⟩ := fixedWidth_repeated_roundtrip c code d start m
      d.protobufIndex xs hrep hcw hne hcount hx hslot hbrk
      (by simp only [allocSize] at hmem; omega)
      (hnull8 hw)
    refine ⟨m1, fun thunk => ?_, by rw [h2]; simp only [allocSize]; omega, h3,
      fun m' hag rec msg => ?_⟩
    · rw [hcode]
      exact h1
    · rw [CopyFromCluster.dispatch_fixed env d c ht hc]
      exact h4 m' hag msg
  | enum e w ht hrep hown hfind hw' =>
    have hw : d.slotWidth = 4 := by
      simp [MessageElementMetadata.slotWidth, hrep, ht, LVMessageMetadataType.valueClass,
        ValueClass.width]
    rw [hw] at hslot ⊢
    obtain ⟨m1, h1, h2, h3, h4⟩ := enum_scalar_roundtrip env d start m d.protobufIndex e w
      hrep hown hfind hw'
    refine ⟨m1, fun thunk => ?_, h2, fun a ha _ => h3 a ha, fun m' hag rec msg => ?_⟩
    · simp only [CopyToCluster.dispatch, ht]
      exact h1
    · simp only [CopyFromCluster.dispatch, ht]
      exact h4 m' hag msg
  | repeatedEnum e ws ht hrep hown hfind hne hcount hw' =>
    have hw : d.slotWidth = 8 := by simp [MessageElementMetadata.slotWidth, hrep]
    rw [hw] at hslot ⊢
    have hal : alignUp 4 4 = 4 := by decide
    have hsz : allocSize (.repeated .enum d.protobufIndex ws) = 8 + (4 + ws.length * 4) := by
      simp [allocSize, ValueClass.width, hal]
    rw [hsz] at hmem ⊢
    obtain ⟨m1, h1, h2, h3, h4⟩ := enum_repeated_roundtrip env d start m d.protobufIndex e ws
      hrep hown hfind hne hcount hw' hslot hbrk hmem (hnull8 hw)
    refine ⟨m1, fun thunk => ?_, h2, h3, fun m' hag rec msg => ?_⟩
    · simp only [CopyToCluster.dispatch, ht]
      exact h1
    · simp only [CopyFromCluster.dispatch, ht]
      exact h4 m' hag msg

/-! ## Round trip: one message -/

/-- A repeated field whose handle is empty is read without failure and without a node,
when the descriptor has the owner its reader calls. -/
theorem CopyFromCluster.dispatch_empty_ok (env : Env)
    (rec : LVMessage → Nat → Except Fault LVMessage) (md : MessageElementMetadata)
    (start : Nat) (m : Memory) (msg : LVMessage) (hr : md.isRepeated = true)
    (hwk : md.type = .MessageValue → md.wellKnownType = .None)
    (hown : md.type = .MessageValue ∨ md.type = .EnumValue → md._owner = true)
    (he : EmptyHandle m start) :
    CopyFromCluster.dispatch env rec md start m msg = .ok msg := by
  have hf := fun c => CopyFixedWidthFromCluster_empty c md start m msg hr he
  have hs := CopyStringFromCluster_empty md start m msg hr he
  have h1 : m.readPtr start = 0 ∨ (m.readPtr start ≠ 0 ∧ (m.readPtr (m.readPtr start) = 0
      ∨ (m.readPtr (m.readPtr start) ≠ 0
        ∧ m.readInt32 (m.readPtr (m.readPtr start)) = 0))) := by
    unfold EmptyHandle at he
    by_cases a : m.readPtr start = 0
    · exact Or.inl a
    · by_cases b : m.readPtr (m.readPtr start) = 0
      · exact Or.inr ⟨a, Or.inl b⟩
      · rcases he with he | he | he
        · exact absurd he a
        · exact absurd he b
        · exact Or.inr ⟨a, Or.inr ⟨b, he⟩⟩
  cases hty : md.type
  case MessageValue =>
    simp only [CopyFromCluster.dispatch, hty, CopyMessageFromCluster, hwk hty,
      MessageElementMetadata.owner, hown (Or.inl hty), if_true, ok_bind, hr]
    rcases h1 with a | ⟨a, b | ⟨b, c⟩⟩
    · simp [a, pure_eq_ok]
    · simp [a, b, pure_eq_ok]
    · simp [a, b, c, pure_eq_ok]
  case EnumValue =>
    simp only [CopyFromCluster.dispatch, hty, CopyEnumFromCluster_eq,
      MessageElementMetadata.owner, hown (Or.inr hty), if_true, ok_bind, hr]
    rcases h1 with a | ⟨a, b | ⟨b, c⟩⟩
    · simp [a, pure_eq_ok]
    · simp [a, b, pure_eq_ok]
    · simp [a, b, c, pure_eq_ok]
  all_goals
    simp only [CopyFromCluster.dispatch, hty, CopyBoolFromCluster, CopyDoubleFromCluster,
      CopyFloatFromCluster, CopyInt32FromCluster, CopyInt64FromCluster, CopyUInt32FromCluster,
      CopyUInt64FromCluster, CopySInt32FromCluster, CopySInt64FromCluster,
      CopyFixed32FromCluster, CopyFixed64FromCluster, CopySFixed32FromCluster,
      CopySFixed64FromCluster, CopyBytesFromCluster, hf, hs, ok_bind]

/-- What it is for the node `v` of the descriptor `d` to round-trip: written into a
zeroed slot of `W` bytes that lies in memory handed out already, the write returns, takes
`size` bytes of fresh memory and changes no other byte below the fresh memory than those
of the slot; and every memory that agrees with the result on the slot and on the fresh
memory reads `v` back, with a recursion budget of `N` or more. -/
def RoundTripsAt (env : Env) (d : MessageElementMetadata) (v : LVMessageValue)
    (W size N : Nat) : Prop :=
  ∀ start m, start + W ≤ m.brk → 0 < m.brk →
    (∀ a, start ≤ a → a < start + W → m.bytes a = 0) → m.brk + size < 256 ^ 8 →
    ∃ m1, CopyToCluster.dispatch env (fun _ => CopyMessageToCluster env d start v m) d start v m
        = .ok m1
      ∧ m1.brk = m.brk + size
      ∧ (∀ a, (a < start ∨ start + W ≤ a) → a < m.brk → m1.bytes a = m.bytes a)
      ∧ ∀ m', AgreeOn (Footprint start W m.brk (m.brk + size)) m1 m' →
          ∀ fuel msg, N ≤ fuel →
            CopyFromCluster.dispatch env (CopyFromCluster env m' fuel) d start m' msg
              = .ok (msg.emplaceValue d.protobufIndex v)

theorem Fits.roundTripsAt {env : Env} {d : MessageElementMetadata} {v : LVMessageValue}
    (h : Fits env d v) (N : Nat) : RoundTripsAt env d v d.slotWidth (allocSize v) N := by
  intro start m h1 h2 h3 h4
  obtain ⟨m1, r1, r2, r3, r4⟩ := row_roundtrip env d v start m h h1 h2 h3 h4
  exact ⟨m1, r1 _, r2, r3, fun m' hag fuel msg _ => r4 m' hag _ msg⟩

/-- The descriptor passes the oneof rules of the read under the selections `sel`. -/
def Active (sel : List (String × Int)) (d : MessageElementMetadata) : Prop :=
  d.isInOneof = false
    ∨ (0 ≤ d.protobufIndex ∧ mapFind d.oneofContainerName sel = some d.protobufIndex)

/-- The descriptor is skipped by the oneof rules of the read under the selections `sel`:
it is a discriminator, or a member of a group that selects another tag. -/
def Skipped (sel : List (String × Int)) (d : MessageElementMetadata) : Prop :=
  d.isInOneof = true
    ∧ (d.protobufIndex < 0
      ∨ ∃ s, mapFind d.oneofContainerName sel = some s ∧ s ≠ d.protobufIndex)

/-- A descriptor of a table together with the node the tree holds for it, if any, the
bytes of its slot and the fresh memory its write takes. -/
structure Row where
  d : MessageElementMetadata
  node : Option LVMessageValue
  width : Nat
  size : Nat

/-- The row is one the round trip covers.  A row with a node passes the oneof rules and
its node round-trips.  A row without a node is skipped by the oneof rules, or is a
repeated field (which stays empty). -/
def Row.OK (env : Env) (sel : List (String × Int)) (N : Nat) (r : Row) : Prop :=
  match r.node with
  | some v => Active sel r.d ∧ v._protobufId = r.d.protobufIndex
      ∧ RoundTripsAt env r.d v r.width r.size N
  | none => r.size = 0 ∧ (Skipped sel r.d
      ∨ (Active sel r.d ∧ r.width = 8 ∧ r.d.isRepeated = true
        ∧ (r.d.type = .MessageValue → r.d.wellKnownType = .None)
        ∧ (r.d.type = .MessageValue ∨ r.d.type = .EnumValue → r.d._owner = true)))

/-- The `_mappedElements` of the table the rows stand for. -/
def rowsEntries (rows : List Row) : List (Int × MessageElementMetadata) :=
  rows.map (fun r => (r.d.protobufIndex, r.d))

/-- The `_values` of the tree the rows stand for. -/
def rowsValues : List Row → List (Int × LVMessageValue)
  | [] => []
  | r :: rows =>
    match r.node with
    | some v => (r.d.protobufIndex, v) :: rowsValues rows
    | none => rowsValues rows

/-- The fresh memory the write of the rows takes. -/
def rowsSize : List Row → Nat
  | [] => 0
  | r :: rows => r.size + rowsSize rows

/-- The address lies in the slot of the row, in the cluster at `c`. -/
def Row.InSlot (c : Nat) (r : Row) (a : Nat) : Prop :=
  c + r.d.clusterOffset ≤ a ∧ a < c + r.d.clusterOffset + r.width

/-- The tree after the `emplace` of every entry of the list, in order. -/
def emplaceAll (msg : LVMessage) : List (Int × LVMessageValue) → LVMessage
  | [] => msg
  | (k, v) :: rest => emplaceAll (msg.emplaceValue k v) rest

theorem emplaceAll_oneof (msg : LVMessage) (kvs : List (Int × LVMessageValue)) :
    (emplaceAll msg kvs)._oneofContainerToSelectedIndexMap
      = msg._oneofContainerToSelectedIndexMap := by
  induction kvs generalizing msg with
  | nil => rfl
  | cons p kvs ih =>
    obtain ⟨k, v⟩ := p
    simp only [emplaceAll]
    rw [ih]
    rfl

theorem CopyFromCluster.fields_cons_active (env : Env)
    (rec : LVMessage → Nat → Except Fault LVMessage) (c : Nat) (m : Memory) (k : Int)
    (d : MessageElementMetadata) (rest : List (Int × MessageElementMetadata))
    (msg : LVMessage) (h : Active msg._oneofContainerToSelectedIndexMap d) :
    CopyFromCluster.fields env rec c m ((k, d) :: rest) msg
      = (CopyFromCluster.dispatch env rec d (c + d.clusterOffset) m msg >>= fun msg1 =>
          CopyFromCluster.fields env rec c m rest msg1) := by
  simp only [CopyFromCluster.fields]
  rcases h with h | ⟨h1, h2⟩
  · simp [h]
  · by_cases hin : d.isInOneof = true
    · have hneg : ¬ d.protobufIndex < 0 := by omega
      simp [hin, hneg, h2]
    · simp [hin]

theorem CopyFromCluster.fields_cons_skipped (env : Env)
    (rec : LVMessage → Nat → Except Fault LVMessage) (c : Nat) (m : Memory) (k : Int)
    (d : MessageElementMetadata) (rest : List (Int × MessageElementMetadata))
    (msg : LVMessage) (h : Skipped msg._oneofContainerToSelectedIndexMap d) :
    CopyFromCluster.fields env rec c m ((k, d) :: rest) msg
      = CopyFromCluster.fields env rec c m rest msg := by
  simp only [CopyFromCluster.fields]
  obtain ⟨hin, h⟩ := h
  rcases h with h | ⟨s, h1, h2⟩
  · simp [hin, h]
  · by_cases hneg : d.protobufIndex < 0
    · simp [hin, hneg]
    · simp [hin, hneg, h1, h2]

/-- The first pass of the write and the second loop of the read, for a list of rows that
the round trip covers, with slots that lie apart in a zeroed cluster: the write returns,
takes the fresh memory of its rows, changes no byte below it outside the slots of the
rows with a node; and every memory that agrees with the result on the slots and on the
fresh memory reads the nodes of the rows back. -/
theorem fields_roundtrip (env : Env) (md : MessageMetadata) (sel : List (String × Int))
    (N c : Nat) (rows : List Row) (m : Memory)
    (hT : ∀ r ∈ rows, ∀ v, r.node = some v →
      mapFind r.d.protobufIndex md._mappedElements = some r.d)
    (hR : ∀ r ∈ rows, r.OK env sel N)
    (hS : ∀ r ∈ rows, Active sel r.d →
      c + r.d.clusterOffset + r.width ≤ m.brk ∧ ∀ a, r.InSlot c a → m.bytes a = 0)
    (hD : rows.Pairwise (fun r1 r2 => Active sel r1.d → Active sel r2.d →
      r1.d.clusterOffset + r1.width ≤ r2.d.clusterOffset
        ∨ r2.d.clusterOffset + r2.width ≤ r1.d.clusterOffset))
    (hbrk : 0 < m.brk) (hF : m.brk + rowsSize rows < 256 ^ 8) :
    ∃ m1, CopyToCluster.fields env md c (rowsValues rows) m = .ok m1
      ∧ m1.brk = m.brk + rowsSize rows
      ∧ (∀ a, a < m.brk → (∀ r ∈ rows, r.node ≠ none → ¬ r.InSlot c a) →
          m1.bytes a = m.bytes a)
      ∧ ∀ m', AgreeOn (fun a => (∃ r ∈ rows, Active sel r.d ∧ r.InSlot c a)
            ∨ (m.brk ≤ a ∧ a < m.brk + rowsSize rows)) m1 m' →
          ∀ fuel msg, N ≤ fuel → msg._oneofContainerToSelectedIndexMap = sel →
            CopyFromCluster.fields env (CopyFromCluster env m' fuel) c m' (rowsEntries rows) msg
              = .ok (emplaceAll msg (rowsValues rows)) := by
  induction rows generalizing m with
  | nil =>
    refine ⟨m, ?_, by simp [rowsSize], fun _ _ _ => rfl, ?_⟩
    · simp [rowsValues, CopyToCluster.fields]
    · intro m' _ fuel msg _ _
      simp [rowsEntries, CopyFromCluster.fields, rowsValues, emplaceAll]
  | cons r rows ih =>
    rw [List.pairwise_cons] at hD
    obtain ⟨hDr, hD'⟩ := hD
    have hT' := fun r' hr' => hT r' (List.mem_cons_of_mem _ hr')
    have hR' := fun r' hr' => hR r' (List.mem_cons_of_mem _ hr')
    have hRr := hR r (List.mem_cons_self _ _)
    have hActive : ∀ r' ∈ rows, r'.node ≠ none → Active sel r'.d := by
      intro r' hr' hn
      have := hR' r' hr'
      unfold Row.OK at this
      cases hnode : r'.node with
      | none => exact absurd hnode hn
      | some v => rw [hnode] at this; exact this.1
    have hentries : rowsEntries (r :: rows) = (r.d.protobufIndex, r.d) :: rowsEntries rows := rfl
    cases hnode : r.node with
    | none =>
      unfold Row.OK at hRr
      rw [hnode] at hRr
      obtain ⟨hsize, hcase⟩ := hRr
      have hvals : rowsValues (r :: rows) = rowsValues rows := by simp [rowsValues, hnode]
      have hsz : rowsSize (r :: rows) = rowsSize rows := by simp [rowsSize, hsize]
      rw [hvals, hsz]
      rw [hsz] at hF
      obtain ⟨m1, i1, i2, i3, i4⟩ := ih m hT' hR'
        (fun r' hr' => hS r' (List.mem_cons_of_mem _ hr')) hD' hbrk hF
      refine ⟨m1, i1, i2, ?_, ?_⟩
      · intro a ha hout
        exact i3 a ha (fun r' hr' => hout r' (List.mem_cons_of_mem _ hr'))
      · intro m' hag fuel msg hfuel hsel
        have hrest := i4 m' (fun a ha => hag a (by
          rcases ha with ⟨r', hr', h1, h2⟩ | ha
          · exact Or.inl ⟨r', List.mem_cons_of_mem _ hr', h1, h2⟩
          · exact Or.inr ha)) fuel msg hfuel hsel
        rw [hentries]
        rcases hcase with hsk | ⟨hact, hw8, hrep, hwk, hown⟩
        · rw [CopyFromCluster.fields_cons_skipped _ _ _ _ _ _ _ _ (by rw [hsel]; exact hsk)]
          exact hrest
        · rw [CopyFromCluster.fields_cons_active _ _ _ _ _ _ _ _ (by rw [hsel]; exact hact)]
          have hslot := hS r (List.mem_cons_self _ _) hact
          have hzero : ∀ a, c + r.d.clusterOffset ≤ a → a < c + r.d.clusterOffset + 8 →
              m'.bytes a = 0 := by
            intro a h1 h2
            have hin : r.InSlot c a := ⟨h1, by rw [hw8]; exact h2⟩
            rw [hag a (Or.inl ⟨r, List.mem_cons_self _ _, hact, hin⟩)]
            rw [i3 a (by have := hslot.1; omega) (fun r' hr' hn hin' => by
              have := hDr r' hr' hact (hActive r' hr' hn)
              unfold Row.InSlot at hin hin'
              omega)]
            exact hslot.2 a hin
          have hempty : EmptyHandle m' (c + r.d.clusterOffset) :=
            Or.inl (readU_zero m' _ 8 hzero)
          rw [CopyFromCluster.dispatch_empty_ok env _ r.d _ m' msg hrep hwk hown hempty, ok_bind]
          exact hrest
    | some v =>
      unfold Row.OK at hRr
      rw [hnode] at hRr
      obtain ⟨hact, hid, hrt⟩ := hRr
      have hvals : rowsValues (r :: rows) = (r.d.protobufIndex, v) :: rowsValues rows := by
        simp [rowsValues, hnode]
      have hsz : rowsSize (r :: rows) = r.size + rowsSize rows := rfl
      rw [hvals, hsz]
      rw [hsz] at hF
      have hslot := hS r (List.mem_cons_self _ _) hact
      obtain ⟨ma, w1, w2, w3, w4⟩ := hrt (c + r.d.clusterOffset) m hslot.1 hbrk
        (fun a h1 h2 => hslot.2 a ⟨h1, h2⟩) (by omega)
      obtain ⟨m1, i1, i2, i3, i4⟩ := ih ma hT' hR'
        (fun r' hr' hact' => by
          have hs' := hS r' (List.mem_cons_of_mem _ hr') hact'
          refine ⟨by rw [w2]; omega, fun a hin' => ?_⟩
          rw [w3 a (by
            have := hDr r' hr' hact hact'
            unfold Row.InSlot at hin'
            omega) (by unfold Row.InSlot at hin'; omega)]
          exact hs'.2 a hin')
        hD' (by rw [w2]; omega) (by rw [w2]; omega)
      have hlook : mapFind v._protobufId md._mappedElements = some r.d := by
        rw [hid]
        exact hT r (List.mem_cons_self _ _) v hnode
      refine ⟨m1, ?_, by rw [i2, w2]; omega, ?_, ?_⟩
      · rw [CopyToCluster.fields]
        simp only [hlook]
        rw [w1, ok_bind]
        exact i1
      · intro a ha hout
        have hnot : ¬ r.InSlot c a := hout r (List.mem_cons_self _ _) (by rw [hnode]; simp)
        rw [i3 a (by rw [w2]; omega) (fun r' hr' => hout r' (List.mem_cons_of_mem _ hr'))]
        exact w3 a (by unfold Row.InSlot at hnot; omega) ha
      · intro m' hag fuel msg hfuel hsel
        rw [hentries]
        rw [CopyFromCluster.fields_cons_active _ _ _ _ _ _ _ _ (by rw [hsel]; exact hact)]
        have hread := w4 m' (fun a ha => by
          have hm1 : m1.bytes a = ma.bytes a := by
            apply i3 a
            · rcases ha with ha | ha
              · rw [w2]; omega
              · rw [w2]; omega
            · intro r' hr' hn hin'
              have hact' := hActive r' hr' hn
              have hs' := hS r' (List.mem_cons_of_mem _ hr') hact'
              unfold Row.InSlot at hin'
              rcases ha with ha | ha
              · have := hDr r' hr' hact hact'
                omega
              · omega
          rw [← hm1]
          apply hag
          rcases ha with ha | ha
          · exact Or.inl ⟨r, List.mem_cons_self _ _, hact, ha⟩
          · exact Or.inr ⟨ha.1, by omega⟩) fuel msg hfuel
        rw [hread, ok_bind]
        have hrest := i4 m' (fun a ha => hag a (by
          rcases ha with ⟨r', hr', h1, h2⟩ | ha
          · exact Or.inl ⟨r', List.mem_cons_of_mem _ hr', h1, h2⟩
          · rw [w2] at ha
            exact Or.inr ⟨by omega, by omega⟩)) fuel
          (msg.emplaceValue r.d.protobufIndex v) hfuel (by simpa using hsel)
        rw [hrest]
        rfl

theorem emplace_append {α : Type} (k : Int) (v : α) (l : List (Int × α))
    (h : ∀ k' ∈ keys l, k' < k) : emplace k v l = l ++ [(k, v)] := by
  induction l with
  | nil => rfl
  | cons p l ih =>
    obtain ⟨k1, v1⟩ := p
    have h1 : k1 < k := h k1 (by simp [keys])
    simp only [emplace]
    rw [if_neg (by omega), if_neg (by omega)]
    rw [ih (fun k' hk' => h k' (by simp only [keys, List.map_cons, List.mem_cons]; exact Or.inr hk'))]
    rfl

theorem emplaceAll_sorted (md : MessageMetadata) (sel : List (String × Int))
    (kvs acc : List (Int × LVMessageValue))
    (h : (keys (acc ++ kvs)).Pairwise (· < ·)) :
    emplaceAll (.mk acc md sel) kvs = .mk (acc ++ kvs) md sel := by
  induction kvs generalizing acc with
  | nil => simp [emplaceAll]
  | cons p kvs ih =>
    obtain ⟨k, v⟩ := p
    simp only [emplaceAll, LVMessage.emplaceValue, LVMessage.mk_values, LVMessage.mk_metadata,
      LVMessage.mk_oneof]
    have hlt : ∀ k' ∈ keys acc, k' < k := by
      intro k' hk'
      rw [keys_append, List.pairwise_append] at h
      exact h.2.2 k' hk' k (by simp [keys])
    rw [emplace_append k v acc hlt, ih (acc ++ [(k, v)]) (by simpa using h)]
    simp

theorem keys_rowsValues_sublist (rows : List Row) :
    (keys (rowsValues rows)).Sublist (rows.map (fun r => r.d.protobufIndex)) := by
  induction rows with
  | nil => simp [rowsValues, keys]
  | cons r rows ih =>
    cases hnode : r.node with
    | none =>
      simp only [rowsValues, hnode, List.map_cons]
      exact List.Sublist.cons _ ih
    | some v =>
      simp only [rowsValues, hnode, List.map_cons, keys]
      exact List.Sublist.cons₂ _ ih

theorem CopyOneofIndicesToCluster_brk (md : MessageMetadata) (c : Nat)
    (sel : List (String × Int)) (m : Memory) :
    (CopyOneofIndicesToCluster md c sel m).brk = m.brk := by
  induction sel generalizing m with
  | nil => rfl
  | cons p sel ih =>
    obtain ⟨g, S⟩ := p
    simp only [CopyOneofIndicesToCluster]
    split
    · rw [ih]
      rfl
    · exact ih m

theorem CopyOneofIndicesToCluster_bytes (md : MessageMetadata) (c : Nat)
    (sel : List (String × Int)) (m : Memory) (a : Nat)
    (h : ∀ g S disc, (g, S) ∈ sel → findDiscriminator g md._elements = some disc →
      a < c + disc.clusterOffset ∨ c + disc.clusterOffset + 4 ≤ a) :
    (CopyOneofIndicesToCluster md c sel m).bytes a = m.bytes a := by
  induction sel generalizing m with
  | nil => rfl
  | cons p sel ih =>
    obtain ⟨g, S⟩ := p
    have ih' := fun m => ih m (fun g' S' disc' hm => h g' S' disc' (List.mem_cons_of_mem _ hm))
    simp only [CopyOneofIndicesToCluster]
    split
    · rename_i fm hfm
      rw [ih']
      unfold Memory.writeInt
      exact Memory.writeU_bytes_outside _ _ _ _ _ (h g S fm (List.mem_cons_self _ _) hfm)
    · exact ih' m

theorem findDiscriminator_of_mem (elements : List MessageElementMetadata)
    (d : MessageElementMetadata) (hd : d ∈ elements.filter isDiscriminator)
    (hnd : ((elements.filter isDiscriminator).map (fun d => d.oneofContainerName)).Nodup) :
    findDiscriminator d.oneofContainerName elements = some d := by
  induction elements with
  | nil => simp at hd
  | cons fm rest ih =>
    simp only [findDiscriminator]
    by_cases hfm : isDiscriminator fm = true
    · have hfm' : fm.isInOneof = true ∧ fm.protobufIndex < 0 := by
        simpa [isDiscriminator] using hfm
      simp only [List.filter_cons, hfm, if_true, List.map_cons, List.nodup_cons] at hnd hd
      rcases List.mem_cons.1 hd with e | hd'
      · subst e
        rw [if_pos ⟨hfm'.1, hfm'.2, rfl⟩]
      · have hne : fm.oneofContainerName ≠ d.oneofContainerName := by
          intro e
          exact hnd.1 (List.mem_map.2 ⟨d, hd', e.symm⟩)
        rw [if_neg (fun hc => hne hc.2.2)]
        exact ih hd' hnd.2
    · have hfm' : ¬ (fm.isInOneof = true ∧ fm.protobufIndex < 0) := by
        simpa [isDiscriminator] using hfm
      simp only [List.filter_cons, hfm, Bool.false_eq_true, if_false] at hnd hd
      rw [if_neg (fun hc => hfm' ⟨hc.1, hc.2.1⟩)]
      exact ih hd hnd

theorem CopyFromCluster.selectors_ok (cluster : Nat) (m : Memory)
    (elements : List MessageElementMetadata) (msg : LVMessage)
    (hnd : (keys (msg._oneofContainerToSelectedIndexMap
      ++ selectorEntries cluster m elements)).Nodup) :
    CopyFromCluster.selectors cluster m elements msg
      = .ok (.mk msg._values msg._metadata
          (msg._oneofContainerToSelectedIndexMap ++ selectorEntries cluster m elements)) := by
  induction elements generalizing msg with
  | nil =>
    cases msg
    simp [CopyFromCluster.selectors, selectorEntries]
  | cons fm rest ih =>
    simp only [CopyFromCluster.selectors]
    by_cases hfm : isDiscriminator fm = true
    · have hfm' : fm.isInOneof = true ∧ fm.protobufIndex < 0 := by
        simpa [isDiscriminator] using hfm
      have hse : selectorEntries cluster m (fm :: rest)
          = (fm.oneofContainerName, m.readInt32 (cluster + fm.clusterOffset))
            :: selectorEntries cluster m rest := by
        simp [selectorEntries, List.filter_cons, hfm]
      rw [hse] at hnd ⊢
      have hnone : mapFind fm.oneofContainerName msg._oneofContainerToSelectedIndexMap = none := by
        rw [mapFind_eq_none_iff]
        intro hk
        rw [keys_append, List.nodup_append] at hnd
        exact hnd.2.2 hk (by simp [keys])
      rw [if_pos hfm']
      simp only [hnone, oneofInsert]
      rw [ih]
      · simp
      · simpa using hnd
    · have hfm' : ¬ (fm.isInOneof = true ∧ fm.protobufIndex < 0) := by
        simpa [isDiscriminator] using hfm
      have hse : selectorEntries cluster m (fm :: rest) = selectorEntries cluster m rest := by
        simp [selectorEntries, List.filter_cons, hfm]
      rw [hse] at hnd ⊢
      rw [if_neg hfm']
      exact ih msg hnd

theorem findDiscriminator_some (g : String) (elements : List MessageElementMetadata)
    (disc : MessageElementMetadata) (h : findDiscriminator g elements = some disc) :
    disc ∈ elements.filter isDiscriminator ∧ disc.oneofContainerName = g := by
  induction elements with
  | nil => simp [findDiscriminator] at h
  | cons fm rest ih =>
    simp only [findDiscriminator] at h
    split at h
    · rename_i hc
      cases h
      refine ⟨?_, hc.2.2⟩
      simp [List.filter_cons, isDiscriminator, hc.1, hc.2.1]
    · obtain ⟨h1, h2⟩ := ih h
      refine ⟨?_, h2⟩
      rw [List.filter_cons]
      split
      · exact List.mem_cons_of_mem _ h1
      · exact h1

/-- The selections of a tree fit the discriminator descriptors of its table: the same
groups in the same order, each group once, 32-bit selections, discriminator slots that
lie apart. -/
structure OneofsFit (md : MessageMetadata) (sel : List (String × Int)) : Prop where
  names : sel.map Prod.fst
    = (md._elements.filter isDiscriminator).map (fun d => d.oneofContainerName)
  nodup : (sel.map Prod.fst).Nodup
  range : ∀ p ∈ sel, -2147483648 ≤ p.2 ∧ p.2 < 2147483648
  apart : (md._elements.filter isDiscriminator).Pairwise (fun d1 d2 =>
    d1.clusterOffset + 4 ≤ d2.clusterOffset ∨ d2.clusterOffset + 4 ≤ d1.clusterOffset)

theorem eq_of_map_fst_eq (l1 l2 : List (String × Int))
    (hfst : l1.map Prod.fst = l2.map Prod.fst)
    (hval : ∀ p ∈ l2, ∀ S, (p.1, S) ∈ l1 → p.2 = S) : l1 = l2 := by
  induction l1 generalizing l2 with
  | nil =>
    cases l2 with
    | nil => rfl
    | cons q t2 => simp at hfst
  | cons p t1 ih =>
    cases l2 with
    | nil => simp at hfst
    | cons q t2 =>
      simp only [List.map_cons, List.cons.injEq] at hfst
      obtain ⟨g, S⟩ := p
      obtain ⟨g', S'⟩ := q
      simp only at hfst
      obtain ⟨hg, ht⟩ := hfst
      subst hg
      have hS : S' = S := hval (g, S') (List.mem_cons_self _ _) S (List.mem_cons_self _ _)
      subst hS
      congr 1
      exact ih t2 ht (fun p hp S hS =>
        hval p (List.mem_cons_of_mem _ hp) S (List.mem_cons_of_mem _ hS))

theorem selectorEntries_written (md : MessageMetadata) (sel : List (String × Int)) (c : Nat)
    (m m' : Memory) (hfit : OneofsFit md sel)
    (hag : ∀ d ∈ md._elements.filter isDiscriminator,
      m'.readInt32 (c + d.clusterOffset)
        = (CopyOneofIndicesToCluster md c sel m).readInt32 (c + d.clusterOffset)) :
    selectorEntries c m' md._elements = sel := by
  symm
  apply eq_of_map_fst_eq
  · rw [hfit.names]
    simp [selectorEntries]
  · intro p hp S hS
    simp only [selectorEntries, List.mem_map] at hp
    obtain ⟨d, hd, rfl⟩ := hp
    simp only
    rw [hag d hd]
    have hnd' : ((md._elements.filter isDiscriminator).map
        (fun d => d.oneofContainerName)).Nodup := by
      rw [← hfit.names]
      exact hfit.nodup
    refine CopyOneofIndicesToCluster_selected md c sel m d.oneofContainerName S d
      hfit.nodup hS (findDiscriminator_of_mem _ d hd hnd') (hfit.range _ hS).1
      (hfit.range _ hS).2 ?_
    intro g' S' disc' hm hne hfind
    obtain ⟨hmem', hname'⟩ := findDiscriminator_some g' _ disc' hfind
    have hne' : d ≠ disc' := by
      intro e
      subst e
      exact hne hname'.symm
    exact hfit.apart.forall (fun a b hab => hab.symm) hd hmem' hne'

/-- The address lies in the slot of a discriminator descriptor of the table. -/
def InDiscriminatorSlot (md : MessageMetadata) (c a : Nat) : Prop :=
  ∃ d ∈ md._elements.filter isDiscriminator,
    c + d.clusterOffset ≤ a ∧ a < c + d.clusterOffset + 4

/-- A table, a tree and a cluster that the round trip covers.  The rows list the
descriptors of the table in tag order, each with the node the tree holds for it; the
slots of the rows that pass the oneof rules and the discriminator slots lie apart, in
zeroed memory that is handed out already; the selections fit the discriminators; and the
fresh memory the write takes fits in the address space. -/
structure RowsFit (env : Env) (md : MessageMetadata) (sel : List (String × Int)) (N c : Nat)
    (rows : List Row) (m : Memory) : Prop where
  table : md._mappedElements = rowsEntries rows
  sorted : (rows.map (fun r => r.d.protobufIndex)).Pairwise (· < ·)
  ok : ∀ r ∈ rows, r.OK env sel N
  slots : ∀ r ∈ rows, Active sel r.d →
    c + r.d.clusterOffset + r.width ≤ m.brk ∧ ∀ a, r.InSlot c a → m.bytes a = 0
  apart : rows.Pairwise (fun r1 r2 => Active sel r1.d → Active sel r2.d →
    r1.d.clusterOffset + r1.width ≤ r2.d.clusterOffset
      ∨ r2.d.clusterOffset + r2.width ≤ r1.d.clusterOffset)
  oneofs : OneofsFit md sel
  discriminators : ∀ d ∈ md._elements.filter isDiscriminator,
    c + d.clusterOffset + 4 ≤ m.brk ∧ ∀ r ∈ rows, Active sel r.d →
      d.clusterOffset + 4 ≤ r.d.clusterOffset ∨ r.d.clusterOffset + r.width ≤ d.clusterOffset
  brk : 0 < m.brk
  fit : m.brk + rowsSize rows < 256 ^ 8

/-- Write then read of one message that the round trip covers: `CopyToCluster` returns,
takes the fresh memory of its rows, and changes no byte below it outside the slots of
the rows with a node and the discriminator slots; and from every memory that agrees with
the result on the slots and on the fresh memory, `CopyFromCluster` returns the tree that
was written, whatever the message held before. -/
theorem message_roundtrip (env : Env) (md : MessageMetadata) (sel : List (String × Int))
    (N c : Nat) (rows : List Row) (m : Memory) (h : RowsFit env md sel N c rows m) :
    ∃ m2, CopyToCluster env (.mk (rowsValues rows) md sel) c m = .ok m2
      ∧ m2.brk = m.brk + rowsSize rows
      ∧ (∀ a, a < m.brk → (∀ r ∈ rows, r.node ≠ none → ¬ r.InSlot c a) →
          ¬ InDiscriminatorSlot md c a → m2.bytes a = m.bytes a)
      ∧ ∀ m', AgreeOn (fun a => (∃ r ∈ rows, Active sel r.d ∧ r.InSlot c a)
            ∨ InDiscriminatorSlot md c a
            ∨ (m.brk ≤ a ∧ a < m.brk + rowsSize rows)) m2 m' →
          ∀ fuel msg0, N ≤ fuel → msg0._metadata = md →
            CopyFromCluster env m' (fuel + 1) msg0 c = .ok (.mk (rowsValues rows) md sel) := by
  have hnodupTags : (keys md._mappedElements).Nodup := by
    rw [h.table]
    have : keys (rowsEntries rows) = rows.map (fun r => r.d.protobufIndex) := by
      simp [keys, rowsEntries]
    rw [this]
    exact h.sorted.imp (fun hlt => ne_of_lt hlt)
  have hT : ∀ r ∈ rows, ∀ v, r.node = some v →
      mapFind r.d.protobufIndex md._mappedElements = some r.d := by
    intro r hr v _
    apply mapFind_of_mem_nodup _ _ _ hnodupTags
    rw [h.table]
    exact List.mem_map.2 ⟨r, hr, rfl⟩
  obtain ⟨m1, f1, f2, f3, f4⟩ := fields_roundtrip env md sel N c rows m hT h.ok h.slots h.apart
    h.brk h.fit
  have hdiscOut : ∀ a, ¬ InDiscriminatorSlot md c a →
      ∀ g S disc, (g, S) ∈ sel → findDiscriminator g md._elements = some disc →
        a < c + disc.clusterOffset ∨ c + disc.clusterOffset + 4 ≤ a := by
    intro a hout g S disc _ hfind
    by_contra hc
    exact hout ⟨disc, (findDiscriminator_some g _ disc hfind).1, by omega, by omega⟩
  refine ⟨CopyOneofIndicesToCluster md c sel m1, ?_, ?_, ?_, ?_⟩
  · rw [CopyToCluster, f1]
    rfl
  · rw [CopyOneofIndicesToCluster_brk, f2]
  · intro a ha hrows hdisc
    rw [CopyOneofIndicesToCluster_bytes md c sel m1 a (hdiscOut a hdisc)]
    exact f3 a ha hrows
  · intro m' hag fuel msg0 hfuel hmd
    have hsel : selectorEntries c m' md._elements = sel := by
      apply selectorEntries_written md sel c m1 m' h.oneofs
      intro d hd
      unfold Memory.readInt32
      rw [hag.readU (c + d.clusterOffset) 4 (fun a h1 h2 => Or.inr (Or.inl ⟨d, hd, h1, h2⟩))]
    have hselOk : CopyFromCluster.selectors c m' md._elements (.mk [] md [])
        = .ok (.mk [] md sel) := by
      rw [CopyFromCluster.selectors_ok]
      · simp [hsel]
      · simp only [LVMessage.mk_oneof, List.nil_append, hsel]
        exact h.oneofs.nodup
    have hfields := f4 m' (fun a ha => by
      have hm2 : (CopyOneofIndicesToCluster md c sel m1).bytes a = m1.bytes a := by
        apply CopyOneofIndicesToCluster_bytes
        intro g S disc _ hfind
        obtain ⟨hdmem, _⟩ := findDiscriminator_some g _ disc hfind
        obtain ⟨hd1, hd2⟩ := h.discriminators disc hdmem
        rcases ha with ⟨r, hr, hact, hin⟩ | ha
        · have := hd2 r hr hact
          unfold Row.InSlot at hin
          omega
        · omega
      rw [← hm2]
      apply hag
      rcases ha with ha | ha
      · exact Or.inl ha
      · exact Or.inr (Or.inr ha)) fuel (.mk [] md sel) hfuel rfl
    rw [CopyFromCluster]
    simp only [LVMessage.Clear, hmd, LVMessage.mk_metadata, hselOk, ok_bind]
    rw [h.table, hfields]
    rw [emplaceAll_sorted md sel (rowsValues rows) []]
    · simp
    · simp only [List.nil_append]
      exact h.sorted.sublist (keys_rowsValues_sublist rows)

/-! ## C2: scenario A, for every value and every list of strings -/

/-- The table of scenario A with its two fields at the offsets `o1` and `o2`: a
non-repeated int32 field with tag 1 and a repeated string field with tag 2. -/
def scenarioA.tableAt (o1 o2 size align : Nat) : MessageMetadata :=
  { _elements :=
      [{ type := .Int32Value, isRepeated := false, protobufIndex := 1, clusterOffset := o1 },
       { type := .StringValue, isRepeated := true, protobufIndex := 2, clusterOffset := o2 }],
    _mappedElements :=
      [(1, { type := .Int32Value, isRepeated := false, protobufIndex := 1, clusterOffset := o1 }),
       (2, { type := .StringValue, isRepeated := true, protobufIndex := 2, clusterOffset := o2 })],
    clusterSize := size, alignmentRequirement := align }

/-- The tree of scenario A with the int32 value `v` and the strings `L`. -/
def scenarioA.treeAt (o1 o2 size align : Nat) (v : Int) (L : List (List Byte)) : LVMessage :=
  .mk [(1, .scalar .int32 1 v), (2, .repeatedString 2 L)] (scenarioA.tableAt o1 o2 size align) []

/-- C2: a message with a non-repeated int32 field (tag 1) holding `v` and a repeated
string field (tag 2) holding the non-empty list `L`, written by `CopyToCluster` into a
zero-filled cluster and read back by `CopyFromCluster`, yields the same tree: tag 1 with
`v`, tag 2 with `L`, same length, same order.  The two slots lie apart inside the
cluster, the cluster lies in memory that is handed out, `L` and its strings are shorter
than 2^31, and the fresh memory the strings take fits in the address space. -/
theorem C2_int32_and_strings_roundtrip (env : Env) (c o1 o2 size align : Nat) (m : Memory)
    (v : Int) (L : List (List Byte)) (msg0 : LVMessage)
    (hv1 : -2147483648 ≤ v) (hv2 : v < 2147483648)
    (hL : L ≠ []) (hcount : L.length < 2147483648) (hlen : ∀ s ∈ L, s.length < 2147483648)
    (hapart : o1 + 4 ≤ o2 ∨ o2 + 8 ≤ o1) (h1 : o1 + 4 ≤ size) (h2 : o2 + 8 ≤ size)
    (hzero : ∀ a, c ≤ a → a < c + size → m.bytes a = 0) (hbrk : c + size ≤ m.brk)
    (hfit : m.brk + (8 + (8 + L.length * 8) + stringsSize L) < 256 ^ 8)
    (hmsg0 : msg0._metadata = scenarioA.tableAt o1 o2 size align) :
    ∃ m', CopyToCluster env (scenarioA.treeAt o1 o2 size align v L) c m = .ok m'
      ∧ ∀ fuel, CopyFromCluster env m' (fuel + 1) msg0 c
          = .ok (scenarioA.treeAt o1 o2 size align v L) := by
  set d1 : MessageElementMetadata :=
    { type := .Int32Value, isRepeated := false, protobufIndex := 1, clusterOffset := o1 } with hd1
  set d2 : MessageElementMetadata :=
    { type := .StringValue, isRepeated := true, protobufIndex := 2, clusterOffset := o2 } with hd2
  have fit1 : Fits env d1 (.scalar .int32 1 v) :=
    Fits.scalar .int32 v rfl (by decide) rfl
      (by simp only [ValueClass.InRange, ValueClass.isSigned, ValueClass.width]; norm_num; omega)
  have fit2 : Fits env d2 (.repeatedString 2 L) :=
    Fits.repeatedString L (Or.inl rfl) rfl hL hcount hlen
  have act : ∀ d : MessageElementMetadata, d.isInOneof = false → Active [] d :=
    fun d hd => Or.inl hd
  set rows : List Row :=
    [{ d := d1, node := some (.scalar .int32 1 v), width := 4, size := 0 },
     { d := d2, node := some (.repeatedString 2 L), width := 8,
       size := 8 + (8 + L.length * 8) + stringsSize L }] with hrows
  have hfits : RowsFit env (scenarioA.tableAt o1 o2 size align) [] 0 c rows m := by
    refine ⟨rfl, by simp [hrows, hd1, hd2], ?_, ?_, ?_, ⟨rfl, by simp, by simp, by
      simp [scenarioA.tableAt, isDiscriminator]⟩, by
      simp [scenarioA.tableAt, isDiscriminator], by omega, by
      simpa [hrows, rowsSize] using hfit⟩
    · intro r hr
      simp only [hrows, List.mem_cons, List.mem_singleton, List.not_mem_nil, or_false] at hr
      rcases hr with rfl | rfl
      · exact ⟨act _ rfl, rfl, fit1.roundTripsAt 0⟩
      · exact ⟨act _ rfl, rfl, fit2.roundTripsAt 0⟩
    · intro r hr _
      simp only [hrows, List.mem_cons, List.mem_singleton, List.not_mem_nil, or_false] at hr
      rcases hr with rfl | rfl
      · refine ⟨by simp only [hd1]; omega, fun a ha => hzero a ?_ ?_⟩
        · simp only [Row.InSlot, hd1] at ha; omega
        · simp only [Row.InSlot, hd1] at ha; omega
      · refine ⟨by simp only [hd2]; omega, fun a ha => hzero a ?_ ?_⟩
        · simp only [Row.InSlot, hd2] at ha; omega
        · simp only [Row.InSlot, hd2] at ha; omega
    · simp only [hrows, List.pairwise_cons, List.mem_singleton, List.not_mem_nil,
        forall_eq, IsEmpty.forall_iff, implies_true, List.Pairwise.nil, and_true, hd1, hd2]
      intro _ _
      exact hapart
  obtain ⟨m2, w1, _, _, w4⟩ := message_roundtrip env _ [] 0 c rows m hfits
  refine ⟨m2, w1, fun fuel => ?_⟩
  exact w4 m2 (fun a _ => rfl) fuel msg0 (Nat.zero_le _) hmsg0

/-- C2 at scenario A: v = 42 and L = "a", "bb", in a zero-filled cluster of 16 bytes at
address 16. -/
theorem C2_int32_and_strings_roundtrip_witness :
    ∃ m', CopyToCluster exampleEnv
        (.mk [(1, .scalar .int32 1 42), (2, .repeatedString 2 [[97], [98, 98]])]
          scenarioA.table []) 16 (Memory.zero 64) = .ok m'
      ∧ CopyFromCluster exampleEnv m' 1 (.mk [] scenarioA.table []) 16
          = .ok (.mk [(1, .scalar .int32 1 42), (2, .repeatedString 2 [[97], [98, 98]])]
              scenarioA.table []) := by
  obtain ⟨m', h1, h2⟩ := C2_int32_and_strings_roundtrip exampleEnv 16 0 8 16 8 (Memory.zero 64)
    42 [[97], [98, 98]] (.mk [] scenarioA.table []) (by decide) (by decide) (by decide)
    (by decide) (by decide) (by decide) (by decide) (by decide) (fun _ _ _ => rfl) (by decide)
    (by decide) rfl
  exact ⟨m', h1, h2 0⟩

/-! ## C1: round trip, kind by kind -/

/-- The rows of a table and a tree whose tags are, in order, among the tags of the
table: every descriptor with the node the tree holds at its key, if any. -/
def mkRows : List (Int × MessageElementMetadata) → List (Int × LVMessageValue) → List Row
  | [], _ => []
  | (_, d) :: rest, [] =>
    { d := d, node := none, width := d.slotWidth, size := 0 } :: mkRows rest []
  | (k, d) :: rest, (k', v) :: vt =>
    if k' = k then { d := d, node := some v, width := d.slotWidth, size := allocSize v }
      :: mkRows rest vt
    else { d := d, node := none, width := d.slotWidth, size := 0 } :: mkRows rest ((k', v) :: vt)

theorem mkRows_d (mapped : List (Int × MessageElementMetadata))
    (values : List (Int × LVMessageValue)) :
    (mkRows mapped values).map (fun r => r.d) = mapped.map Prod.snd := by
  induction mapped generalizing values with
  | nil => simp [mkRows]
  | cons p rest ih =>
    obtain ⟨k, d⟩ := p
    cases values with
    | nil => simp [mkRows, ih]
    | cons q vt =>
      obtain ⟨k', v⟩ := q
      simp only [mkRows]
      split <;> simp [ih]

theorem mkRows_width (mapped : List (Int × MessageElementMetadata))
    (values : List (Int × LVMessageValue)) :
    ∀ r ∈ mkRows mapped values, r.width = r.d.slotWidth := by
  induction mapped generalizing values with
  | nil => simp [mkRows]
  | cons p rest ih =>
    obtain ⟨k, d⟩ := p
    cases values with
    | nil =>
      intro r hr
      simp only [mkRows, List.mem_cons] at hr
      rcases hr with rfl | hr
      · rfl
      · exact ih [] r hr
    | cons q vt =>
      obtain ⟨k', v⟩ := q
      intro r hr
      simp only [mkRows] at hr
      split at hr
      · rcases List.mem_cons.1 hr with rfl | hr
        · rfl
        · exact ih vt r hr
      · rcases List.mem_cons.1 hr with rfl | hr
        · rfl
        · exact ih _ r hr

/-- The rows of `mkRows` give the tree back, and say of each row where its node comes
from, when the keys of the tree are a sublist of the keys of the table, which are
distinct and are the tags of the descriptors. -/
theorem mkRows_spec (mapped : List (Int × MessageElementMetadata))
    (values : List (Int × LVMessageValue))
    (hsub : (keys values).Sublist (keys mapped)) (hnd : (keys mapped).Nodup)
    (hkey : ∀ p ∈ mapped, p.1 = p.2.protobufIndex) :
    rowsValues (mkRows mapped values) = values
    ∧ rowsSize (mkRows mapped values) = valuesSize values
    ∧ ∀ r ∈ mkRows mapped values, ∃ p ∈ mapped, r.d = p.2
        ∧ ((r.node = none ∧ r.size = 0 ∧ p.1 ∉ keys values)
          ∨ ∃ v, r.node = some v ∧ (p.1, v) ∈ values ∧ r.size = allocSize v) := by
  induction mapped generalizing values with
  | nil =>
    have : values = [] := by
      simpa [keys] using hsub
    subst this
    simp [mkRows, rowsValues, rowsSize, valuesSize]
  | cons p rest ih =>
    obtain ⟨k, d⟩ := p
    simp only [keys, List.map_cons, List.nodup_cons] at hnd
    have hkey' := fun p hp => hkey p (List.mem_cons_of_mem _ hp)
    cases values with
    | nil =>
      obtain ⟨i1, i2, i3⟩ := ih [] (List.nil_sublist _) hnd.2 hkey'
      refine ⟨by simpa [mkRows, rowsValues] using i1, by simpa [mkRows, rowsSize] using i2, ?_⟩
      intro r hr
      simp only [mkRows, List.mem_cons] at hr
      rcases hr with rfl | hr
      · exact ⟨(k, d), List.mem_cons_self _ _, rfl, Or.inl ⟨rfl, rfl, by simp [keys]⟩⟩
      · obtain ⟨p, hp, h⟩ := i3 r hr
        exact ⟨p, List.mem_cons_of_mem _ hp, h⟩
    | cons q vt =>
      obtain ⟨k', v⟩ := q
      simp only [mkRows]
      by_cases hk : k' = k
      · subst hk
        rw [if_pos rfl]
        have hsub' : (keys vt).Sublist (keys rest) := by
          simp only [keys, List.map_cons] at hsub
          exact (List.cons_sublist_cons.1 hsub)
        obtain ⟨i1, i2, i3⟩ := ih vt hsub' hnd.2 hkey'
        have hkd : k' = d.protobufIndex := hkey (k', d) (List.mem_cons_self _ _)
        refine ⟨?_, ?_, ?_⟩
        · simp only [rowsValues, i1, ← hkd]
        · simp only [rowsSize, valuesSize, i2]
        · intro r hr
          rcases List.mem_cons.1 hr with rfl | hr
          · exact ⟨(k', d), List.mem_cons_self _ _, rfl,
              Or.inr ⟨v, rfl, List.mem_cons_self _ _, rfl⟩⟩
          · obtain ⟨p, hp, hd, h⟩ := i3 r hr
            refine ⟨p, List.mem_cons_of_mem _ hp, hd, ?_⟩
            rcases h with ⟨h1, h2, h3⟩ | ⟨v', h1, h2, h3⟩
            · refine Or.inl ⟨h1, h2, ?_⟩
              simp only [keys, List.map_cons, List.mem_cons, not_or]
              refine ⟨?_, h3⟩
              intro e
              exact hnd.1 (List.mem_map.2 ⟨p, hp, e⟩)
            · exact Or.inr ⟨v', h1, List.mem_cons_of_mem _ h2, h3⟩
      · rw [if_neg hk]
        have hsub' : (keys ((k', v) :: vt)).Sublist (keys rest) := by
          simp only [keys, List.map_cons] at hsub ⊢
          cases hsub with
          | cons _ h => exact h
          | cons₂ _ h => exact absurd rfl hk
        obtain ⟨i1, i2, i3⟩ := ih ((k', v) :: vt) hsub' hnd.2 hkey'
        refine ⟨?_, ?_, ?_⟩
        · simp only [rowsValues, i1]
        · simp only [rowsSize, i2, Nat.zero_add]
        · intro r hr
          rcases List.mem_cons.1 hr with rfl | hr
          · refine ⟨(k, d), List.mem_cons_self _ _, rfl, Or.inl ⟨rfl, rfl, ?_⟩⟩
            intro hmem
            exact hnd.1 (hsub'.subset hmem)
          · obtain ⟨p, hp, h⟩ := i3 r hr
            exact ⟨p, List.mem_cons_of_mem _ hp, h⟩

/-- The rows of a table without oneof groups and of a tree of nodes that fit their
descriptors are rows the round trip covers, in a zero-filled cluster. -/
theorem rowsFit_of_flat (env : Env) (md : MessageMetadata)
    (values : List (Int × LVMessageValue)) (c : Nat) (m : Memory)
    (hkind : ∀ p ∈ md._mappedElements, p.2.type ≠ .MessageValue ∧ p.1 = p.2.protobufIndex
      ∧ p.2.isInOneof = false ∧ (p.2.type = .EnumValue → p.2._owner = true))
    (helems : ∀ d ∈ md._elements, d.isInOneof = false)
    (hsorted : (keys md._mappedElements).Pairwise (· < ·))
    (hsub : (keys values).Sublist (keys md._mappedElements))
    (hnodes : ∀ kv ∈ values, ∀ d, (kv.1, d) ∈ md._mappedElements → Fits env d kv.2)
    (hall : ∀ p ∈ md._mappedElements, p.2.isRepeated = false → p.1 ∈ keys values)
    (hslots : ∀ p ∈ md._mappedElements, p.2.clusterOffset + p.2.slotWidth ≤ md.clusterSize)
    (hapart : md._mappedElements.Pairwise (fun p q =>
      p.2.clusterOffset + p.2.slotWidth ≤ q.2.clusterOffset
        ∨ q.2.clusterOffset + q.2.slotWidth ≤ p.2.clusterOffset))
    (hzero : ∀ a, c ≤ a → a < c + md.clusterSize → m.bytes a = 0)
    (hbrk : c + md.clusterSize ≤ m.brk) (hpos : 0 < m.brk)
    (hfit : m.brk + valuesSize values < 256 ^ 8) :
    RowsFit env md [] 0 c (mkRows md._mappedElements values) m
    ∧ rowsValues (mkRows md._mappedElements values) = values := by
  have hnd : (keys md._mappedElements).Nodup := hsorted.imp (fun hlt => ne_of_lt hlt)
  obtain ⟨s1, s2, s3⟩ := mkRows_spec md._mappedElements values hsub hnd
    (fun p hp => (hkind p hp).2.1)
  have hd := mkRows_d md._mappedElements values
  have hw := mkRows_width md._mappedElements values
  have hrowd : ∀ r ∈ mkRows md._mappedElements values, ∃ p ∈ md._mappedElements, r.d = p.2 := by
    intro r hr
    obtain ⟨p, hp, h, _⟩ := s3 r hr
    exact ⟨p, hp, h⟩
  have hdisc : md._elements.filter isDiscriminator = [] := by
    rw [List.filter_eq_nil_iff]
    intro d hd'
    simp [isDiscriminator, helems d hd']
  have hmapped : md._mappedElements.map (fun p => (p.2.protobufIndex, p.2))
      = md._mappedElements := by
    conv_rhs => rw [← List.map_id md._mappedElements]
    apply List.map_congr_left
    intro p hp
    rw [← (hkind p hp).2.1]
    rfl
  refine ⟨⟨?_, ?_, ?_, ?_, ?_, ⟨by simp [hdisc], by simp, by simp, by simp [hdisc]⟩, by
    simp [hdisc], hpos, by rw [s2]; exact hfit⟩, s1⟩
  · have : rowsEntries (mkRows md._mappedElements values)
        = ((mkRows md._mappedElements values).map (fun r => r.d)).map
            (fun d => (d.protobufIndex, d)) := by
      simp [rowsEntries, List.map_map]
    rw [this, hd, List.map_map]
    exact hmapped.symm
  · have : (mkRows md._mappedElements values).map (fun r => r.d.protobufIndex)
        = ((mkRows md._mappedElements values).map (fun r => r.d)).map
            (fun d => d.protobufIndex) := by
      simp [List.map_map]
    rw [this, hd, List.map_map]
    have hk : md._mappedElements.map ((fun d => d.protobufIndex) ∘ Prod.snd)
        = keys md._mappedElements := by
      apply List.map_congr_left
      intro p hp
      exact ((hkind p hp).2.1).symm
    rw [hk]
    exact hsorted
  · intro r hr
    obtain ⟨p, hp, hdp, hcase⟩ := s3 r hr
    obtain ⟨k1, k2, k3, k4⟩ := hkind p hp
    unfold Row.OK
    rcases hcase with ⟨h1, h2, h3⟩ | ⟨v, h1, h2, h3⟩
    · rw [h1]
      refine ⟨h2, Or.inr ⟨Or.inl (by rw [hdp]; exact k3), ?_, ?_, ?_, ?_⟩⟩
      · rw [hw r hr]
        have hrep : r.d.isRepeated = true := by
          by_contra hc
          rw [hdp] at hc
          exact h3 (hall p hp (by simpa using hc))
        simp [MessageElementMetadata.slotWidth, hrep]
      · by_contra hc
        rw [hdp] at hc
        exact h3 (hall p hp (by simpa using hc))
      · intro ht
        rw [hdp] at ht
        exact absurd ht k1
      · intro ht
        rw [hdp] at ht ⊢
        rcases ht with ht | ht
        · exact absurd ht k1
        · exact k4 ht
    · rw [h1]
      have hf : Fits env r.d v := by
        rw [hdp]
        exact hnodes (p.1, v) h2 p.2 hp
      refine ⟨Or.inl (by rw [hdp]; exact k3), hf.protobufId, ?_⟩
      rw [hw r hr, h3]
      exact hf.roundTripsAt 0
  · intro r hr _
    obtain ⟨p, hp, hdp⟩ := hrowd r hr
    have := hslots p hp
    rw [← hdp, ← hw r hr] at this
    refine ⟨by omega, fun a ha => hzero a ?_ ?_⟩
    · unfold Row.InSlot at ha; omega
    · unfold Row.InSlot at ha; omega
  · have h1 : (md._mappedElements.map Prod.snd).Pairwise (fun d1 d2 =>
        d1.clusterOffset + d1.slotWidth ≤ d2.clusterOffset
          ∨ d2.clusterOffset + d2.slotWidth ≤ d1.clusterOffset) := by
      rw [List.pairwise_map]
      exact hapart
    rw [← hd, List.pairwise_map] at h1
    refine h1.imp_of_mem ?_
    intro r1 r2 hr1 hr2 h _ _
    rw [hw r1 hr1, hw r2 hr2]
    exact h

/-- A repeated int32 field, tag 1. -/
def emptyRepeated.field : MessageElementMetadata :=
  { type := .Int32Value, isRepeated := true, protobufIndex := 1, clusterOffset := 0 }

/-- The table of a message whose only field is a repeated int32 field. -/
def emptyRepeated.table : MessageMetadata :=
  { _elements := [emptyRepeated.field], _mappedElements := [(1, emptyRepeated.field)],
    clusterSize := 8, alignmentRequirement := 8 }

/-- A tree whose only node is a repeated int32 node with no element. -/
def emptyRepeated.tree : LVMessage :=
  .mk [(1, .repeated .int32 1 [])] emptyRepeated.table []

/-- A non-repeated int32 field, tag 1. -/
def missingScalar.field : MessageElementMetadata :=
  { type := .Int32Value, isRepeated := false, protobufIndex := 1, clusterOffset := 0 }

/-- The table of a message whose only field is a non-repeated int32 field. -/
def missingScalar.table : MessageMetadata :=
  { _elements := [missingScalar.field], _mappedElements := [(1, missingScalar.field)],
    clusterSize := 8, alignmentRequirement := 8 }

/-- The first int64 member of the oneof group `choice`, tag 1. -/
def oneofPair.member1 : MessageElementMetadata :=
  { type := .Int64Value, isRepeated := false, protobufIndex := 1, clusterOffset := 0,
    isInOneof := true, oneofContainerName := "choice" }

/-- The second int64 member of the oneof group `choice`, tag 2. -/
def oneofPair.member2 : MessageElementMetadata :=
  { type := .Int64Value, isRepeated := false, protobufIndex := 2, clusterOffset := 8,
    isInOneof := true, oneofContainerName := "choice" }

/-- The discriminator of the oneof group `choice`. -/
def oneofPair.selector : MessageElementMetadata :=
  { type := .Int32Value, isRepeated := false, protobufIndex := -1, clusterOffset := 16,
    isInOneof := true, oneofContainerName := "choice" }

/-- The table of a message whose fields are the two int64 members of one oneof group. -/
def oneofPair.table : MessageMetadata :=
  { _elements := [oneofPair.member1, oneofPair.member2, oneofPair.selector],
    _mappedElements :=
      [(-1, oneofPair.selector), (1, oneofPair.member1), (2, oneofPair.member2)],
    clusterSize := 24, alignmentRequirement := 8 }

/-- A tree that holds the selected member of the group only. -/
def oneofPair.tree : LVMessage :=
  .mk [(2, .scalar .int64 2 7)] oneofPair.table [("choice", 2)]

/-- A tree of a table without oneof groups and without nested-message fields, written by
`CopyToCluster` into a zero-filled cluster and read back by `CopyFromCluster`, is returned
as it was: same tags, same values, same element order.  The tags of the tree are, in
order, among the tags of the table; every node fits the descriptor of its tag (`Fits`);
every non-repeated descriptor has a node; the slots lie apart inside the cluster, which
lies in memory that is handed out; and the fresh memory the write takes fits in the
address space.  The kinds need not be the same for all fields. -/
theorem flat_write_read (env : Env) (md : MessageMetadata)
    (values : List (Int × LVMessageValue)) (c : Nat) (m : Memory) (msg0 : LVMessage)
    (hkind : ∀ p ∈ md._mappedElements, p.2.type ≠ .MessageValue ∧ p.1 = p.2.protobufIndex
      ∧ p.2.isInOneof = false ∧ (p.2.type = .EnumValue → p.2._owner = true))
    (helems : ∀ d ∈ md._elements, d.isInOneof = false)
    (hsorted : (keys md._mappedElements).Pairwise (· < ·))
    (hsub : (keys values).Sublist (keys md._mappedElements))
    (hnodes : ∀ kv ∈ values, ∀ d, (kv.1, d) ∈ md._mappedElements → Fits env d kv.2)
    (hall : ∀ p ∈ md._mappedElements, p.2.isRepeated = false → p.1 ∈ keys values)
    (hslots : ∀ p ∈ md._mappedElements, p.2.clusterOffset + p.2.slotWidth ≤ md.clusterSize)
    (hapart : md._mappedElements.Pairwise (fun p q =>
      p.2.clusterOffset + p.2.slotWidth ≤ q.2.clusterOffset
        ∨ q.2.clusterOffset + q.2.slotWidth ≤ p.2.clusterOffset))
    (hzero : ∀ a, c ≤ a → a < c + md.clusterSize → m.bytes a = 0)
    (hbrk : c + md.clusterSize ≤ m.brk) (hpos : 0 < m.brk)
    (hfit : m.brk + valuesSize values < 256 ^ 8)
    (hmsg0 : msg0._metadata = md) :
    ∃ m', CopyToCluster env (.mk values md []) c m = .ok m'
      ∧ ∀ fuel, CopyFromCluster env m' (fuel + 1) msg0 c = .ok (.mk values md []) := by
  obtain ⟨hrows, hvals⟩ := rowsFit_of_flat env md values c m hkind helems hsorted hsub hnodes
    hall hslots hapart hzero hbrk hpos hfit
  obtain ⟨m2, w1, _, _, w4⟩ := message_roundtrip env md [] 0 c _ m hrows
  rw [hvals] at w1 w4
  exact ⟨m2, w1, fun fuel => w4 m2 (fun a _ => rfl) fuel msg0 (Nat.zero_le _) hmsg0⟩

/-- A repeated fixed32 field at tag 1 and a non-repeated fixed32 field at tag 2. -/
def fixed32Pair.table : MessageMetadata :=
  { _elements :=
      [{ type := .Fixed32Value, isRepeated := true, protobufIndex := 1, clusterOffset := 0 },
       { type := .Fixed32Value, isRepeated := false, protobufIndex := 2, clusterOffset := 8 }],
    _mappedElements :=
      [(1, { type := .Fixed32Value, isRepeated := true, protobufIndex := 1, clusterOffset := 0 }),
       (2, { type := .Fixed32Value, isRepeated := false, protobufIndex := 2,
             clusterOffset := 8 })],
    clusterSize := 16, alignmentRequirement := 8 }

/-! ## C11: the enum table, there and back -/

/-- The table is a bijection between its wire values and its native values: no wire
value and no native value occurs in two pairs. -/
def EnumMetadata.Bijective (e : EnumMetadata) : Prop :=
  (e.pairs.map Prod.fst).Nodup ∧ (e.pairs.map Prod.snd).Nodup

instance (e : EnumMetadata) : Decidable e.Bijective :=
  inferInstanceAs (Decidable ((e.pairs.map Prod.fst).Nodup ∧ (e.pairs.map Prod.snd).Nodup))

theorem find_fst_of_nodup (pairs : List (Int × Int)) (w n : Int)
    (hnd : (pairs.map Prod.fst).Nodup) (hmem : (w, n) ∈ pairs) :
    pairs.find? (fun p => p.1 == w) = some (w, n) := by
  induction pairs with
  | nil => simp at hmem
  | cons p rest ih =>
    simp only [List.map_cons, List.nodup_cons] at hnd
    rcases List.mem_cons.1 hmem with e | hm
    · subst e
      simp [List.find?_cons]
    · have hne : p.1 ≠ w := by
        intro e
        apply hnd.1
        rw [e]
        exact List.mem_map.2 ⟨(w, n), hm, rfl⟩
      have hb : (p.1 == w) = false := by simpa using hne
      rw [List.find?_cons, hb]
      exact ih hnd.2 hm

theorem find_snd_of_nodup (pairs : List (Int × Int)) (w n : Int)
    (hnd : (pairs.map Prod.snd).Nodup) (hmem : (w, n) ∈ pairs) :
    pairs.find? (fun p => p.2 == n) = some (w, n) := by
  induction pairs with
  | nil => simp at hmem
  | cons p rest ih =>
    simp only [List.map_cons, List.nodup_cons] at hnd
    rcases List.mem_cons.1 hmem with e | hm
    · subst e
      simp [List.find?_cons]
    · have hne : p.2 ≠ n := by
        intro e
        apply hnd.1
        rw [e]
        exact List.mem_map.2 ⟨(w, n), hm, rfl⟩
      have hb : (p.2 == n) = false := by simpa using hne
      rw [List.find?_cons, hb]
      exact ih hnd.2 hm

/-- In a bijective table a pair is found from either side. -/
theorem EnumMetadata.Bijective.lookup {e : EnumMetadata} (h : e.Bijective) (w n : Int)
    (hmem : (w, n) ∈ e.pairs) :
    e.GetLVEnumValueFromProtoValue w = .ok n ∧ e.GetProtoValueFromLVEnumValue n = .ok w := by
  unfold EnumMetadata.GetLVEnumValueFromProtoValue EnumMetadata.GetProtoValueFromLVEnumValue
  rw [find_fst_of_nodup e.pairs w n h.1 hmem, find_snd_of_nodup e.pairs w n h.2 hmem]
  exact ⟨rfl, rfl⟩

theorem EnumMetadata.Bijective.roundTrips {e : EnumMetadata} (h : e.Bijective) (w n : Int)
    (hmem : (w, n) ∈ e.pairs) (h1 : -2147483648 ≤ n) (h2 : n < 2147483648) :
    e.RoundTrips w := by
  obtain ⟨l1, l2⟩ := h.lookup w n hmem
  have hn : e.native w = n := by
    simp [EnumMetadata.native, l1]
  unfold EnumMetadata.RoundTrips
  rw [hn]
  exact ⟨l1, h1, h2, l2⟩

/-- The translation loop of the reader over an array whose elements are the native
values of pairs of the table, each found from its native value. -/
theorem CopyEnumFromCluster.mapArray_of_reads (e : EnumMetadata) (m : Memory)
    (ps : List (Int × Int)) (data : Nat)
    (hlook : ∀ p ∈ ps, e.GetProtoValueFromLVEnumValue p.2 = .ok p.1)
    (hread : ∀ i (hi : i < ps.length), m.readInt32 (data + 4 * i) = ps[i].2) :
    CopyEnumFromCluster.mapArray (some e) m data ps.length = .ok (ps.map Prod.fst) := by
  induction ps generalizing data with
  | nil => rfl
  | cons p ps ih =>
    have h0 := hread 0 (by simp)
    simp only [Nat.mul_zero, Nat.add_zero, List.getElem_cons_zero] at h0
    have hrest := ih (data + 4) (fun q hq => hlook q (List.mem_cons_of_mem _ hq))
      (fun i hi => by
        have := hread (i + 1) (by simp; omega)
        simp only [List.getElem_cons_succ] at this
        rw [← this]
        congr 1
        omega)
    simp only [List.length_cons, CopyEnumFromCluster.mapArray, deref, ok_bind, h0,
      hlook p (List.mem_cons_self _ _), hrest, pure_eq_ok, List.map_cons]

/-- The array the enum writer leaves in a slot that lies in allocated memory and holds a
null or well-formed handle: its count is the number of wire values and its elements are
their translations, in order. -/
theorem enum_array_stores (env : Env) (md : MessageElementMetadata) (start : Nat)
    (m : Memory) (tag : Int) (e : EnumMetadata) (f : Int → Int) (wires : List Int)
    (hown : md._owner = true)
    (hfind : env.owner.FindEnumMetadata md.embeddedMessageName = some e)
    (hrep : md.isRepeated = true) (hne : wires ≠ []) (hlen : wires.length < 2147483648)
    (hw : ∀ w ∈ wires, e.GetLVEnumValueFromProtoValue w = .ok (f w)
      ∧ -2147483648 ≤ f w ∧ f w < 2147483648)
    (hbrk : 0 < m.brk) (hslot : start + 8 ≤ m.brk)
    (hfit : m.brk + 8 + (4 + wires.length * 4) < 256 ^ 8)
    (hh : m.readPtr start = 0 ∨ (m.readPtr start + 8 ≤ m.brk
      ∧ (m.readPtr start + 8 ≤ start ∨ start + 8 ≤ m.readPtr start))) :
    ∃ m', CopyEnumToCluster env md start (.repeated .enum tag wires) m = .ok m'
      ∧ m'.readPtr start ≠ 0 ∧ m'.readPtr (m'.readPtr start) ≠ 0
      ∧ m'.readInt32 (m'.readPtr (m'.readPtr start)) = wires.length
      ∧ ∀ i (hi : i < wires.length),
          m'.readInt32 (LV1DArray.bytes (m'.readPtr (m'.readPtr start)) 0 4 + 4 * i)
            = f wires[i] := by
  have hmap := CopyEnumToCluster.mapArray_ok e f wires (fun w hw' => (hw w hw').1)
  have hlen0 : wires.length ≠ 0 := fun h0 => hne (List.length_eq_zero.1 h0)
  have hal : alignUp 4 4 = 4 := by decide
  obtain ⟨handle, block, r1, r2, r3, r4, r5, r6, r7, r8, r9, r10⟩ :=
    NumericArrayResize_spec 0x03 1 start wires.length m hbrk hslot
      (by simp only [typeCodeWidth]; rw [hal]; exact hfit) hh
  simp only [typeCodeWidth] at r8 r9
  rw [hal] at r8 r9
  have hdata : LV1DArray.bytes block 0 4 = block + 4 := by
    simp [LV1DArray.bytes, hal]
  have hres : CopyEnumToCluster env md start (.repeated .enum tag wires) m
      = .ok (((NumericArrayResize 0x03 1 start wires.length m).writeInt block 4
          (wires.length : Int)).store (block + 4) (encodeArray 4 (wires.map f))) := by
    simp only [CopyEnumToCluster_eq, MessageElementMetadata.owner, hown, if_true, ok_bind,
      hfind, hrep, hmap, pure_eq_ok, ne_eq, hlen0, not_false_eq_true, r1, r2, hdata]
  generalize NumericArrayResize 0x03 1 start wires.length m = m1 at r1 r2 r8 r9 r10 hres
  generalize hm3 : (m1.writeInt block 4 (wires.length : Int)).store (block + 4)
    (encodeArray 4 (wires.map f)) = m3 at hres
  have hp1 : m3.readPtr start = handle := by
    rw [← hm3]
    unfold Memory.readPtr Memory.writeInt
    rw [Memory.readU_store_disjoint _ _ _ _ _ (by omega),
      Memory.readU_writeU_disjoint _ _ _ _ _ _ (by omega)]
    exact r1
  have hp2 : m3.readPtr handle = block := by
    rw [← hm3]
    unfold Memory.readPtr Memory.writeInt
    rw [Memory.readU_store_disjoint _ _ _ _ _ (by omega),
      Memory.readU_writeU_disjoint _ _ _ _ _ _ (by omega)]
    exact r2
  refine ⟨m3, hres, by rw [hp1]; exact r3, by rw [hp1, hp2]; exact r4, ?_, ?_⟩
  · rw [hp1, hp2, ← hm3]
    unfold Memory.readInt32
    rw [Memory.readU_store_disjoint _ _ _ _ _ (by omega)]
    exact Memory.readInt32_writeInt_same _ _ _ (by omega) (by omega)
  · intro i hi
    rw [hp1, hp2, hdata]
    have hload : m3.load (block + 4) (4 * (wires.map f).length)
        = encodeArray 4 (wires.map f) := by
      rw [← hm3, ← encodeArray_length]
      exact Memory.load_store_same _ _ _
    have hread := readU_of_load_encodeArray m3 4 (wires.map f) (block + 4) hload i
      (by simpa using hi)
    unfold Memory.readInt32
    rw [hread]
    have hwi := hw wires[i] (List.getElem_mem hi)
    simp only [List.getElem_map]
    apply toSigned_ofInt
    · norm_num; omega
    · norm_num; omega

theorem EnumMetadata.Bijective.native_eq {e : EnumMetadata} (h : e.Bijective) (w n : Int)
    (hmem : (w, n) ∈ e.pairs) : e.native w = n := by
  simp [EnumMetadata.native, (h.lookup w n hmem).1]

/-- C11: let the enum table `e` of an enum field be a bijection between its wire values
and its native values (32-bit integers).  Non-repeated field, for every pair (w, n) of
the table: `CopyEnumToCluster` of w stores n, and `CopyEnumFromCluster` of the slot
written returns w; and `CopyEnumFromCluster` of a slot that holds n returns w, and
`CopyEnumToCluster` of that node stores n again.  Repeated field, for every non-empty
list of pairs of the table, element by element and in order: the wire values written
into a null slot are read back; and an array that holds the native values is read as the
wire values, whose write stores an array of the same count that holds the native values
again. -/
theorem C11_enum_bijection (env : Env) (md : MessageElementMetadata) (e : EnumMetadata)
    (start : Nat) (m : Memory) (tag : Int) (msg : LVMessage)
    (hown : md._owner = true)
    (hfind : env.owner.FindEnumMetadata md.embeddedMessageName = some e)
    (hbij : e.Bijective)
    (hrange : ∀ p ∈ e.pairs, -2147483648 ≤ p.2 ∧ p.2 < 2147483648) :
    (md.isRepeated = false → ∀ w n, (w, n) ∈ e.pairs →
      (∃ m1, CopyEnumToCluster env md start (.scalar .enum tag w) m = .ok m1
        ∧ m1.readInt32 start = n
        ∧ CopyEnumFromCluster env md start m1 msg
            = .ok (msg.emplaceValue md.protobufIndex (.scalar .enum md.protobufIndex w)))
      ∧ (m.readInt32 start = n →
          CopyEnumFromCluster env md start m msg
            = .ok (msg.emplaceValue md.protobufIndex (.scalar .enum md.protobufIndex w))
          ∧ ∃ m2, CopyEnumToCluster env md start (.scalar .enum md.protobufIndex w) m = .ok m2
              ∧ m2.readInt32 start = n))
    ∧ (md.isRepeated = true → ∀ ps : List (Int × Int), ps ≠ [] → ps.length < 2147483648 →
        (∀ p ∈ ps, p ∈ e.pairs) →
        0 < m.brk → start + 8 ≤ m.brk → m.brk + 8 + (4 + ps.length * 4) < 256 ^ 8 →
      (m.readPtr start = 0 →
        ∃ m1, CopyEnumToCluster env md start (.repeated .enum tag (ps.map Prod.fst)) m = .ok m1
          ∧ CopyEnumFromCluster env md start m1 msg
              = .ok (msg.emplaceValue md.protobufIndex
                  (.repeated .enum md.protobufIndex (ps.map Prod.fst))))
      ∧ (m.readPtr start ≠ 0 → m.readPtr start + 8 ≤ m.brk →
          (m.readPtr start + 8 ≤ start ∨ start + 8 ≤ m.readPtr start) →
          m.readPtr (m.readPtr start) ≠ 0 →
          m.readInt32 (m.readPtr (m.readPtr start)) = ps.length →
          (∀ i (hi : i < ps.length),
            m.readInt32 (LV1DArray.bytes (m.readPtr (m.readPtr start)) 0 4 + 4 * i)
              = ps[i].2) →
          CopyEnumFromCluster env md start m msg
            = .ok (msg.emplaceValue md.protobufIndex
                (.repeated .enum md.protobufIndex (ps.map Prod.fst)))
          ∧ ∃ m2, CopyEnumToCluster env md start
                (.repeated .enum md.protobufIndex (ps.map Prod.fst)) m = .ok m2
              ∧ m2.readPtr start ≠ 0 ∧ m2.readPtr (m2.readPtr start) ≠ 0
              ∧ m2.readInt32 (m2.readPtr (m2.readPtr start)) = ps.length
              ∧ ∀ i (hi : i < ps.length),
                  m2.readInt32 (LV1DArray.bytes (m2.readPtr (m2.readPtr start)) 0 4 + 4 * i)
                    = ps[i].2)) := by
  constructor
  · intro hrep w n hmem
    obtain ⟨l1, l2⟩ := hbij.lookup w n hmem
    obtain ⟨h1, h2⟩ := hrange (w, n) hmem
    have hwrite : ∀ t, CopyEnumToCluster env md start (.scalar .enum t w) m
        = .ok (m.writeInt start 4 n) := by
      intro t
      simp [CopyEnumToCluster_eq, MessageElementMetadata.owner, hown, hfind, hrep, deref, l1,
        ok_bind, pure_eq_ok]
    have hread : ∀ m', m'.readInt32 start = n → CopyEnumFromCluster env md start m' msg
        = .ok (msg.emplaceValue md.protobufIndex (.scalar .enum md.protobufIndex w)) := by
      intro m' q
      simp [CopyEnumFromCluster_eq, MessageElementMetadata.owner, hown, hfind, hrep, deref, q, l2,
        ok_bind, pure_eq_ok]
    have hstored : (m.writeInt start 4 n).readInt32 start = n :=
      Memory.readInt32_writeInt_same _ _ _ h1 h2
    exact ⟨⟨_, hwrite tag, hstored, hread _ hstored⟩,
      fun q => ⟨hread m q, _, hwrite _, hstored⟩⟩
  · intro hrep ps hne hlen hps hbrk hslot hfit
    have hlook : ∀ p ∈ ps, e.GetLVEnumValueFromProtoValue p.1 = .ok p.2
        ∧ e.GetProtoValueFromLVEnumValue p.2 = .ok p.1 :=
      fun p hp => hbij.lookup p.1 p.2 (hps p hp)
    have hne' : ps.map Prod.fst ≠ [] := by
      simpa using hne
    constructor
    · intro hnull
      obtain ⟨m1, w1, _, _, w4⟩ := enum_repeated_roundtrip env md start m tag e
        (ps.map Prod.fst) hrep hown hfind hne' (by simpa using hlen)
        (by
          intro w hw
          obtain ⟨p, hp, rfl⟩ := List.mem_map.1 hw
          exact hbij.roundTrips p.1 p.2 (hps p hp) (hrange p (hps p hp)).1
            (hrange p (hps p hp)).2)
        hslot hbrk (by simp only [List.length_map]; omega) hnull
      exact ⟨m1, w1, w4 m1 (fun a _ => rfl) msg⟩
    · intro hh1 hh2 hh3 hb hcount hread
      have hmap := CopyEnumFromCluster.mapArray_of_reads e m ps
        (LV1DArray.bytes (m.readPtr (m.readPtr start)) 0 4) (fun p hp => (hlook p hp).2) hread
      have hlen0 : (ps.length : Int) ≠ 0 := by
        have : ps.length ≠ 0 := fun h0 => hne (List.length_eq_zero.1 h0)
        omega
      refine ⟨?_, ?_⟩
      · simp only [CopyEnumFromCluster_eq, MessageElementMetadata.owner, hown, if_true, ok_bind,
          hfind, hrep, hh1, hb, hcount, hlen0, if_false, Int.toNat_ofNat, hmap, pure_eq_ok,
          show ¬ ((ps.length : Int) < 0) by omega]
      · obtain ⟨m2, s1, s2, s3, s4, s5⟩ := enum_array_stores env md start m md.protobufIndex e
          e.native (ps.map Prod.fst) hown hfind hrep hne' (by simpa using hlen)
          (by
            intro w hw
            obtain ⟨p, hp, rfl⟩ := List.mem_map.1 hw
            rw [hbij.native_eq p.1 p.2 (hps p hp)]
            exact ⟨(hlook p hp).1, hrange p (hps p hp)⟩)
          hbrk hslot (by simp only [List.length_map]; omega) (Or.inr ⟨hh2, hh3⟩)
        refine ⟨m2, s1, s2, s3, by simpa using s4, ?_⟩
        intro i hi
        have := s5 i (by simpa using hi)
        rw [this]
        simp only [List.getElem_map]
        exact hbij.native_eq _ _ (hps _ (List.getElem_mem hi))

/-- C11 at scenario C, with the mapping 0 to 100 and 1 to 101: writing wire 1 stores 101
and reading the slot returns wire 1; a slot that holds 100 is read as wire 0, whose write
stores 100; and the wires 1, 0 written as an array are read back in that order. -/
theorem C11_enum_bijection_witness :
    (∃ m1, CopyEnumToCluster exampleEnv scenarioC.field 16 (.scalar .enum 1 1)
        (Memory.zero 64) = .ok m1
      ∧ m1.readInt32 16 = 101
      ∧ CopyEnumFromCluster exampleEnv scenarioC.field 16 m1 (.mk [] scenarioA.table [])
          = .ok (.mk [(1, .scalar .enum 1 1)] scenarioA.table []))
    ∧ (CopyEnumFromCluster exampleEnv scenarioC.field 16 ((Memory.zero 64).writeInt 16 4 100)
          (.mk [] scenarioA.table [])
        = .ok (.mk [(1, .scalar .enum 1 0)] scenarioA.table [])
      ∧ ∃ m2, CopyEnumToCluster exampleEnv scenarioC.field 16 (.scalar .enum 1 0)
          ((Memory.zero 64).writeInt 16 4 100) = .ok m2 ∧ m2.readInt32 16 = 100)
    ∧ (∃ m1, CopyEnumToCluster exampleEnv scenarioC.repeatedField 24 (.repeated .enum 2 [1, 0])
        (Memory.zero 64) = .ok m1
      ∧ CopyEnumFromCluster exampleEnv scenarioC.repeatedField 24 m1
          (.mk [] scenarioA.table [])
          = .ok (.mk [(2, .repeated .enum 2 [1, 0])] scenarioA.table [])) := by
  have hrange : ∀ p ∈ exampleEnum.pairs, -2147483648 ≤ p.2 ∧ p.2 < 2147483648 := by decide
  have hs := (C11_enum_bijection exampleEnv scenarioC.field exampleEnum 16 (Memory.zero 64) 1
    (.mk [] scenarioA.table []) (by rfl) (by rfl) (by decide) hrange).1 (by rfl)
  have hs' := (C11_enum_bijection exampleEnv scenarioC.field exampleEnum 16
    ((Memory.zero 64).writeInt 16 4 100) 1 (.mk [] scenarioA.table []) (by rfl) (by rfl)
    (by decide) hrange).1 (by rfl)
  have hr := ((C11_enum_bijection exampleEnv scenarioC.repeatedField exampleEnum 24
    (Memory.zero 64) 2 (.mk [] scenarioA.table []) (by rfl) (by rfl) (by decide) hrange).2
    (by rfl) [(1, 101), (0, 100)] (by decide) (by decide) (by decide) (by decide) (by decide)
    (by decide)).1 (by rfl)
  exact ⟨(hs 1 101 (by decide)).1, (hs' 0 100 (by decide)).2 (by rfl), hr⟩

/-! ## C12: a value the enum table does not hold -/

theorem find_none_of_absent (pairs : List (Int × Int)) (q : Int × Int → Bool)
    (h : ∀ p ∈ pairs, q p = false) : pairs.find? q = none := by
  rw [List.find?_eq_none]
  intro p hp
  rw [h p hp]
  exact Bool.false_ne_true

theorem EnumMetadata.GetLVEnumValueFromProtoValue_miss (e : EnumMetadata) (wire : Int)
    (h : ∀ p ∈ e.pairs, p.1 ≠ wire) :
    e.GetLVEnumValueFromProtoValue wire = .error .invalidEnumValue := by
  unfold EnumMetadata.GetLVEnumValueFromProtoValue
  rw [find_none_of_absent e.pairs _ (fun p hp => by simpa using h p hp)]

theorem EnumMetadata.GetProtoValueFromLVEnumValue_miss (e : EnumMetadata) (native : Int)
    (h : ∀ p ∈ e.pairs, p.2 ≠ native) :
    e.GetProtoValueFromLVEnumValue native = .error .invalidEnumValue := by
  unfold EnumMetadata.GetProtoValueFromLVEnumValue
  rw [find_none_of_absent e.pairs _ (fun p hp => by simpa using h p hp)]

theorem EnumMetadata.GetLVEnumValueFromProtoValue_cases (e : EnumMetadata) (wire : Int) :
    (∃ n, e.GetLVEnumValueFromProtoValue wire = .ok n)
      ∨ e.GetLVEnumValueFromProtoValue wire = .error .invalidEnumValue := by
  unfold EnumMetadata.GetLVEnumValueFromProtoValue
  cases e.pairs.find? (fun p => p.1 == wire) with
  | none => exact Or.inr rfl
  | some p => exact Or.inl ⟨p.2, rfl⟩

theorem EnumMetadata.GetProtoValueFromLVEnumValue_cases (e : EnumMetadata) (native : Int) :
    (∃ w, e.GetProtoValueFromLVEnumValue native = .ok w)
      ∨ e.GetProtoValueFromLVEnumValue native = .error .invalidEnumValue := by
  unfold EnumMetadata.GetProtoValueFromLVEnumValue
  cases e.pairs.find? (fun p => p.2 == native) with
  | none => exact Or.inr rfl
  | some p => exact Or.inl ⟨p.1, rfl⟩

theorem mapFind_emplace_absent {α : Type} (k : Int) (v : α) (l : List (Int × α))
    (habs : k ∉ keys l) : mapFind k (emplace k v l) = some v := by
  induction l with
  | nil => simp [emplace, mapFind]
  | cons p l ih =>
    obtain ⟨k1, v1⟩ := p
    simp only [keys, List.map_cons, List.mem_cons, not_or] at habs
    simp only [emplace]
    split
    · simp [mapFind]
    · split
      · rename_i h1 h2
        exact absurd h2 habs.1
      · simp only [mapFind, if_neg (Ne.symm habs.1)]
        exact ih habs.2

/-- The translation loop of the writer fails when an element has no pair in the
table. -/
theorem CopyEnumToCluster.mapArray_wire_miss (e : EnumMetadata) (wires : List Int)
    (h : ∃ w ∈ wires, ∀ p ∈ e.pairs, p.1 ≠ w) :
    CopyEnumToCluster.mapArray (some e) wires = .error .invalidEnumValue := by
  induction wires with
  | nil =>
    obtain ⟨w, hw, _⟩ := h
    exact absurd hw (List.not_mem_nil _)
  | cons v rest ih =>
    simp only [CopyEnumToCluster.mapArray, deref, ok_bind]
    rcases e.GetLVEnumValueFromProtoValue_cases v with ⟨n, hn⟩ | herr
    · rw [hn, ok_bind]
      have hrest : ∃ w ∈ rest, ∀ p ∈ e.pairs, p.1 ≠ w := by
        obtain ⟨w, hw, hmiss⟩ := h
        rcases List.mem_cons.1 hw with rfl | hw'
        · rw [e.GetLVEnumValueFromProtoValue_miss w hmiss] at hn
          cases hn
        · exact ⟨w, hw', hmiss⟩
      rw [ih hrest, error_bind]
    · rw [herr, error_bind]

/-- The translation loop of the reader fails when an element of the array has no pair in
the table. -/
theorem CopyEnumFromCluster.mapArray_native_miss (e : EnumMetadata) (m : Memory) (n : Nat)
    (data : Nat)
    (h : ∃ i, i < n ∧ ∀ p ∈ e.pairs, p.2 ≠ m.readInt32 (data + 4 * i)) :
    CopyEnumFromCluster.mapArray (some e) m data n = .error .invalidEnumValue := by
  induction n generalizing data with
  | zero =>
    obtain ⟨i, hi, _⟩ := h
    omega
  | succ n ih =>
    simp only [CopyEnumFromCluster.mapArray, deref, ok_bind]
    rcases e.GetProtoValueFromLVEnumValue_cases (m.readInt32 data) with ⟨w, hw⟩ | herr
    · rw [hw, ok_bind]
      have hrest : ∃ i, i < n ∧ ∀ p ∈ e.pairs, p.2 ≠ m.readInt32 (data + 4 + 4 * i) := by
        obtain ⟨i, hi, hmiss⟩ := h
        cases i with
        | zero =>
          simp only [Nat.mul_zero, Nat.add_zero] at hmiss
          rw [e.GetProtoValueFromLVEnumValue_miss _ hmiss] at hw
          cases hw
        | succ j =>
          refine ⟨j, by omega, ?_⟩
          have e1 : data + 4 + 4 * j = data + 4 * (j + 1) := by omega
          rw [e1]
          exact hmiss
      rw [ih (data + 4) hrest, error_bind]
    · rw [herr, error_bind]

/-- A slot at address 24 that holds the handle 32 of the block at 40, whose count is 2 and
whose elements are 100, a native value of the table of scenario C, and 55, which the
table does not hold. -/
def scenarioC.missMemory : Memory :=
  (((((Memory.zero 64).writePtr 24 32).writePtr 32 40).writeInt 40 4 2).writeInt 44 4
    100).writeInt 48 4 55

/-- C12: with the enum table `e` of an enum field, a value that has no counterpart in the
table ends the marshaling of the field with the failure of the translation, on all four
paths.  On write (a non-repeated node whose wire value is no wire value of the table, or a
repeated node with such an element) the writer fails and leaves the memory as it was: no
byte of the cluster is stored.  On the read
of a non-repeated slot whose 4-byte integer is no native value of the table, the reader
fails and leaves the message as it was.  On the read of an array (a handle that is not
null, with a positive count) with such an element, the reader fails too, but the message
it leaves is not the one it was given: it holds the empty repeated node that the reader
emplaces before it translates, so a tree that did not hold the tag holds it after the
failure, with no element. -/
theorem C12_enum_miss_fails (env : Env) (md : MessageElementMetadata) (e : EnumMetadata)
    (start : Nat) (m : Memory) (tag : Int) (msg : LVMessage)
    (hown : md._owner = true)
    (hfind : env.owner.FindEnumMetadata md.embeddedMessageName = some e) :
    (md.isRepeated = false → ∀ wire, (∀ p ∈ e.pairs, p.1 ≠ wire) →
      CopyEnumToCluster.run env md start (.scalar .enum tag wire) m
        = (some .invalidEnumValue, m))
    ∧ (md.isRepeated = true → ∀ wires : List Int, (∃ w ∈ wires, ∀ p ∈ e.pairs, p.1 ≠ w) →
      CopyEnumToCluster.run env md start (.repeated .enum tag wires) m
        = (some .invalidEnumValue, m))
    ∧ (md.isRepeated = false → (∀ p ∈ e.pairs, p.2 ≠ m.readInt32 start) →
      CopyEnumFromCluster.run env md start m msg = (some .invalidEnumValue, msg))
    ∧ (md.isRepeated = true → m.readPtr start ≠ 0 → m.readPtr (m.readPtr start) ≠ 0 →
      0 < m.readInt32 (m.readPtr (m.readPtr start)) →
      (∃ i : Nat, (i : Int) < m.readInt32 (m.readPtr (m.readPtr start))
        ∧ ∀ p ∈ e.pairs,
          p.2 ≠ m.readInt32 (LV1DArray.bytes (m.readPtr (m.readPtr start)) 0 4 + 4 * i)) →
      CopyEnumFromCluster.run env md start m msg
          = (some .invalidEnumValue,
              msg.emplaceValue md.protobufIndex (.repeated .enum md.protobufIndex []))
        ∧ (md.protobufIndex ∉ keys msg._values →
            mapFind md.protobufIndex
                (msg.emplaceValue md.protobufIndex
                  (.repeated .enum md.protobufIndex []))._values
              = some (.repeated .enum md.protobufIndex []))) := by
  refine ⟨?_, ?_, ?_, ?_⟩
  · intro hrep wire hmiss
    simp [CopyEnumToCluster.run, MessageElementMetadata.owner, hown, hfind, hrep, deref,
      e.GetLVEnumValueFromProtoValue_miss wire hmiss]
  · intro hrep wires hmiss
    simp [CopyEnumToCluster.run, MessageElementMetadata.owner, hown, hfind, hrep,
      CopyEnumToCluster.mapArray_wire_miss e wires hmiss]
  · intro hrep hmiss
    simp [CopyEnumFromCluster.run, MessageElementMetadata.owner, hown, hfind, hrep, deref,
      e.GetProtoValueFromLVEnumValue_miss _ hmiss]
  · intro hrep h1 h2 hpos hmiss
    obtain ⟨i, hi, hmiss⟩ := hmiss
    have hloop := CopyEnumFromCluster.mapArray_native_miss e m
      (m.readInt32 (m.readPtr (m.readPtr start))).toNat
      (LV1DArray.bytes (m.readPtr (m.readPtr start)) 0 4) ⟨i, by omega, hmiss⟩
    refine ⟨?_, ?_⟩
    · simp only [CopyEnumFromCluster.run, MessageElementMetadata.owner, hown, if_true,
        hfind, hrep, h1, h2, if_false,
        show ¬ m.readInt32 (m.readPtr (m.readPtr start)) = 0 by omega,
        show ¬ m.readInt32 (m.readPtr (m.readPtr start)) < 0 by omega, hloop]
    · intro hfree
      exact mapFind_emplace_absent _ _ _ hfree

/-- C12 at scenario C, whose table holds the wire values 0 and 1 and the native values 100
and 101: the write of wire 7 and the write of the wires 1, 7 fail and leave the zero-filled
memory as it was; the read of a slot that
holds 55 fails and leaves the empty tree empty; the read of the array 100, 55 fails and
leaves the empty tree with an empty repeated node at tag 2. -/
theorem C12_enum_miss_fails_witness :
    CopyEnumToCluster.run exampleEnv scenarioC.field 16 (.scalar .enum 1 7) (Memory.zero 64)
      = (some .invalidEnumValue, Memory.zero 64)
    ∧ CopyEnumToCluster.run exampleEnv scenarioC.repeatedField 24 (.repeated .enum 2 [1, 7])
        (Memory.zero 64) = (some .invalidEnumValue, Memory.zero 64)
    ∧ CopyEnumFromCluster.run exampleEnv scenarioC.field 16
        ((Memory.zero 64).writeInt 16 4 55) (.mk [] scenarioA.table [])
        = (some .invalidEnumValue, .mk [] scenarioA.table [])
    ∧ CopyEnumFromCluster.run exampleEnv scenarioC.repeatedField 24 scenarioC.missMemory
        (.mk [] scenarioA.table [])
        = (some .invalidEnumValue, .mk [(2, .repeated .enum 2 [])] scenarioA.table []) := by
  have hs := C12_enum_miss_fails exampleEnv scenarioC.field exampleEnum 16 (Memory.zero 64) 1
    (.mk [] scenarioA.table []) (by rfl) (by rfl)
  have hr := C12_enum_miss_fails exampleEnv scenarioC.repeatedField exampleEnum 24
    (Memory.zero 64) 2 (.mk [] scenarioA.table []) (by rfl) (by rfl)
  have hs' := C12_enum_miss_fails exampleEnv scenarioC.field exampleEnum 16
    ((Memory.zero 64).writeInt 16 4 55) 1 (.mk [] scenarioA.table []) (by rfl) (by rfl)
  have hr' := C12_enum_miss_fails exampleEnv scenarioC.repeatedField exampleEnum 24
    scenarioC.missMemory 2 (.mk [] scenarioA.table []) (by rfl) (by rfl)
  exact ⟨hs.1 (by rfl) 7 (by decide), hr.2.1 (by rfl) [1, 7] ⟨7, by decide, by decide⟩,
    hs'.2.2.1 (by rfl) (by decide),
    (hr'.2.2.2 (by rfl) (by decide) (by decide) (by decide) ⟨1, by decide, by decide⟩).1⟩

/-! ## C13, C14: the single-field builder -/

/-- Modelled from the spec: the ad-hoc descriptor that the three-argument constructor of
`MessageElementMetadata` (declared in a header that is not part of the sources) makes of
a kind, a repetition flag and a tag: it has no owner and no embedded type name. -/
def MessageElementMetadata.adHoc (valueType : LVMessageMetadataType) (isRepeated : Bool)
    (protobufIndex : Int) : MessageElementMetadata :=
  { type := valueType, isRepeated := isRepeated, protobufIndex := protobufIndex,
    clusterOffset := 0, _owner := false }

/-- The function `ClusterDataCopier::AnyBuilderAddValue`: the flag it returns and the
message it leaves. -/
def AnyBuilderAddValue (env : Env) (m : Memory) (message : LVMessage)
    (valueType : LVMessageMetadataType) (isRepeated : Bool) (protobufIndex : Int)
    (value : Nat) : Except Fault (Bool × LVMessage) :=
  let metadata := MessageElementMetadata.adHoc valueType isRepeated protobufIndex
  match valueType with
  | .StringValue => do
    let message1 ← CopyStringFromCluster metadata value m message
    pure (true, message1)
  | .BytesValue => do
    let message1 ← CopyBytesFromCluster metadata value m message
    pure (true, message1)
  | .BoolValue => do
    let message1 ← CopyBoolFromCluster metadata value m message
    pure (true, message1)
  | .DoubleValue => do
    let message1 ← CopyDoubleFromCluster metadata value m message
    pure (true, message1)
  | .FloatValue => do
    let message1 ← CopyFloatFromCluster metadata value m message
    pure (true, message1)
  | .Int32Value => do
    let message1 ← CopyInt32FromCluster metadata value m message
    pure (true, message1)
  | .MessageValue => pure (false, message)
  | .Int64Value => do
    let message1 ← CopyInt64FromCluster metadata value m message
    pure (true, message1)
  | .UInt32Value => do
    let message1 ← CopyUInt32FromCluster metadata value m message
    pure (true, message1)
  | .UInt64Value => do
    let message1 ← CopyUInt64FromCluster metadata value m message
    pure (true, message1)
  | .EnumValue => do
    let message1 ← CopyEnumFromCluster env metadata value m message
    pure (true, message1)
  | .SInt32Value => do
    let message1 ← CopySInt32FromCluster metadata value m message
    pure (true, message1)
  | .SInt64Value => do
    let message1 ← CopySInt64FromCluster metadata value m message
    pure (true, message1)
  | .Fixed32Value => do
    let message1 ← CopyFixed32FromCluster metadata value m message
    pure (true, message1)
  | .Fixed64Value => do
    let message1 ← CopyFixed64FromCluster metadata value m message
    pure (true, message1)
  | .SFixed32Value => do
    let message1 ← CopySFixed32FromCluster metadata value m message
    pure (true, message1)
  | .SFixed64Value => do
    let message1 ← CopySFixed64FromCluster metadata value m message
    pure (true, message1)

/-- The typed reader of a kind other than the enum and nested-message kinds. -/
def typedReader (kind : LVMessageMetadataType) (metadata : MessageElementMetadata)
    (start : Nat) (m : Memory) (message : LVMessage) : Except Fault LVMessage :=
  match kind with
  | .StringValue => CopyStringFromCluster metadata start m message
  | .BytesValue => CopyBytesFromCluster metadata start m message
  | .BoolValue => CopyBoolFromCluster metadata start m message
  | .DoubleValue => CopyDoubleFromCluster metadata start m message
  | .FloatValue => CopyFloatFromCluster metadata start m message
  | .Int32Value => CopyInt32FromCluster metadata start m message
  | .Int64Value => CopyInt64FromCluster metadata start m message
  | .UInt32Value => CopyUInt32FromCluster metadata start m message
  | .UInt64Value => CopyUInt64FromCluster metadata start m message
  | .SInt32Value => CopySInt32FromCluster metadata start m message
  | .SInt64Value => CopySInt64FromCluster metadata start m message
  | .Fixed32Value => CopyFixed32FromCluster metadata start m message
  | .Fixed64Value => CopyFixed64FromCluster metadata start m message
  | .SFixed32Value => CopySFixed32FromCluster metadata start m message
  | .SFixed64Value => CopySFixed64FromCluster metadata start m message
  | .EnumValue | .MessageValue => .ok message

/-- C13: `AnyBuilderAddValue` called with the nested-message kind returns false, without
a fault, and leaves the message as it was: the value map and the oneof selection map
are unchanged, whatever the message, the repetition flag, the tag and the value
pointer. -/
theorem C13_builder_rejects_message (env : Env) (m : Memory) (message : LVMessage)
    (isRepeated : Bool) (protobufIndex : Int) (value : Nat) :
    AnyBuilderAddValue env m message .MessageValue isRepeated protobufIndex value
      = .ok (false, message) := rfl

theorem bind_pure_map {α β : Type} (a : Except Fault α) (f : α → β) :
    (a >>= fun x => pure (f x)) = a.map f := by
  cases a <;> rfl

/-- For the fifteen kinds other than the enum and nested-message kinds,
`AnyBuilderAddValue` does what the typed reader of the kind does with the ad-hoc
descriptor at the value pointer, and returns true when the reader returns. -/
theorem AnyBuilderAddValue_typed (env : Env) (m : Memory) (message : LVMessage)
    (kind : LVMessageMetadataType) (isRepeated : Bool) (protobufIndex : Int) (value : Nat)
    (h1 : kind ≠ .MessageValue) (h2 : kind ≠ .EnumValue) :
    AnyBuilderAddValue env m message kind isRepeated protobufIndex value
      = (typedReader kind (MessageElementMetadata.adHoc kind isRepeated protobufIndex) value m
          message).map (fun message1 => (true, message1)) := by
  cases kind <;> first
    | exact absurd rfl h1
    | exact absurd rfl h2
    | exact bind_pure_map _ _

/-- C14, where the code fails: for the enum kind `AnyBuilderAddValue` does not return
true.  The ad-hoc descriptor it makes has no owner, and `CopyEnumFromCluster` calls the
owner first, so the call faults, for every message, repetition flag, tag and value
pointer.  (A reader for a descriptor that had an owner would fault all the same for a
non-repeated field, for want of the enum table of the empty type name.) -/
theorem C14_enum_builder_faults (env : Env) (m : Memory) (message : LVMessage)
    (isRepeated : Bool) (protobufIndex : Int) (value : Nat) :
    AnyBuilderAddValue env m message .EnumValue isRepeated protobufIndex value
      = .error .nullMetadata
    ∧ ∀ md : MessageElementMetadata, md.isRepeated = false →
        env.owner.FindEnumMetadata md.embeddedMessageName = none →
        CopyEnumFromCluster env md value m message = .error .nullMetadata := by
  constructor
  · rfl
  · intro md hrep hfind
    by_cases hown : md._owner = true
    · simp [CopyEnumFromCluster_eq, MessageElementMetadata.owner, hown, hfind, hrep, deref,
        ok_bind, error_bind]
    · simp [CopyEnumFromCluster_eq, MessageElementMetadata.owner, hown, error_bind]

/-! ## C15: well-known composite types go to their adapters -/

theorem CopyMessageToCluster_double2D (env : Env) (d : MessageElementMetadata) (start : Nat)
    (v : LVMessageValue) (m : Memory) (h : d.wellKnownType = .Double2DArray) :
    CopyMessageToCluster env d start v m
      = env.Double2DArray.CopyFromMessageToCluster d v start m := by
  cases v with
  | repeatedNested tag children =>
    cases children <;> rw [CopyMessageToCluster] <;> simp only [h]
  | nested tag child => rw [CopyMessageToCluster]; simp only [h]
  | string tag s => rw [CopyMessageToCluster.eq_4 _ _ _ _ _ (by simp) (by simp)]; simp only [h]
  | repeatedString tag L =>
    rw [CopyMessageToCluster.eq_4 _ _ _ _ _ (by simp) (by simp)]; simp only [h]
  | scalar c tag x => rw [CopyMessageToCluster.eq_4 _ _ _ _ _ (by simp) (by simp)]; simp only [h]
  | repeated c tag xs =>
    rw [CopyMessageToCluster.eq_4 _ _ _ _ _ (by simp) (by simp)]; simp only [h]

theorem CopyMessageToCluster_string2D (env : Env) (d : MessageElementMetadata) (start : Nat)
    (v : LVMessageValue) (m : Memory) (h : d.wellKnownType = .String2DArray) :
    CopyMessageToCluster env d start v m
      = env.String2DArray.CopyFromMessageToCluster d v start m := by
  cases v with
  | repeatedNested tag children =>
    cases children <;> rw [CopyMessageToCluster] <;> simp only [h]
  | nested tag child => rw [CopyMessageToCluster]; simp only [h]
  | string tag s => rw [CopyMessageToCluster.eq_4 _ _ _ _ _ (by simp) (by simp)]; simp only [h]
  | repeatedString tag L =>
    rw [CopyMessageToCluster.eq_4 _ _ _ _ _ (by simp) (by simp)]; simp only [h]
  | scalar c tag x => rw [CopyMessageToCluster.eq_4 _ _ _ _ _ (by simp) (by simp)]; simp only [h]
  | repeated c tag xs =>
    rw [CopyMessageToCluster.eq_4 _ _ _ _ _ (by simp) (by simp)]; simp only [h]

/-- A nested-message descriptor of the numeric 2-D array type, repeated, without owner. -/
def wellKnownExample.field : MessageElementMetadata :=
  { type := .MessageValue, isRepeated := true, protobufIndex := 1, clusterOffset := 0,
    embeddedMessageName := "Matrix", wellKnownType := .Double2DArray, _owner := false }

/-- C15: for a descriptor whose well-known type is the numeric 2-D array or the string
2-D array, `CopyMessageToCluster` and `CopyMessageFromCluster` are the calls of the
adapter of that type, with the descriptor, the node or the message, and the slot; this
holds whatever the repeated flag, the node and the owner of the descriptor are, and the
result is the same with any other registry and any other `CopyFromCluster`: the generic
nested-message logic is not evaluated and no nested table is looked up. -/
theorem C15_wellknown_delegation (env : Env) (d : MessageElementMetadata) (start : Nat)
    (v : LVMessageValue) (m : Memory) (msg : LVMessage)
    (rec : LVMessage → Nat → Except Fault LVMessage) :
    (d.wellKnownType = .Double2DArray →
      CopyMessageToCluster env d start v m
          = env.Double2DArray.CopyFromMessageToCluster d v start m
        ∧ CopyMessageFromCluster env rec d start m msg
          = env.Double2DArray.CopyFromClusterToMessage d start m msg)
    ∧ (d.wellKnownType = .String2DArray →
      CopyMessageToCluster env d start v m
          = env.String2DArray.CopyFromMessageToCluster d v start m
        ∧ CopyMessageFromCluster env rec d start m msg
          = env.String2DArray.CopyFromClusterToMessage d start m msg)
    ∧ (d.wellKnownType ≠ .None →
      ∀ (owner' : IMessageElementMetadataOwner)
        (rec' : LVMessage → Nat → Except Fault LVMessage),
        CopyMessageToCluster { env with owner := owner' } d start v m
            = CopyMessageToCluster env d start v m
          ∧ CopyMessageFromCluster { env with owner := owner' } rec' d start m msg
            = CopyMessageFromCluster env rec d start m msg) := by
  have hd : ∀ (e : Env) (r : LVMessage → Nat → Except Fault LVMessage),
      d.wellKnownType = .Double2DArray →
      CopyMessageFromCluster e r d start m msg
        = e.Double2DArray.CopyFromClusterToMessage d start m msg := by
    intro e r h
    simp only [CopyMessageFromCluster, h]
  have hs : ∀ (e : Env) (r : LVMessage → Nat → Except Fault LVMessage),
      d.wellKnownType = .String2DArray →
      CopyMessageFromCluster e r d start m msg
        = e.String2DArray.CopyFromClusterToMessage d start m msg := by
    intro e r h
    simp only [CopyMessageFromCluster, h]
  refine ⟨fun h => ⟨CopyMessageToCluster_double2D env d start v m h, hd env rec h⟩,
    fun h => ⟨CopyMessageToCluster_string2D env d start v m h, hs env rec h⟩, ?_⟩
  intro hne owner' rec'
  cases hw : d.wellKnownType with
  | None => exact absurd hw hne
  | Double2DArray =>
    rw [CopyMessageToCluster_double2D _ d start v m hw,
      CopyMessageToCluster_double2D _ d start v m hw, hd _ rec' hw, hd _ rec hw]
    exact ⟨rfl, rfl⟩
  | String2DArray =>
    rw [CopyMessageToCluster_string2D _ d start v m hw,
      CopyMessageToCluster_string2D _ d start v m hw, hs _ rec' hw, hs _ rec hw]
    exact ⟨rfl, rfl⟩

/-- C15 at a repeated descriptor of the numeric 2-D array type that has no owner, with
adapters that always fail: both directions give the failure of the adapter, with a
repeated node and with a node of another class. -/
theorem C15_wellknown_delegation_witness :
    CopyMessageToCluster exampleEnv wellKnownExample.field 16 (.repeatedNested 1 [])
        (Memory.zero 64) = .error .adapter
    ∧ CopyMessageToCluster exampleEnv wellKnownExample.field 16 (.scalar .int32 1 5)
        (Memory.zero 64) = .error .adapter
    ∧ CopyMessageFromCluster exampleEnv (CopyFromCluster exampleEnv (Memory.zero 64) 1)
        wellKnownExample.field 16 (Memory.zero 64) (.mk [] scenarioA.table [])
        = .error .adapter := by
  have h1 := (C15_wellknown_delegation exampleEnv wellKnownExample.field 16
    (.repeatedNested 1 []) (Memory.zero 64) (.mk [] scenarioA.table [])
    (CopyFromCluster exampleEnv (Memory.zero 64) 1)).1 (by rfl)
  have h2 := (C15_wellknown_delegation exampleEnv wellKnownExample.field 16
    (.scalar .int32 1 5) (Memory.zero 64) (.mk [] scenarioA.table [])
    (CopyFromCluster exampleEnv (Memory.zero 64) 1)).1 (by rfl)
  exact ⟨h1.1, h2.1, h1.2⟩

/-! ## C16, C17: the size of the array of a repeated nested-message field -/

/-- The number of alignment-units that `CopyMessageToCluster` computes for `count`
elements (`alignedElementSize`): the byte size, computed in the 64-bit unsigned type of
the count, divided by the alignment, plus one when the division leaves a remainder. -/
def CopyMessageToCluster.alignedElementSize (count clusterSize alignment : Nat) : Nat :=
  let byteSize := count * clusterSize % 2 ^ 64
  if byteSize % alignment ≠ 0 then byteSize / alignment + 1 else byteSize / alignment

/-- The steps of `CopyMessageToCluster` for a repeated node from its call of
`NumericArrayResize` on, with `units` the number of units it asks for: the array is
resized, its count is set and the elements are written. -/
def CopyMessageToCluster.resizeAndWrite (env : Env) (start : Nat) (children : List LVMessage)
    (clusterSize alignment units : Nat) (m : Memory) : Except Fault Memory :=
  let m1 := NumericArrayResize (GetTypeCodeForSize alignment) 1 start units m
  let array := m1.readPtr start
  let block := m1.readPtr array
  let m2 := m1.writeInt block 4 children.length
  CopyMessageToCluster.loop env block clusterSize alignment 0 children m2

/-- What `CopyMessageToCluster` does with a repeated node of at least one element: it asks
`NumericArrayResize` for `alignedElementSize` units of the type code of the alignment. -/
theorem CopyMessageToCluster_requests (env : Env) (d : MessageElementMetadata) (start : Nat)
    (tag : Int) (front : LVMessage) (rest : List LVMessage) (m : Memory)
    (hwk : d.wellKnownType = .None) (hrep : d.isRepeated = true)
    (ha : 0 < front._metadata.alignmentRequirement) :
    CopyMessageToCluster env d start (.repeatedNested tag (front :: rest)) m
      = CopyMessageToCluster.resizeAndWrite env start (front :: rest)
          front._metadata.clusterSize front._metadata.alignmentRequirement
          (CopyMessageToCluster.alignedElementSize (rest.length + 1)
            front._metadata.clusterSize front._metadata.alignmentRequirement) m := by
  rw [CopyMessageToCluster]
  simp only [hwk, hrep, if_true, show ¬ front._metadata.alignmentRequirement = 0 by omega,
    if_false, List.length_cons, CopyMessageToCluster.alignedElementSize,
    CopyMessageToCluster.resizeAndWrite]

/-- The units computed are the least number of units that cover the byte size. -/
theorem CopyMessageToCluster.alignedElementSize_ceil (count s a : Nat) (ha : 0 < a)
    (hsize : count * s < 2 ^ 64) :
    count * s ≤ CopyMessageToCluster.alignedElementSize count s a * a
    ∧ CopyMessageToCluster.alignedElementSize count s a * a < count * s + a
    ∧ ∀ k, count * s ≤ k * a → CopyMessageToCluster.alignedElementSize count s a ≤ k := by
  unfold CopyMessageToCluster.alignedElementSize
  simp only [Nat.mod_eq_of_lt hsize]
  have h1 := Nat.div_add_mod (count * s) a
  have h2 := Nat.mod_lt (count * s) ha
  generalize count * s = b at h1 h2 ⊢
  have h3 : a * (b / a) = b / a * a := Nat.mul_comm _ _
  have hk : ∀ k, b ≤ k * a → b / a ≤ k := by
    intro k hk
    exact Nat.div_le_of_le_mul (by rw [Nat.mul_comm]; exact hk)
  split
  · rename_i hne
    refine ⟨by rw [Nat.add_mul]; omega, by rw [Nat.add_mul]; omega, ?_⟩
    intro k hkb
    have := hk k hkb
    by_contra hlt
    have hk' : k = b / a := by omega
    rw [hk'] at hkb
    omega
  · rename_i heq
    refine ⟨by omega, by omega, hk⟩

theorem alignUp_of_dvd (s a : Nat) (ha : 0 < a) (h : a ∣ s) : alignUp s a = s := by
  obtain ⟨q, rfl⟩ := h
  unfold alignUp
  rw [if_neg (by omega)]
  have hq : (a * q + a - 1) / a = q := by
    apply Nat.div_eq_of_lt_le
    · rw [Nat.mul_comm]; omega
    · rw [Nat.add_mul, Nat.mul_comm q a]; omega
  rw [hq, Nat.mul_comm]

/-- A table of a nested message type with a cluster of 5 bytes and an alignment of 4. -/
def oddCluster.table : MessageMetadata :=
  { _elements := [], _mappedElements := [], clusterSize := 5, alignmentRequirement := 4 }

/-- A repeated nested-message field, tag 1. -/
def oddCluster.field : MessageElementMetadata :=
  { type := .MessageValue, isRepeated := true, protobufIndex := 1, clusterOffset := 0,
    embeddedMessageName := "Odd" }

/-- C16: for a repeated nested-message node with count > 0 elements, the nested cluster
size s and the alignment a > 0 of the first element's table, and count * s within the
64-bit size type, `CopyMessageToCluster` asks `NumericArrayResize` for n units where n is
the ceiling of count * s / a: n * a covers count * s, by less than a, and no smaller
number of units covers it. -/
theorem C16_units_are_ceiling (env : Env) (d : MessageElementMetadata) (start : Nat)
    (tag : Int) (front : LVMessage) (rest : List LVMessage) (m : Memory)
    (hwk : d.wellKnownType = .None) (hrep : d.isRepeated = true)
    (ha : 0 < front._metadata.alignmentRequirement)
    (hsize : (rest.length + 1) * front._metadata.clusterSize < 2 ^ 64) :
    ∃ n, CopyMessageToCluster env d start (.repeatedNested tag (front :: rest)) m
        = CopyMessageToCluster.resizeAndWrite env start (front :: rest)
            front._metadata.clusterSize front._metadata.alignmentRequirement n m
      ∧ (rest.length + 1) * front._metadata.clusterSize
          ≤ n * front._metadata.alignmentRequirement
      ∧ n * front._metadata.alignmentRequirement
          < (rest.length + 1) * front._metadata.clusterSize
            + front._metadata.alignmentRequirement
      ∧ ∀ k, (rest.length + 1) * front._metadata.clusterSize
          ≤ k * front._metadata.alignmentRequirement → n ≤ k := by
  obtain ⟨c1, c2, c3⟩ := CopyMessageToCluster.alignedElementSize_ceil (rest.length + 1)
    front._metadata.clusterSize front._metadata.alignmentRequirement ha hsize
  exact ⟨_, CopyMessageToCluster_requests env d start tag front rest m hwk hrep ha, c1, c2, c3⟩

/-- C16 at two elements of 5 bytes with an alignment of 4: the writer asks for 3 units,
and 10 ≤ 12 < 14. -/
theorem C16_units_are_ceiling_witness :
    ∃ n, CopyMessageToCluster exampleEnv oddCluster.field 16
          (.repeatedNested 1 [.mk [] oddCluster.table [], .mk [] oddCluster.table []])
          (Memory.zero 64)
        = CopyMessageToCluster.resizeAndWrite exampleEnv 16
            [.mk [] oddCluster.table [], .mk [] oddCluster.table []] 5 4 n (Memory.zero 64)
      ∧ 2 * 5 ≤ n * 4 ∧ n * 4 < 2 * 5 + 4 ∧ ∀ k, 2 * 5 ≤ k * 4 → n ≤ k :=
  C16_units_are_ceiling exampleEnv oddCluster.field 16 1 (.mk [] oddCluster.table [])
    [.mk [] oddCluster.table []] (Memory.zero 64) (by rfl) (by rfl) (by decide) (by decide)

/-- C17, as stated, fails: for two elements of 5 bytes with an alignment of 4 the writer
asks for 3 units, which are 12 bytes, and two elements of the cluster size rounded up to
the alignment are 16 bytes. -/
theorem C17_counterexample :
    CopyMessageToCluster exampleEnv oddCluster.field 16
        (.repeatedNested 1 [.mk [] oddCluster.table [], .mk [] oddCluster.table []])
        (Memory.zero 64)
      = CopyMessageToCluster.resizeAndWrite exampleEnv 16
          [.mk [] oddCluster.table [], .mk [] oddCluster.table []] 5 4 3 (Memory.zero 64)
    ∧ CopyMessageToCluster.alignedElementSize 2 5 4 = 3
    ∧ 3 * 4 < 2 * alignUp 5 4 :=
  ⟨by rfl, by decide, by decide⟩

/-- C17, amended: for a repeated nested-message node with count > 0 elements, cluster
size s and alignment a > 0 (count * s within the 64-bit size type), the units that
`CopyMessageToCluster` asks for, times the alignment, are at least count * s bytes: the
array is sized for count elements of the cluster size, the total rounded up to the
alignment.  They are at least count times the cluster size rounded up to the alignment
when the cluster size is a multiple of the alignment. -/
theorem C17_allocation_covers (env : Env) (d : MessageElementMetadata) (start : Nat)
    (tag : Int) (front : LVMessage) (rest : List LVMessage) (m : Memory)
    (hwk : d.wellKnownType = .None) (hrep : d.isRepeated = true)
    (ha : 0 < front._metadata.alignmentRequirement)
    (hsize : (rest.length + 1) * front._metadata.clusterSize < 2 ^ 64) :
    ∃ n, CopyMessageToCluster env d start (.repeatedNested tag (front :: rest)) m
        = CopyMessageToCluster.resizeAndWrite env start (front :: rest)
            front._metadata.clusterSize front._metadata.alignmentRequirement n m
      ∧ (rest.length + 1) * front._metadata.clusterSize
          ≤ n * front._metadata.alignmentRequirement
      ∧ (front._metadata.alignmentRequirement ∣ front._metadata.clusterSize →
          (rest.length + 1)
              * alignUp front._metadata.clusterSize front._metadata.alignmentRequirement
            ≤ n * front._metadata.alignmentRequirement) := by
  obtain ⟨c1, _, _⟩ := CopyMessageToCluster.alignedElementSize_ceil (rest.length + 1)
    front._metadata.clusterSize front._metadata.alignmentRequirement ha hsize
  refine ⟨_, CopyMessageToCluster_requests env d start tag front rest m hwk hrep ha, c1, ?_⟩
  intro hdvd
  have hup := alignUp_of_dvd front._metadata.clusterSize
    front._metadata.alignmentRequirement ha hdvd
  rw [hup]
  exact c1

/-- C17, amended, at two elements of the table of `Leaf`, whose cluster of 8 bytes is a
multiple of its alignment of 8: the units asked for are 16 bytes or more. -/
theorem C17_allocation_covers_witness :
    ∃ n, CopyMessageToCluster exampleEnv scenarioD.leaves 16
          (.repeatedNested 1 [.mk [] scenarioD.leaf [], .mk [] scenarioD.leaf []])
          (Memory.zero 64)
        = CopyMessageToCluster.resizeAndWrite exampleEnv 16
            [.mk [] scenarioD.leaf [], .mk [] scenarioD.leaf []] 8 8 n (Memory.zero 64)
      ∧ 2 * 8 ≤ n * 8 ∧ 2 * alignUp 8 8 ≤ n * 8 := by
  obtain ⟨n, h1, h2, h3⟩ := C17_allocation_covers exampleEnv scenarioD.leaves 16 1
    (.mk [] scenarioD.leaf []) [.mk [] scenarioD.leaf []] (Memory.zero 64) (by rfl) (by rfl)
    (by decide) (by decide)
  exact ⟨n, h1, h2, h3 (by decide)⟩

/-! ## C18: the tree read is fresh -/

/-- C18: the result of `CopyFromCluster` does not depend on the values and the oneof
selections the message held before the call: two messages of the same table, read from
the same cluster, give the same result (the same tree, value map and selection map, or
the same failure). -/
theorem C18_fresh_tree (env : Env) (m : Memory) (fuel : Nat) (msg1 msg2 : LVMessage)
    (cluster : Nat) (h : msg1._metadata = msg2._metadata) :
    CopyFromCluster env m fuel msg1 cluster = CopyFromCluster env m fuel msg2 cluster := by
  cases fuel with
  | zero => rfl
  | succ fuel =>
    have hc : msg1.Clear = msg2.Clear := by
      simp only [LVMessage.Clear, h]
    simp only [CopyFromCluster, hc]

/-- C18 at scenario B: a message that is empty and a message that holds a string at tag 5
and the selection of tag 5 are both read, from the cluster that holds 7 at tag 6 and the
discriminator 6, as the tree with tag 6 alone. -/
theorem C18_fresh_tree_witness :
    CopyFromCluster exampleEnv scenarioB.memory 1
        (.mk [(5, .string 5 [97])] scenarioB.table [("choice", 5)]) 16
      = CopyFromCluster exampleEnv scenarioB.memory 1 (.mk [] scenarioB.table []) 16
    ∧ CopyFromCluster exampleEnv scenarioB.memory 1
        (.mk [(5, .string 5 [97])] scenarioB.table [("choice", 5)]) 16
      = .ok scenarioB.tree :=
  ⟨C18_fresh_tree exampleEnv scenarioB.memory 1
      (.mk [(5, .string 5 [97])] scenarioB.table [("choice", 5)]) (.mk [] scenarioB.table [])
      16 rfl, by rfl⟩

/-! ## C19: the tree read holds exactly the present fields -/

theorem mem_keys_emplaceValue (msg : LVMessage) (tag : Int) (node : LVMessageValue) :
    tag ∈ keys (msg.emplaceValue tag node)._values := by
  rw [LVMessage.emplaceValue_values, mem_keys_emplace]
  exact Or.inl rfl

theorem CopyFixedWidthFromCluster_nonempty_adds (c : ValueClass) (md : MessageElementMetadata)
    (start : Nat) (m : Memory) (msg r : LVMessage) (hr : md.isRepeated = true)
    (he : ¬ EmptyHandle m start) (h : CopyFixedWidthFromCluster c md start m msg = .ok r) :
    md.protobufIndex ∈ keys r._values := by
  have h1 : ¬ m.readPtr start = 0 := fun e => he (Or.inl e)
  have h2 : ¬ m.readPtr (m.readPtr start) = 0 := fun e => he (Or.inr (Or.inl e))
  have h3 : ¬ m.readInt32 (m.readPtr (m.readPtr start)) = 0 := fun e => he (Or.inr (Or.inr e))
  simp only [CopyFixedWidthFromCluster, hr, if_true, h1, h2, h3, if_false] at h
  split at h
  · cases h
  · cases h
    exact mem_keys_emplaceValue _ _ _

theorem CopyStringFromCluster_nonempty_adds (md : MessageElementMetadata)
    (start : Nat) (m : Memory) (msg r : LVMessage) (hr : md.isRepeated = true)
    (he : ¬ EmptyHandle m start) (h : CopyStringFromCluster md start m msg = .ok r) :
    md.protobufIndex ∈ keys r._values := by
  have h1 : m.readPtr start ≠ 0 := fun e => he (Or.inl e)
  have h2 : m.readPtr (m.readPtr start) ≠ 0 := fun e => he (Or.inr (Or.inl e))
  have h3 : m.readInt32 (m.readPtr (m.readPtr start)) ≠ 0 := fun e => he (Or.inr (Or.inr e))
  simp only [CopyStringFromCluster, hr, if_true, h1, h2, ne_eq, not_false_eq_true, and_self,
    h3] at h
  rw [bind_eq_ok] at h
  obtain ⟨strs, _, h⟩ := h
  cases h
  exact mem_keys_emplaceValue _ _ _

theorem CopyEnumFromCluster_nonempty_adds (env : Env) (md : MessageElementMetadata)
    (start : Nat) (m : Memory) (msg r : LVMessage) (hr : md.isRepeated = true)
    (he : ¬ EmptyHandle m start) (h : CopyEnumFromCluster env md start m msg = .ok r) :
    md.protobufIndex ∈ keys r._values := by
  have h1 : ¬ m.readPtr start = 0 := fun e => he (Or.inl e)
  have h2 : ¬ m.readPtr (m.readPtr start) = 0 := fun e => he (Or.inr (Or.inl e))
  have h3 : ¬ m.readInt32 (m.readPtr (m.readPtr start)) = 0 := fun e => he (Or.inr (Or.inr e))
  rw [CopyEnumFromCluster_eq] at h
  rw [bind_eq_ok] at h
  obtain ⟨owner, _, h⟩ := h
  simp only [hr, if_true, h1, h2, h3, if_false] at h
  split at h
  · cases h
  · rw [bind_eq_ok] at h
    obtain ⟨mapped, _, h⟩ := h
    cases h
    exact mem_keys_emplaceValue _ _ _

theorem CopyMessageFromCluster_nonempty_adds (env : Env)
    (rec : LVMessage → Nat → Except Fault LVMessage) (md : MessageElementMetadata)
    (start : Nat) (m : Memory) (msg r : LVMessage) (hr : md.isRepeated = true)
    (hwk : md.wellKnownType = .None)
    (he : ¬ EmptyHandle m start) (h : CopyMessageFromCluster env rec md start m msg = .ok r) :
    md.protobufIndex ∈ keys r._values := by
  have h1 : ¬ m.readPtr start = 0 := fun e => he (Or.inl e)
  have h2 : ¬ m.readPtr (m.readPtr start) = 0 := fun e => he (Or.inr (Or.inl e))
  have h3 : ¬ m.readInt32 (m.readPtr (m.readPtr start)) = 0 := fun e => he (Or.inr (Or.inr e))
  unfold CopyMessageFromCluster at h
  rw [hwk] at h
  dsimp only at h
  rw [bind_eq_ok] at h
  obtain ⟨owner, _, h⟩ := h
  simp only [hr, if_true, h1, h2, h3, if_false] at h
  rw [bind_eq_ok] at h
  obtain ⟨nesteds, _, h⟩ := h
  cases h
  exact mem_keys_emplaceValue _ _ _

/-- A reader that returns for a repeated descriptor whose handle is not empty (for the
nested-message kind: one that is not a well-known composite type) has put the tag of the
descriptor in the tree. -/
theorem CopyFromCluster.dispatch_nonempty_adds (env : Env)
    (rec : LVMessage → Nat → Except Fault LVMessage) (md : MessageElementMetadata)
    (start : Nat) (m : Memory) (msg r : LVMessage) (hr : md.isRepeated = true)
    (hwk : md.type = .MessageValue → md.wellKnownType = .None)
    (he : ¬ EmptyHandle m start)
    (h : CopyFromCluster.dispatch env rec md start m msg = .ok r) :
    md.protobufIndex ∈ keys r._values := by
  simp only [CopyFromCluster.dispatch, CopyBoolFromCluster, CopyDoubleFromCluster,
    CopyFloatFromCluster, CopyInt32FromCluster, CopyInt64FromCluster, CopyUInt32FromCluster,
    CopyUInt64FromCluster, CopySInt32FromCluster, CopySInt64FromCluster,
    CopyFixed32FromCluster, CopyFixed64FromCluster, CopySFixed32FromCluster,
    CopySFixed64FromCluster, CopyBytesFromCluster] at h
  split at h
  case h_14 =>
    rw [bind_eq_ok] at h
    obtain ⟨r1, h1, h2⟩ := h
    have := CopyFixedWidthFromCluster_nonempty_adds _ _ _ _ _ _ hr he h1
    exact (CopyFixedWidthFromCluster_emplaced _ _ _ _ _ _ h2).keys_mono _ this
  case h_1 => exact CopyStringFromCluster_nonempty_adds _ _ _ _ _ hr he h
  case h_2 => exact CopyStringFromCluster_nonempty_adds _ _ _ _ _ hr he h
  case h_7 ht => exact CopyMessageFromCluster_nonempty_adds _ _ _ _ _ _ _ hr (hwk ht) he h
  case h_11 => exact CopyEnumFromCluster_nonempty_adds _ _ _ _ _ _ hr he h
  all_goals exact CopyFixedWidthFromCluster_nonempty_adds _ _ _ _ _ _ hr he h

/-- A reader that returns for a descriptor that is non-repeated, or repeated with a handle
that is not empty, has put the tag of the descriptor in the tree. -/
theorem CopyFromCluster.dispatch_adds (env : Env)
    (rec : LVMessage → Nat → Except Fault LVMessage) (md : MessageElementMetadata)
    (start : Nat) (m : Memory) (msg r : LVMessage)
    (hp : md.isRepeated = false ∨ ¬ EmptyHandle m start)
    (hwk : md.type = .MessageValue → md.wellKnownType = .None)
    (h : CopyFromCluster.dispatch env rec md start m msg = .ok r) :
    md.protobufIndex ∈ keys r._values := by
  by_cases hr : md.isRepeated = true
  · rcases hp with hp | hp
    · rw [hr] at hp
      cases hp
    · exact CopyFromCluster.dispatch_nonempty_adds env rec md start m msg r hr hwk hp h
  · exact CopyFromCluster.dispatch_scalar_adds env rec md start m msg r (by simpa using hr) hwk h

/-- The second loop of `CopyFromCluster` keeps the keys the tree has and adds the tag of
every descriptor that passes the oneof rules and is non-repeated or has a handle that is
not empty. -/
theorem CopyFromCluster.fields_adds (env : Env) (henv : env.AdaptersEmplaceOnly)
    (rec : LVMessage → Nat → Except Fault LVMessage) (cluster : Nat) (m : Memory)
    (list : List (Int × MessageElementMetadata)) (msg r : LVMessage)
    (h : CopyFromCluster.fields env rec cluster m list msg = .ok r) :
    (∀ k ∈ keys msg._values, k ∈ keys r._values)
    ∧ ∀ p ∈ list, (p.2.isRepeated = false ∨ ¬ EmptyHandle m (cluster + p.2.clusterOffset)) →
        (p.2.type = .MessageValue → p.2.wellKnownType = .None) →
        (p.2.isInOneof = true → 0 ≤ p.2.protobufIndex ∧
          mapFind p.2.oneofContainerName msg._oneofContainerToSelectedIndexMap
            = some p.2.protobufIndex) →
        p.2.protobufIndex ∈ keys r._values := by
  induction list generalizing msg with
  | nil =>
    simp only [CopyFromCluster.fields] at h
    cases h
    exact ⟨fun k hk => hk, fun p hp => absurd hp (List.not_mem_nil _)⟩
  | cons q list ih =>
    obtain ⟨key, fm⟩ := q
    have step : ∀ msg1, CopyFromCluster.fields env rec cluster m list msg1 = .ok r →
        CopyFromCluster.dispatch env rec fm (cluster + fm.clusterOffset) m msg = .ok msg1 →
        (∀ k ∈ keys msg._values, k ∈ keys r._values)
        ∧ ∀ p ∈ (key, fm) :: list, (p.2.isRepeated = false ∨ ¬ EmptyHandle m (cluster + p.2.clusterOffset)) →
            (p.2.type = .MessageValue → p.2.wellKnownType = .None) →
            (p.2.isInOneof = true → 0 ≤ p.2.protobufIndex ∧
              mapFind p.2.oneofContainerName msg._oneofContainerToSelectedIndexMap
                = some p.2.protobufIndex) →
            p.2.protobufIndex ∈ keys r._values := by
      intro msg1 h hd
      have hem := CopyFromCluster.dispatch_emplaced env henv rec _ _ _ _ _ hd
      obtain ⟨i1, i2⟩ := ih msg1 h
      refine ⟨fun k hk => i1 k (hem.keys_mono k hk), ?_⟩
      intro p hp h1 h2 h3
      rcases List.mem_cons.1 hp with e | hp'
      · subst e
        exact i1 _ (CopyFromCluster.dispatch_adds env rec _ _ m msg msg1 h1 h2 hd)
      · exact i2 p hp' h1 h2 (by rw [hem.oneof]; exact h3)
    have skip : CopyFromCluster.fields env rec cluster m list msg = .ok r →
        (fm.isInOneof = true ∧ (fm.protobufIndex < 0 ∨
          mapFind fm.oneofContainerName msg._oneofContainerToSelectedIndexMap
            ≠ some fm.protobufIndex)) →
        (∀ k ∈ keys msg._values, k ∈ keys r._values)
        ∧ ∀ p ∈ (key, fm) :: list, (p.2.isRepeated = false ∨ ¬ EmptyHandle m (cluster + p.2.clusterOffset)) →
            (p.2.type = .MessageValue → p.2.wellKnownType = .None) →
            (p.2.isInOneof = true → 0 ≤ p.2.protobufIndex ∧
              mapFind p.2.oneofContainerName msg._oneofContainerToSelectedIndexMap
                = some p.2.protobufIndex) →
            p.2.protobufIndex ∈ keys r._values := by
      intro h hs
      obtain ⟨i1, i2⟩ := ih msg h
      refine ⟨i1, ?_⟩
      intro p hp h1 h2 h3
      rcases List.mem_cons.1 hp with e | hp'
      · subst e
        have := h3 hs.1
        dsimp only at this
        rcases hs.2 with hneg | hne
        · omega
        · exact absurd this.2 hne
      · exact i2 p hp' h1 h2 h3
    simp only [CopyFromCluster.fields] at h
    split at h
    · rename_i hin
      split at h
      · rename_i hneg
        exact skip h ⟨hin, Or.inl hneg⟩
      · split at h
        · cases h
        · rename_i sel hsel
          split at h
          · rename_i hne
            refine skip h ⟨hin, Or.inr ?_⟩
            rw [hsel]
            intro e
            exact hne (Option.some.inj e)
          · rw [bind_eq_ok] at h
            obtain ⟨msg1, hd, h⟩ := h
            exact step msg1 h hd
    · rw [bind_eq_ok] at h
      obtain ⟨msg1, hd, h⟩ := h
      exact step msg1 h hd

/-- C19: when `CopyFromCluster` returns a tree, the tree has an entry for the tag t (no
descriptor with the tag t being of a well-known composite type, which the adapters read)
if and only if the table has a descriptor with the tag t that is not skipped by the oneof
rules (if it is in a oneof, its tag is not negative and the selection read for its group
is its tag) and that is non-repeated, or repeated with a handle that is not null, does
not point to a null block and has a count other than 0. -/
theorem C19_exactly_present (env : Env) (henv : env.AdaptersEmplaceOnly) (m : Memory)
    (fuel : Nat) (message : LVMessage) (cluster : Nat) (r : LVMessage)
    (h : CopyFromCluster env m fuel message cluster = .ok r) (t : Int)
    (hwk : ∀ p ∈ message._metadata._mappedElements, p.2.protobufIndex = t →
      p.2.type = .MessageValue → p.2.wellKnownType = .None) :
    t ∈ keys r._values ↔
      ∃ p ∈ message._metadata._mappedElements, p.2.protobufIndex = t
        ∧ (p.2.isInOneof = true → 0 ≤ p.2.protobufIndex
            ∧ mapFind p.2.oneofContainerName
                (selectorEntries cluster m message._metadata._elements)
              = some p.2.protobufIndex)
        ∧ (p.2.isRepeated = false ∨ ¬ EmptyHandle m (cluster + p.2.clusterOffset)) := by
  constructor
  · intro ht
    have hQ : ∀ q ∈ message._metadata._mappedElements,
        ¬ ¬ (q.2.isRepeated = true ∧ (q.2.type = .MessageValue → q.2.wellKnownType = .None)
          ∧ EmptyHandle m (cluster + q.2.clusterOffset)) →
        ∀ (rec : LVMessage → Nat → Except Fault LVMessage) msg r,
        CopyFromCluster.dispatch env rec q.2 (cluster + q.2.clusterOffset) m msg = .ok r →
          r = msg := by
      intro q _ hq rec msg r hd
      obtain ⟨h1, h2, h3⟩ := not_not.1 hq
      exact CopyFromCluster.dispatch_empty env rec q.2 _ m msg r h1 h2 h3 hd
    obtain ⟨_, _, e3⟩ := CopyFromCluster.result_spec env henv m fuel message cluster r h
      (fun q => ¬ (q.isRepeated = true ∧ (q.type = .MessageValue → q.wellKnownType = .None)
          ∧ EmptyHandle m (cluster + q.clusterOffset))) hQ
    obtain ⟨p, hp, hp1, hp2, hp3⟩ := e3 t ht
    refine ⟨p, hp, hp1, hp3, ?_⟩
    by_cases hr : p.2.isRepeated = true
    · refine Or.inr (fun he => hp2 ⟨hr, hwk p hp hp1, he⟩)
    · exact Or.inl (by simpa using hr)
  · rintro ⟨p, hp, hp1, hp2, hp3⟩
    obtain ⟨fuel', msg1, _, hs, hf⟩ := CopyFromCluster.ok_iff env m fuel message cluster r h
    obtain ⟨_, _, s3⟩ := CopyFromCluster.selectors_spec _ _ _ _ _ hs
    have hsel1 : msg1._oneofContainerToSelectedIndexMap
        = selectorEntries cluster m message._metadata._elements := by
      rw [s3]
      simp [LVMessage.Clear]
    rw [← hp1]
    refine (CopyFromCluster.fields_adds env henv _ cluster m _ msg1 r hf).2 p hp hp3
      (hwk p hp hp1) ?_
    rw [hsel1]
    exact hp2

/-- C19 at scenario B, read from the cluster that holds 7 at tag 6 and the discriminator
6: the tree has tag 6, whose descriptor is selected and non-repeated, and has not tag 5,
whose descriptor is skipped. -/
theorem C19_exactly_present_witness :
    CopyFromCluster exampleEnv scenarioB.memory 1 (.mk [] scenarioB.table []) 16
      = .ok scenarioB.tree
    ∧ ((6 : Int) ∈ keys scenarioB.tree._values ↔
      ∃ p ∈ scenarioB.table._mappedElements, p.2.protobufIndex = 6
        ∧ (p.2.isInOneof = true → 0 ≤ p.2.protobufIndex
            ∧ mapFind p.2.oneofContainerName
                (selectorEntries 16 scenarioB.memory scenarioB.table._elements)
              = some p.2.protobufIndex)
        ∧ (p.2.isRepeated = false ∨ ¬ EmptyHandle scenarioB.memory (16 + p.2.clusterOffset)))
    ∧ (6 : Int) ∈ keys scenarioB.tree._values
    ∧ (5 : Int) ∉ keys scenarioB.tree._values :=
  ⟨by rfl,
    C19_exactly_present exampleEnv exampleEnv_adapters scenarioB.memory 1
      (.mk [] scenarioB.table []) 16 scenarioB.tree (by rfl) 6
      (fun p hp _ ht => by
        simp only [LVMessage.mk_metadata, scenarioB.table, List.mem_cons, List.mem_singleton,
          List.not_mem_nil, or_false] at hp
        rcases hp with rfl | rfl | rfl <;> rfl),
    by decide, by decide⟩

/-! ## C20: one reader per descriptor, but for fixed32 -/

/-- A non-repeated fixed32 field, tag 1, at offset 0. -/
def fallThrough.field : MessageElementMetadata :=
  { type := .Fixed32Value, isRepeated := false, protobufIndex := 1, clusterOffset := 0 }

/-- A non-repeated int32 field, tag 2, at offset 4, right behind the fixed32 field. -/
def fallThrough.neighbour : MessageElementMetadata :=
  { type := .Int32Value, isRepeated := false, protobufIndex := 2, clusterOffset := 4 }

/-- The table of a message with a fixed32 field and an int32 field. -/
def fallThrough.table : MessageMetadata :=
  { _elements := [fallThrough.field, fallThrough.neighbour],
    _mappedElements := [(1, fallThrough.field), (2, fallThrough.neighbour)],
    clusterSize := 8, alignmentRequirement := 4 }

/-- A cluster at address 16 that holds 1 in the fixed32 field and 2 in the int32 field. -/
def fallThrough.memory : Memory :=
  ((Memory.zero 64).writeInt 16 4 1).writeInt 20 4 2

/-- Every kind but fixed32 is read by the reader of the kind alone. -/
theorem CopyFromCluster.dispatch_single (env : Env)
    (rec : LVMessage → Nat → Except Fault LVMessage) (d : MessageElementMetadata)
    (start : Nat) (m : Memory) (msg : LVMessage) (h : d.type ≠ .Fixed32Value) :
    CopyFromCluster.dispatch env rec d start m msg
      = match d.type with
        | .EnumValue => CopyEnumFromCluster env d start m msg
        | .MessageValue => CopyMessageFromCluster env rec d start m msg
        | kind => typedReader kind d start m msg := by
  cases ht : d.type <;> first
    | exact absurd ht h
    | simp only [CopyFromCluster.dispatch, ht, typedReader]

/-- C20, where the code fails: for a fixed32 descriptor the `switch` of `CopyFromCluster`
runs the fixed32 reader and then, for want of a `break`, the fixed64 reader on the same
slot and the message the first reader left.  At the cluster that holds 1 in a fixed32
field and 2 in the int32 field behind it, the fixed64 reader decodes the 8 bytes of both
fields (1 + 2 * 2^32); its node is dropped only because the tag is taken, so the read
returns the tree of the two fields. -/
theorem C20_fixed32_runs_fixed64 :
    (∀ (env : Env) (rec : LVMessage → Nat → Except Fault LVMessage) (isRepeated : Bool)
        (tag : Int) (offset start : Nat) (m : Memory) (msg : LVMessage),
      CopyFromCluster.dispatch env rec
          { type := .Fixed32Value, isRepeated := isRepeated, protobufIndex := tag,
            clusterOffset := offset } start m msg
        = (CopyFixed32FromCluster
            { type := .Fixed32Value, isRepeated := isRepeated, protobufIndex := tag,
              clusterOffset := offset } start m msg >>= fun message1 =>
          CopyFixed64FromCluster
            { type := .Fixed32Value, isRepeated := isRepeated, protobufIndex := tag,
              clusterOffset := offset } start m message1))
    ∧ CopyFixed64FromCluster fallThrough.field 16 fallThrough.memory
        (.mk [] fallThrough.table [])
      = .ok (.mk [(1, .scalar .fixed64 1 8589934593)] fallThrough.table [])
    ∧ CopyFromCluster exampleEnv fallThrough.memory 1 (.mk [] fallThrough.table []) 16
      = .ok (.mk [(1, .scalar .fixed32 1 1), (2, .scalar .int32 2 2)] fallThrough.table []) :=
  ⟨fun _ _ _ _ _ _ _ _ => rfl, by rfl, by rfl⟩

/-! ## Round trip: nested messages -/

theorem CopyFromCluster.dispatch_message (env : Env) (d : MessageElementMetadata)
    (ht : d.type = .MessageValue) (rec : LVMessage → Nat → Except Fault LVMessage)
    (start : Nat) (m : Memory) (msg : LVMessage) :
    CopyFromCluster.dispatch env rec d start m msg
      = CopyMessageFromCluster env rec d start m msg := by
  simp only [CopyFromCluster.dispatch, ht]

/-- The bytes of the cluster a field takes: the cluster of the nested message, inline, for
a non-repeated nested-message field; a handle for a repeated field and for a string; the
value for a scalar. -/
def MessageElementMetadata.slotWidthIn (env : Env) (d : MessageElementMetadata) : Nat :=
  if d.type = .MessageValue ∧ d.isRepeated = false then
    match env.owner.FindMetadata d.embeddedMessageName with
    | some md => md.clusterSize
    | none => 0
  else d.slotWidth

/-- The node fits the descriptor.  A nested-message node fits a non-repeated
nested-message descriptor whose message type is the table of the nested tree, when the
nested tree satisfies `P`.  A repeated nested-message node fits a repeated
nested-message descriptor when it has at least one and fewer than 2^31 trees, all of the
table of the message type of the descriptor, whose cluster has 8 bytes or more (the
writer stores a null pointer at the head of every element) and an alignment of 1, 2, 4 or
8 bytes, and all satisfying `P`.  Every other node fits as `Fits` says. -/
def NodeFits (env : Env) (P : LVMessage → Prop) (d : MessageElementMetadata) :
    LVMessageValue → Prop
  | .nested tag child =>
    tag = d.protobufIndex ∧ d.type = .MessageValue ∧ d.isRepeated = false
      ∧ env.owner.FindMetadata d.embeddedMessageName = some child._metadata ∧ P child
  | .repeatedNested tag children =>
    tag = d.protobufIndex ∧ d.type = .MessageValue ∧ d.isRepeated = true
      ∧ children ≠ [] ∧ children.length < 2147483648
      ∧ ∃ md, env.owner.FindMetadata d.embeddedMessageName = some md
        ∧ 8 ≤ md.clusterSize
        ∧ (md.alignmentRequirement = 1 ∨ md.alignmentRequirement = 2
          ∨ md.alignmentRequirement = 4 ∨ md.alignmentRequirement = 8)
        ∧ ∀ child ∈ children, child._metadata = md ∧ P child
  | .string tag s => Fits env d (.string tag s)
  | .repeatedString tag L => Fits env d (.repeatedString tag L)
  | .scalar c tag x => Fits env d (.scalar c tag x)
  | .repeated c tag xs => Fits env d (.repeated c tag xs)

/-- The table, the tags `held` of the nodes and the selections of a tree are in order.
The keys of the table are the tags of its descriptors, in ascending order; the tags of the
tree are among them; a descriptor whose tag the tree holds passes the oneof rules; a descriptor
whose tag the tree does not hold is skipped by the oneof rules or is a repeated field; a
nested-message descriptor is not of a well-known type, and a nested-message or enum
descriptor has its owner; the slots of the descriptors that pass the oneof rules and the
discriminator slots lie apart, inside the cluster; the selections fit the discriminators
(`OneofsFit`). -/
structure TreeShape (env : Env) (held : List Int) (md : MessageMetadata)
    (sel : List (String × Int)) : Prop where
  tags : ∀ p ∈ md._mappedElements, p.1 = p.2.protobufIndex
  sorted : (keys md._mappedElements).Pairwise (· < ·)
  sub : held.Sublist (keys md._mappedElements)
  active : ∀ p ∈ md._mappedElements, p.1 ∈ held → Active sel p.2
  absent : ∀ p ∈ md._mappedElements, p.1 ∉ held →
    Skipped sel p.2 ∨ (Active sel p.2 ∧ p.2.isRepeated = true)
  plain : ∀ p ∈ md._mappedElements, p.2.type = .MessageValue → p.2.wellKnownType = .None
  owned : ∀ p ∈ md._mappedElements, p.2.type = .MessageValue ∨ p.2.type = .EnumValue →
    p.2._owner = true
  slots : ∀ p ∈ md._mappedElements, Active sel p.2 →
    p.2.clusterOffset + p.2.slotWidthIn env ≤ md.clusterSize
  apart : md._mappedElements.Pairwise (fun p q => Active sel p.2 → Active sel q.2 →
    p.2.clusterOffset + p.2.slotWidthIn env ≤ q.2.clusterOffset
      ∨ q.2.clusterOffset + q.2.slotWidthIn env ≤ p.2.clusterOffset)
  oneofs : OneofsFit md sel
  discriminators : ∀ d ∈ md._elements.filter isDiscriminator,
    d.clusterOffset + 4 ≤ md.clusterSize ∧ ∀ p ∈ md._mappedElements, Active sel p.2 →
      d.clusterOffset + 4 ≤ p.2.clusterOffset
        ∨ p.2.clusterOffset + p.2.slotWidthIn env ≤ d.clusterOffset

/-- The tree is in order and each of its nodes fits the descriptor of its tag, the
nested trees satisfying `P`. -/
def TreeOK (env : Env) (P : LVMessage → Prop) (tree : LVMessage) : Prop :=
  TreeShape env (keys tree._values) tree._metadata tree._oneofContainerToSelectedIndexMap
    ∧ ∀ kv ∈ tree._values, ∀ d, (kv.1, d) ∈ tree._metadata._mappedElements →
        NodeFits env P d kv.2

/-- The trees the round trip covers, by the depth of their nesting: a tree of depth 0 is
in order and has no nested-message node; a tree of depth `N + 1` is in order and its
nested trees have depth `N`. -/
def TreeFits (env : Env) : Nat → LVMessage → Prop
  | 0, tree => TreeOK env (fun _ => False) tree
  | N + 1, tree => TreeOK env (fun child => TreeFits env N child) tree

instance (sel : List (String × Int)) (d : MessageElementMetadata) : Decidable (Active sel d) :=
  inferInstanceAs (Decidable (d.isInOneof = false
    ∨ (0 ≤ d.protobufIndex ∧ mapFind d.oneofContainerName sel = some d.protobufIndex)))

theorem Skipped_iff (sel : List (String × Int)) (d : MessageElementMetadata) :
    Skipped sel d ↔ (d.isInOneof = true ∧ (d.protobufIndex < 0
      ∨ ((mapFind d.oneofContainerName sel).isSome = true
        ∧ mapFind d.oneofContainerName sel ≠ some d.protobufIndex))) := by
  unfold Skipped
  constructor
  · rintro ⟨h1, h2 | ⟨s, h2, h3⟩⟩
    · exact ⟨h1, Or.inl h2⟩
    · refine ⟨h1, Or.inr ⟨by rw [h2]; rfl, ?_⟩⟩
      rw [h2]
      intro e
      exact h3 (Option.some.inj e)
  · rintro ⟨h1, h2 | ⟨h2, h3⟩⟩
    · exact ⟨h1, Or.inl h2⟩
    · obtain ⟨s, hs⟩ := Option.isSome_iff_exists.1 h2
      refine ⟨h1, Or.inr ⟨s, hs, ?_⟩⟩
      intro e
      rw [hs, e] at h3
      exact h3 rfl

instance (sel : List (String × Int)) (d : MessageElementMetadata) : Decidable (Skipped sel d) :=
  decidable_of_iff _ (Skipped_iff sel d).symm

instance (md : MessageMetadata) (sel : List (String × Int)) : Decidable (OneofsFit md sel) :=
  decidable_of_iff
    (sel.map Prod.fst
        = (md._elements.filter isDiscriminator).map (fun d => d.oneofContainerName)
      ∧ (sel.map Prod.fst).Nodup
      ∧ (∀ p ∈ sel, -2147483648 ≤ p.2 ∧ p.2 < 2147483648)
      ∧ (md._elements.filter isDiscriminator).Pairwise (fun d1 d2 =>
        d1.clusterOffset + 4 ≤ d2.clusterOffset ∨ d2.clusterOffset + 4 ≤ d1.clusterOffset))
    ⟨fun h => ⟨h.1, h.2.1, h.2.2.1, h.2.2.2⟩, fun h => ⟨h.names, h.nodup, h.range, h.apart⟩⟩

instance (env : Env) (held : List Int) (md : MessageMetadata)
    (sel : List (String × Int)) : Decidable (TreeShape env held md sel) :=
  decidable_of_iff
    ((∀ p ∈ md._mappedElements, p.1 = p.2.protobufIndex)
      ∧ (keys md._mappedElements).Pairwise (· < ·)
      ∧ held.Sublist (keys md._mappedElements)
      ∧ (∀ p ∈ md._mappedElements, p.1 ∈ held → Active sel p.2)
      ∧ (∀ p ∈ md._mappedElements, p.1 ∉ held →
          Skipped sel p.2 ∨ (Active sel p.2 ∧ p.2.isRepeated = true))
      ∧ (∀ p ∈ md._mappedElements, p.2.type = .MessageValue → p.2.wellKnownType = .None)
      ∧ (∀ p ∈ md._mappedElements, p.2.type = .MessageValue ∨ p.2.type = .EnumValue →
          p.2._owner = true)
      ∧ (∀ p ∈ md._mappedElements, Active sel p.2 →
          p.2.clusterOffset + p.2.slotWidthIn env ≤ md.clusterSize)
      ∧ md._mappedElements.Pairwise (fun p q => Active sel p.2 → Active sel q.2 →
          p.2.clusterOffset + p.2.slotWidthIn env ≤ q.2.clusterOffset
            ∨ q.2.clusterOffset + q.2.slotWidthIn env ≤ p.2.clusterOffset)
      ∧ OneofsFit md sel
      ∧ (∀ d ∈ md._elements.filter isDiscriminator,
          d.clusterOffset + 4 ≤ md.clusterSize ∧ ∀ p ∈ md._mappedElements, Active sel p.2 →
            d.clusterOffset + 4 ≤ p.2.clusterOffset
              ∨ p.2.clusterOffset + p.2.slotWidthIn env ≤ d.clusterOffset))
    ⟨fun ⟨h1, h2, h3, h4, h5, h6, h7, h8, h9, h10, h11⟩ =>
        ⟨h1, h2, h3, h4, h5, h6, h7, h8, h9, h10, h11⟩,
      fun h => ⟨h.tags, h.sorted, h.sub, h.active, h.absent, h.plain, h.owned, h.slots,
        h.apart, h.oneofs, h.discriminators⟩⟩

/-- The table of the message type `Point`: an int64 field, tag 1. -/
def nestedExample.point : MessageMetadata :=
  { _elements := [{ type := .Int64Value, isRepeated := false, protobufIndex := 1,
                    clusterOffset := 0 }],
    _mappedElements := [(1, { type := .Int64Value, isRepeated := false, protobufIndex := 1,
                              clusterOffset := 0 })],
    clusterSize := 8, alignmentRequirement := 8 }

/-- The repeated nested-message field of `Path`, tag 1: its points. -/
def nestedExample.points : MessageElementMetadata :=
  { type := .MessageValue, isRepeated := true, protobufIndex := 1, clusterOffset := 0,
    embeddedMessageName := "Point" }

/-- The table of the message type `Path`. -/
def nestedExample.path : MessageMetadata :=
  { _elements := [nestedExample.points], _mappedElements := [(1, nestedExample.points)],
    clusterSize := 8, alignmentRequirement := 8 }

/-- The nested-message field of the outer message, tag 1: a path, inline. -/
def nestedExample.outline : MessageElementMetadata :=
  { type := .MessageValue, isRepeated := false, protobufIndex := 1, clusterOffset := 0,
    embeddedMessageName := "Path" }

/-- The repeated nested-message field of the outer message, tag 2: its marks. -/
def nestedExample.marks : MessageElementMetadata :=
  { type := .MessageValue, isRepeated := true, protobufIndex := 2, clusterOffset := 8,
    embeddedMessageName := "Point" }

/-- The table of the outer message. -/
def nestedExample.table : MessageMetadata :=
  { _elements := [nestedExample.outline, nestedExample.marks],
    _mappedElements := [(1, nestedExample.outline), (2, nestedExample.marks)],
    clusterSize := 16, alignmentRequirement := 8 }

/-- A registry that knows the message types `Point` and `Path`, with adapters that
always fail. -/
def nestedExample.env : Env :=
  { owner :=
      { FindMetadata := fun name =>
          if name = "Point" then some nestedExample.point
          else if name = "Path" then some nestedExample.path else none,
        FindEnumMetadata := fun _ => none },
    Double2DArray :=
      { CopyFromMessageToCluster := fun _ _ _ _ => .error .adapter,
        CopyFromClusterToMessage := fun _ _ _ _ => .error .adapter },
    String2DArray :=
      { CopyFromMessageToCluster := fun _ _ _ _ => .error .adapter,
        CopyFromClusterToMessage := fun _ _ _ _ => .error .adapter } }

/-- The tree of a point. -/
def nestedExample.pointTree (x : Int) : LVMessage :=
  .mk [(1, .scalar .int64 1 x)] nestedExample.point []

/-- The tree of a path of two points. -/
def nestedExample.pathTree : LVMessage :=
  .mk [(1, .repeatedNested 1 [nestedExample.pointTree 3, nestedExample.pointTree 4])]
    nestedExample.path []

/-- The tree of the outer message: a path of two points, and one mark. -/
def nestedExample.tree : LVMessage :=
  .mk [(1, .nested 1 nestedExample.pathTree),
       (2, .repeatedNested 2 [nestedExample.pointTree 5])] nestedExample.table []

theorem NodeFits.mono_pred {env : Env} {P Q : LVMessage → Prop} {d : MessageElementMetadata}
    {v : LVMessageValue} (hPQ : ∀ t, P t → Q t) (h : NodeFits env P d v) :
    NodeFits env Q d v := by
  cases v with
  | nested tag child =>
    obtain ⟨h1, h2, h3, h4, h5⟩ := h
    exact ⟨h1, h2, h3, h4, hPQ child h5⟩
  | repeatedNested tag children =>
    obtain ⟨h1, h2, h3, h4, h5, md, h6, h7, h8, h9⟩ := h
    exact ⟨h1, h2, h3, h4, h5, md, h6, h7, h8, fun c hc => ⟨(h9 c hc).1, hPQ c (h9 c hc).2⟩⟩
  | string tag s => exact h
  | repeatedString tag L => exact h
  | scalar c tag x => exact h
  | repeated c tag xs => exact h

/-- A tree of depth `N` is a tree of depth `N + 1`. -/
theorem TreeFits.succ (env : Env) (N : Nat) : ∀ tree, TreeFits env N tree →
    TreeFits env (N + 1) tree := by
  induction N with
  | zero =>
    intro tree h
    exact ⟨h.1, fun kv hkv d hd => (h.2 kv hkv d hd).mono_pred (fun _ hf => absurd hf (fun x => x))⟩
  | succ N ih =>
    intro tree h
    exact ⟨h.1, fun kv hkv d hd => (h.2 kv hkv d hd).mono_pred ih⟩

/-- The tree of the kind fixed32: the elements 3, 1, 2 at tag 1 and the value 7 at tag 2. -/
def fixed32Pair.tree : LVMessage :=
  .mk [(1, .repeated .fixed32 1 [3, 1, 2]), (2, .scalar .fixed32 2 7)] fixed32Pair.table []

theorem Memory.load_writeU_same (m : Memory) (addr w v : Nat) :
    (m.writeU addr w v).load addr w = toLE w v := by
  have h := Memory.load_store_same m addr (toLE w v)
  rw [toLE_length] at h
  exact h

/-- The scalar branch of the body the fixed-width writers share: the bit pattern of the
value in the `width` bytes at `start`, every other byte and the allocation mark as they
were. -/
theorem CopyFixedWidthToCluster_scalar_frame (c : ValueClass) (typeCode : Nat)
    (d : MessageElementMetadata) (start : Nat) (tag : Int) (v : Int) (m : Memory)
    (hrep : d.isRepeated = false) :
    ∃ m', CopyFixedWidthToCluster c typeCode d start (.scalar c tag v) m = .ok m'
      ∧ m'.load start c.width = toLE c.width (ofInt c.width v)
      ∧ (c.InRange v → c.decode (m'.readU start c.width) = v)
      ∧ m'.brk = m.brk
      ∧ ∀ a, (a < start ∨ start + c.width ≤ a) → m'.bytes a = m.bytes a := by
  refine ⟨m.writeInt start c.width v, ?_, Memory.load_writeU_same _ _ _ _, ?_, rfl, ?_⟩
  · simp [CopyFixedWidthToCluster, hrep]
  · intro hv
    unfold Memory.writeInt
    rw [Memory.readU_writeU_same]
    exact ValueClass.decode_ofInt c v hv
  · intro a ha
    exact Memory.writeU_bytes_outside _ _ _ _ _ ha

/-- C21: for a non-repeated descriptor of a fixed-width kind, the typed writer that the
switch of `CopyToCluster` selects stores the bit pattern of the value in the bytes
[start, start + width) and changes no other byte, where width is 1 for bool, 4 for
int32, uint32, sint32, fixed32, sfixed32, enum and float, and 8 for int64, uint64,
sint64, fixed64, sfixed64 and double.  A value of the range of the kind is read back
unchanged; for the enum kind the stored value is the native translation of the wire
value. `start` is the address of the declared offset of the field in the cluster. -/
theorem C21_scalar_writer_frame (env : Env) (thunk : Unit → Except Fault Memory)
    (d : MessageElementMetadata) (c : ValueClass) (start : Nat) (tag : Int) (v : Int)
    (m : Memory)
    (hK : d.type.valueClass = some c) (hrep : d.isRepeated = false) :
    (d.type = .BoolValue → c.width = 1)
    ∧ (d.type ∈ [LVMessageMetadataType.Int32Value, .UInt32Value, .SInt32Value,
          .Fixed32Value, .SFixed32Value, .EnumValue, .FloatValue] → c.width = 4)
    ∧ (d.type ∈ [LVMessageMetadataType.Int64Value, .UInt64Value, .SInt64Value,
          .Fixed64Value, .SFixed64Value, .DoubleValue] → c.width = 8)
    ∧ (c ≠ .enum →
        ∃ m', CopyToCluster.dispatch env thunk d start (.scalar c tag v) m = .ok m'
          ∧ m'.load start c.width = toLE c.width (ofInt c.width v)
          ∧ (c.InRange v → c.decode (m'.readU start c.width) = v)
          ∧ m'.brk = m.brk
          ∧ ∀ a, (a < start ∨ start + c.width ≤ a) → m'.bytes a = m.bytes a)
    ∧ (c = .enum → ∀ (e : EnumMetadata) (native : Int), d._owner = true →
        env.owner.FindEnumMetadata d.embeddedMessageName = some e →
        e.GetLVEnumValueFromProtoValue v = .ok native →
        ∃ m', CopyToCluster.dispatch env thunk d start (.scalar c tag v) m = .ok m'
          ∧ m'.load start 4 = toLE 4 (ofInt 4 native)
          ∧ (-2147483648 ≤ native → native < 2147483648 → m'.readInt32 start = native)
          ∧ m'.brk = m.brk
          ∧ ∀ a, (a < start ∨ start + 4 ≤ a) → m'.bytes a = m.bytes a) := by
  refine ⟨?_, ?_, ?_, ?_, ?_⟩
  · intro h
    rw [h] at hK
    simp only [LVMessageMetadataType.valueClass, Option.some.injEq] at hK
    subst hK; rfl
  · intro h
    simp only [List.mem_cons, List.mem_singleton, List.not_mem_nil, or_false] at h
    rcases h with h | h | h | h | h | h | h <;> rw [h] at hK <;>
      simp only [LVMessageMetadataType.valueClass, Option.some.injEq] at hK <;>
      subst hK <;> rfl
  · intro h
    simp only [List.mem_cons, List.mem_singleton, List.not_mem_nil, or_false] at h
    rcases h with h | h | h | h | h | h <;> rw [h] at hK <;>
      simp only [LVMessageMetadataType.valueClass, Option.some.injEq] at hK <;>
      subst hK <;> rfl
  · intro hc
    obtain ⟨code, _, hd⟩ := CopyToCluster.dispatch_writes_fixed env d c hK hc
    rw [hd]
    exact CopyFixedWidthToCluster_scalar_frame c code d start tag v m hrep
  · intro hc e native hown hfind hnat
    subst hc
    have hty : d.type = .EnumValue := by
      cases hty : d.type <;> rw [hty] at hK <;>
        simp only [LVMessageMetadataType.valueClass, Option.some.injEq, reduceCtorEq] at hK
    refine ⟨m.writeInt start 4 native, ?_, Memory.load_writeU_same _ _ _ _, ?_, rfl, ?_⟩
    · simp [CopyToCluster.dispatch, hty, CopyEnumToCluster_eq, MessageElementMetadata.owner,
        hown, hfind, hrep, deref, hnat, ok_bind, pure_eq_ok]
    · intro h1 h2
      exact Memory.readInt32_writeInt_same _ _ _ h1 h2
    · intro a ha
      exact Memory.writeU_bytes_outside _ _ _ _ _ ha

/-- A non-repeated int64 field, tag 3, at offset 8. -/
def scalarFrame.field : MessageElementMetadata :=
  { type := .Int64Value, isRepeated := false, protobufIndex := 3, clusterOffset := 8 }

/-- C21 at an int64 field: the value -2 is stored in the 8 bytes at address 24 of a zero
memory. -/
theorem C21_scalar_writer_frame_witness :
    (scalarFrame.field.type = .BoolValue → ValueClass.int64.width = 1)
    ∧ (scalarFrame.field.type ∈ [LVMessageMetadataType.Int32Value, .UInt32Value,
          .SInt32Value, .Fixed32Value, .SFixed32Value, .EnumValue, .FloatValue]
        → ValueClass.int64.width = 4)
    ∧ (scalarFrame.field.type ∈ [LVMessageMetadataType.Int64Value, .UInt64Value,
          .SInt64Value, .Fixed64Value, .SFixed64Value, .DoubleValue]
        → ValueClass.int64.width = 8)
    ∧ (ValueClass.int64 ≠ .enum →
        ∃ m', CopyToCluster.dispatch exampleEnv (fun _ => .error .badCast) scalarFrame.field
            24 (.scalar .int64 3 (-2)) (Memory.zero 64) = .ok m'
          ∧ m'.load 24 ValueClass.int64.width
              = toLE ValueClass.int64.width (ofInt ValueClass.int64.width (-2))
          ∧ (ValueClass.int64.InRange (-2)
              → ValueClass.int64.decode (m'.readU 24 ValueClass.int64.width) = -2)
          ∧ m'.brk = (Memory.zero 64).brk
          ∧ ∀ a, (a < 24 ∨ 24 + ValueClass.int64.width ≤ a)
              → m'.bytes a = (Memory.zero 64).bytes a)
    ∧ (ValueClass.int64 = .enum → ∀ (e : EnumMetadata) (native : Int),
        scalarFrame.field._owner = true →
        exampleEnv.owner.FindEnumMetadata scalarFrame.field.embeddedMessageName = some e →
        e.GetLVEnumValueFromProtoValue (-2) = .ok native →
        ∃ m', CopyToCluster.dispatch exampleEnv (fun _ => .error .badCast) scalarFrame.field
            24 (.scalar .int64 3 (-2)) (Memory.zero 64) = .ok m'
          ∧ m'.load 24 4 = toLE 4 (ofInt 4 native)
          ∧ (-2147483648 ≤ native → native < 2147483648 → m'.readInt32 24 = native)
          ∧ m'.brk = (Memory.zero 64).brk
          ∧ ∀ a, (a < 24 ∨ 24 + 4 ≤ a) → m'.bytes a = (Memory.zero 64).bytes a) :=
  C21_scalar_writer_frame exampleEnv (fun _ => .error .badCast) scalarFrame.field .int64
    24 3 (-2) (Memory.zero 64) (by rfl) (by rfl)

/-! ## C22: the array a repeated writer makes -/

theorem CopyEnumToCluster.mapArray_length (em : Option EnumMetadata) (vs elems : List Int)
    (h : CopyEnumToCluster.mapArray em vs = .ok elems) : elems.length = vs.length := by
  induction vs generalizing elems with
  | nil =>
    simp only [CopyEnumToCluster.mapArray] at h
    cases h; rfl
  | cons v vs ih =>
    simp only [CopyEnumToCluster.mapArray] at h
    rw [bind_eq_ok] at h
    obtain ⟨e, he, h⟩ := h
    rw [bind_eq_ok] at h
    obtain ⟨x, hx, h⟩ := h
    rw [bind_eq_ok] at h
    obtain ⟨r, hr, h⟩ := h
    cases h
    simp [ih r hr]

theorem ValueClass.four_le_alignUp (c : ValueClass) : 4 ≤ alignUp 4 c.width := by
  cases c <;> simp [alignUp, ValueClass.width]

/-- The array a repeated writer leaves behind: resized for `n` elements of the width of
the type code, its count set and `data` copied behind the count.  With the slot in
allocated memory and a null or well-formed handle in it, the handle and its block are not
null, the count reads `n` and the element data reads `data`. -/
theorem resized_array_reads (code w start n : Nat) (data : List Byte) (m : Memory)
    (hw : typeCodeWidth code = w) (h4 : 4 ≤ alignUp 4 w) (hdata : data.length = n * w)
    (hn : n < 2147483648) (hbrk : 0 < m.brk) (hslot : start + 8 ≤ m.brk)
    (hfit : m.brk + 8 + (alignUp 4 w + n * w) < 256 ^ 8)
    (hh : m.readPtr start = 0 ∨ (m.readPtr start + 8 ≤ m.brk
      ∧ (m.readPtr start + 8 ≤ start ∨ start + 8 ≤ m.readPtr start)))
    (m1 : Memory) (block : Nat) (m' : Memory)
    (hm1 : m1 = NumericArrayResize code 1 start n m)
    (hblock : block = m1.readPtr (m1.readPtr start))
    (hm' : m' = (m1.writeInt block 4 (n : Int)).store (LV1DArray.bytes block 0 w) data) :
    m'.readPtr start ≠ 0 ∧ m'.readPtr (m'.readPtr start) = block ∧ block ≠ 0
      ∧ m'.readInt32 block = n ∧ m'.load (LV1DArray.bytes block 0 w) (n * w) = data := by
  obtain ⟨handle, block', r1, r2, r3, r4, r5, r6, r7, r8, r9, r10⟩ :=
    NumericArrayResize_spec code 1 start n m hbrk hslot (by rw [hw]; exact hfit) hh
  rw [← hm1] at r1 r2 r8 r9 r10
  rw [r1, r2] at hblock
  subst hblock
  rw [hw] at r8
  have hdata' : LV1DArray.bytes block 0 w = block + alignUp 4 w := by
    simp [LV1DArray.bytes]
  rw [hdata'] at hm' ⊢
  have hp1 : m'.readPtr start = handle := by
    rw [hm']
    unfold Memory.readPtr Memory.writeInt
    rw [Memory.readU_store_disjoint _ _ _ _ _ (by omega),
      Memory.readU_writeU_disjoint _ _ _ _ _ _ (by omega)]
    exact r1
  have hp2 : m'.readPtr handle = block := by
    rw [hm']
    unfold Memory.readPtr Memory.writeInt
    rw [Memory.readU_store_disjoint _ _ _ _ _ (by omega),
      Memory.readU_writeU_disjoint _ _ _ _ _ _ (by omega)]
    exact r2
  refine ⟨by rw [hp1]; exact r3, by rw [hp1, hp2], r4, ?_, ?_⟩
  · rw [hm']
    unfold Memory.readInt32
    rw [Memory.readU_store_disjoint _ _ _ _ _ (by omega)]
    exact Memory.readInt32_writeInt_same _ _ _ (by omega) (by omega)
  · rw [hm', ← hdata]
    exact Memory.load_store_same _ _ _

/-- The repeated branch of the writers, for a node that is not empty: the array request,
the count and the copy; `elems` are the elements copied, the elements of the node or,
for an enum field, their translations. -/
theorem repeated_writer_steps (env : Env) (thunk : Unit → Except Fault Memory)
    (d : MessageElementMetadata) (c : ValueClass) (code start : Nat) (tag : Int)
    (vs : List Int) (m : Memory)
    (hrep : d.isRepeated = true) (hne : vs ≠ [])
    (hw : typeCodeWidth code = c.width)
    (hdisp : c ≠ .enum → ∀ v, CopyToCluster.dispatch env thunk d start v m
      = CopyFixedWidthToCluster c code d start v m)
    (hdispE : c = .enum → code = 0x03 ∧ ∀ v, CopyToCluster.dispatch env thunk d start v m
      = CopyEnumToCluster env d start v m)
    (elems : List Int)
    (helems : (c ≠ .enum ∧ elems = vs) ∨ (c = .enum ∧ d._owner = true
      ∧ CopyEnumToCluster.mapArray (env.owner.FindEnumMetadata d.embeddedMessageName) vs
          = .ok elems)) :
    ∃ m', CopyToCluster.dispatch env thunk d start (.repeated c tag vs) m = .ok m'
      ∧ m' = ((NumericArrayResize code 1 start vs.length m).writeInt
            ((NumericArrayResize code 1 start vs.length m).readPtr
              ((NumericArrayResize code 1 start vs.length m).readPtr start)) 4
            (vs.length : Int)).store
          (LV1DArray.bytes ((NumericArrayResize code 1 start vs.length m).readPtr
              ((NumericArrayResize code 1 start vs.length m).readPtr start)) 0 c.width)
          (encodeArray c.width elems)
      ∧ (encodeArray c.width elems).length = vs.length * c.width
      ∧ (vs.length < 2147483648 → 0 < m.brk → start + 8 ≤ m.brk →
          m.brk + 8 + (alignUp 4 c.width + vs.length * c.width) < 256 ^ 8 →
          (m.readPtr start = 0 ∨ (m.readPtr start + 8 ≤ m.brk
            ∧ (m.readPtr start + 8 ≤ start ∨ start + 8 ≤ m.readPtr start))) →
          m'.readPtr start ≠ 0 ∧ m'.readPtr (m'.readPtr start) ≠ 0
          ∧ m'.readInt32 (m'.readPtr (m'.readPtr start)) = vs.length
          ∧ m'.load (LV1DArray.bytes (m'.readPtr (m'.readPtr start)) 0 c.width)
              (vs.length * c.width) = encodeArray c.width elems) := by
  have hlen0 : vs.length ≠ 0 := fun h0 => hne (List.length_eq_zero.1 h0)
  have hlenE : elems.length = vs.length := by
    rcases helems with ⟨_, h⟩ | ⟨_, _, h⟩
    · rw [h]
    · exact CopyEnumToCluster.mapArray_length _ _ _ h
  have hdl : (encodeArray c.width elems).length = vs.length * c.width := by
    rw [encodeArray_length, hlenE, Nat.mul_comm]
  refine ⟨_, ?_, rfl, hdl, ?_⟩
  · rcases helems with ⟨hc, h⟩ | ⟨hc, hown, h⟩
    · subst h
      rw [hdisp hc]
      simp only [CopyFixedWidthToCluster, hrep, if_true, ne_eq, hlen0, not_false_eq_true]
    · subst hc
      obtain ⟨hcode, hd⟩ := hdispE rfl
      subst hcode
      rw [hd]
      simp only [CopyEnumToCluster_eq, MessageElementMetadata.owner, hown, if_true, ok_bind,
        hrep, h, pure_eq_ok, ne_eq, hlen0, not_false_eq_true]
      rfl
  · intro hn hbrk hslot hfit hh
    obtain ⟨q1, q2, q3, q4, q5⟩ := resized_array_reads code c.width start vs.length
      (encodeArray c.width elems) m hw c.four_le_alignUp hdl hn hbrk hslot hfit hh _ _ _
      rfl rfl rfl
    rw [q2]
    exact ⟨q1, q3, q4, q5⟩

/-- C22: for a repeated descriptor of a primitive kind and a node of n > 0 elements, the
typed writer that the switch of `CopyToCluster` selects asks `NumericArrayResize` for a
one-dimensional array of n elements of a type code whose width is the width of the kind
(0x01 for bool; 0x03 for int32, uint32, sint32, fixed32, sfixed32, enum and float; 0x04
for int64, sint64, fixed64 and sfixed64; 0x08 for uint64; 0x0A for double), stores n as
the count of the block and copies n * width bytes behind it: the elements of the node, or
their translations for an enum field.  With the slot in allocated memory and a null or
well-formed handle in it, the count of the array reads n and its data reads the bytes
copied. -/
theorem C22_repeated_writer_array (env : Env) (thunk : Unit → Except Fault Memory)
    (d : MessageElementMetadata) (c : ValueClass) (start : Nat) (tag : Int)
    (vs : List Int) (m : Memory) (elems : List Int)
    (hK : d.type.valueClass = some c) (hrep : d.isRepeated = true) (hne : vs ≠ [])
    (helems : (c ≠ .enum ∧ elems = vs) ∨ (c = .enum ∧ d._owner = true
      ∧ CopyEnumToCluster.mapArray (env.owner.FindEnumMetadata d.embeddedMessageName) vs
          = .ok elems)) :
    ∃ code,
      (d.type = .BoolValue → code = 0x01)
      ∧ (d.type ∈ [LVMessageMetadataType.Int32Value, .UInt32Value, .SInt32Value,
            .Fixed32Value, .SFixed32Value, .EnumValue, .FloatValue] → code = 0x03)
      ∧ (d.type ∈ [LVMessageMetadataType.Int64Value, .SInt64Value, .Fixed64Value,
            .SFixed64Value] → code = 0x04)
      ∧ (d.type = .UInt64Value → code = 0x08)
      ∧ (d.type = .DoubleValue → code = 0x0A)
      ∧ typeCodeWidth code = c.width
      ∧ ∃ m', CopyToCluster.dispatch env thunk d start (.repeated c tag vs) m = .ok m'
        ∧ m' = ((NumericArrayResize code 1 start vs.length m).writeInt
              ((NumericArrayResize code 1 start vs.length m).readPtr
                ((NumericArrayResize code 1 start vs.length m).readPtr start)) 4
              (vs.length : Int)).store
            (LV1DArray.bytes ((NumericArrayResize code 1 start vs.length m).readPtr
                ((NumericArrayResize code 1 start vs.length m).readPtr start)) 0 c.width)
            (encodeArray c.width elems)
        ∧ (encodeArray c.width elems).length = vs.length * c.width
        ∧ (vs.length < 2147483648 → 0 < m.brk → start + 8 ≤ m.brk →
            m.brk + 8 + (alignUp 4 c.width + vs.length * c.width) < 256 ^ 8 →
            (m.readPtr start = 0 ∨ (m.readPtr start + 8 ≤ m.brk
              ∧ (m.readPtr start + 8 ≤ start ∨ start + 8 ≤ m.readPtr start))) →
            m'.readPtr start ≠ 0 ∧ m'.readPtr (m'.readPtr start) ≠ 0
            ∧ m'.readInt32 (m'.readPtr (m'.readPtr start)) = vs.length
            ∧ m'.load (LV1DArray.bytes (m'.readPtr (m'.readPtr start)) 0 c.width)
                (vs.length * c.width) = encodeArray c.width elems) := by
  have key : ∀ code, typeCodeWidth code = c.width →
      (c ≠ .enum → ∀ v, CopyToCluster.dispatch env thunk d start v m
        = CopyFixedWidthToCluster c code d start v m) →
      (c = .enum → code = 0x03 ∧ ∀ v, CopyToCluster.dispatch env thunk d start v m
        = CopyEnumToCluster env d start v m) → _ :=
    fun code hw h1 h2 =>
      repeated_writer_steps env thunk d c code start tag vs m hrep hne hw h1 h2 elems helems
  cases hty : d.type <;> rw [hty] at hK <;>
    simp only [LVMessageMetadataType.valueClass, Option.some.injEq, reduceCtorEq] at hK <;>
    subst hK
  case EnumValue =>
    exact ⟨0x03, by simp, by simp, by simp, by simp, by simp, rfl,
      key 0x03 rfl (fun h => absurd rfl h)
        (fun _ => ⟨rfl, fun v => by simp only [CopyToCluster.dispatch, hty]⟩)⟩
  case BoolValue =>
    exact ⟨0x01, by simp, by simp, by simp, by simp, by simp, rfl,
      key 0x01 rfl (fun _ v => by simp only [CopyToCluster.dispatch, hty]; rfl)
        (fun h => by cases h)⟩
  case UInt64Value =>
    exact ⟨0x08, by simp, by simp, by simp, by simp, by simp, rfl,
      key 0x08 rfl (fun _ v => by simp only [CopyToCluster.dispatch, hty]; rfl)
        (fun h => by cases h)⟩
  case DoubleValue =>
    exact ⟨0x0A, by simp, by simp, by simp, by simp, by simp, rfl,
      key 0x0A rfl (fun _ v => by simp only [CopyToCluster.dispatch, hty]; rfl)
        (fun h => by cases h)⟩
  case Int64Value | SInt64Value | Fixed64Value | SFixed64Value =>
    exact ⟨0x04, by simp, by simp, by simp, by simp, by simp, rfl,
      key 0x04 rfl (fun _ v => by simp only [CopyToCluster.dispatch, hty]; rfl)
        (fun h => by cases h)⟩
  all_goals
    exact ⟨0x03, by simp, by simp, by simp, by simp, by simp, rfl,
      key 0x03 rfl (fun _ v => by simp only [CopyToCluster.dispatch, hty]; rfl)
        (fun h => by cases h)⟩

/-- A repeated double field, tag 2, at offset 0. -/
def arrayWriter.field : MessageElementMetadata :=
  { type := .DoubleValue, isRepeated := true, protobufIndex := 2, clusterOffset := 0 }

/-- C22 at a repeated double field and a node of the two bit patterns 1 and 2: an array
of two elements of the code 0x0A, 16 bytes of data. -/
theorem C22_repeated_writer_array_witness :
    ∃ code,
      (arrayWriter.field.type = .BoolValue → code = 0x01)
      ∧ (arrayWriter.field.type ∈ [LVMessageMetadataType.Int32Value, .UInt32Value,
            .SInt32Value, .Fixed32Value, .SFixed32Value, .EnumValue, .FloatValue]
          → code = 0x03)
      ∧ (arrayWriter.field.type ∈ [LVMessageMetadataType.Int64Value, .SInt64Value,
            .Fixed64Value, .SFixed64Value] → code = 0x04)
      ∧ (arrayWriter.field.type = .UInt64Value → code = 0x08)
      ∧ (arrayWriter.field.type = .DoubleValue → code = 0x0A)
      ∧ typeCodeWidth code = ValueClass.double.width
      ∧ ∃ m', CopyToCluster.dispatch exampleEnv (fun _ => .error .badCast)
            arrayWriter.field 16 (.repeated .double 2 [1, 2]) (Memory.zero 64) = .ok m'
        ∧ m' = ((NumericArrayResize code 1 16 [(1 : Int), 2].length (Memory.zero 64)).writeInt
              ((NumericArrayResize code 1 16 [(1 : Int), 2].length (Memory.zero 64)).readPtr
                ((NumericArrayResize code 1 16 [(1 : Int), 2].length
                  (Memory.zero 64)).readPtr 16)) 4
              ([(1 : Int), 2].length : Int)).store
            (LV1DArray.bytes
              ((NumericArrayResize code 1 16 [(1 : Int), 2].length (Memory.zero 64)).readPtr
                ((NumericArrayResize code 1 16 [(1 : Int), 2].length
                  (Memory.zero 64)).readPtr 16)) 0 ValueClass.double.width)
            (encodeArray ValueClass.double.width [1, 2])
        ∧ (encodeArray ValueClass.double.width [1, 2]).length
            = [(1 : Int), 2].length * ValueClass.double.width
        ∧ ([(1 : Int), 2].length < 2147483648 → 0 < (Memory.zero 64).brk →
            16 + 8 ≤ (Memory.zero 64).brk →
            (Memory.zero 64).brk + 8
              + (alignUp 4 ValueClass.double.width
                + [(1 : Int), 2].length * ValueClass.double.width) < 256 ^ 8 →
            ((Memory.zero 64).readPtr 16 = 0 ∨ ((Memory.zero 64).readPtr 16 + 8
                ≤ (Memory.zero 64).brk
              ∧ ((Memory.zero 64).readPtr 16 + 8 ≤ 16
                ∨ 16 + 8 ≤ (Memory.zero 64).readPtr 16))) →
            m'.readPtr 16 ≠ 0 ∧ m'.readPtr (m'.readPtr 16) ≠ 0
            ∧ m'.readInt32 (m'.readPtr (m'.readPtr 16)) = [(1 : Int), 2].length
            ∧ m'.load (LV1DArray.bytes (m'.readPtr (m'.readPtr 16)) 0
                  ValueClass.double.width)
                ([(1 : Int), 2].length * ValueClass.double.width)
              = encodeArray ValueClass.double.width [1, 2]) :=
  C22_repeated_writer_array exampleEnv (fun _ => .error .badCast) arrayWriter.field .double
    16 2 [1, 2] (Memory.zero 64) [1, 2] (by rfl) (by rfl) (List.cons_ne_nil _ _)
    (Or.inl ⟨by decide, rfl⟩)

/-! ## C27: the elements a repeated reader copies -/

theorem decodeArray_length (c : ValueClass) (m : Memory) (data n : Nat) :
    (decodeArray c m data n).length = n := by
  induction n generalizing data with
  | zero => rfl
  | succ n ih => simp [decodeArray, ih]

theorem decodeArray_getElem (c : ValueClass) (m : Memory) (data n i : Nat)
    (hi : i < (decodeArray c m data n).length) :
    (decodeArray c m data n)[i] = c.decode (m.readU (data + c.width * i) c.width) := by
  induction n generalizing data i with
  | zero => simp [decodeArray] at hi
  | succ n ih =>
    cases i with
    | zero => simp [decodeArray]
    | succ i =>
      simp only [decodeArray, List.getElem_cons_succ]
      rw [ih]
      congr 2
      rw [Nat.mul_succ]
      omega

/-- The translation loop of the enum reader over `n` elements that all translate:
element `i` of the result is the translation of element `i` of the data. -/
theorem CopyEnumFromCluster.mapArray_elements (e : EnumMetadata) (m : Memory)
    (wire : Nat → Int) (data n : Nat)
    (h : ∀ i, i < n → e.GetProtoValueFromLVEnumValue (m.readInt32 (data + 4 * i))
      = .ok (wire i)) :
    ∃ xs, CopyEnumFromCluster.mapArray (some e) m data n = .ok xs ∧ xs.length = n
      ∧ ∀ i (hi : i < xs.length), xs[i] = wire i := by
  induction n generalizing data wire with
  | zero => exact ⟨[], rfl, rfl, fun i hi => by simp at hi⟩
  | succ n ih =>
    have h0 := h 0 (by omega)
    simp only [Nat.mul_zero, Nat.add_zero] at h0
    obtain ⟨xs, hxs, hlen, hel⟩ := ih (fun i => wire (i + 1)) (data + 4) (fun i hi => by
      have := h (i + 1) (by omega)
      rw [← this]
      congr 2
      omega)
    refine ⟨wire 0 :: xs, ?_, by simp [hlen], ?_⟩
    · simp only [CopyEnumFromCluster.mapArray, deref, ok_bind, h0, hxs, pure_eq_ok]
    · intro i hi
      cases i with
      | zero => rfl
      | succ i =>
        simp only [List.getElem_cons_succ]
        exact hel i (by simpa using hi)

theorem typedReader_fixed (d : MessageElementMetadata) (c : ValueClass)
    (ht : d.type.valueClass = some c) (hc : c ≠ .enum) (start : Nat) (m : Memory)
    (msg : LVMessage) :
    typedReader d.type d start m msg = CopyFixedWidthFromCluster c d start m msg := by
  cases hty : d.type <;> rw [hty] at ht <;>
    simp only [LVMessageMetadataType.valueClass, Option.some.injEq, reduceCtorEq] at ht <;>
    subst ht
  case EnumValue => exact absurd rfl hc
  all_goals rfl

/-- C27: for a repeated descriptor of a fixed-width kind whose slot holds a non-null
handle to a block with count n > 0, the typed reader of the kind adds a repeated node of
exactly n elements, and element i of the node is the value of the kind stored in the
bytes of element i of the data of the block, for every i < n.  For an enum descriptor
(with element i of the data translating to the wire value `wire i`) element i of the node
is `wire i`. -/
theorem C27_repeated_reader_elements (env : Env) (d : MessageElementMetadata)
    (c : ValueClass) (start : Nat) (m : Memory) (msg : LVMessage) (n : Nat)
    (hK : d.type.valueClass = some c) (hrep : d.isRepeated = true)
    (hhandle : m.readPtr start ≠ 0) (hblock : m.readPtr (m.readPtr start) ≠ 0)
    (hcount : m.readInt32 (m.readPtr (m.readPtr start)) = (n : Int)) (hn : 0 < n) :
    (c ≠ .enum →
      ∃ xs, typedReader d.type d start m msg
          = .ok (msg.emplaceValue d.protobufIndex (.repeated c d.protobufIndex xs))
        ∧ xs.length = n
        ∧ ∀ i (hi : i < xs.length),
            xs[i] = c.decode (m.readU
              (LV1DArray.bytes (m.readPtr (m.readPtr start)) (c.width * i) c.width) c.width))
    ∧ (c = .enum → ∀ (e : EnumMetadata) (wire : Nat → Int), d._owner = true →
        env.owner.FindEnumMetadata d.embeddedMessageName = some e →
        (∀ i, i < n → e.GetProtoValueFromLVEnumValue
            (m.readInt32 (LV1DArray.bytes (m.readPtr (m.readPtr start)) (4 * i) 4))
          = .ok (wire i)) →
        ∃ xs, CopyEnumFromCluster env d start m msg
            = .ok (msg.emplaceValue d.protobufIndex (.repeated .enum d.protobufIndex xs))
          ∧ xs.length = n
          ∧ ∀ i (hi : i < xs.length), xs[i] = wire i) := by
  have hc0 : (n : Int) ≠ 0 := by omega
  have hc1 : ¬ ((n : Int) < 0) := by omega
  constructor
  · intro hc
    refine ⟨decodeArray c m (LV1DArray.bytes (m.readPtr (m.readPtr start)) 0 c.width) n, ?_,
      decodeArray_length _ _ _ _, ?_⟩
    · rw [typedReader_fixed d c hK hc]
      simp [CopyFixedWidthFromCluster, hrep, hhandle, hblock, hcount, hc0, hc1]
    · intro i hi
      rw [decodeArray_getElem]
      simp [LV1DArray.bytes, Nat.add_assoc]
  · intro hc e wire hown hfind hw
    obtain ⟨xs, hxs, hlen, hel⟩ := CopyEnumFromCluster.mapArray_elements e m wire
      (LV1DArray.bytes (m.readPtr (m.readPtr start)) 0 4) n (fun i hi => by
        have := hw i hi
        rw [← this]
        simp [LV1DArray.bytes, Nat.add_assoc])
    refine ⟨xs, ?_, hlen, hel⟩
    simp [CopyEnumFromCluster_eq, MessageElementMetadata.owner, hown, hfind, hrep, hhandle,
      hblock, hcount, hc0, hc1, ok_bind, pure_eq_ok, hxs]

/-- A repeated int32 field, tag 4, at offset 0. -/
def arrayReader.field : MessageElementMetadata :=
  { type := .Int32Value, isRepeated := true, protobufIndex := 4, clusterOffset := 0 }

/-- A slot at address 16 that holds the handle 32 of the block at 40, whose count is 2 and
whose elements are 7 and -1. -/
def arrayReader.memory : Memory :=
  (((((Memory.zero 64).writePtr 16 32).writePtr 32 40).writeInt 40 4 2).writeInt 44 4
    7).writeInt 48 4 (-1)

/-- C27 at a repeated int32 field whose array holds 7 and -1. -/
theorem C27_repeated_reader_elements_witness :
    (ValueClass.int32 ≠ .enum →
      ∃ xs, typedReader arrayReader.field.type arrayReader.field 16 arrayReader.memory
            (.mk [] emptyRepeated.table [])
          = .ok ((LVMessage.mk [] emptyRepeated.table []).emplaceValue
              arrayReader.field.protobufIndex
              (.repeated .int32 arrayReader.field.protobufIndex xs))
        ∧ xs.length = 2
        ∧ ∀ i (hi : i < xs.length),
            xs[i] = ValueClass.int32.decode (arrayReader.memory.readU
              (LV1DArray.bytes (arrayReader.memory.readPtr (arrayReader.memory.readPtr 16))
                (ValueClass.int32.width * i) ValueClass.int32.width) ValueClass.int32.width))
    ∧ (ValueClass.int32 = .enum → ∀ (e : EnumMetadata) (wire : Nat → Int),
        arrayReader.field._owner = true →
        exampleEnv.owner.FindEnumMetadata arrayReader.field.embeddedMessageName = some e →
        (∀ i, i < 2 → e.GetProtoValueFromLVEnumValue
            (arrayReader.memory.readInt32 (LV1DArray.bytes
              (arrayReader.memory.readPtr (arrayReader.memory.readPtr 16)) (4 * i) 4))
          = .ok (wire i)) →
        ∃ xs, CopyEnumFromCluster exampleEnv arrayReader.field 16 arrayReader.memory
              (.mk [] emptyRepeated.table [])
            = .ok ((LVMessage.mk [] emptyRepeated.table []).emplaceValue
                arrayReader.field.protobufIndex
                (.repeated .enum arrayReader.field.protobufIndex xs))
          ∧ xs.length = 2
          ∧ ∀ i (hi : i < xs.length), xs[i] = wire i) :=
  C27_repeated_reader_elements exampleEnv arrayReader.field .int32 16 arrayReader.memory
    (.mk [] emptyRepeated.table []) 2 (by rfl) (by rfl) (by decide) (by decide) (by rfl)
    (by decide)

/-! ## C23: a group registered twice -/

/-- The first loop of `CopyFromCluster` fails on a failed `assert` only. -/
theorem CopyFromCluster.selectors_fault (cluster : Nat) (m : Memory)
    (elements : List MessageElementMetadata) (msg : LVMessage) :
    (∃ r, CopyFromCluster.selectors cluster m elements msg = .ok r)
      ∨ CopyFromCluster.selectors cluster m elements msg = .error .assertion := by
  induction elements generalizing msg with
  | nil => exact Or.inl ⟨msg, rfl⟩
  | cons fm rest ih =>
    simp only [CopyFromCluster.selectors]
    split
    · split
      · exact Or.inr rfl
      · exact ih _
    · exact ih _

theorem selectorEntries_append (cluster : Nat) (m : Memory)
    (l1 l2 : List MessageElementMetadata) :
    selectorEntries cluster m (l1 ++ l2)
      = selectorEntries cluster m l1 ++ selectorEntries cluster m l2 := by
  simp [selectorEntries]

theorem selectorEntries_cons_discriminator (cluster : Nat) (m : Memory)
    (fm : MessageElementMetadata) (rest : List MessageElementMetadata)
    (h : fm.isInOneof = true ∧ fm.protobufIndex < 0) :
    selectorEntries cluster m (fm :: rest)
      = (fm.oneofContainerName, m.readInt32 (cluster + fm.clusterOffset))
        :: selectorEntries cluster m rest := by
  have hd : isDiscriminator fm = true := by simp [isDiscriminator, h.1, h.2]
  simp [selectorEntries, List.filter_cons, hd]

/-- The first loop over a list that ends in a discriminator of a group that is
registered already fails at this descriptor, whatever follows it. -/
theorem CopyFromCluster.selectors_registered (cluster : Nat) (m : Memory)
    (fm : MessageElementMetadata) (rest : List MessageElementMetadata) (msg : LVMessage)
    (s : Int) (h : fm.isInOneof = true ∧ fm.protobufIndex < 0)
    (hreg : mapFind fm.oneofContainerName msg._oneofContainerToSelectedIndexMap = some s) :
    CopyFromCluster.selectors cluster m (fm :: rest) msg = .error .assertion := by
  simp only [CopyFromCluster.selectors, if_pos h, hreg]

theorem CopyFromCluster.selectors_append (cluster : Nat) (m : Memory)
    (l1 l2 : List MessageElementMetadata) (msg : LVMessage) :
    CopyFromCluster.selectors cluster m (l1 ++ l2) msg
      = (CopyFromCluster.selectors cluster m l1 msg >>= fun msg1 =>
          CopyFromCluster.selectors cluster m l2 msg1) := by
  induction l1 generalizing msg with
  | nil => rfl
  | cons fm rest ih =>
    simp only [List.cons_append, CopyFromCluster.selectors]
    split
    · split
      · rfl
      · exact ih _
    · exact ih _

/-- C23: when the element list of the table holds two discriminator descriptors (in a
oneof, negative tag) of the same group name, `CopyFromCluster` returns no tree: the
`assert` of the first loop fails.  It fails at the second of the two: when the
discriminators before it have distinct group names the loop gets as far as this
descriptor, with the group registered under the value of the first, and fails there
whatever follows. -/
theorem C23_duplicate_discriminator_fails (env : Env) (m : Memory) (fuel : Nat)
    (message : LVMessage) (cluster : Nat) (d1 d2 : MessageElementMetadata)
    (pre mid post : List MessageElementMetadata)
    (helems : message._metadata._elements = pre ++ d1 :: (mid ++ d2 :: post))
    (h1 : d1.isInOneof = true ∧ d1.protobufIndex < 0)
    (h2 : d2.isInOneof = true ∧ d2.protobufIndex < 0)
    (hname : d1.oneofContainerName = d2.oneofContainerName) :
    CopyFromCluster env m (fuel + 1) message cluster = .error .assertion
    ∧ (∀ r, CopyFromCluster env m (fuel + 1) message cluster ≠ .ok r)
    ∧ ((keys (selectorEntries cluster m (pre ++ d1 :: mid))).Nodup →
        ∃ msg1, CopyFromCluster.selectors cluster m (pre ++ d1 :: mid) message.Clear = .ok msg1
          ∧ mapFind d2.oneofContainerName msg1._oneofContainerToSelectedIndexMap
              = some (m.readInt32 (cluster + d1.clusterOffset))
          ∧ ∀ post', CopyFromCluster.selectors cluster m (d2 :: post') msg1
              = .error .assertion) := by
  have hsel : CopyFromCluster.selectors cluster m message._metadata._elements message.Clear
      = .error .assertion := by
    rcases CopyFromCluster.selectors_fault cluster m message._metadata._elements message.Clear
      with ⟨r, hr⟩ | he
    · exfalso
      have hnd := CopyFromCluster.selectors_nodup _ _ _ _ _ hr (by simp [LVMessage.Clear, keys])
      rw [(CopyFromCluster.selectors_spec _ _ _ _ _ hr).2.2, helems] at hnd
      simp only [LVMessage.Clear, LVMessage.mk_oneof, List.nil_append, selectorEntries_append,
        selectorEntries_cons_discriminator _ _ _ _ h1,
        selectorEntries_cons_discriminator _ _ _ _ h2, keys_append, keys, List.map_cons,
        List.map_append] at hnd
      rw [List.nodup_append] at hnd
      have hnd2 := hnd.2.1
      rw [List.nodup_cons] at hnd2
      apply hnd2.1
      rw [hname]
      simp
    · exact he
  have hmain : CopyFromCluster env m (fuel + 1) message cluster = .error .assertion := by
    simp only [CopyFromCluster]
    have hmd : message.Clear._metadata = message._metadata := by simp [LVMessage.Clear]
    rw [hmd, hsel]
    rfl
  refine ⟨hmain, fun r hr => (by rw [hmain] at hr; cases hr), ?_⟩
  intro hnd
  have hok := CopyFromCluster.selectors_ok cluster m (pre ++ d1 :: mid) message.Clear
    (by simpa [LVMessage.Clear] using hnd)
  refine ⟨_, hok, ?_, ?_⟩
  · simp only [LVMessage.mk_oneof, LVMessage.Clear, List.nil_append]
    apply mapFind_of_mem_nodup _ _ _ hnd
    rw [selectorEntries_append, selectorEntries_cons_discriminator _ _ _ _ h1, ← hname]
    simp
  · intro post'
    apply CopyFromCluster.selectors_registered cluster m d2 post' _
      (m.readInt32 (cluster + d1.clusterOffset)) h2
    simp only [LVMessage.mk_oneof, LVMessage.Clear, List.nil_append]
    apply mapFind_of_mem_nodup _ _ _ hnd
    rw [selectorEntries_append, selectorEntries_cons_discriminator _ _ _ _ h1, ← hname]
    simp

/-- The discriminator of the group `choice`, at offset 0. -/
def twoDiscriminators.first : MessageElementMetadata :=
  { type := .Int32Value, isRepeated := false, protobufIndex := -1, clusterOffset := 0,
    isInOneof := true, oneofContainerName := "choice" }

/-- A second discriminator of the group `choice`, at offset 4. -/
def twoDiscriminators.second : MessageElementMetadata :=
  { type := .Int32Value, isRepeated := false, protobufIndex := -2, clusterOffset := 4,
    isInOneof := true, oneofContainerName := "choice" }

/-- A table whose group `choice` has two discriminators. -/
def twoDiscriminators.table : MessageMetadata :=
  { _elements := [twoDiscriminators.first, twoDiscriminators.second],
    _mappedElements := [(-2, twoDiscriminators.second), (-1, twoDiscriminators.first)],
    clusterSize := 8, alignmentRequirement := 4 }

/-- C23 at a table with two discriminators of the group `choice`, on a zero cluster. -/
theorem C23_duplicate_discriminator_fails_witness :
    CopyFromCluster exampleEnv (Memory.zero 64) (0 + 1) (.mk [] twoDiscriminators.table []) 16
      = .error .assertion
    ∧ (∀ r, CopyFromCluster exampleEnv (Memory.zero 64) (0 + 1)
        (.mk [] twoDiscriminators.table []) 16 ≠ .ok r)
    ∧ ((keys (selectorEntries 16 (Memory.zero 64) ([] ++ twoDiscriminators.first :: []))).Nodup →
        ∃ msg1, CopyFromCluster.selectors 16 (Memory.zero 64)
            ([] ++ twoDiscriminators.first :: [])
            (LVMessage.mk [] twoDiscriminators.table []).Clear = .ok msg1
          ∧ mapFind twoDiscriminators.second.oneofContainerName
              msg1._oneofContainerToSelectedIndexMap
              = some ((Memory.zero 64).readInt32 (16 + twoDiscriminators.first.clusterOffset))
          ∧ ∀ post', CopyFromCluster.selectors 16 (Memory.zero 64)
              (twoDiscriminators.second :: post') msg1 = .error .assertion) :=
  C23_duplicate_discriminator_fails exampleEnv (Memory.zero 64) 0
    (.mk [] twoDiscriminators.table []) 16 twoDiscriminators.first twoDiscriminators.second
    [] [] [] (by rfl) (by decide) (by decide) (by rfl)

/-! ## C26: the oneof invariant keeps the assertions quiet -/

/-- The oneof invariant of a descriptor table: no two discriminator descriptors (in a
oneof, negative tag) of the element list share a group name, and every member descriptor
(in a oneof, tag not negative) of the mapped elements has the group name of a
discriminator descriptor of the element list. -/
def MessageMetadata.OneofInvariant (md : MessageMetadata) : Prop :=
  ((md._elements.filter isDiscriminator).map (fun d => d.oneofContainerName)).Nodup
  ∧ ∀ p ∈ md._mappedElements, p.2.isInOneof = true → 0 ≤ p.2.protobufIndex →
      ∃ d ∈ md._elements, isDiscriminator d = true
        ∧ d.oneofContainerName = p.2.oneofContainerName

instance (md : MessageMetadata) : Decidable md.OneofInvariant := by
  unfold MessageMetadata.OneofInvariant
  exact inferInstance

theorem keys_selectorEntries (cluster : Nat) (m : Memory)
    (elements : List MessageElementMetadata) :
    keys (selectorEntries cluster m elements)
      = (elements.filter isDiscriminator).map (fun d => d.oneofContainerName) := by
  simp [keys, selectorEntries, List.map_map, Function.comp_def]

/-- The second loop of `CopyFromCluster` over descriptors whose groups are all
registered: a failed `assert` can only be one that a reader returned. -/
theorem CopyFromCluster.fields_assertion (env : Env) (henv : env.AdaptersEmplaceOnly)
    (rec : LVMessage → Nat → Except Fault LVMessage) (cluster : Nat) (m : Memory)
    (list : List (Int × MessageElementMetadata)) (msg : LVMessage)
    (hreg : ∀ p ∈ list, p.2.isInOneof = true → 0 ≤ p.2.protobufIndex →
      ∃ s, mapFind p.2.oneofContainerName msg._oneofContainerToSelectedIndexMap = some s)
    (h : CopyFromCluster.fields env rec cluster m list msg = .error .assertion) :
    ∃ p ∈ list, ∃ msg', CopyFromCluster.dispatch env rec p.2
      (cluster + p.2.clusterOffset) m msg' = .error .assertion := by
  induction list generalizing msg with
  | nil => simp [CopyFromCluster.fields] at h
  | cons p rest ih =>
    obtain ⟨k, fm⟩ := p
    have hrest : ∀ msg1 : LVMessage,
        msg1._oneofContainerToSelectedIndexMap = msg._oneofContainerToSelectedIndexMap →
        CopyFromCluster.fields env rec cluster m rest msg1 = .error .assertion →
        ∃ p ∈ (k, fm) :: rest, ∃ msg', CopyFromCluster.dispatch env rec p.2
          (cluster + p.2.clusterOffset) m msg' = .error .assertion := by
      intro msg1 he h1
      obtain ⟨p, hp, hd⟩ := ih msg1 (fun q hq h1 h2 => by
        rw [he]
        exact hreg q (List.mem_cons_of_mem _ hq) h1 h2) h1
      exact ⟨p, List.mem_cons_of_mem _ hp, hd⟩
    have hstep : (CopyFromCluster.dispatch env rec fm (cluster + fm.clusterOffset) m msg
          >>= fun message1 => CopyFromCluster.fields env rec cluster m rest message1)
        = .error .assertion →
        ∃ p ∈ (k, fm) :: rest, ∃ msg', CopyFromCluster.dispatch env rec p.2
          (cluster + p.2.clusterOffset) m msg' = .error .assertion := by
      intro h1
      cases hd : CopyFromCluster.dispatch env rec fm (cluster + fm.clusterOffset) m msg with
      | error e =>
        rw [hd, error_bind] at h1
        cases h1
        exact ⟨(k, fm), List.mem_cons_self _ _, msg, hd⟩
      | ok msg1 =>
        rw [hd, ok_bind] at h1
        exact hrest msg1 (CopyFromCluster.dispatch_emplaced env henv rec fm _ m msg msg1
          hd).oneof h1
    simp only [CopyFromCluster.fields] at h
    split at h
    · rename_i hin
      split at h
      · exact hrest msg rfl h
      · rename_i hidx
        obtain ⟨s, hs⟩ := hreg (k, fm) (List.mem_cons_self _ _) hin (by simpa using hidx)
        rw [hs] at h
        dsimp only at h
        split at h
        · exact hrest msg rfl h
        · exact hstep h
    · exact hstep h

/-- C26: when the table of the message satisfies the oneof invariant, neither `assert`
of `CopyFromCluster` fails, for every cluster and every state of the message passed in.
The first loop returns: at every discriminator descriptor the loop has reached it with
the group unregistered.  Every member descriptor of the mapped elements finds its group
registered in the selection map the first loop made, which is the map the second loop
looks it up in.  So a failed `assert` that `CopyFromCluster` returns is one returned by a
reader of a field: the read of a nested message with another table. -/
theorem C26_invariant_no_assertion (env : Env) (henv : env.AdaptersEmplaceOnly)
    (m : Memory) (message : LVMessage) (cluster : Nat)
    (hinv : message._metadata.OneofInvariant) :
    ∃ msg1, CopyFromCluster.selectors cluster m message._metadata._elements message.Clear
        = .ok msg1
      ∧ (∀ pre d post, message._metadata._elements = pre ++ d :: post →
          d.isInOneof = true → d.protobufIndex < 0 →
          ∃ msgp, CopyFromCluster.selectors cluster m pre message.Clear = .ok msgp
            ∧ mapFind d.oneofContainerName msgp._oneofContainerToSelectedIndexMap = none)
      ∧ (∀ p ∈ message._metadata._mappedElements, p.2.isInOneof = true →
          0 ≤ p.2.protobufIndex →
          ∃ s, mapFind p.2.oneofContainerName msg1._oneofContainerToSelectedIndexMap = some s)
      ∧ ∀ fuel, CopyFromCluster env m (fuel + 1) message cluster
            = CopyFromCluster.fields env (CopyFromCluster env m fuel) cluster m
                message._metadata._mappedElements msg1
          ∧ (CopyFromCluster env m (fuel + 1) message cluster = .error .assertion →
              ∃ p ∈ message._metadata._mappedElements, ∃ msg',
                CopyFromCluster.dispatch env (CopyFromCluster env m fuel) p.2
                  (cluster + p.2.clusterOffset) m msg' = .error .assertion) := by
  obtain ⟨hnd, hmem⟩ := hinv
  have hnd' : (keys (message.Clear._oneofContainerToSelectedIndexMap
      ++ selectorEntries cluster m message._metadata._elements)).Nodup := by
    simp only [LVMessage.Clear, LVMessage.mk_oneof, List.nil_append, keys_selectorEntries]
    exact hnd
  have hok := CopyFromCluster.selectors_ok cluster m message._metadata._elements
    message.Clear hnd'
  have hreg : ∀ p ∈ message._metadata._mappedElements, p.2.isInOneof = true →
      0 ≤ p.2.protobufIndex →
      ∃ s, mapFind p.2.oneofContainerName
        (message.Clear._oneofContainerToSelectedIndexMap
          ++ selectorEntries cluster m message._metadata._elements) = some s := by
    intro p hp h1 h2
    obtain ⟨d, hd, hdisc, hname⟩ := hmem p hp h1 h2
    cases hf : mapFind p.2.oneofContainerName
        (message.Clear._oneofContainerToSelectedIndexMap
          ++ selectorEntries cluster m message._metadata._elements) with
    | some s => exact ⟨s, rfl⟩
    | none =>
      exfalso
      rw [mapFind_eq_none_iff] at hf
      apply hf
      simp only [LVMessage.Clear, LVMessage.mk_oneof, List.nil_append, keys_selectorEntries]
      exact List.mem_map.2 ⟨d, List.mem_filter.2 ⟨hd, hdisc⟩, hname⟩
  refine ⟨_, hok, ?_, hreg, ?_⟩
  · intro pre d post he h1 h2
    have hdisc : isDiscriminator d = true := by simp [isDiscriminator, h1, h2]
    rw [he] at hnd
    simp only [List.filter_append, List.filter_cons, hdisc, if_true, List.map_append,
      List.map_cons] at hnd
    rw [List.nodup_append] at hnd
    refine ⟨_, CopyFromCluster.selectors_ok cluster m pre message.Clear (by
      simp only [LVMessage.Clear, LVMessage.mk_oneof, List.nil_append, keys_selectorEntries]
      exact hnd.1), ?_⟩
    rw [mapFind_eq_none_iff]
    simp only [LVMessage.Clear, LVMessage.mk_oneof, List.nil_append, keys_selectorEntries]
    intro hin
    exact hnd.2.2 hin (List.mem_cons_self _ _)
  · intro fuel
    have hmd : message.Clear._metadata = message._metadata := by simp [LVMessage.Clear]
    have heq : CopyFromCluster env m (fuel + 1) message cluster
        = CopyFromCluster.fields env (CopyFromCluster env m fuel) cluster m
            message._metadata._mappedElements
            (.mk message.Clear._values message.Clear._metadata
              (message.Clear._oneofContainerToSelectedIndexMap
                ++ selectorEntries cluster m message._metadata._elements)) := by
      simp only [CopyFromCluster]
      rw [hmd, hok, ok_bind]
      rfl
    refine ⟨heq, fun h => ?_⟩
    rw [heq] at h
    exact CopyFromCluster.fields_assertion env henv _ cluster m _
      (.mk message.Clear._values message.Clear._metadata
        (message.Clear._oneofContainerToSelectedIndexMap
          ++ selectorEntries cluster m message._metadata._elements)) hreg h

/-- C26 at the table of scenario B, whose group `choice` has one discriminator and two
members, on the cluster of scenario B. -/
theorem C26_invariant_no_assertion_witness :
    ∃ msg1, CopyFromCluster.selectors 16 scenarioB.memory
          (LVMessage.mk [] scenarioB.table [])._metadata._elements
          (LVMessage.mk [] scenarioB.table []).Clear
        = .ok msg1
      ∧ (∀ pre d post, (LVMessage.mk [] scenarioB.table [])._metadata._elements
            = pre ++ d :: post →
          d.isInOneof = true → d.protobufIndex < 0 →
          ∃ msgp, CopyFromCluster.selectors 16 scenarioB.memory pre
                (LVMessage.mk [] scenarioB.table []).Clear = .ok msgp
            ∧ mapFind d.oneofContainerName msgp._oneofContainerToSelectedIndexMap = none)
      ∧ (∀ p ∈ (LVMessage.mk [] scenarioB.table [])._metadata._mappedElements,
          p.2.isInOneof = true → 0 ≤ p.2.protobufIndex →
          ∃ s, mapFind p.2.oneofContainerName msg1._oneofContainerToSelectedIndexMap = some s)
      ∧ ∀ fuel, CopyFromCluster exampleEnv scenarioB.memory (fuel + 1)
              (.mk [] scenarioB.table []) 16
            = CopyFromCluster.fields exampleEnv (CopyFromCluster exampleEnv scenarioB.memory fuel)
                16 scenarioB.memory
                (LVMessage.mk [] scenarioB.table [])._metadata._mappedElements msg1
          ∧ (CopyFromCluster exampleEnv scenarioB.memory (fuel + 1)
                (.mk [] scenarioB.table []) 16 = .error .assertion →
              ∃ p ∈ (LVMessage.mk [] scenarioB.table [])._metadata._mappedElements, ∃ msg',
                CopyFromCluster.dispatch exampleEnv
                  (CopyFromCluster exampleEnv scenarioB.memory fuel) p.2
                  (16 + p.2.clusterOffset) scenarioB.memory msg' = .error .assertion) :=
  C26_invariant_no_assertion exampleEnv exampleEnv_adapters scenarioB.memory
    (.mk [] scenarioB.table []) 16 (by decide)

/-! ## The node a reader leaves at a tag -/

theorem mapFind_emplace_ne {α : Type} (k k' : Int) (v : α) (l : List (Int × α))
    (hne : k ≠ k') : mapFind k (emplace k' v l) = mapFind k l := by
  induction l with
  | nil => simp [emplace, mapFind, Ne.symm hne]
  | cons p l ih =>
    obtain ⟨k1, v1⟩ := p
    simp only [emplace]
    split
    · simp [mapFind, Ne.symm hne]
    · split
      · rfl
      · simp only [mapFind, ih]

theorem Emplaced.lookup_ne {tag : Int} {msg r : LVMessage} (h : Emplaced tag msg r) (k : Int)
    (hne : k ≠ tag) : mapFind k r._values = mapFind k msg._values := by
  induction h with
  | same => rfl
  | step r node _ ih =>
    rw [LVMessage.emplaceValue_values, mapFind_emplace_ne k tag node _ hne]
    exact ih

/-- The second loop of `CopyFromCluster` over descriptors with other tags leaves the
entry of the tag `k` as it was. -/
theorem CopyFromCluster.fields_lookup_ne (env : Env) (henv : env.AdaptersEmplaceOnly)
    (rec : LVMessage → Nat → Except Fault LVMessage) (cluster : Nat) (m : Memory)
    (list : List (Int × MessageElementMetadata)) (k : Int)
    (hk : ∀ q ∈ list, q.2.protobufIndex ≠ k) (msg r : LVMessage)
    (h : CopyFromCluster.fields env rec cluster m list msg = .ok r) :
    mapFind k r._values = mapFind k msg._values
      ∧ r._oneofContainerToSelectedIndexMap = msg._oneofContainerToSelectedIndexMap := by
  induction list generalizing msg with
  | nil =>
    simp only [CopyFromCluster.fields] at h
    cases h
    exact ⟨rfl, rfl⟩
  | cons p rest ih =>
    obtain ⟨key, fm⟩ := p
    have ih' := fun msg h => ih (fun q hq => hk q (List.mem_cons_of_mem _ hq)) msg h
    have hfm : k ≠ fm.protobufIndex := fun e => hk (key, fm) (List.mem_cons_self _ _) e.symm
    have hstep : (CopyFromCluster.dispatch env rec fm (cluster + fm.clusterOffset) m msg
          >>= fun message1 => CopyFromCluster.fields env rec cluster m rest message1)
        = .ok r → mapFind k r._values = mapFind k msg._values
          ∧ r._oneofContainerToSelectedIndexMap = msg._oneofContainerToSelectedIndexMap := by
      intro h1
      rw [bind_eq_ok] at h1
      obtain ⟨msg1, hd, h1⟩ := h1
      have he := CopyFromCluster.dispatch_emplaced env henv rec fm _ m msg msg1 hd
      obtain ⟨a, b⟩ := ih' msg1 h1
      exact ⟨a.trans (he.lookup_ne k hfm), b.trans he.oneof⟩
    simp only [CopyFromCluster.fields] at h
    split at h
    · split at h
      · exact ih' msg h
      · split at h
        · cases h
        · split at h
          · exact ih' msg h
          · exact hstep h
    · exact hstep h

/-- The second loop of `CopyFromCluster`, the tags of the list being distinct: a
descriptor of the list that passes the oneof rules and whose reader emplaces `node`
leaves `node` at its tag, when the tag was free. -/
theorem CopyFromCluster.fields_lookup (env : Env) (henv : env.AdaptersEmplaceOnly)
    (rec : LVMessage → Nat → Except Fault LVMessage) (cluster : Nat) (m : Memory)
    (list : List (Int × MessageElementMetadata))
    (hnd : (list.map (fun q => q.2.protobufIndex)).Nodup)
    (p : Int × MessageElementMetadata) (hp : p ∈ list) (node : LVMessageValue)
    (hnode : ∀ msg', CopyFromCluster.dispatch env rec p.2 (cluster + p.2.clusterOffset) m msg'
      = .ok (msg'.emplaceValue p.2.protobufIndex node))
    (msg r : LVMessage)
    (hact : p.2.isInOneof = true → 0 ≤ p.2.protobufIndex
      ∧ mapFind p.2.oneofContainerName msg._oneofContainerToSelectedIndexMap
          = some p.2.protobufIndex)
    (habs : p.2.protobufIndex ∉ keys msg._values)
    (h : CopyFromCluster.fields env rec cluster m list msg = .ok r) :
    mapFind p.2.protobufIndex r._values = some node := by
  induction list generalizing msg with
  | nil => simp at hp
  | cons q rest ih =>
    obtain ⟨key, fm⟩ := q
    simp only [List.map_cons, List.nodup_cons] at hnd
    rcases List.mem_cons.1 hp with e | hp'
    · subst e
      have hrest : ∀ q ∈ rest, q.2.protobufIndex ≠ fm.protobufIndex := by
        intro q hq e
        exact hnd.1 (List.mem_map.2 ⟨q, hq, e⟩)
      have hstep : (CopyFromCluster.dispatch env rec fm (cluster + fm.clusterOffset) m msg
            >>= fun message1 => CopyFromCluster.fields env rec cluster m rest message1)
          = .ok r → mapFind fm.protobufIndex r._values = some node := by
        intro h1
        rw [hnode msg, ok_bind] at h1
        rw [(CopyFromCluster.fields_lookup_ne env henv rec cluster m rest _ hrest _ r h1).1,
          LVMessage.emplaceValue_values]
        exact mapFind_emplace_absent _ _ _ habs
      simp only [CopyFromCluster.fields] at h
      split at h
      · rename_i hin
        obtain ⟨a1, a2⟩ := hact hin
        have a1' : 0 ≤ fm.protobufIndex := a1
        have a2' : mapFind fm.oneofContainerName msg._oneofContainerToSelectedIndexMap
            = some fm.protobufIndex := a2
        rw [if_neg (by omega), a2'] at h
        simp only [ne_eq, not_true_eq_false, if_false] at h
        exact hstep h
      · exact hstep h
    · have hfm : fm.protobufIndex ≠ p.2.protobufIndex := by
        intro e
        exact hnd.1 (List.mem_map.2 ⟨p, hp', e.symm⟩)
      have ih' := fun msg ha hb h => ih hnd.2 hp' msg ha hb h
      have hstep : (CopyFromCluster.dispatch env rec fm (cluster + fm.clusterOffset) m msg
            >>= fun message1 => CopyFromCluster.fields env rec cluster m rest message1)
          = .ok r → mapFind p.2.protobufIndex r._values = some node := by
        intro h1
        rw [bind_eq_ok] at h1
        obtain ⟨msg1, hd, h1⟩ := h1
        have he := CopyFromCluster.dispatch_emplaced env henv rec fm _ m msg msg1 hd
        refine ih' msg1 (by rw [he.oneof]; exact hact) (fun hk => ?_) h1
        rcases he.keys _ hk with e | hk'
        · exact hfm e.symm
        · exact habs hk'
      simp only [CopyFromCluster.fields] at h
      split at h
      · split at h
        · exact ih' msg hact habs h
        · split at h
          · cases h
          · split at h
            · exact ih' msg hact habs h
            · exact hstep h
      · exact hstep h

/-- The tree `CopyFromCluster` returns, the tags of the table being distinct: a
descriptor that passes the oneof rules and whose reader emplaces `node` has `node` at its
tag. -/
theorem CopyFromCluster.entry_at_tag (env : Env) (henv : env.AdaptersEmplaceOnly) (m : Memory)
    (fuel : Nat) (message : LVMessage) (cluster : Nat) (r : LVMessage)
    (h : CopyFromCluster env m (fuel + 1) message cluster = .ok r)
    (hnd : message._metadata.tags.Nodup)
    (p : Int × MessageElementMetadata) (hp : p ∈ message._metadata._mappedElements)
    (hact : p.2.isInOneof = true → 0 ≤ p.2.protobufIndex
      ∧ mapFind p.2.oneofContainerName
          (selectorEntries cluster m message._metadata._elements) = some p.2.protobufIndex)
    (node : LVMessageValue)
    (hnode : ∀ msg', CopyFromCluster.dispatch env (CopyFromCluster env m fuel) p.2
        (cluster + p.2.clusterOffset) m msg'
      = .ok (msg'.emplaceValue p.2.protobufIndex node)) :
    mapFind p.2.protobufIndex r._values = some node := by
  obtain ⟨fuel', msg1, hf, h1, h2⟩ := CopyFromCluster.ok_iff env m _ message cluster r h
  have hf' : fuel' = fuel := by omega
  subst hf'
  obtain ⟨e1, e2, e3⟩ := CopyFromCluster.selectors_spec _ _ _ _ _ h1
  refine CopyFromCluster.fields_lookup env henv _ cluster m _ hnd p hp node hnode msg1 r ?_ ?_ h2
  · rw [e3]
    simpa [LVMessage.Clear] using hact
  · rw [e1]
    simp [LVMessage.Clear, keys]

/-- The second loop of `CopyFromCluster` that returns a tree has run the reader of every
descriptor that passes the oneof rules, and the reader has returned. -/
theorem CopyFromCluster.fields_active_ok (env : Env) (henv : env.AdaptersEmplaceOnly)
    (rec : LVMessage → Nat → Except Fault LVMessage) (cluster : Nat) (m : Memory)
    (list : List (Int × MessageElementMetadata))
    (p : Int × MessageElementMetadata) (hp : p ∈ list) (msg r : LVMessage)
    (hact : p.2.isInOneof = true → 0 ≤ p.2.protobufIndex
      ∧ mapFind p.2.oneofContainerName msg._oneofContainerToSelectedIndexMap
          = some p.2.protobufIndex)
    (h : CopyFromCluster.fields env rec cluster m list msg = .ok r) :
    ∃ msg' r', CopyFromCluster.dispatch env rec p.2 (cluster + p.2.clusterOffset) m msg'
      = .ok r' := by
  induction list generalizing msg with
  | nil => simp at hp
  | cons q rest ih =>
    obtain ⟨key, fm⟩ := q
    rcases List.mem_cons.1 hp with e | hp'
    · subst e
      have hstep : (CopyFromCluster.dispatch env rec fm (cluster + fm.clusterOffset) m msg
            >>= fun message1 => CopyFromCluster.fields env rec cluster m rest message1)
          = .ok r → ∃ msg' r', CopyFromCluster.dispatch env rec fm
            (cluster + fm.clusterOffset) m msg' = .ok r' := by
        intro h1
        rw [bind_eq_ok] at h1
        obtain ⟨msg1, hd, _⟩ := h1
        exact ⟨msg, msg1, hd⟩
      simp only [CopyFromCluster.fields] at h
      split at h
      · rename_i hin
        obtain ⟨a1, a2⟩ := hact hin
        have a1' : 0 ≤ fm.protobufIndex := a1
        have a2' : mapFind fm.oneofContainerName msg._oneofContainerToSelectedIndexMap
            = some fm.protobufIndex := a2
        rw [if_neg (by omega), a2'] at h
        simp only [ne_eq, not_true_eq_false, if_false] at h
        exact hstep h
      · exact hstep h
    · have ih' := fun msg ha h => ih hp' msg ha h
      have hstep : (CopyFromCluster.dispatch env rec fm (cluster + fm.clusterOffset) m msg
            >>= fun message1 => CopyFromCluster.fields env rec cluster m rest message1)
          = .ok r → ∃ msg' r', CopyFromCluster.dispatch env rec p.2
            (cluster + p.2.clusterOffset) m msg' = .ok r' := by
        intro h1
        rw [bind_eq_ok] at h1
        obtain ⟨msg1, hd, h1⟩ := h1
        have he := CopyFromCluster.dispatch_emplaced env henv rec fm _ m msg msg1 hd
        exact ih' msg1 (by rw [he.oneof]; exact hact) h1
      simp only [CopyFromCluster.fields] at h
      split at h
      · split at h
        · exact ih' msg hact h
        · split at h
          · cases h
          · split at h
            · exact ih' msg hact h
            · exact hstep h
      · exact hstep h

/-! ## C29: the entry of a nested message -/

/-- The non-repeated branch of `CopyMessageFromCluster`, for a descriptor that is not
well-known and whose table the registry finds. -/
theorem CopyMessageFromCluster_nested (env : Env)
    (rec : LVMessage → Nat → Except Fault LVMessage) (d : MessageElementMetadata)
    (md' : MessageMetadata) (start : Nat) (m : Memory) (msg : LVMessage)
    (hwk : d.wellKnownType = .None) (hrep : d.isRepeated = false) (hown : d._owner = true)
    (hfind : env.owner.FindMetadata d.embeddedMessageName = some md') :
    CopyMessageFromCluster env rec d start m msg
      = (rec (.mk [] md' []) start >>= fun nested =>
          pure (msg.emplaceValue d.protobufIndex (.nested d.protobufIndex nested))) := by
  simp only [CopyMessageFromCluster, hwk, MessageElementMetadata.owner, hown, if_true,
    ok_bind, hfind, hrep, Bool.false_eq_true, if_false, deref]

/-- C29: for a non-repeated nested-message descriptor that is not of a well-known
composite type, whose owner is set and whose embedded type name the registry resolves to
the table `md'`, and for every memory content (the zero cluster too):
`CopyMessageFromCluster` is the read of a fresh tree of the table `md'` at the slot,
followed by an emplace of the nested node at the tag of the descriptor; when that read
returns `child` the tag has an entry, which is the nested node of `child` when the tag
was free; and in every tree that `CopyFromCluster` returns for a table with distinct
tags that holds the descriptor (not skipped by the oneof rules), the nested read at the
offset of the field has returned and the entry at the tag is the nested node of its
result. -/
theorem C29_nested_read_inserts (env : Env) (m : Memory) (d : MessageElementMetadata)
    (md' : MessageMetadata) (start : Nat) (msg : LVMessage)
    (hwk : d.wellKnownType = .None) (hrep : d.isRepeated = false) (hown : d._owner = true)
    (hfind : env.owner.FindMetadata d.embeddedMessageName = some md') :
    (∀ rec, CopyMessageFromCluster env rec d start m msg
        = (rec (.mk [] md' []) start >>= fun nested =>
            pure (msg.emplaceValue d.protobufIndex (.nested d.protobufIndex nested))))
    ∧ (∀ fuel child, CopyFromCluster env m fuel (.mk [] md' []) start = .ok child →
        CopyMessageFromCluster env (CopyFromCluster env m fuel) d start m msg
          = .ok (msg.emplaceValue d.protobufIndex (.nested d.protobufIndex child))
        ∧ d.protobufIndex
            ∈ keys (msg.emplaceValue d.protobufIndex (.nested d.protobufIndex child))._values
        ∧ (d.protobufIndex ∉ keys msg._values →
            mapFind d.protobufIndex
                (msg.emplaceValue d.protobufIndex (.nested d.protobufIndex child))._values
              = some (.nested d.protobufIndex child)))
    ∧ (env.AdaptersEmplaceOnly → d.type = .MessageValue →
        ∀ fuel message cluster r k,
          CopyFromCluster env m (fuel + 1) message cluster = .ok r →
          message._metadata.tags.Nodup →
          (k, d) ∈ message._metadata._mappedElements →
          (d.isInOneof = true → 0 ≤ d.protobufIndex
            ∧ mapFind d.oneofContainerName
                (selectorEntries cluster m message._metadata._elements)
              = some d.protobufIndex) →
          ∃ child, CopyFromCluster env m fuel (.mk [] md' []) (cluster + d.clusterOffset)
              = .ok child
            ∧ mapFind d.protobufIndex r._values = some (.nested d.protobufIndex child)) := by
  refine ⟨fun rec => CopyMessageFromCluster_nested env rec d md' start m msg hwk hrep hown
    hfind, ?_, ?_⟩
  · intro fuel child hchild
    refine ⟨?_, ?_, ?_⟩
    · rw [CopyMessageFromCluster_nested env _ d md' start m msg hwk hrep hown hfind, hchild]
      rfl
    · rw [LVMessage.emplaceValue_values, mem_keys_emplace]
      exact Or.inl rfl
    · intro habs
      rw [LVMessage.emplaceValue_values]
      exact mapFind_emplace_absent _ _ _ habs
  · intro henv ht fuel message cluster r k h hnd hp hact
    obtain ⟨fuel', msg1, hf, h1, h2⟩ := CopyFromCluster.ok_iff env m _ message cluster r h
    have hf' : fuel = fuel' := by omega
    subst hf'
    obtain ⟨e1, e2, e3⟩ := CopyFromCluster.selectors_spec _ _ _ _ _ h1
    obtain ⟨msg', r', hd⟩ := CopyFromCluster.fields_active_ok env henv _ cluster m _ (k, d) hp
      msg1 r (by rw [e3]; simpa [LVMessage.Clear] using hact) h2
    rw [CopyFromCluster.dispatch_message env d ht,
      CopyMessageFromCluster_nested env _ d md' _ m msg' hwk hrep hown hfind,
      bind_eq_ok] at hd
    obtain ⟨child, hchild, _⟩ := hd
    have hchild' : CopyFromCluster env m fuel (.mk [] md' []) (cluster + d.clusterOffset)
        = .ok child := hchild
    refine ⟨child, hchild', ?_⟩
    refine CopyFromCluster.entry_at_tag env henv m fuel message cluster r h hnd (k, d) hp hact _ ?_
    intro msg''
    rw [CopyFromCluster.dispatch_message env d ht,
      CopyMessageFromCluster_nested env _ d md' _ m msg'' hwk hrep hown hfind]
    simp only [hchild', ok_bind, pure_eq_ok]

/-- C29 at scenario D, on a zero cluster: the nested message `Inner` is read from zero
bytes as a tree without nodes, and the outer tree has an entry for it at tag 1. -/
theorem C29_nested_read_inserts_witness :
    CopyFromCluster exampleEnv (Memory.zero 64) 2 (.mk [] scenarioD.table []) 16
        = .ok (.mk [(1, .nested 1 (.mk [] scenarioD.inner []))] scenarioD.table [])
    ∧ (∀ rec, CopyMessageFromCluster exampleEnv rec scenarioD.field 16 (Memory.zero 64)
          (.mk [] scenarioD.table [])
        = (rec (.mk [] scenarioD.inner []) 16 >>= fun nested =>
            pure ((LVMessage.mk [] scenarioD.table []).emplaceValue
              scenarioD.field.protobufIndex (.nested scenarioD.field.protobufIndex nested))))
    ∧ (∀ fuel child,
        CopyFromCluster exampleEnv (Memory.zero 64) fuel (.mk [] scenarioD.inner []) 16
          = .ok child →
        CopyMessageFromCluster exampleEnv (CopyFromCluster exampleEnv (Memory.zero 64) fuel)
            scenarioD.field 16 (Memory.zero 64) (.mk [] scenarioD.table [])
          = .ok ((LVMessage.mk [] scenarioD.table []).emplaceValue
              scenarioD.field.protobufIndex (.nested scenarioD.field.protobufIndex child))
        ∧ scenarioD.field.protobufIndex
            ∈ keys ((LVMessage.mk [] scenarioD.table []).emplaceValue
                scenarioD.field.protobufIndex
                (.nested scenarioD.field.protobufIndex child))._values
        ∧ (scenarioD.field.protobufIndex ∉ keys (LVMessage.mk [] scenarioD.table [])._values →
            mapFind scenarioD.field.protobufIndex
                ((LVMessage.mk [] scenarioD.table []).emplaceValue
                  scenarioD.field.protobufIndex
                  (.nested scenarioD.field.protobufIndex child))._values
              = some (.nested scenarioD.field.protobufIndex child)))
    ∧ (exampleEnv.AdaptersEmplaceOnly → scenarioD.field.type = .MessageValue →
        ∀ fuel message cluster r k,
          CopyFromCluster exampleEnv (Memory.zero 64) (fuel + 1) message cluster = .ok r →
          message._metadata.tags.Nodup →
          (k, scenarioD.field) ∈ message._metadata._mappedElements →
          (scenarioD.field.isInOneof = true → 0 ≤ scenarioD.field.protobufIndex
            ∧ mapFind scenarioD.field.oneofContainerName
                (selectorEntries cluster (Memory.zero 64) message._metadata._elements)
              = some scenarioD.field.protobufIndex) →
          ∃ child, CopyFromCluster exampleEnv (Memory.zero 64) fuel
                (.mk [] scenarioD.inner []) (cluster + scenarioD.field.clusterOffset)
              = .ok child
            ∧ mapFind scenarioD.field.protobufIndex r._values
                = some (.nested scenarioD.field.protobufIndex child)) :=
  ⟨by rfl,
    C29_nested_read_inserts exampleEnv (Memory.zero 64) scenarioD.field scenarioD.inner 16
      (.mk [] scenarioD.table []) (by rfl) (by rfl) (by rfl) (by rfl)⟩

/-! ## C30: the tree of a fixed32 field -/

/-- C30: in a tree that `CopyFromCluster` returns for a table with distinct tags, a
fixed32 descriptor that is not skipped by the oneof rules has at its tag: when it is
non-repeated, the fixed32 node of the unsigned 32-bit integer in the 4 bytes at its
offset, and the read of the field gives the same for every memory with these 4 bytes,
whatever follows them; when it is repeated with a handle that is not null, to a block
that is not null and has the count n > 0, the fixed32 list of n elements, element i being
the unsigned 32-bit integer in the 4 bytes of element i of the data.  The fixed64 reader
that runs next, for want of a `break`, adds nothing, the tag being taken. -/
theorem C30_fixed32_entry (env : Env) (henv : env.AdaptersEmplaceOnly) (m : Memory)
    (fuel : Nat) (message : LVMessage) (cluster : Nat) (r : LVMessage) (k : Int)
    (d : MessageElementMetadata)
    (h : CopyFromCluster env m (fuel + 1) message cluster = .ok r)
    (hnd : message._metadata.tags.Nodup)
    (hp : (k, d) ∈ message._metadata._mappedElements)
    (ht : d.type = .Fixed32Value)
    (hact : d.isInOneof = true → 0 ≤ d.protobufIndex
      ∧ mapFind d.oneofContainerName
          (selectorEntries cluster m message._metadata._elements) = some d.protobufIndex) :
    (∀ bits, ValueClass.fixed32.decode bits = ((bits % 4294967296 : Nat) : Int))
    ∧ (d.isRepeated = false →
        mapFind d.protobufIndex r._values
          = some (.scalar .fixed32 d.protobufIndex
              (ValueClass.fixed32.decode (m.readU (cluster + d.clusterOffset) 4)))
        ∧ ∀ (m2 : Memory) (rec : LVMessage → Nat → Except Fault LVMessage) (msg : LVMessage),
            m2.load (cluster + d.clusterOffset) 4 = m.load (cluster + d.clusterOffset) 4 →
            CopyFromCluster.dispatch env rec d (cluster + d.clusterOffset) m2 msg
              = .ok (msg.emplaceValue d.protobufIndex (.scalar .fixed32 d.protobufIndex
                  (ValueClass.fixed32.decode (m.readU (cluster + d.clusterOffset) 4)))))
    ∧ (d.isRepeated = true → ∀ n : Nat, 0 < n →
        m.readPtr (cluster + d.clusterOffset) ≠ 0 →
        m.readPtr (m.readPtr (cluster + d.clusterOffset)) ≠ 0 →
        m.readInt32 (m.readPtr (m.readPtr (cluster + d.clusterOffset))) = (n : Int) →
        ∃ xs, mapFind d.protobufIndex r._values
            = some (.repeated .fixed32 d.protobufIndex xs)
          ∧ xs.length = n
          ∧ ∀ i (hi : i < xs.length),
              xs[i] = ValueClass.fixed32.decode (m.readU
                (LV1DArray.bytes (m.readPtr (m.readPtr (cluster + d.clusterOffset)))
                  (4 * i) 4) 4)) := by
  have hK : d.type.valueClass = some .fixed32 := by rw [ht]; rfl
  have hdisp := fun rec start m' msg =>
    CopyFromCluster.dispatch_fixed env d .fixed32 hK (by decide) rec start m' msg
  refine ⟨fun bits => rfl, ?_, ?_⟩
  · intro hrep
    have hscalar : ∀ (m2 : Memory) (rec : LVMessage → Nat → Except Fault LVMessage)
        (msg : LVMessage),
        m2.load (cluster + d.clusterOffset) 4 = m.load (cluster + d.clusterOffset) 4 →
        CopyFromCluster.dispatch env rec d (cluster + d.clusterOffset) m2 msg
          = .ok (msg.emplaceValue d.protobufIndex (.scalar .fixed32 d.protobufIndex
              (ValueClass.fixed32.decode (m.readU (cluster + d.clusterOffset) 4)))) := by
      intro m2 rec msg hload
      rw [hdisp]
      have hread : m2.readU (cluster + d.clusterOffset) 4
          = m.readU (cluster + d.clusterOffset) 4 := by
        unfold Memory.readU
        rw [hload]
      simp only [CopyFixedWidthFromCluster, hrep, Bool.false_eq_true, if_false,
        ValueClass.width, hread]
    exact ⟨CopyFromCluster.entry_at_tag env henv m fuel message cluster r h hnd (k, d) hp hact _
      (fun msg' => hscalar m _ msg' rfl), hscalar⟩
  · intro hrep n hn hhandle hblock hcount
    have hc0 : (n : Int) ≠ 0 := by omega
    have hc1 : ¬ ((n : Int) < 0) := by omega
    refine ⟨decodeArray .fixed32 m
      (LV1DArray.bytes (m.readPtr (m.readPtr (cluster + d.clusterOffset))) 0 4) n, ?_,
      decodeArray_length _ _ _ _, ?_⟩
    · refine CopyFromCluster.entry_at_tag env henv m fuel message cluster r h hnd (k, d) hp hact _ ?_
      intro msg'
      rw [hdisp]
      simp [CopyFixedWidthFromCluster, hrep, hhandle, hblock, hcount, hc0, hc1,
        ValueClass.width]
    · intro i hi
      rw [decodeArray_getElem]
      simp [LV1DArray.bytes, Nat.add_assoc, ValueClass.width]

/-- C30 at the cluster that holds 1 in a fixed32 field and 2 in the int32 field behind
it: the tree has the fixed32 node 1 at tag 1. -/
theorem C30_fixed32_entry_witness :
    CopyFromCluster exampleEnv fallThrough.memory (0 + 1) (.mk [] fallThrough.table []) 16
      = .ok (.mk [(1, .scalar .fixed32 1 1), (2, .scalar .int32 2 2)] fallThrough.table [])
    ∧ (∀ bits, ValueClass.fixed32.decode bits = ((bits % 4294967296 : Nat) : Int))
    ∧ (fallThrough.field.isRepeated = false →
        mapFind fallThrough.field.protobufIndex
            (LVMessage.mk [(1, .scalar .fixed32 1 1), (2, .scalar .int32 2 2)]
              fallThrough.table [])._values
          = some (.scalar .fixed32 fallThrough.field.protobufIndex
              (ValueClass.fixed32.decode
                (fallThrough.memory.readU (16 + fallThrough.field.clusterOffset) 4)))
        ∧ ∀ (m2 : Memory) (rec : LVMessage → Nat → Except Fault LVMessage) (msg : LVMessage),
            m2.load (16 + fallThrough.field.clusterOffset) 4
              = fallThrough.memory.load (16 + fallThrough.field.clusterOffset) 4 →
            CopyFromCluster.dispatch exampleEnv rec fallThrough.field
                (16 + fallThrough.field.clusterOffset) m2 msg
              = .ok (msg.emplaceValue fallThrough.field.protobufIndex
                  (.scalar .fixed32 fallThrough.field.protobufIndex
                    (ValueClass.fixed32.decode
                      (fallThrough.memory.readU (16 + fallThrough.field.clusterOffset) 4)))))
    ∧ (fallThrough.field.isRepeated = true → ∀ n : Nat, 0 < n →
        fallThrough.memory.readPtr (16 + fallThrough.field.clusterOffset) ≠ 0 →
        fallThrough.memory.readPtr
          (fallThrough.memory.readPtr (16 + fallThrough.field.clusterOffset)) ≠ 0 →
        fallThrough.memory.readInt32 (fallThrough.memory.readPtr
          (fallThrough.memory.readPtr (16 + fallThrough.field.clusterOffset))) = (n : Int) →
        ∃ xs, mapFind fallThrough.field.protobufIndex
              (LVMessage.mk [(1, .scalar .fixed32 1 1), (2, .scalar .int32 2 2)]
                fallThrough.table [])._values
            = some (.repeated .fixed32 fallThrough.field.protobufIndex xs)
          ∧ xs.length = n
          ∧ ∀ i (hi : i < xs.length),
              xs[i] = ValueClass.fixed32.decode (fallThrough.memory.readU
                (LV1DArray.bytes (fallThrough.memory.readPtr
                  (fallThrough.memory.readPtr (16 + fallThrough.field.clusterOffset)))
                  (4 * i) 4) 4)) :=
  ⟨by rfl,
    C30_fixed32_entry exampleEnv exampleEnv_adapters fallThrough.memory 0
      (.mk [] fallThrough.table []) 16
      (.mk [(1, .scalar .fixed32 1 1), (2, .scalar .int32 2 2)] fallThrough.table [])
      1 fallThrough.field (by rfl) (by decide) (by decide) (by rfl) (fun h => by cases h)⟩

/-! ## C28: where the elements of a repeated nested-message field lie -/

theorem bind_assoc_except {α β γ : Type} (a : Except Fault α) (f : α → Except Fault β)
    (g : β → Except Fault γ) :
    ((a >>= f) >>= g) = (a >>= fun x => f x >>= g) := by
  cases a <;> rfl

theorem CopyMessageToCluster.loop_nil (env : Env) (block clusterSize alignment x : Nat)
    (m : Memory) :
    CopyMessageToCluster.loop env block clusterSize alignment x [] m = .ok m := by
  rw [CopyMessageToCluster.loop]

theorem CopyMessageToCluster.loop_cons (env : Env) (block clusterSize alignment x : Nat)
    (child : LVMessage) (rest : List LVMessage) (m : Memory) :
    CopyMessageToCluster.loop env block clusterSize alignment x (child :: rest) m
      = (CopyToCluster env child (LV1DArray.bytes block (x * clusterSize) alignment)
            (m.writePtr (LV1DArray.bytes block (x * clusterSize) alignment) 0)
          >>= fun m1 =>
            CopyMessageToCluster.loop env block clusterSize alignment (x + 1) rest m1) := by
  rw [CopyMessageToCluster.loop]

/-- The loop of the writer over a list is the loop over its first part, then the loop
over the rest from the index reached. -/
theorem CopyMessageToCluster.loop_append (env : Env) (block clusterSize alignment : Nat)
    (pre post : List LVMessage) (x : Nat) (m : Memory) :
    CopyMessageToCluster.loop env block clusterSize alignment x (pre ++ post) m
      = (CopyMessageToCluster.loop env block clusterSize alignment x pre m >>= fun m1 =>
          CopyMessageToCluster.loop env block clusterSize alignment (x + pre.length) post
            m1) := by
  induction pre generalizing x m with
  | nil =>
    rw [CopyMessageToCluster.loop_nil]
    rfl
  | cons child rest ih =>
    rw [List.cons_append, CopyMessageToCluster.loop_cons, CopyMessageToCluster.loop_cons,
      bind_assoc_except]
    congr 1
    funext m1
    rw [ih, List.length_cons]
    congr 2
    funext m2
    congr 1
    omega

/-- The loop of the reader over `k + j` elements is the loop over `k` elements, then the
loop over `j` elements from the index reached. -/
theorem CopyMessageFromCluster.loop_add
    (rec : LVMessage → Nat → Except Fault LVMessage) (md : Option MessageMetadata)
    (block : Nat) (x k j : Nat) :
    CopyMessageFromCluster.loop rec md block x (k + j)
      = (CopyMessageFromCluster.loop rec md block x k >>= fun pre =>
          CopyMessageFromCluster.loop rec md block (x + k) j >>= fun post =>
            pure (pre ++ post)) := by
  induction k generalizing x with
  | zero =>
    simp only [Nat.zero_add, CopyMessageFromCluster.loop, ok_bind, Nat.add_zero,
      List.nil_append]
    cases CopyMessageFromCluster.loop rec md block x j <;> rfl
  | succ k ih =>
    have e : k + 1 + j = (k + j) + 1 := by omega
    rw [e]
    simp only [CopyMessageFromCluster.loop]
    cases hd : deref md with
    | error f => rfl
    | ok t =>
      simp only [ok_bind]
      cases hr : rec (.mk [] t []) (LV1DArray.bytes block (t.clusterSize * x)
          t.alignmentRequirement) with
      | error f => rfl
      | ok nested =>
        simp only [ok_bind]
        rw [ih (x + 1)]
        have e2 : x + 1 + k = x + (k + 1) := by omega
        rw [e2]
        cases CopyMessageFromCluster.loop rec md block (x + 1) k with
        | error f => rfl
        | ok pre =>
          simp only [ok_bind, pure_eq_ok]
          cases CopyMessageFromCluster.loop rec md block (x + (k + 1)) j with
          | error f => rfl
          | ok post => rfl

theorem LV1DArray.bytes_offset (block off alignment : Nat) :
    LV1DArray.bytes block off alignment = LV1DArray.bytes block 0 alignment + off := by
  simp [LV1DArray.bytes]

theorem typeCodeWidth_GetTypeCodeForSize (a : Nat) (h : a = 1 ∨ a = 2 ∨ a = 4 ∨ a = 8) :
    typeCodeWidth (GetTypeCodeForSize a) = a := by
  rcases h with h | h | h | h <;> rw [h] <;> rfl

/-- C28: for a repeated nested-message field that is not well-known, a node of n > 0
elements whose first element has the cluster size s and the alignment a > 0 (n * s
within the 64-bit size type), and the table the registry finds for the field having the
same s and a.  `CopyMessageToCluster` resizes the array to the units computed, stores n as
its count and runs its loop, which writes element x (after a null pointer store at its
start) with `CopyToCluster` at the data of the array plus x * s.  `CopyMessageFromCluster`,
on a handle whose count is n, runs its loop for n elements, which reads element x with
`CopyFromCluster` at the data of the array plus x * s.  The regions [x*s, (x+1)*s) of
two elements are disjoint, and each lies within the units * a bytes asked for, which for
an alignment of 1, 2, 4 or 8 are the data bytes of the block handed out. -/
theorem C28_element_regions (env : Env) (d : MessageElementMetadata) (md : MessageMetadata)
    (start : Nat) (tag : Int) (front : LVMessage) (rest : List LVMessage) (m : Memory)
    (hwk : d.wellKnownType = .None) (hrep : d.isRepeated = true)
    (hown : d._owner = true)
    (hfind : env.owner.FindMetadata d.embeddedMessageName = some md)
    (hs : md.clusterSize = front._metadata.clusterSize)
    (hal : md.alignmentRequirement = front._metadata.alignmentRequirement)
    (ha : 0 < front._metadata.alignmentRequirement)
    (hsize : (rest.length + 1) * front._metadata.clusterSize < 2 ^ 64) :
    CopyMessageToCluster env d start (.repeatedNested tag (front :: rest)) m
      = CopyMessageToCluster.resizeAndWrite env start (front :: rest)
          front._metadata.clusterSize front._metadata.alignmentRequirement
          (CopyMessageToCluster.alignedElementSize (rest.length + 1)
            front._metadata.clusterSize front._metadata.alignmentRequirement) m
    ∧ (∀ units, CopyMessageToCluster.resizeAndWrite env start (front :: rest)
          front._metadata.clusterSize front._metadata.alignmentRequirement units m
        = CopyMessageToCluster.loop env
            ((NumericArrayResize (GetTypeCodeForSize front._metadata.alignmentRequirement) 1
              start units m).readPtr
              ((NumericArrayResize (GetTypeCodeForSize front._metadata.alignmentRequirement) 1
                start units m).readPtr start))
            front._metadata.clusterSize front._metadata.alignmentRequirement 0 (front :: rest)
            ((NumericArrayResize (GetTypeCodeForSize front._metadata.alignmentRequirement) 1
              start units m).writeInt
              ((NumericArrayResize (GetTypeCodeForSize front._metadata.alignmentRequirement) 1
                start units m).readPtr
                ((NumericArrayResize (GetTypeCodeForSize front._metadata.alignmentRequirement)
                  1 start units m).readPtr start)) 4 ((rest.length + 1 : Nat) : Int)))
    ∧ (∀ (m1 : Memory) (block : Nat), rest.length + 1 < 2147483648 →
        (m1.writeInt block 4 ((rest.length + 1 : Nat) : Int)).readInt32 block
          = ((rest.length + 1 : Nat) : Int))
    ∧ (∀ (block : Nat) (m2 : Memory) (pre : List LVMessage) (child : LVMessage)
        (post : List LVMessage), front :: rest = pre ++ child :: post →
        CopyMessageToCluster.loop env block front._metadata.clusterSize
            front._metadata.alignmentRequirement 0 (front :: rest) m2
          = (CopyMessageToCluster.loop env block front._metadata.clusterSize
                front._metadata.alignmentRequirement 0 pre m2 >>= fun m3 =>
              CopyToCluster env child
                  (LV1DArray.bytes block 0 front._metadata.alignmentRequirement
                    + pre.length * front._metadata.clusterSize)
                  (m3.writePtr
                    (LV1DArray.bytes block 0 front._metadata.alignmentRequirement
                      + pre.length * front._metadata.clusterSize) 0) >>= fun m4 =>
                CopyMessageToCluster.loop env block front._metadata.clusterSize
                  front._metadata.alignmentRequirement (pre.length + 1) post m4))
    ∧ (∀ (rec : LVMessage → Nat → Except Fault LVMessage) (m' : Memory) (msg : LVMessage)
        (n : Nat), 0 < n → m'.readPtr start ≠ 0 → m'.readPtr (m'.readPtr start) ≠ 0 →
        m'.readInt32 (m'.readPtr (m'.readPtr start)) = (n : Int) →
        CopyMessageFromCluster env rec d start m' msg
          = (CopyMessageFromCluster.loop rec (some md) (m'.readPtr (m'.readPtr start)) 0 n
              >>= fun nesteds => pure (msg.emplaceValue d.protobufIndex
                (.repeatedNested d.protobufIndex nesteds))))
    ∧ (∀ (rec : LVMessage → Nat → Except Fault LVMessage) (block x j : Nat),
        CopyMessageFromCluster.loop rec (some md) block 0 (x + (j + 1))
          = (CopyMessageFromCluster.loop rec (some md) block 0 x >>= fun pre =>
              rec (.mk [] md [])
                  (LV1DArray.bytes block 0 front._metadata.alignmentRequirement
                    + x * front._metadata.clusterSize) >>= fun nested =>
                CopyMessageFromCluster.loop rec (some md) block (x + 1) j >>= fun post =>
                  pure (pre ++ nested :: post)))
    ∧ (∀ x y, x < y → (x + 1) * front._metadata.clusterSize
        ≤ y * front._metadata.clusterSize)
    ∧ (∀ x, x < rest.length + 1 → (x + 1) * front._metadata.clusterSize
        ≤ CopyMessageToCluster.alignedElementSize (rest.length + 1)
            front._metadata.clusterSize front._metadata.alignmentRequirement
          * front._metadata.alignmentRequirement)
    ∧ ((front._metadata.alignmentRequirement = 1 ∨ front._metadata.alignmentRequirement = 2
          ∨ front._metadata.alignmentRequirement = 4
          ∨ front._metadata.alignmentRequirement = 8) →
        ∀ units, 0 < m.brk → start + 8 ≤ m.brk →
        m.brk + 8 + (alignUp 4 front._metadata.alignmentRequirement
          + units * front._metadata.alignmentRequirement) < 256 ^ 8 →
        (m.readPtr start = 0 ∨ (m.readPtr start + 8 ≤ m.brk
          ∧ (m.readPtr start + 8 ≤ start ∨ start + 8 ≤ m.readPtr start))) →
        LV1DArray.bytes
            ((NumericArrayResize (GetTypeCodeForSize front._metadata.alignmentRequirement) 1
              start units m).readPtr
              ((NumericArrayResize (GetTypeCodeForSize front._metadata.alignmentRequirement) 1
                start units m).readPtr start)) 0 front._metadata.alignmentRequirement
          + units * front._metadata.alignmentRequirement
          = (NumericArrayResize (GetTypeCodeForSize front._metadata.alignmentRequirement) 1
              start units m).brk) := by
  refine ⟨CopyMessageToCluster_requests env d start tag front rest m hwk hrep ha,
    fun units => rfl, ?_, ?_, ?_, ?_, ?_, ?_, ?_⟩
  · intro m1 block hn
    exact Memory.readInt32_writeInt_same _ _ _ (by omega) (by omega)
  · intro block m2 pre child post hsplit
    rw [hsplit, CopyMessageToCluster.loop_append]
    congr 1
    funext m3
    rw [CopyMessageToCluster.loop_cons, LV1DArray.bytes_offset, Nat.zero_add]
  · intro rec m' msg n hn hhandle hblock hcount
    have hc0 : (n : Int) ≠ 0 := by omega
    simp only [CopyMessageFromCluster, hwk, MessageElementMetadata.owner, hown, if_true,
      ok_bind, hfind, hrep, hhandle, hblock, hcount, hc0, if_false, Int.toNat_ofNat, pure_eq_ok]
  · intro rec block x j
    rw [CopyMessageFromCluster.loop_add, Nat.zero_add]
    congr 1
    funext pre
    have hb : LV1DArray.bytes block (md.clusterSize * x) md.alignmentRequirement
        = LV1DArray.bytes block 0 front._metadata.alignmentRequirement
          + x * front._metadata.clusterSize := by
      rw [LV1DArray.bytes_offset, hs, hal, Nat.mul_comm]
    simp only [CopyMessageFromCluster.loop, deref, ok_bind, hb]
    generalize rec (.mk [] md []) (LV1DArray.bytes block 0 front._metadata.alignmentRequirement
        + x * front._metadata.clusterSize) = res
    cases res with
    | error f => rfl
    | ok nested =>
      simp only [ok_bind]
      cases CopyMessageFromCluster.loop rec (some md) block (x + 1) j with
      | error f => rfl
      | ok post => rfl
  · intro x y hxy
    exact Nat.mul_le_mul_right _ hxy
  · intro x hx
    have h1 := (CopyMessageToCluster.alignedElementSize_ceil (rest.length + 1)
      front._metadata.clusterSize front._metadata.alignmentRequirement ha hsize).1
    exact Nat.le_trans (Nat.mul_le_mul_right _ hx) h1
  · intro hal4 units hbrk hslot hfit hh
    have hw := typeCodeWidth_GetTypeCodeForSize _ hal4
    obtain ⟨handle, block, r1, r2, r3, r4, r5, r6, r7, r8, r9, r10⟩ :=
      NumericArrayResize_spec (GetTypeCodeForSize front._metadata.alignmentRequirement) 1
        start units m hbrk hslot (by rw [hw]; exact hfit) hh
    rw [r1, r2, r8, hw]
    simp only [LV1DArray.bytes]
    omega

/-- C28 at the repeated field `leaves` of scenario D and two trees of the table `Leaf`
(cluster size 8, alignment 8): the writer asks for 2 units, both regions lie within the
16 bytes, and the array written has the count 2. -/
theorem C28_element_regions_witness :
    CopyMessageToCluster exampleEnv scenarioD.leaves 16
        (.repeatedNested 1 [.mk [] scenarioD.leaf [], .mk [] scenarioD.leaf []])
        (Memory.zero 64)
      = CopyMessageToCluster.resizeAndWrite exampleEnv 16
          [.mk [] scenarioD.leaf [], .mk [] scenarioD.leaf []]
          (LVMessage.mk [] scenarioD.leaf [])._metadata.clusterSize
          (LVMessage.mk [] scenarioD.leaf [])._metadata.alignmentRequirement
          (CopyMessageToCluster.alignedElementSize ([LVMessage.mk [] scenarioD.leaf []].length + 1)
            (LVMessage.mk [] scenarioD.leaf [])._metadata.clusterSize
            (LVMessage.mk [] scenarioD.leaf [])._metadata.alignmentRequirement)
          (Memory.zero 64)
    ∧ (∀ x, x < [LVMessage.mk [] scenarioD.leaf []].length + 1 →
        (x + 1) * (LVMessage.mk [] scenarioD.leaf [])._metadata.clusterSize
          ≤ CopyMessageToCluster.alignedElementSize
              ([LVMessage.mk [] scenarioD.leaf []].length + 1)
              (LVMessage.mk [] scenarioD.leaf [])._metadata.clusterSize
              (LVMessage.mk [] scenarioD.leaf [])._metadata.alignmentRequirement
            * (LVMessage.mk [] scenarioD.leaf [])._metadata.alignmentRequirement)
    ∧ CopyMessageToCluster.alignedElementSize 2 8 8 = 2
    ∧ (CopyMessageToCluster exampleEnv scenarioD.leaves 16
        (.repeatedNested 1 [.mk [] scenarioD.leaf [], .mk [] scenarioD.leaf []])
        (Memory.zero 64)).map (fun m' => m'.readInt32 (m'.readPtr (m'.readPtr 16)))
      = .ok 2 :=
  ⟨(C28_element_regions exampleEnv scenarioD.leaves scenarioD.leaf 16 1
      (.mk [] scenarioD.leaf []) [.mk [] scenarioD.leaf []] (Memory.zero 64)
      (by rfl) (by rfl) (by rfl) (by rfl) (by rfl) (by rfl) (by decide) (by decide)).1,
    (C28_element_regions exampleEnv scenarioD.leaves scenarioD.leaf 16 1
      (.mk [] scenarioD.leaf []) [.mk [] scenarioD.leaf []] (Memory.zero 64)
      (by rfl) (by rfl) (by rfl) (by rfl) (by rfl) (by rfl) (by decide)
      (by decide)).2.2.2.2.2.2.2.1,
    by decide, by rfl⟩

/-! ## C24: the recursion of `CopyFromCluster` ends -/

/-- The descriptor is read by a recursive call of `CopyFromCluster`: it is a
nested-message field, not of a well-known composite type, whose owner is set. -/
def MessageElementMetadata.Recurses (d : MessageElementMetadata) : Prop :=
  d.type = .MessageValue ∧ d.wellKnownType = .None ∧ d._owner = true

/-- The nesting relation among descriptor tables: the table `A` has a nested-message
field that recurses and whose embedded type name the registry resolves to the table
`B`. -/
def Env.Nests (env : Env) (B A : MessageMetadata) : Prop :=
  ∃ p ∈ A._mappedElements, p.2.Recurses
    ∧ env.owner.FindMetadata p.2.embeddedMessageName = some B

/-- The nesting depth of a table is at most `N`: every chain of nested tables that
starts below the table has at most `N` tables. -/
def Env.NestingDepthAtMost (env : Env) : Nat → MessageMetadata → Prop
  | 0, md => ∀ B, ¬ env.Nests B md
  | N + 1, md => ∀ B, env.Nests B md → env.NestingDepthAtMost N B

/-- The adapters of the well-known types return: their reads never end in the fault
that stands for a recursion that does not end. -/
def Env.AdaptersReturn (env : Env) : Prop :=
  ∀ d start m msg,
    env.Double2DArray.CopyFromClusterToMessage d start m msg ≠ .error .outOfFuel
    ∧ env.String2DArray.CopyFromClusterToMessage d start m msg ≠ .error .outOfFuel

theorem bind_ne_error {α β : Type} (a : Except Fault α) (f : α → Except Fault β) (e : Fault)
    (ha : a ≠ .error e) (hf : ∀ x, a = .ok x → f x ≠ .error e) : (a >>= f) ≠ .error e := by
  cases a with
  | error e' =>
    have hne : e' ≠ e := fun h => ha (by rw [h])
    intro h
    cases h
    exact hne rfl
  | ok x => exact hf x rfl

theorem CopyFixedWidthFromCluster_returns (c : ValueClass) (d : MessageElementMetadata)
    (start : Nat) (m : Memory) (msg : LVMessage) :
    CopyFixedWidthFromCluster c d start m msg ≠ .error .outOfFuel := by
  unfold CopyFixedWidthFromCluster
  dsimp only
  split_ifs <;> simp

theorem GetLVString_returns (lvString : Nat) (m : Memory) :
    GetLVString lvString m ≠ .error .outOfFuel := by
  unfold GetLVString
  dsimp only
  split_ifs <;> simp

theorem CopyStringFromCluster.loop_strings_return (m : Memory) (lvStr n : Nat) :
    CopyStringFromCluster.loop m lvStr n ≠ .error .outOfFuel := by
  induction n generalizing lvStr with
  | zero => simp [CopyStringFromCluster.loop]
  | succ n ih =>
    simp only [CopyStringFromCluster.loop]
    refine bind_ne_error _ _ _ (GetLVString_returns _ _) (fun str _ => ?_)
    refine bind_ne_error _ _ _ (ih _) (fun rest _ => ?_)
    simp [pure_eq_ok]

theorem CopyStringFromCluster_returns (d : MessageElementMetadata)
    (start : Nat) (m : Memory) (msg : LVMessage) :
    CopyStringFromCluster d start m msg ≠ .error .outOfFuel := by
  unfold CopyStringFromCluster
  by_cases hrep : d.isRepeated = true
  · rw [if_pos hrep]
    dsimp only
    generalize (if m.readPtr start ≠ 0 ∧ m.readPtr (m.readPtr start) ≠ 0
      then m.readInt32 (m.readPtr (m.readPtr start)) else 0) = arraySize
    by_cases h0 : arraySize ≠ 0
    · rw [if_pos h0]
      refine bind_ne_error _ _ _ (CopyStringFromCluster.loop_strings_return _ _ _) (fun _ _ => ?_)
      simp [pure_eq_ok]
    · rw [if_neg h0]
      simp
  · rw [if_neg hrep]
    refine bind_ne_error _ _ _ (GetLVString_returns _ _) (fun _ _ => ?_)
    simp [pure_eq_ok]

theorem EnumMetadata.GetProtoValueFromLVEnumValue_returns (e : EnumMetadata) (v : Int) :
    e.GetProtoValueFromLVEnumValue v ≠ .error .outOfFuel := by
  unfold EnumMetadata.GetProtoValueFromLVEnumValue
  split <;> simp

theorem deref_returns {α : Type} (o : Option α) : deref o ≠ .error .outOfFuel := by
  cases o <;> simp [deref]

theorem CopyEnumFromCluster.mapArray_returns (em : Option EnumMetadata) (m : Memory)
    (data n : Nat) : CopyEnumFromCluster.mapArray em m data n ≠ .error .outOfFuel := by
  induction n generalizing data with
  | zero => simp [CopyEnumFromCluster.mapArray]
  | succ n ih =>
    simp only [CopyEnumFromCluster.mapArray]
    refine bind_ne_error _ _ _ (deref_returns _) (fun e _ => ?_)
    refine bind_ne_error _ _ _ (e.GetProtoValueFromLVEnumValue_returns _) (fun _ _ => ?_)
    refine bind_ne_error _ _ _ (ih _) (fun _ _ => ?_)
    simp [pure_eq_ok]

theorem MessageElementMetadata.owner_returns (env : Env) (d : MessageElementMetadata) :
    d.owner env ≠ .error .outOfFuel := by
  unfold MessageElementMetadata.owner
  split_ifs <;> simp

theorem CopyEnumFromCluster_returns (env : Env) (d : MessageElementMetadata)
    (start : Nat) (m : Memory) (msg : LVMessage) :
    CopyEnumFromCluster env d start m msg ≠ .error .outOfFuel := by
  rw [CopyEnumFromCluster_eq]
  refine bind_ne_error _ _ _ (d.owner_returns env) (fun owner _ => ?_)
  dsimp only
  split_ifs
  all_goals first
    | (simp [pure_eq_ok]; done)
    | (refine bind_ne_error _ _ _ (CopyEnumFromCluster.mapArray_returns _ _ _ _)
        (fun _ _ => ?_)
       simp [pure_eq_ok])
    | (refine bind_ne_error _ _ _ (deref_returns _) (fun e _ => ?_)
       refine bind_ne_error _ _ _ (e.GetProtoValueFromLVEnumValue_returns _) (fun _ _ => ?_)
       simp [pure_eq_ok])

theorem CopyMessageFromCluster.loop_messages_return
    (rec : LVMessage → Nat → Except Fault LVMessage) (nestedMetadata : Option MessageMetadata)
    (block x n : Nat)
    (h : ∀ md', nestedMetadata = some md' → ∀ s, rec (.mk [] md' []) s ≠ .error .outOfFuel) :
    CopyMessageFromCluster.loop rec nestedMetadata block x n ≠ .error .outOfFuel := by
  induction n generalizing x with
  | zero => simp [CopyMessageFromCluster.loop]
  | succ n ih =>
    simp only [CopyMessageFromCluster.loop]
    refine bind_ne_error _ _ _ (deref_returns _) (fun md' hmd => ?_)
    have hsome : nestedMetadata = some md' := by
      cases nestedMetadata with
      | none => simp [deref] at hmd
      | some t =>
        simp only [deref, Except.ok.injEq] at hmd
        rw [hmd]
    refine bind_ne_error _ _ _ (h md' hsome _) (fun _ _ => ?_)
    refine bind_ne_error _ _ _ (ih _) (fun _ _ => ?_)
    simp [pure_eq_ok]

theorem CopyMessageFromCluster.loop_congr
    (rec1 rec2 : LVMessage → Nat → Except Fault LVMessage)
    (nestedMetadata : Option MessageMetadata) (block x n : Nat)
    (h : ∀ md', nestedMetadata = some md' →
      ∀ s, rec1 (.mk [] md' []) s = rec2 (.mk [] md' []) s) :
    CopyMessageFromCluster.loop rec1 nestedMetadata block x n
      = CopyMessageFromCluster.loop rec2 nestedMetadata block x n := by
  induction n generalizing x with
  | zero => simp [CopyMessageFromCluster.loop]
  | succ n ih =>
    simp only [CopyMessageFromCluster.loop]
    cases nestedMetadata with
    | none => rfl
    | some md' =>
      simp only [deref, ok_bind]
      rw [h md' rfl, ih]

/-- The read of a nested-message field returns when the adapters and the recursive calls
it makes do. -/
theorem CopyMessageFromCluster_returns (env : Env) (hadapt : env.AdaptersReturn)
    (rec : LVMessage → Nat → Except Fault LVMessage) (d : MessageElementMetadata)
    (start : Nat) (m : Memory) (msg : LVMessage)
    (h : d.wellKnownType = .None → d._owner = true → ∀ md',
      env.owner.FindMetadata d.embeddedMessageName = some md' →
      ∀ s, rec (.mk [] md' []) s ≠ .error .outOfFuel) :
    CopyMessageFromCluster env rec d start m msg ≠ .error .outOfFuel := by
  unfold CopyMessageFromCluster
  cases hwk : d.wellKnownType with
  | Double2DArray => exact (hadapt d start m msg).1
  | String2DArray => exact (hadapt d start m msg).2
  | None =>
    dsimp only
    by_cases hown : d._owner = true
    · simp only [MessageElementMetadata.owner, hown, if_true, ok_bind]
      have h' := h hwk hown
      split_ifs
      all_goals first
        | (simp [pure_eq_ok]; done)
        | (refine bind_ne_error _ _ _ (CopyMessageFromCluster.loop_messages_return _ _ _ _ _ h')
            (fun _ _ => ?_)
           simp [pure_eq_ok])
        | (refine bind_ne_error _ _ _ (deref_returns _) (fun md' hmd => ?_)
           have hsome : env.owner.FindMetadata d.embeddedMessageName = some md' := by
             cases hf : env.owner.FindMetadata d.embeddedMessageName with
             | none => rw [hf] at hmd; simp [deref] at hmd
             | some t =>
               rw [hf] at hmd
               simp only [deref, Except.ok.injEq] at hmd
               rw [hmd]
           refine bind_ne_error _ _ _ (h' md' hsome _) (fun _ _ => ?_)
           simp [pure_eq_ok])
    · have ho : d.owner env = .error .nullMetadata := by
        simp [MessageElementMetadata.owner, hown]
      rw [ho]
      intro hc
      cases hc

theorem CopyMessageFromCluster_congr (env : Env)
    (rec1 rec2 : LVMessage → Nat → Except Fault LVMessage) (d : MessageElementMetadata)
    (start : Nat) (m : Memory) (msg : LVMessage)
    (h : d.wellKnownType = .None → d._owner = true → ∀ md',
      env.owner.FindMetadata d.embeddedMessageName = some md' →
      ∀ s, rec1 (.mk [] md' []) s = rec2 (.mk [] md' []) s) :
    CopyMessageFromCluster env rec1 d start m msg
      = CopyMessageFromCluster env rec2 d start m msg := by
  unfold CopyMessageFromCluster
  cases hwk : d.wellKnownType with
  | Double2DArray => rfl
  | String2DArray => rfl
  | None =>
    dsimp only
    by_cases hown : d._owner = true
    · simp only [MessageElementMetadata.owner, hown, if_true, ok_bind]
      have h' := h hwk hown
      rw [CopyMessageFromCluster.loop_congr rec1 rec2 _ _ _ _ h']
      cases hf : env.owner.FindMetadata d.embeddedMessageName with
      | none => rfl
      | some md' =>
        simp only [deref, ok_bind]
        rw [h' md' hf]
    · have ho : d.owner env = .error .nullMetadata := by
        simp [MessageElementMetadata.owner, hown]
      rw [ho]
      simp only [error_bind]

theorem CopyFromCluster.dispatch_returns (env : Env) (hadapt : env.AdaptersReturn)
    (rec : LVMessage → Nat → Except Fault LVMessage) (d : MessageElementMetadata)
    (start : Nat) (m : Memory) (msg : LVMessage)
    (h : d.Recurses → ∀ md', env.owner.FindMetadata d.embeddedMessageName = some md' →
      ∀ s, rec (.mk [] md' []) s ≠ .error .outOfFuel) :
    CopyFromCluster.dispatch env rec d start m msg ≠ .error .outOfFuel := by
  cases ht : d.type <;>
    simp only [CopyFromCluster.dispatch, ht, CopyBoolFromCluster, CopyDoubleFromCluster,
      CopyFloatFromCluster, CopyInt32FromCluster, CopyInt64FromCluster, CopyUInt32FromCluster,
      CopyUInt64FromCluster, CopySInt32FromCluster, CopySInt64FromCluster,
      CopyFixed32FromCluster, CopyFixed64FromCluster, CopySFixed32FromCluster,
      CopySFixed64FromCluster, CopyBytesFromCluster]
  case StringValue => exact CopyStringFromCluster_returns _ _ _ _
  case BytesValue => exact CopyStringFromCluster_returns _ _ _ _
  case EnumValue => exact CopyEnumFromCluster_returns _ _ _ _ _
  case MessageValue =>
    exact CopyMessageFromCluster_returns env hadapt rec d start m msg
      (fun hwk hown => h ⟨ht, hwk, hown⟩)
  case Fixed32Value =>
    exact bind_ne_error _ _ _ (CopyFixedWidthFromCluster_returns _ _ _ _ _)
      (fun _ _ => CopyFixedWidthFromCluster_returns _ _ _ _ _)
  all_goals exact CopyFixedWidthFromCluster_returns _ _ _ _ _

theorem CopyFromCluster.dispatch_congr (env : Env)
    (rec1 rec2 : LVMessage → Nat → Except Fault LVMessage) (d : MessageElementMetadata)
    (start : Nat) (m : Memory) (msg : LVMessage)
    (h : d.Recurses → ∀ md', env.owner.FindMetadata d.embeddedMessageName = some md' →
      ∀ s, rec1 (.mk [] md' []) s = rec2 (.mk [] md' []) s) :
    CopyFromCluster.dispatch env rec1 d start m msg
      = CopyFromCluster.dispatch env rec2 d start m msg := by
  cases ht : d.type <;> simp only [CopyFromCluster.dispatch, ht]
  exact CopyMessageFromCluster_congr env rec1 rec2 d start m msg
    (fun hwk hown => h ⟨ht, hwk, hown⟩)

theorem CopyFromCluster.fields_returns (env : Env) (hadapt : env.AdaptersReturn)
    (rec : LVMessage → Nat → Except Fault LVMessage) (cluster : Nat) (m : Memory)
    (list : List (Int × MessageElementMetadata)) (msg : LVMessage)
    (h : ∀ p ∈ list, p.2.Recurses → ∀ md',
      env.owner.FindMetadata p.2.embeddedMessageName = some md' →
      ∀ s, rec (.mk [] md' []) s ≠ .error .outOfFuel) :
    CopyFromCluster.fields env rec cluster m list msg ≠ .error .outOfFuel := by
  induction list generalizing msg with
  | nil => simp [CopyFromCluster.fields]
  | cons p rest ih =>
    obtain ⟨k, fm⟩ := p
    have ih' := fun msg => ih msg (fun q hq => h q (List.mem_cons_of_mem _ hq))
    have hstep : (CopyFromCluster.dispatch env rec fm (cluster + fm.clusterOffset) m msg
          >>= fun message1 => CopyFromCluster.fields env rec cluster m rest message1)
        ≠ .error .outOfFuel :=
      bind_ne_error _ _ _ (CopyFromCluster.dispatch_returns env hadapt rec fm _ m msg
        (h (k, fm) (List.mem_cons_self _ _))) (fun msg1 _ => ih' msg1)
    simp only [CopyFromCluster.fields]
    split
    · split
      · exact ih' msg
      · split
        · simp
        · split
          · exact ih' msg
          · exact hstep
    · exact hstep

theorem CopyFromCluster.fields_congr (env : Env)
    (rec1 rec2 : LVMessage → Nat → Except Fault LVMessage) (cluster : Nat) (m : Memory)
    (list : List (Int × MessageElementMetadata)) (msg : LVMessage)
    (h : ∀ p ∈ list, p.2.Recurses → ∀ md',
      env.owner.FindMetadata p.2.embeddedMessageName = some md' →
      ∀ s, rec1 (.mk [] md' []) s = rec2 (.mk [] md' []) s) :
    CopyFromCluster.fields env rec1 cluster m list msg
      = CopyFromCluster.fields env rec2 cluster m list msg := by
  induction list generalizing msg with
  | nil => simp [CopyFromCluster.fields]
  | cons p rest ih =>
    obtain ⟨k, fm⟩ := p
    have ih' := fun msg => ih msg (fun q hq => h q (List.mem_cons_of_mem _ hq))
    have hd := fun msg => CopyFromCluster.dispatch_congr env rec1 rec2 fm
      (cluster + fm.clusterOffset) m msg (h (k, fm) (List.mem_cons_self _ _))
    simp only [CopyFromCluster.fields, ih', hd]

/-- The recursion of `CopyFromCluster` on a message whose table has a nesting depth of at
most `N`: a budget of `N + 1` calls is enough, a larger one gives the same result. -/
theorem CopyFromCluster.bounded (env : Env) (hadapt : env.AdaptersReturn) (m : Memory)
    (N : Nat) :
    ∀ (message : LVMessage) (cluster : Nat), env.NestingDepthAtMost N message._metadata →
      (∀ fuel, N + 1 ≤ fuel → CopyFromCluster env m fuel message cluster
        = CopyFromCluster env m (N + 1) message cluster)
      ∧ CopyFromCluster env m (N + 1) message cluster ≠ .error .outOfFuel := by
  have step : ∀ (n : Nat) (message : LVMessage) (cluster : Nat),
      (∀ p ∈ message._metadata._mappedElements, p.2.Recurses → ∀ md',
        env.owner.FindMetadata p.2.embeddedMessageName = some md' →
        (∀ s f, n ≤ f → CopyFromCluster env m f (.mk [] md' []) s
          = CopyFromCluster env m n (.mk [] md' []) s)
        ∧ ∀ s, CopyFromCluster env m n (.mk [] md' []) s ≠ .error .outOfFuel) →
      (∀ fuel, n + 1 ≤ fuel → CopyFromCluster env m fuel message cluster
        = CopyFromCluster env m (n + 1) message cluster)
      ∧ CopyFromCluster env m (n + 1) message cluster ≠ .error .outOfFuel := by
    intro n message cluster hch
    have hmd : message.Clear._metadata = message._metadata := by simp [LVMessage.Clear]
    constructor
    · intro fuel hfuel
      obtain ⟨f, rfl⟩ : ∃ f, fuel = f + 1 := ⟨fuel - 1, by omega⟩
      simp only [CopyFromCluster]
      cases hsel : CopyFromCluster.selectors cluster m message.Clear._metadata._elements
          message.Clear with
      | error e => rfl
      | ok msg1 =>
        simp only [ok_bind]
        have e2 := (CopyFromCluster.selectors_spec _ _ _ _ _ hsel).2.1
        rw [e2, hmd]
        exact CopyFromCluster.fields_congr env _ _ cluster m _ msg1
          (fun p hp hr md' hfind s => (hch p hp hr md' hfind).1 s f (by omega))
    · simp only [CopyFromCluster]
      refine bind_ne_error _ _ _ ?_ (fun msg1 hsel => ?_)
      · rcases CopyFromCluster.selectors_fault cluster m message.Clear._metadata._elements
          message.Clear with ⟨r, hr⟩ | he
        · rw [hr]; simp
        · rw [he]; simp
      · have e2 := (CopyFromCluster.selectors_spec _ _ _ _ _ hsel).2.1
        rw [e2, hmd]
        exact CopyFromCluster.fields_returns env hadapt _ cluster m _ msg1
          (fun p hp hr md' hfind s => (hch p hp hr md' hfind).2 s)
  induction N with
  | zero =>
    intro message cluster hdepth
    refine step 0 message cluster (fun p hp hr md' hfind => ?_)
    exact absurd ⟨p, hp, hr, hfind⟩ (hdepth md')
  | succ N ih =>
    intro message cluster hdepth
    refine step (N + 1) message cluster (fun p hp hr md' hfind => ?_)
    have hd' : env.NestingDepthAtMost N md' := hdepth md' ⟨p, hp, hr, hfind⟩
    exact ⟨fun s f hf => (ih (.mk [] md' []) s hd').1 f hf, fun s => (ih (.mk [] md' []) s hd').2⟩

theorem Env.NestingDepthAtMost.depth_succ (env : Env) (N : Nat) :
    ∀ md, env.NestingDepthAtMost N md → env.NestingDepthAtMost (N + 1) md := by
  induction N with
  | zero =>
    intro md h B hB
    exact absurd hB (h B)
  | succ N ih =>
    intro md h B hB
    exact ih B (h B hB)

theorem Env.NestingDepthAtMost.depth_mono (env : Env) (N M : Nat) (hle : N ≤ M)
    (md : MessageMetadata) (h : env.NestingDepthAtMost N md) : env.NestingDepthAtMost M md := by
  induction hle with
  | refl => exact h
  | step _ ih => exact Env.NestingDepthAtMost.depth_succ env _ md ih

/-- A table below which the nesting relation has no infinite descending chain (for the
finitely many tables of a schema: no cycle) has a nesting depth. -/
theorem Env.depth_of_acyclic (env : Env) (md : MessageMetadata) (h : Acc env.Nests md) :
    ∃ N, env.NestingDepthAtMost N md := by
  induction h with
  | intro A _ ih =>
    have key : ∀ list : List (Int × MessageElementMetadata),
        (∀ p ∈ list, p ∈ A._mappedElements) →
        ∃ N, ∀ p ∈ list, p.2.Recurses → ∀ B,
          env.owner.FindMetadata p.2.embeddedMessageName = some B →
          env.NestingDepthAtMost N B := by
      intro list
      induction list with
      | nil => exact fun _ => ⟨0, fun p hp => by simp at hp⟩
      | cons q rest ihl =>
        intro hsub
        obtain ⟨N1, h1⟩ := ihl (fun p hp => hsub p (List.mem_cons_of_mem _ hp))
        by_cases hq : q.2.Recurses ∧ ∃ B, env.owner.FindMetadata q.2.embeddedMessageName = some B
        · obtain ⟨hr, B, hB⟩ := hq
          obtain ⟨N2, h2⟩ := ih B ⟨q, hsub q (List.mem_cons_self _ _), hr, hB⟩
          refine ⟨max N1 N2, fun p hp hpr B' hB' => ?_⟩
          rcases List.mem_cons.1 hp with e | hp'
          · subst e
            rw [hB] at hB'
            cases hB'
            exact Env.NestingDepthAtMost.depth_mono env N2 _ (Nat.le_max_right _ _) _ h2
          · exact Env.NestingDepthAtMost.depth_mono env N1 _ (Nat.le_max_left _ _) _
              (h1 p hp' hpr B' hB')
        · refine ⟨N1, fun p hp hpr B' hB' => ?_⟩
          rcases List.mem_cons.1 hp with e | hp'
          · subst e
            exact absurd ⟨hpr, B', hB'⟩ hq
          · exact h1 p hp' hpr B' hB'
    obtain ⟨N, hN⟩ := key A._mappedElements (fun p hp => hp)
    refine ⟨N + 1, fun B hB => ?_⟩
    obtain ⟨p, hp, hr, hfind⟩ := hB
    exact hN p hp hr B hfind

/-- C24: when the nesting relation among the descriptor tables has no cycle below the
table of the message (no infinite chain of tables, each nested in the one before), and
the adapters of the well-known types return, `CopyFromCluster` returns, for every memory
and cluster: the table has a nesting depth N, and for every bound M on the nesting depth
a recursion M + 1 calls deep is enough; a deeper budget gives the same result, and the
result is a tree or a fault of the read, never the fault of an exhausted budget.  The
loops over the elements of an array run over its count, a 32-bit integer. -/
theorem C24_read_terminates (env : Env) (hadapt : env.AdaptersReturn) (m : Memory)
    (message : LVMessage) (cluster : Nat) (hacyclic : Acc env.Nests message._metadata) :
    ∃ N, env.NestingDepthAtMost N message._metadata
      ∧ ∀ M, env.NestingDepthAtMost M message._metadata →
          (∀ fuel, M + 1 ≤ fuel → CopyFromCluster env m fuel message cluster
            = CopyFromCluster env m (M + 1) message cluster)
          ∧ CopyFromCluster env m (M + 1) message cluster ≠ .error .outOfFuel := by
  obtain ⟨N, hN⟩ := Env.depth_of_acyclic env message._metadata hacyclic
  exact ⟨N, hN, fun M hM => CopyFromCluster.bounded env hadapt m M message cluster hM⟩

theorem exampleEnv_adapters_return : exampleEnv.AdaptersReturn := by
  intro d start m msg
  constructor <;> intro h <;> cases h

theorem scenarioD.leaf_acc : Acc exampleEnv.Nests scenarioD.leaf :=
  Acc.intro _ (fun B hB => by
    obtain ⟨p, hp, _⟩ := hB
    simp [scenarioD.leaf] at hp)

theorem scenarioD.inner_acc : Acc exampleEnv.Nests scenarioD.inner :=
  Acc.intro _ (fun B hB => by
    obtain ⟨p, hp, _, hfind⟩ := hB
    simp only [scenarioD.inner, List.mem_singleton] at hp
    subst hp
    have hB : B = scenarioD.leaf := by
      have : exampleEnv.owner.FindMetadata scenarioD.leaves.embeddedMessageName
          = some scenarioD.leaf := by rfl
      rw [this] at hfind
      cases hfind
      rfl
    rw [hB]
    exact scenarioD.leaf_acc)

theorem scenarioD.table_acc : Acc exampleEnv.Nests scenarioD.table :=
  Acc.intro _ (fun B hB => by
    obtain ⟨p, hp, _, hfind⟩ := hB
    simp only [scenarioD.table, List.mem_singleton] at hp
    subst hp
    have hB : B = scenarioD.inner := by
      have : exampleEnv.owner.FindMetadata scenarioD.field.embeddedMessageName
          = some scenarioD.inner := by rfl
      rw [this] at hfind
      cases hfind
      rfl
    rw [hB]
    exact scenarioD.inner_acc)

/-- C24 at scenario D, whose outer table nests `Inner`, which nests `Leaf`: the read of a
zero cluster returns. -/
theorem C24_read_terminates_witness :
    ∃ N, exampleEnv.NestingDepthAtMost N (LVMessage.mk [] scenarioD.table [])._metadata
      ∧ ∀ M, exampleEnv.NestingDepthAtMost M (LVMessage.mk [] scenarioD.table [])._metadata →
          (∀ fuel, M + 1 ≤ fuel →
            CopyFromCluster exampleEnv (Memory.zero 64) fuel (.mk [] scenarioD.table []) 16
              = CopyFromCluster exampleEnv (Memory.zero 64) (M + 1)
                  (.mk [] scenarioD.table []) 16)
          ∧ CopyFromCluster exampleEnv (Memory.zero 64) (M + 1) (.mk [] scenarioD.table []) 16
              ≠ .error .outOfFuel :=
  C24_read_terminates exampleEnv exampleEnv_adapters_return (Memory.zero 64)
    (.mk [] scenarioD.table []) 16 scenarioD.table_acc

/-! ## C25: the recursion of `CopyToCluster` follows the tree -/

mutual
/-- The number of trees and nodes of a node. -/
def LVMessageValue.treeSize : LVMessageValue → Nat
  | .string _ _ => 1
  | .repeatedString _ _ => 1
  | .scalar _ _ _ => 1
  | .repeated _ _ _ => 1
  | .nested _ child => 1 + LVMessage.treeSize child
  | .repeatedNested _ children => 1 + treeSizeOfTrees children
/-- The number of trees and nodes of a tree. -/
def LVMessage.treeSize : LVMessage → Nat
  | .mk values _ _ => 1 + treeSizeOfNodes values
/-- The number of trees and nodes of a list of nodes. -/
def treeSizeOfNodes : List (Int × LVMessageValue) → Nat
  | [] => 0
  | (_, v) :: vt => LVMessageValue.treeSize v + treeSizeOfNodes vt
/-- The number of trees and nodes of a list of trees. -/
def treeSizeOfTrees : List LVMessage → Nat
  | [] => 0
  | child :: rest => LVMessage.treeSize child + treeSizeOfTrees rest
end

theorem treeSizeOfNodes_mem (values : List (Int × LVMessageValue)) (k : Int)
    (v : LVMessageValue) (h : (k, v) ∈ values) : v.treeSize ≤ treeSizeOfNodes values := by
  induction values with
  | nil => simp at h
  | cons p rest ih =>
    obtain ⟨k', v'⟩ := p
    rw [treeSizeOfNodes]
    rcases List.mem_cons.1 h with e | h'
    · cases e
      omega
    · have := ih h'
      omega

theorem treeSizeOfTrees_mem (children : List LVMessage) (child : LVMessage)
    (h : child ∈ children) : child.treeSize ≤ treeSizeOfTrees children := by
  induction children with
  | nil => simp at h
  | cons c rest ih =>
    rw [treeSizeOfTrees]
    rcases List.mem_cons.1 h with e | h'
    · cases e
      omega
    · have := ih h'
      omega

theorem CopyToCluster.fields_cons (env : Env) (md : MessageMetadata) (c : Nat) (k : Int)
    (value : LVMessageValue) (rest : List (Int × LVMessageValue)) (m : Memory) :
    CopyToCluster.fields env md c ((k, value) :: rest) m
      = match mapFind value._protobufId md._mappedElements with
        | some fm =>
          CopyToCluster.dispatch env
              (fun _ => CopyMessageToCluster env fm (c + fm.clusterOffset) value m) fm
              (c + fm.clusterOffset) value m >>= fun m1 =>
            CopyToCluster.fields env md c rest m1
        | none => CopyToCluster.fields env md c rest m := by
  rw [CopyToCluster.fields]

theorem CopyToCluster.eq_fields (env : Env) (values : List (Int × LVMessageValue))
    (md : MessageMetadata) (sel : List (String × Int)) (c : Nat) (m : Memory) :
    CopyToCluster env (.mk values md sel) c m
      = (CopyToCluster.fields env md c values m >>= fun m1 =>
          pure (CopyOneofIndicesToCluster md c sel m1)) := by
  rw [CopyToCluster]

theorem CopyMessageToCluster_nested (env : Env) (d : MessageElementMetadata) (start : Nat)
    (tag : Int) (child : LVMessage) (m : Memory)
    (hwk : d.wellKnownType = .None) (hrep : d.isRepeated = false) :
    CopyMessageToCluster env d start (.nested tag child) m = CopyToCluster env child start m := by
  rw [CopyMessageToCluster]
  simp only [hwk, hrep, Bool.false_eq_true, if_false]

/-- Two environments that differ at most in the tables their registries resolve message
type names to. -/
def Env.SameButTables (env1 env2 : Env) : Prop :=
  env1.Double2DArray = env2.Double2DArray ∧ env1.String2DArray = env2.String2DArray
    ∧ env1.owner.FindEnumMetadata = env2.owner.FindEnumMetadata

theorem CopyEnumToCluster_tables (env1 env2 : Env) (h : env1.SameButTables env2)
    (d : MessageElementMetadata) (start : Nat) (v : LVMessageValue) (m : Memory) :
    CopyEnumToCluster env1 d start v m = CopyEnumToCluster env2 d start v m := by
  rw [CopyEnumToCluster_eq, CopyEnumToCluster_eq]
  unfold MessageElementMetadata.owner
  by_cases hown : d._owner = true
  · simp only [hown, if_true, ok_bind, h.2.2]
  · simp only [hown, Bool.false_eq_true, if_false, error_bind]

theorem CopyMessageToCluster.loop_tables (env1 env2 : Env) (block cs al : Nat)
    (children : List LVMessage)
    (hch : ∀ child ∈ children, ∀ c m, CopyToCluster env1 child c m = CopyToCluster env2 child c m)
    (x : Nat) (m : Memory) :
    CopyMessageToCluster.loop env1 block cs al x children m
      = CopyMessageToCluster.loop env2 block cs al x children m := by
  induction children generalizing x m with
  | nil => rw [CopyMessageToCluster.loop_nil, CopyMessageToCluster.loop_nil]
  | cons child rest ih =>
    rw [CopyMessageToCluster.loop_cons, CopyMessageToCluster.loop_cons,
      hch child (List.mem_cons_self _ _)]
    congr 1
    funext m1
    exact ih (fun c hc => hch c (List.mem_cons_of_mem _ hc)) _ _

theorem CopyMessageToCluster_tables (env1 env2 : Env) (h : env1.SameButTables env2)
    (d : MessageElementMetadata) (start : Nat) (v : LVMessageValue) (m : Memory)
    (hnested : ∀ tag child, v = .nested tag child →
      ∀ c m, CopyToCluster env1 child c m = CopyToCluster env2 child c m)
    (hrepeated : ∀ tag children, v = .repeatedNested tag children → ∀ child ∈ children,
      ∀ c m, CopyToCluster env1 child c m = CopyToCluster env2 child c m) :
    CopyMessageToCluster env1 d start v m = CopyMessageToCluster env2 d start v m := by
  cases v with
  | nested tag child =>
    rw [CopyMessageToCluster, CopyMessageToCluster]
    simp only [h.1, h.2.1, hnested tag child rfl]
  | repeatedNested tag children =>
    cases children with
    | nil =>
      rw [CopyMessageToCluster, CopyMessageToCluster]
      simp only [h.1, h.2.1]
    | cons front rest =>
      rw [CopyMessageToCluster, CopyMessageToCluster]
      simp only [h.1, h.2.1,
        CopyMessageToCluster.loop_tables env1 env2 _ _ _ (front :: rest)
          (hrepeated tag (front :: rest) rfl)]
  | string tag s =>
    rw [CopyMessageToCluster.eq_4 _ _ _ _ _ (by simp) (by simp),
      CopyMessageToCluster.eq_4 _ _ _ _ _ (by simp) (by simp)]
    simp only [h.1, h.2.1]
  | repeatedString tag L =>
    rw [CopyMessageToCluster.eq_4 _ _ _ _ _ (by simp) (by simp),
      CopyMessageToCluster.eq_4 _ _ _ _ _ (by simp) (by simp)]
    simp only [h.1, h.2.1]
  | scalar c tag x =>
    rw [CopyMessageToCluster.eq_4 _ _ _ _ _ (by simp) (by simp),
      CopyMessageToCluster.eq_4 _ _ _ _ _ (by simp) (by simp)]
    simp only [h.1, h.2.1]
  | repeated c tag xs =>
    rw [CopyMessageToCluster.eq_4 _ _ _ _ _ (by simp) (by simp),
      CopyMessageToCluster.eq_4 _ _ _ _ _ (by simp) (by simp)]
    simp only [h.1, h.2.1]

theorem CopyToCluster.dispatch_tables (env1 env2 : Env) (h : env1.SameButTables env2)
    (d : MessageElementMetadata) (start : Nat) (v : LVMessageValue) (m : Memory)
    (hm : CopyMessageToCluster env1 d start v m = CopyMessageToCluster env2 d start v m) :
    CopyToCluster.dispatch env1 (fun _ => CopyMessageToCluster env1 d start v m) d start v m
      = CopyToCluster.dispatch env2 (fun _ => CopyMessageToCluster env2 d start v m) d start
          v m := by
  cases ht : d.type <;> simp only [CopyToCluster.dispatch, ht]
  · exact hm
  · exact CopyEnumToCluster_tables env1 env2 h d start v m

theorem CopyToCluster.fields_tables (env1 env2 : Env) (h : env1.SameButTables env2)
    (md : MessageMetadata) (c : Nat) (values : List (Int × LVMessageValue))
    (hv : ∀ p ∈ values, ∀ d start m,
      CopyMessageToCluster env1 d start p.2 m = CopyMessageToCluster env2 d start p.2 m)
    (m : Memory) :
    CopyToCluster.fields env1 md c values m = CopyToCluster.fields env2 md c values m := by
  induction values generalizing m with
  | nil => rw [CopyToCluster.fields, CopyToCluster.fields]
  | cons p rest ih =>
    obtain ⟨k, value⟩ := p
    have ih' := fun m => ih (fun q hq => hv q (List.mem_cons_of_mem _ hq)) m
    rw [CopyToCluster.fields_cons, CopyToCluster.fields_cons]
    cases mapFind value._protobufId md._mappedElements with
    | none => exact ih' m
    | some fm =>
      simp only
      rw [CopyToCluster.dispatch_tables env1 env2 h fm _ value m
        (hv (k, value) (List.mem_cons_self _ _) fm _ m)]
      congr 1
      funext m1
      exact ih' m1

/-- The write does not look at the tables the registry resolves message type names to:
the table of a nested tree is the one the tree carries. -/
theorem CopyToCluster.tables_free (env1 env2 : Env) (h : env1.SameButTables env2) :
    ∀ (n : Nat) (tree : LVMessage), tree.treeSize ≤ n →
      ∀ c m, CopyToCluster env1 tree c m = CopyToCluster env2 tree c m := by
  intro n
  induction n with
  | zero =>
    intro tree hsize
    cases tree with
    | mk values md sel =>
      rw [LVMessage.treeSize] at hsize
      omega
  | succ n ih =>
    intro tree hsize c m
    cases tree with
    | mk values md sel =>
      rw [LVMessage.treeSize] at hsize
      rw [CopyToCluster.eq_fields, CopyToCluster.eq_fields,
        CopyToCluster.fields_tables env1 env2 h md c values ?_ m]
      intro p hp d start m'
      have hle := treeSizeOfNodes_mem values p.1 p.2 hp
      refine CopyMessageToCluster_tables env1 env2 h d start p.2 m' ?_ ?_
      · intro tag child hv c' m''
        rw [hv, LVMessageValue.treeSize] at hle
        exact ih child (by omega) c' m''
      · intro tag children hv child hchild c' m''
        rw [hv, LVMessageValue.treeSize] at hle
        have := treeSizeOfTrees_mem children child hchild
        exact ih child (by omega) c' m''

/-- C25: `CopyToCluster` is defined by recursion on the value tree, without a budget, for
every environment.  The write of a tree is the loop over its nodes followed by the oneof
pass; the loop hands each node to the writer of its descriptor; `CopyMessageToCluster`
calls `CopyToCluster` on the tree of a nested node, and its loop calls it on each tree of
a repeated nested node, in order; and each of these trees is smaller than the tree being
written (it counts fewer trees and nodes).  The result does not depend on the tables the
registry resolves message type names to, so a table that nests itself changes nothing:
the table of a nested tree is the one the tree carries. -/
theorem C25_write_follows_tree (env : Env) :
    (∀ values md sel c m, CopyToCluster env (.mk values md sel) c m
      = (CopyToCluster.fields env md c values m >>= fun m1 =>
          pure (CopyOneofIndicesToCluster md c sel m1)))
    ∧ (∀ md c k value rest m, CopyToCluster.fields env md c ((k, value) :: rest) m
        = match mapFind value._protobufId md._mappedElements with
          | some fm =>
            CopyToCluster.dispatch env
                (fun _ => CopyMessageToCluster env fm (c + fm.clusterOffset) value m) fm
                (c + fm.clusterOffset) value m >>= fun m1 =>
              CopyToCluster.fields env md c rest m1
          | none => CopyToCluster.fields env md c rest m)
    ∧ (∀ d start tag child m, d.wellKnownType = .None → d.isRepeated = false →
        CopyMessageToCluster env d start (.nested tag child) m
          = CopyToCluster env child start m)
    ∧ (∀ block clusterSize alignment x child rest m,
        CopyMessageToCluster.loop env block clusterSize alignment x (child :: rest) m
          = (CopyToCluster env child (LV1DArray.bytes block (x * clusterSize) alignment)
                (m.writePtr (LV1DArray.bytes block (x * clusterSize) alignment) 0)
              >>= fun m1 =>
                CopyMessageToCluster.loop env block clusterSize alignment (x + 1) rest m1))
    ∧ (∀ (tree : LVMessage) k tag child, (k, LVMessageValue.nested tag child) ∈ tree._values →
        child.treeSize < tree.treeSize)
    ∧ (∀ (tree : LVMessage) k tag children child,
        (k, LVMessageValue.repeatedNested tag children) ∈ tree._values → child ∈ children →
        child.treeSize < tree.treeSize)
    ∧ (∀ env2, env.SameButTables env2 → ∀ tree c m,
        CopyToCluster env tree c m = CopyToCluster env2 tree c m) := by
  refine ⟨fun values md sel c m => CopyToCluster.eq_fields env values md sel c m,
    fun md c k value rest m => CopyToCluster.fields_cons env md c k value rest m,
    fun d start tag child m hwk hrep => CopyMessageToCluster_nested env d start tag child m
      hwk hrep,
    fun block cs al x child rest m => CopyMessageToCluster.loop_cons env block cs al x child
      rest m, ?_, ?_,
    fun env2 h tree c m => CopyToCluster.tables_free env env2 h tree.treeSize tree
      (Nat.le_refl _) c m⟩
  · intro tree k tag child hmem
    cases tree with
    | mk values md sel =>
      have hle := treeSizeOfNodes_mem values k _ hmem
      rw [LVMessageValue.treeSize] at hle
      rw [LVMessage.treeSize]
      omega
  · intro tree k tag children child hmem hchild
    cases tree with
    | mk values md sel =>
      have hle := treeSizeOfNodes_mem values k _ hmem
      rw [LVMessageValue.treeSize] at hle
      have := treeSizeOfTrees_mem children child hchild
      rw [LVMessage.treeSize]
      omega

/-- A nested-message field of the message type `Node`, tag 1. -/
def selfNesting.field : MessageElementMetadata :=
  { type := .MessageValue, isRepeated := false, protobufIndex := 1, clusterOffset := 0,
    embeddedMessageName := "Node" }

/-- The table of the message type `Node`, which has a field of its own type. -/
def selfNesting.table : MessageMetadata :=
  { _elements := [selfNesting.field], _mappedElements := [(1, selfNesting.field)],
    clusterSize := 8, alignmentRequirement := 8 }

/-- A registry that resolves every message type name to the table of `Node`. -/
def selfNesting.env : Env :=
  { exampleEnv with
    owner := { FindMetadata := fun _ => some selfNesting.table,
               FindEnumMetadata := exampleEnv.owner.FindEnumMetadata } }

/-- A tree of `Node` that holds one tree of `Node` without nodes. -/
def selfNesting.tree : LVMessage :=
  .mk [(1, .nested 1 (.mk [] selfNesting.table []))] selfNesting.table []

/-- C25 at a table that nests itself: the write of a finite tree of the table returns,
and it is the write under the registry of the examples, which does not know the table. -/
theorem C25_write_follows_tree_witness :
    CopyToCluster selfNesting.env selfNesting.tree 16 (Memory.zero 64)
      = CopyToCluster exampleEnv selfNesting.tree 16 (Memory.zero 64)
    ∧ (CopyToCluster selfNesting.env selfNesting.tree 16 (Memory.zero 64)).map
        (fun m' => m'.brk) = .ok 64
    ∧ (LVMessage.mk [] selfNesting.table []).treeSize < selfNesting.tree.treeSize :=
  ⟨(C25_write_follows_tree selfNesting.env).2.2.2.2.2.2 exampleEnv ⟨rfl, rfl, rfl⟩
      selfNesting.tree 16 (Memory.zero 64),
    by rfl,
    (C25_write_follows_tree selfNesting.env).2.2.2.2.1 selfNesting.tree 1 1
      (.mk [] selfNesting.table []) (by simp [selfNesting.tree])⟩

/-! ## C32: bytes are marshalled as strings -/

/-- C32: `CopyBytesToCluster` is `CopyStringToCluster` and `CopyBytesFromCluster` is
`CopyStringFromCluster`, for every descriptor, slot, node, memory and message: the same
memory or fault, the same message or fault.  Through the switches of `CopyToCluster` and
`CopyFromCluster` a descriptor of the bytes kind is written and read as the same
descriptor of the string kind is, and what is read is a string node (a repeated string
node for a repeated field) in both cases. -/
theorem C32_bytes_as_string (env : Env) (d : MessageElementMetadata) (start : Nat)
    (v : LVMessageValue) (m : Memory) (msg : LVMessage) :
    CopyBytesToCluster d start v m = CopyStringToCluster d start v m
    ∧ CopyBytesFromCluster d start m msg = CopyStringFromCluster d start m msg
    ∧ (∀ thunk1 thunk2 : Unit → Except Fault Memory,
        CopyToCluster.dispatch env thunk1 { d with type := .BytesValue } start v m
          = CopyToCluster.dispatch env thunk2 { d with type := .StringValue } start v m)
    ∧ (∀ rec1 rec2 : LVMessage → Nat → Except Fault LVMessage,
        CopyFromCluster.dispatch env rec1 { d with type := .BytesValue } start m msg
          = CopyFromCluster.dispatch env rec2 { d with type := .StringValue } start m msg)
    ∧ (∀ r, CopyBytesFromCluster d start m msg = .ok r →
        r = msg
        ∨ (∃ s, d.isRepeated = false
            ∧ r = msg.emplaceValue d.protobufIndex (.string d.protobufIndex s))
        ∨ (∃ L, d.isRepeated = true
            ∧ r = msg.emplaceValue d.protobufIndex (.repeatedString d.protobufIndex L))) := by
  refine ⟨rfl, rfl, fun _ _ => rfl, fun _ _ => rfl, ?_⟩
  intro r h
  unfold CopyBytesFromCluster CopyStringFromCluster at h
  by_cases hrep : d.isRepeated = true
  · rw [if_pos hrep] at h
    dsimp only at h
    generalize (if m.readPtr start ≠ 0 ∧ m.readPtr (m.readPtr start) ≠ 0
      then m.readInt32 (m.readPtr (m.readPtr start)) else 0) = arraySize at h
    by_cases h0 : arraySize ≠ 0
    · rw [if_pos h0, bind_eq_ok] at h
      obtain ⟨strs, _, h⟩ := h
      cases h
      exact Or.inr (Or.inr ⟨strs, hrep, rfl⟩)
    · rw [if_neg h0] at h
      cases h
      exact Or.inl rfl
  · rw [if_neg hrep] at h
    rw [bind_eq_ok] at h
    obtain ⟨str, _, h⟩ := h
    cases h
    exact Or.inr (Or.inl ⟨str, by simpa using hrep, rfl⟩)

/-! ## C33: the field pass of the write does not look at the selections -/

theorem CopyToCluster.fields_nil (env : Env) (md : MessageMetadata) (c : Nat) (m : Memory) :
    CopyToCluster.fields env md c [] m = .ok m := by
  rw [CopyToCluster.fields]

theorem CopyMessageToCluster_oneof_flags (env : Env) (d : MessageElementMetadata)
    (b : Bool) (g : String) (start : Nat) (v : LVMessageValue) (m : Memory)
    (hwk : d.wellKnownType = .None) :
    CopyMessageToCluster env { d with isInOneof := b, oneofContainerName := g } start v m
      = CopyMessageToCluster env d start v m := by
  cases v with
  | nested tag child =>
    rw [CopyMessageToCluster, CopyMessageToCluster]
    simp only [hwk]
  | repeatedNested tag children =>
    cases children with
    | nil =>
      rw [CopyMessageToCluster, CopyMessageToCluster]
      simp only [hwk]
    | cons front rest =>
      rw [CopyMessageToCluster, CopyMessageToCluster]
      simp only [hwk]
  | string tag s =>
    rw [CopyMessageToCluster.eq_4 _ _ _ _ _ (by simp) (by simp),
      CopyMessageToCluster.eq_4 _ _ _ _ _ (by simp) (by simp)]
    simp only [hwk]
  | repeatedString tag L =>
    rw [CopyMessageToCluster.eq_4 _ _ _ _ _ (by simp) (by simp),
      CopyMessageToCluster.eq_4 _ _ _ _ _ (by simp) (by simp)]
    simp only [hwk]
  | scalar c tag x =>
    rw [CopyMessageToCluster.eq_4 _ _ _ _ _ (by simp) (by simp),
      CopyMessageToCluster.eq_4 _ _ _ _ _ (by simp) (by simp)]
    simp only [hwk]
  | repeated c tag xs =>
    rw [CopyMessageToCluster.eq_4 _ _ _ _ _ (by simp) (by simp),
      CopyMessageToCluster.eq_4 _ _ _ _ _ (by simp) (by simp)]
    simp only [hwk]

/-- The writer of a descriptor that is not of a well-known composite type does not look
at the oneof flag and the group name of the descriptor. -/
theorem CopyToCluster.dispatch_oneof_flags (env : Env) (d : MessageElementMetadata)
    (b : Bool) (g : String) (start : Nat) (v : LVMessageValue) (m : Memory)
    (hwk : d.wellKnownType = .None) :
    CopyToCluster.dispatch env
        (fun _ => CopyMessageToCluster env { d with isInOneof := b, oneofContainerName := g }
          start v m)
        { d with isInOneof := b, oneofContainerName := g } start v m
      = CopyToCluster.dispatch env (fun _ => CopyMessageToCluster env d start v m) d start
          v m := by
  cases ht : d.type <;> simp only [CopyToCluster.dispatch, ht]
  all_goals first
    | rfl
    | (have h := CopyMessageToCluster_oneof_flags env d b g start v m hwk
       rw [ht] at h
       exact h)

/-- C33: the field pass of `CopyToCluster` takes the nodes, the table, the cluster and the
memory, not the selection map: the write of a tree is this pass followed by the
discriminator pass, which alone gets the selections.  A node whose tag has a descriptor
is handed to the writer of the descriptor at the offset of the descriptor, whether the
descriptor is a oneof member or not (the writer of a descriptor that is not well-known
does not look at the oneof flag and the group name); so the write of a tree of two nodes
with descriptors is the write of the first, then the write of the second, then the
discriminator pass, whatever the selections are. -/
theorem C33_field_pass_ignores_selection (env : Env) (md : MessageMetadata) (c : Nat)
    (m : Memory) (k1 k2 : Int) (v1 v2 : LVMessageValue) (d1 d2 : MessageElementMetadata)
    (hd1 : mapFind v1._protobufId md._mappedElements = some d1)
    (hd2 : mapFind v2._protobufId md._mappedElements = some d2) :
    (∀ values sel, CopyToCluster env (.mk values md sel) c m
      = (CopyToCluster.fields env md c values m >>= fun m1 =>
          pure (CopyOneofIndicesToCluster md c sel m1)))
    ∧ (∀ rest m0, CopyToCluster.fields env md c ((k1, v1) :: rest) m0
        = (CopyToCluster.dispatch env
              (fun _ => CopyMessageToCluster env d1 (c + d1.clusterOffset) v1 m0) d1
              (c + d1.clusterOffset) v1 m0 >>= fun m1 =>
            CopyToCluster.fields env md c rest m1))
    ∧ (∀ sel, CopyToCluster env (.mk [(k1, v1), (k2, v2)] md sel) c m
        = (CopyToCluster.dispatch env
              (fun _ => CopyMessageToCluster env d1 (c + d1.clusterOffset) v1 m) d1
              (c + d1.clusterOffset) v1 m >>= fun m1 =>
            CopyToCluster.dispatch env
                (fun _ => CopyMessageToCluster env d2 (c + d2.clusterOffset) v2 m1) d2
                (c + d2.clusterOffset) v2 m1 >>= fun m2 =>
              pure (CopyOneofIndicesToCluster md c sel m2)))
    ∧ (∀ b g start v m0, d1.wellKnownType = .None →
        CopyToCluster.dispatch env
            (fun _ => CopyMessageToCluster env
              { d1 with isInOneof := b, oneofContainerName := g } start v m0)
            { d1 with isInOneof := b, oneofContainerName := g } start v m0
          = CopyToCluster.dispatch env (fun _ => CopyMessageToCluster env d1 start v m0) d1
              start v m0) := by
  have hcons1 : ∀ rest m0, CopyToCluster.fields env md c ((k1, v1) :: rest) m0
      = (CopyToCluster.dispatch env
            (fun _ => CopyMessageToCluster env d1 (c + d1.clusterOffset) v1 m0) d1
            (c + d1.clusterOffset) v1 m0 >>= fun m1 =>
          CopyToCluster.fields env md c rest m1) := by
    intro rest m0
    rw [CopyToCluster.fields_cons, hd1]
  have hcons2 : ∀ rest m0, CopyToCluster.fields env md c ((k2, v2) :: rest) m0
      = (CopyToCluster.dispatch env
            (fun _ => CopyMessageToCluster env d2 (c + d2.clusterOffset) v2 m0) d2
            (c + d2.clusterOffset) v2 m0 >>= fun m1 =>
          CopyToCluster.fields env md c rest m1) := by
    intro rest m0
    rw [CopyToCluster.fields_cons, hd2]
  refine ⟨fun values sel => CopyToCluster.eq_fields env values md sel c m, hcons1, ?_,
    fun b g start v m0 hwk => CopyToCluster.dispatch_oneof_flags env d1 b g start v m0 hwk⟩
  intro sel
  rw [CopyToCluster.eq_fields, hcons1]
  cases CopyToCluster.dispatch env
      (fun _ => CopyMessageToCluster env d1 (c + d1.clusterOffset) v1 m) d1
      (c + d1.clusterOffset) v1 m with
  | error e => rfl
  | ok m1 =>
    simp only [ok_bind]
    rw [hcons2]
    cases CopyToCluster.dispatch env
        (fun _ => CopyMessageToCluster env d2 (c + d2.clusterOffset) v2 m1) d2
        (c + d2.clusterOffset) v2 m1 with
    | error e => rfl
    | ok m2 => simp only [ok_bind, CopyToCluster.fields_nil]

/-- Scenario B with both members of the group `choice` in the tree, tag 6 selected. -/
def scenarioB.bothMembers : LVMessage :=
  .mk [(5, .string 5 [97, 98]), (6, .scalar .int64 6 7)] scenarioB.table [("choice", 6)]

/-- C33 at scenario B with both members of the group in the tree: the string of tag 5,
which is not selected, is written as well as the integer of tag 6, and the discriminator
slot gets 6. -/
theorem C33_field_pass_ignores_selection_witness :
    (CopyToCluster exampleEnv scenarioB.bothMembers 16 (Memory.zero 64)).map
        (fun m' => (GetLVString (m'.readPtr 16) m', ValueClass.int64.decode (m'.readU 24 8),
          m'.readInt32 32))
      = .ok (.ok [97, 98], 7, 6)
    ∧ ∀ sel, CopyToCluster exampleEnv
          (.mk [(5, .string 5 [97, 98]), (6, .scalar .int64 6 7)] scenarioB.table sel) 16
          (Memory.zero 64)
        = (CopyToCluster.dispatch exampleEnv
              (fun _ => CopyMessageToCluster exampleEnv scenarioB.member5
                (16 + scenarioB.member5.clusterOffset) (.string 5 [97, 98]) (Memory.zero 64))
              scenarioB.member5 (16 + scenarioB.member5.clusterOffset) (.string 5 [97, 98])
              (Memory.zero 64) >>= fun m1 =>
            CopyToCluster.dispatch exampleEnv
                (fun _ => CopyMessageToCluster exampleEnv scenarioB.member6
                  (16 + scenarioB.member6.clusterOffset) (.scalar .int64 6 7) m1)
                scenarioB.member6 (16 + scenarioB.member6.clusterOffset)
                (.scalar .int64 6 7) m1 >>= fun m2 =>
              pure (CopyOneofIndicesToCluster scenarioB.table 16 sel m2)) :=
  ⟨by rfl,
    (C33_field_pass_ignores_selection exampleEnv scenarioB.table 16 (Memory.zero 64) 5 6
      (.string 5 [97, 98]) (.scalar .int64 6 7) scenarioB.member5 scenarioB.member6
      (by rfl) (by rfl)).2.2.1⟩

/-! ## C31: the bytes the readers look at -/

theorem decodeArray_congr (c : ValueClass) (m m' : Memory) (data n : Nat)
    (h : ∀ a, data ≤ a → a < data + n * c.width → m'.bytes a = m.bytes a) :
    decodeArray c m' data n = decodeArray c m data n := by
  induction n generalizing data with
  | zero => rfl
  | succ n ih =>
    simp only [decodeArray]
    rw [Memory.readU_congr m' m data c.width (fun a h1 h2 => h a h1 (by
      rw [Nat.succ_mul]; omega))]
    rw [ih (data + c.width) (fun a h1 h2 => h a (by omega) (by rw [Nat.succ_mul]; omega))]

/-- The reader of a fixed-width kind looks at the bytes of the value only, for a
non-repeated field; for a repeated field, at the handle in the slot, the master pointer,
the count, and count elements of the width of the kind. -/
theorem CopyFixedWidthFromCluster_reads (c : ValueClass) (d : MessageElementMetadata)
    (start : Nat) (m m' : Memory) (msg : LVMessage) :
    (d.isRepeated = false →
      (∀ a, start ≤ a → a < start + c.width → m'.bytes a = m.bytes a) →
      CopyFixedWidthFromCluster c d start m' msg = CopyFixedWidthFromCluster c d start m msg)
    ∧ (d.isRepeated = true →
        (∀ a, start ≤ a → a < start + 8 → m'.bytes a = m.bytes a) →
        (∀ a, m.readPtr start ≤ a → a < m.readPtr start + 8 → m'.bytes a = m.bytes a) →
        (∀ a, m.readPtr (m.readPtr start) ≤ a → a < m.readPtr (m.readPtr start) + 4 →
          m'.bytes a = m.bytes a) →
        (∀ a, LV1DArray.bytes (m.readPtr (m.readPtr start)) 0 c.width ≤ a →
          a < LV1DArray.bytes (m.readPtr (m.readPtr start)) 0 c.width
            + (m.readInt32 (m.readPtr (m.readPtr start))).toNat * c.width →
          m'.bytes a = m.bytes a) →
        CopyFixedWidthFromCluster c d start m' msg
          = CopyFixedWidthFromCluster c d start m msg) := by
  constructor
  · intro hrep h
    simp only [CopyFixedWidthFromCluster, hrep, Bool.false_eq_true, if_false,
      Memory.readU_congr m' m start c.width h]
  · intro hrep h1 h2 h3 h4
    have e1 : m'.readPtr start = m.readPtr start := Memory.readU_congr m' m start 8 h1
    have e2 : m'.readPtr (m.readPtr start) = m.readPtr (m.readPtr start) :=
      Memory.readU_congr m' m _ 8 h2
    have e3 : m'.readInt32 (m.readPtr (m.readPtr start))
        = m.readInt32 (m.readPtr (m.readPtr start)) := by
      unfold Memory.readInt32
      rw [Memory.readU_congr m' m _ 4 h3]
    simp only [CopyFixedWidthFromCluster, hrep, if_true, e1, e2, e3,
      decodeArray_congr c m m' _ _ h4]

/-- A fixed32 field at the end of its cluster: tag 1, offset 0. -/
def fixed32Last.field : MessageElementMetadata :=
  { type := .Fixed32Value, isRepeated := false, protobufIndex := 1, clusterOffset := 0 }

/-- The table of a message whose only field is a fixed32 field: a cluster of 4 bytes. -/
def fixed32Last.table : MessageMetadata :=
  { _elements := [fixed32Last.field], _mappedElements := [(1, fixed32Last.field)],
    clusterSize := 4, alignmentRequirement := 4 }

/-- A cluster of 4 bytes at address 16 that holds 1; the memory behind it is zero. -/
def fixed32Last.memory : Memory := (Memory.zero 64).writeInt 16 4 1

/-- The same cluster, with other bytes behind it. -/
def fixed32Last.memoryBehind : Memory := fixed32Last.memory.writeInt 20 4 2

/-- A repeated fixed32 field, tag 1, at offset 0. -/
def fixed32Array.field : MessageElementMetadata :=
  { type := .Fixed32Value, isRepeated := true, protobufIndex := 1, clusterOffset := 0 }

/-- A slot at address 16 with the handle 32 of the block at 40: count 1, and the element
5 in the 4 bytes of data at 44; the memory behind the data is zero. -/
def fixed32Array.memory : Memory :=
  ((((Memory.zero 64).writePtr 16 32).writePtr 32 40).writeInt 40 4 1).writeInt 44 4 5

/-- The same array, with other bytes behind its data. -/
def fixed32Array.memoryBehind : Memory := fixed32Array.memory.writeInt 48 4 9

/-- C31, where the code fails.  A reader of a fixed-width kind looks at the bytes of its
field only (the `width` bytes of the value; for a repeated field the handle, the count
and count elements of the width).  But for a fixed32 descriptor the `switch` of
`CopyFromCluster` runs the fixed32 reader and then, for want of a `break`, the fixed64
reader on the same slot, and the fixed64 reader looks at 8 bytes.  For a cluster of 4
bytes that is one fixed32 field, two memories with the same cluster and other bytes
behind it give the same node in the fixed32 reader and different nodes in the fixed64
reader: it has read past the field and past the cluster.  For a repeated fixed32 field
with one element, two memories with the same array and other bytes behind its 4 bytes of
data give different lists in the fixed64 reader: it has read past the data. -/
theorem C31_fixed32_reads_past_field :
    (∀ (c : ValueClass) (d : MessageElementMetadata) (start : Nat) (m m' : Memory)
        (msg : LVMessage), d.isRepeated = false →
      (∀ a, start ≤ a → a < start + c.width → m'.bytes a = m.bytes a) →
      CopyFixedWidthFromCluster c d start m' msg = CopyFixedWidthFromCluster c d start m msg)
    ∧ (∀ (env : Env) (rec : LVMessage → Nat → Except Fault LVMessage)
        (d : MessageElementMetadata) (start : Nat) (m : Memory) (msg : LVMessage),
        d.type = .Fixed32Value →
        CopyFromCluster.dispatch env rec d start m msg
          = (CopyFixed32FromCluster d start m msg >>= fun message1 =>
              CopyFixed64FromCluster d start m message1))
    ∧ (∀ a, 16 ≤ a → a < 16 + fixed32Last.table.clusterSize →
        fixed32Last.memoryBehind.bytes a = fixed32Last.memory.bytes a)
    ∧ CopyFixed32FromCluster fixed32Last.field 16 fixed32Last.memory
          (.mk [] fixed32Last.table [])
        = CopyFixed32FromCluster fixed32Last.field 16 fixed32Last.memoryBehind
            (.mk [] fixed32Last.table [])
    ∧ CopyFixed64FromCluster fixed32Last.field 16 fixed32Last.memory
          (.mk [] fixed32Last.table [])
        = .ok (.mk [(1, .scalar .fixed64 1 1)] fixed32Last.table [])
    ∧ CopyFixed64FromCluster fixed32Last.field 16 fixed32Last.memoryBehind
          (.mk [] fixed32Last.table [])
        = .ok (.mk [(1, .scalar .fixed64 1 8589934593)] fixed32Last.table [])
    ∧ (∀ a, a < 48 → fixed32Array.memoryBehind.bytes a = fixed32Array.memory.bytes a)
    ∧ LV1DArray.bytes 40 0 ValueClass.fixed32.width + 1 * ValueClass.fixed32.width = 48
    ∧ CopyFixed32FromCluster fixed32Array.field 16 fixed32Array.memory
          (.mk [] fixed32Last.table [])
        = .ok (.mk [(1, .repeated .fixed32 1 [5])] fixed32Last.table [])
    ∧ CopyFixed32FromCluster fixed32Array.field 16 fixed32Array.memoryBehind
          (.mk [] fixed32Last.table [])
        = .ok (.mk [(1, .repeated .fixed32 1 [5])] fixed32Last.table [])
    ∧ CopyFixed64FromCluster fixed32Array.field 16 fixed32Array.memory
          (.mk [] fixed32Last.table [])
        = .ok (.mk [(1, .repeated .fixed64 1 [0])] fixed32Last.table [])
    ∧ CopyFixed64FromCluster fixed32Array.field 16 fixed32Array.memoryBehind
          (.mk [] fixed32Last.table [])
        = .ok (.mk [(1, .repeated .fixed64 1 [9])] fixed32Last.table []) := by
  refine ⟨fun c d start m m' msg hrep h =>
      (CopyFixedWidthFromCluster_reads c d start m m' msg).1 hrep h,
    fun env rec d start m msg ht => by simp only [CopyFromCluster.dispatch, ht],
    ?_, by rfl, by rfl, by rfl, ?_, by decide, by rfl, by rfl, by rfl, by rfl⟩
  · intro a h1 h2
    exact Memory.writeU_bytes_outside _ _ _ _ _ (Or.inl (by
      simp only [fixed32Last.table] at h2
      omega))
  · intro a h
    exact Memory.writeU_bytes_outside _ _ _ _ _ (Or.inl h)

/-! ## C35: the single-field builder keeps what the message holds -/

/-- In a map whose keys are in order, `emplace` at a key the map has changes nothing. -/
theorem emplace_of_mem_sorted {α : Type} (k : Int) (v : α) (l : List (Int × α))
    (hs : (keys l).Pairwise (· < ·)) (hk : k ∈ keys l) : emplace k v l = l := by
  induction l with
  | nil => simp [keys] at hk
  | cons p rest ih =>
    obtain ⟨k1, v1⟩ := p
    simp only [keys, List.map_cons, List.pairwise_cons, List.mem_cons] at hs hk
    simp only [emplace]
    rcases hk with e | hk
    · subst e
      simp
    · have hlt : k1 < k := hs.1 k hk
      rw [if_neg (by omega), if_neg (by omega)]
      rw [ih hs.2 hk]

theorem CopyFixedWidthFromCluster_shape (c : ValueClass) (d : MessageElementMetadata)
    (start : Nat) (m : Memory) (msg r : LVMessage)
    (h : CopyFixedWidthFromCluster c d start m msg = .ok r) :
    r = msg ∨ ∃ node, r = msg.emplaceValue d.protobufIndex node := by
  unfold CopyFixedWidthFromCluster at h
  dsimp only at h
  split_ifs at h <;> first
    | (cases h; exact Or.inl rfl)
    | (cases h; exact Or.inr ⟨_, rfl⟩)

theorem CopyStringFromCluster_shape (d : MessageElementMetadata)
    (start : Nat) (m : Memory) (msg r : LVMessage)
    (h : CopyStringFromCluster d start m msg = .ok r) :
    r = msg ∨ ∃ node, r = msg.emplaceValue d.protobufIndex node := by
  unfold CopyStringFromCluster at h
  by_cases hrep : d.isRepeated = true
  · rw [if_pos hrep] at h
    dsimp only at h
    generalize (if m.readPtr start ≠ 0 ∧ m.readPtr (m.readPtr start) ≠ 0
      then m.readInt32 (m.readPtr (m.readPtr start)) else 0) = arraySize at h
    by_cases h0 : arraySize ≠ 0
    · rw [if_pos h0, bind_eq_ok] at h
      obtain ⟨strs, _, h⟩ := h
      cases h
      exact Or.inr ⟨_, rfl⟩
    · rw [if_neg h0] at h
      cases h
      exact Or.inl rfl
  · rw [if_neg hrep, bind_eq_ok] at h
    obtain ⟨str, _, h⟩ := h
    cases h
    exact Or.inr ⟨_, rfl⟩

theorem typedReader_shape (kind : LVMessageMetadataType) (d : MessageElementMetadata)
    (start : Nat) (m : Memory) (msg r : LVMessage)
    (h : typedReader kind d start m msg = .ok r) :
    r = msg ∨ ∃ node, r = msg.emplaceValue d.protobufIndex node := by
  cases kind <;>
    simp only [typedReader, CopyBoolFromCluster, CopyDoubleFromCluster,
      CopyFloatFromCluster, CopyInt32FromCluster, CopyInt64FromCluster, CopyUInt32FromCluster,
      CopyUInt64FromCluster, CopySInt32FromCluster, CopySInt64FromCluster,
      CopyFixed32FromCluster, CopyFixed64FromCluster, CopySFixed32FromCluster,
      CopySFixed64FromCluster, CopyBytesFromCluster] at h
  case StringValue => exact CopyStringFromCluster_shape _ _ _ _ _ h
  case BytesValue => exact CopyStringFromCluster_shape _ _ _ _ _ h
  case EnumValue => cases h; exact Or.inl rfl
  case MessageValue => cases h; exact Or.inl rfl
  all_goals exact CopyFixedWidthFromCluster_shape _ _ _ _ _ _ h

/-- C35, and where the code fails.  For the fifteen kinds other than the enum and
nested-message kinds, and a message whose value map is in key order (a `std::map`): when
`AnyBuilderAddValue` returns, it returns true, the selection map and the table of the
message are as they were, and so is every entry at another tag; when the message holds a
node at the tag the message is unchanged; when it does not, the message is unchanged or
its value map is the old one with one `emplace` at the tag.  For a non-repeated
fixed-width kind the call always returns.  For the enum kind the call does not return
true: the ad-hoc descriptor has no owner, which `CopyEnumFromCluster` calls first. -/
theorem C35_builder_keeps_entries (env : Env) (m : Memory) (message : LVMessage)
    (kind : LVMessageMetadataType) (isRepeated : Bool) (protobufIndex : Int) (value : Nat)
    (hsorted : (keys message._values).Pairwise (· < ·))
    (h1 : kind ≠ .MessageValue) (h2 : kind ≠ .EnumValue) :
    (∀ b r, AnyBuilderAddValue env m message kind isRepeated protobufIndex value = .ok (b, r) →
      b = true
      ∧ r._oneofContainerToSelectedIndexMap = message._oneofContainerToSelectedIndexMap
      ∧ r._metadata = message._metadata
      ∧ (protobufIndex ∈ keys message._values → r = message)
      ∧ (protobufIndex ∉ keys message._values →
          r = message ∨ ∃ node, r._values = emplace protobufIndex node message._values)
      ∧ ∀ k, k ≠ protobufIndex → mapFind k r._values = mapFind k message._values)
    ∧ (isRepeated = false → ∀ c, kind.valueClass = some c →
        ∃ r, AnyBuilderAddValue env m message kind isRepeated protobufIndex value
          = .ok (true, r))
    ∧ AnyBuilderAddValue env m message .EnumValue isRepeated protobufIndex value
        = .error .nullMetadata := by
  have htyped := AnyBuilderAddValue_typed env m message kind isRepeated protobufIndex value
    h1 h2
  refine ⟨?_, ?_, rfl⟩
  · intro b r h
    rw [htyped] at h
    cases hres : typedReader kind (MessageElementMetadata.adHoc kind isRepeated protobufIndex)
        value m message with
    | error e =>
      rw [hres] at h
      cases h
    | ok r' =>
      rw [hres] at h
      have hb : b = true ∧ r = r' := by
        cases h
        exact ⟨rfl, rfl⟩
      obtain ⟨hb1, hb2⟩ := hb
      subst hb1 hb2
      have hshape := typedReader_shape kind _ value m message r hres
      have hidx : (MessageElementMetadata.adHoc kind isRepeated protobufIndex).protobufIndex
          = protobufIndex := rfl
      rw [hidx] at hshape
      rcases hshape with e | ⟨node, e⟩
      · subst e
        exact ⟨rfl, rfl, rfl, fun _ => rfl, fun _ => Or.inl rfl, fun _ _ => rfl⟩
      · subst e
        refine ⟨rfl, rfl, rfl, ?_, fun _ => Or.inr ⟨node, rfl⟩, ?_⟩
        · intro hk
          cases message with
          | mk values md sel =>
            simp only [LVMessage.emplaceValue, LVMessage.mk_values, LVMessage.mk_metadata,
              LVMessage.mk_oneof]
            have hs' : (keys values).Pairwise (· < ·) := hsorted
            have hk' : protobufIndex ∈ keys values := hk
            rw [emplace_of_mem_sorted _ _ _ hs' hk']
        · intro k hk
          rw [LVMessage.emplaceValue_values]
          exact mapFind_emplace_ne k protobufIndex node _ hk
  · intro hrep c hc
    rw [htyped]
    have hne : c ≠ .enum := by
      intro e
      subst e
      cases kind <;> simp [LVMessageMetadataType.valueClass] at hc
      exact h2 rfl
    have hK : (MessageElementMetadata.adHoc kind isRepeated protobufIndex).type.valueClass
        = some c := hc
    have hr : typedReader kind (MessageElementMetadata.adHoc kind isRepeated protobufIndex)
        value m message
        = CopyFixedWidthFromCluster c (MessageElementMetadata.adHoc kind isRepeated
            protobufIndex) value m message :=
      typedReader_fixed (MessageElementMetadata.adHoc kind isRepeated protobufIndex) c hK hne
        value m message
    rw [hr]
    simp [CopyFixedWidthFromCluster, MessageElementMetadata.adHoc, hrep, Except.map]

/-- A message that holds the int32 node 9 at tag 3. -/
def builderExample.message : LVMessage :=
  .mk [(3, .scalar .int32 3 9)] emptyRepeated.table []

/-- C35 at a message that holds 9 at tag 3 and a value pointer to the integer 1: the call
for tag 3 returns true and the message as it was; the call for tag 4 adds the node 1 at
tag 4 and keeps the node at tag 3. -/
theorem C35_builder_keeps_entries_witness :
    AnyBuilderAddValue exampleEnv fallThrough.memory builderExample.message .Int32Value false
        3 16 = .ok (true, builderExample.message)
    ∧ AnyBuilderAddValue exampleEnv fallThrough.memory builderExample.message .Int32Value
        false 4 16
      = .ok (true, .mk [(3, .scalar .int32 3 9), (4, .scalar .int32 4 1)]
          emptyRepeated.table [])
    ∧ (∀ b r, AnyBuilderAddValue exampleEnv fallThrough.memory builderExample.message
          .Int32Value false 3 16 = .ok (b, r) →
        b = true
        ∧ r._oneofContainerToSelectedIndexMap
            = builderExample.message._oneofContainerToSelectedIndexMap
        ∧ r._metadata = builderExample.message._metadata
        ∧ ((3 : Int) ∈ keys builderExample.message._values → r = builderExample.message)
        ∧ ((3 : Int) ∉ keys builderExample.message._values →
            r = builderExample.message
              ∨ ∃ node, r._values = emplace 3 node builderExample.message._values)
        ∧ ∀ k, k ≠ 3 → mapFind k r._values = mapFind k builderExample.message._values)
    ∧ ((false : Bool) = false → ∀ c, LVMessageMetadataType.Int32Value.valueClass = some c →
        ∃ r, AnyBuilderAddValue exampleEnv fallThrough.memory builderExample.message
          .Int32Value false 3 16 = .ok (true, r))
    ∧ AnyBuilderAddValue exampleEnv fallThrough.memory builderExample.message .EnumValue
        false 3 16 = .error .nullMetadata :=
  ⟨by rfl, by rfl,
    C35_builder_keeps_entries exampleEnv fallThrough.memory builderExample.message
      .Int32Value false 3 16 (by decide) (by decide) (by decide)⟩

/-! ## C34: whose cluster size places the elements of a repeated nested-message field -/

/-- The int32 field of the message type `Item`, tag 1. -/
def sizeMismatch.item : MessageElementMetadata :=
  { type := .Int32Value, isRepeated := false, protobufIndex := 1, clusterOffset := 0 }

/-- The table the trees of the example carry: a cluster of 8 bytes. -/
def sizeMismatch.written : MessageMetadata :=
  { _elements := [sizeMismatch.item], _mappedElements := [(1, sizeMismatch.item)],
    clusterSize := 8, alignmentRequirement := 8 }

/-- The table the registry resolves `Item` to: the same field in a cluster of 16 bytes. -/
def sizeMismatch.resolved : MessageMetadata :=
  { _elements := [sizeMismatch.item], _mappedElements := [(1, sizeMismatch.item)],
    clusterSize := 16, alignmentRequirement := 8 }

/-- A registry that resolves every message type name to the table of 16 bytes. -/
def sizeMismatch.env : Env :=
  { exampleEnv with
    owner := { FindMetadata := fun _ => some sizeMismatch.resolved,
               FindEnumMetadata := exampleEnv.owner.FindEnumMetadata } }

/-- A repeated nested-message field of the type `Item`, tag 1. -/
def sizeMismatch.field : MessageElementMetadata :=
  { type := .MessageValue, isRepeated := true, protobufIndex := 1, clusterOffset := 0,
    embeddedMessageName := "Item" }

/-- Two trees of the table of 8 bytes, written by `CopyMessageToCluster` and read by
`CopyMessageFromCluster` under a registry that resolves the field to the table of 16
bytes: the second tree, written at offset 8, is read at offset 16, as 0 for 2.  A single
tree is read at the offset it was written to. -/
theorem sizeMismatch.second_element_lost :
    (CopyMessageToCluster sizeMismatch.env sizeMismatch.field 16
        (.repeatedNested 1 [.mk [(1, .scalar .int32 1 1)] sizeMismatch.written [],
          .mk [(1, .scalar .int32 1 2)] sizeMismatch.written []]) (Memory.zero 64)
      >>= fun m' => CopyMessageFromCluster sizeMismatch.env
        (CopyFromCluster sizeMismatch.env m' 1) sizeMismatch.field 16 m'
        (.mk [] emptyRepeated.table []))
      = .ok (.mk [(1, .repeatedNested 1 [.mk [(1, .scalar .int32 1 1)] sizeMismatch.resolved [],
          .mk [(1, .scalar .int32 1 0)] sizeMismatch.resolved []])] emptyRepeated.table [])
    ∧ (CopyMessageToCluster sizeMismatch.env sizeMismatch.field 16
        (.repeatedNested 1 [.mk [(1, .scalar .int32 1 1)] sizeMismatch.written []])
        (Memory.zero 64)
      >>= fun m' => CopyMessageFromCluster sizeMismatch.env
        (CopyFromCluster sizeMismatch.env m' 1) sizeMismatch.field 16 m'
        (.mk [] emptyRepeated.table []))
      = .ok (.mk [(1, .repeatedNested 1 [.mk [(1, .scalar .int32 1 1)] sizeMismatch.resolved []])]
          emptyRepeated.table []) :=
  ⟨by rfl, by rfl⟩

end grpc_labview
